import Mathlib

namespace MagicSquare

/-! ## sortednlist.c -/

/-- One element of the circular list (`struct sortednlist_elem_st`). -/
structure sortednlist_elem where
  isremoved : Bool
  next : Nat
  prev : Nat
deriving DecidableEq

/-- The list header with its two arrays (`struct sortednlist_st`). -/
structure sortednlist where
  size : Nat
  nremoved : Nat
  stack : List Nat
  elems : List sortednlist_elem
deriving DecidableEq

/-- Content read from an element slot outside the array. -/
def elem0 : sortednlist_elem := ⟨false, 0, 0⟩

/-- Read of `elems[i]`. -/
def getelem (es : List sortednlist_elem) (i : Nat) : sortednlist_elem := es.getD i elem0

/-- The loop `for (i = size; i > 0; i--)` of `sortednlist_init`. -/
def sortednlist_init_loop (es : List sortednlist_elem) : Nat → List sortednlist_elem
  | 0 => es
  | i + 1 => sortednlist_init_loop (es.set (i + 1) ⟨false, (i + 2) % 256, i⟩) i

/-- `sortednlist_init(mem, size)`; `mem` is the prior content of the memory block. -/
def sortednlist_init (mem : sortednlist) (size : Nat) : sortednlist :=
  let stack := (List.range size).map (fun i => mem.stack.getD i 0)
  let elems := (List.range (size + 1)).map (fun i => getelem mem.elems i)
  let elems := sortednlist_init_loop elems size
  let elems := elems.set size { getelem elems size with next := 0 }
  let elems := elems.set 0 { getelem elems 0 with isremoved := true }
  let elems := elems.set 0 { getelem elems 0 with prev := size }
  let elems := elems.set 0 { getelem elems 0 with next := 1 }
  { size := size, nremoved := 0, stack := stack, elems := elems }

def sortednlist_size (l : sortednlist) : Nat := l.size
def sortednlist_nremoved (l : sortednlist) : Nat := l.nremoved
def sortednlist_lastremoved (l : sortednlist) : Nat := l.stack.getD (l.nremoved - 1) 0
def sortednlist_first (l : sortednlist) : Nat := (getelem l.elems 0).next
def sortednlist_last (l : sortednlist) : Nat := (getelem l.elems 0).prev
def sortednlist_isremoved (l : sortednlist) (n : Nat) : Bool := (getelem l.elems n).isremoved
def sortednlist_next (l : sortednlist) (n : Nat) : Nat := (getelem l.elems n).next
def sortednlist_prev (l : sortednlist) (n : Nat) : Nat := (getelem l.elems n).prev

/-- `sortednlist_moveafter(nl, n, p)`: the returned flag and the list. The function asserts
`n < size + 1 && p < size + 1`; the value below is the one computed when the assertion
holds, and the theorems use it for such arguments only. -/
def sortednlist_moveafter (nl : sortednlist) (n p : Nat) : Nat × sortednlist :=
  if nl.nremoved ≠ 0 then (0, nl)
  else if n = p ∨ (getelem nl.elems n).prev = p then (1, nl)
  else
    let es := nl.elems
    let es := es.set (getelem es n).prev { getelem es (getelem es n).prev with next := (getelem es n).next }
    let es := es.set (getelem es n).next { getelem es (getelem es n).next with prev := (getelem es n).prev }
    let es := es.set n { getelem es n with prev := p }
    let es := es.set n { getelem es n with next := (getelem es p).next }
    let es := es.set (getelem es p).next { getelem es (getelem es p).next with prev := n }
    let es := es.set p { getelem es p with next := n }
    (1, { nl with elems := es })

/-- `sortednlist_remove(nl, n)`: the returned number and the list. The function asserts
`n < size + 1`; the value below is the one computed when the assertion holds, and the
theorems use it for such arguments only. -/
def sortednlist_remove (nl : sortednlist) (n : Nat) : Nat × sortednlist :=
  if (getelem nl.elems n).isremoved then (0, nl)
  else
    let es := nl.elems
    let es := es.set n { getelem es n with isremoved := true }
    let stack := nl.stack.set nl.nremoved n
    let nremoved := (nl.nremoved + 1) % 256
    let es := es.set (getelem es n).prev { getelem es (getelem es n).prev with next := (getelem es n).next }
    let es := es.set (getelem es n).next { getelem es (getelem es n).next with prev := (getelem es n).prev }
    (n, { nl with nremoved := nremoved, stack := stack, elems := es })

/-- `sortednlist_restore(nl)`: the returned number and the list. -/
def sortednlist_restore (nl : sortednlist) : Nat × sortednlist :=
  if nl.nremoved ≠ 0 then
    let nremoved := nl.nremoved - 1
    let n := nl.stack.getD nremoved 0
    let es := nl.elems
    let es := es.set n { getelem es n with isremoved := false }
    let es := es.set (getelem es n).prev { getelem es (getelem es n).prev with next := n }
    let es := es.set (getelem es n).next { getelem es (getelem es n).next with prev := n }
    (n, { nl with nremoved := nremoved, elems := es })
  else (0, nl)

/-! ## sortednlistsums.c -/

structure sortednlistsums where
  size : Nat
  len : Nat
  minsums : List Int
  maxsums : List Int
deriving DecidableEq

def sortednlistsums_init (mem : sortednlistsums) (size : Nat) : sortednlistsums :=
  { size := size, len := 0,
    minsums := (List.range size).map (fun i => mem.minsums.getD i 0),
    maxsums := (List.range size).map (fun i => mem.maxsums.getD i 0) }

/-- The loop of `sortednlistsums_get`; the first argument counts the iterations
left before `l` reaches `sm->size`. -/
def sortednlistsums_get_loop (nl : sortednlist) :
    Nat → Nat → Nat → Nat → Int → Int → List Int → List Int → Nat × List Int × List Int
  | 0, l, _, _, _, _, mins, maxs => (l, mins, maxs)
  | k + 1, l, min, max, minsum, maxsum, mins, maxs =>
    if min = 0 then (l, mins, maxs)
    else
      let minsum := minsum + (min : Int)
      let maxsum := maxsum + (max : Int)
      sortednlistsums_get_loop nl k (l + 1) (sortednlist_next nl min) (sortednlist_prev nl max)
        minsum maxsum (mins.set l minsum) (maxs.set l maxsum)

def sortednlistsums_get (sm : sortednlistsums) (nl : sortednlist) : sortednlistsums :=
  let r := sortednlistsums_get_loop nl sm.size 0 (sortednlist_first nl) (sortednlist_last nl)
    0 0 sm.minsums sm.maxsums
  { sm with len := r.1, minsums := r.2.1, maxsums := r.2.2 }

/-! ## sumsquare.c -/

structure sumsquare_cellrelation where
  ncelllines : Nat
  celllines : List Nat
deriving DecidableEq

structure sumsquare_linerelation where
  nlinecells : Nat
  linecells : List Nat
deriving DecidableEq

structure sumsquare_linecount where
  sum : Int
  holes : Nat
deriving DecidableEq

structure sumsquare where
  side : Nat
  nlines : Nat
  ncells : Nat
  nums : List Nat
  cellrelations : List sumsquare_cellrelation
  linerelations : List sumsquare_linerelation
  linecounts : List sumsquare_linecount
deriving DecidableEq

def cellrelation0 : sumsquare_cellrelation := ⟨0, []⟩
def linerelation0 : sumsquare_linerelation := ⟨0, []⟩
def linecount0 : sumsquare_linecount := ⟨0, 0⟩

def sumsquare_cellrelation_init (cellidx side : Nat) : sumsquare_cellrelation :=
  let i := cellidx / side
  let j := cellidx % side
  let lines := [i % 256, (side + j) % 256]
  let lines := if i = j then lines ++ [(side + side) % 256] else lines
  let lines := if i + j + 1 = side then lines ++ [(side + side + 1) % 256] else lines
  { ncelllines := lines.length, celllines := lines }

def sumsquare_linerelation_init (lineidx : Nat) (ncells : Nat)
    (cellrelations : List sumsquare_cellrelation) : sumsquare_linerelation :=
  let cells := (List.range ncells).filter (fun c =>
    let cell := cellrelations.getD c cellrelation0
    (cell.celllines.take cell.ncelllines).contains lineidx)
  { nlinecells := cells.length % 256, linecells := cells }

def sumsquare_init (mem : sumsquare) (side : Nat) : sumsquare :=
  let ncells := (side * side) % 256
  let nlines := (side + side + 2) % 256
  let nums := (List.range (side * side)).map
    (fun c => if c < ncells then 0 else mem.nums.getD c 0)
  let cellrelations := (List.range (side * side)).map
    (fun c => if c < ncells then sumsquare_cellrelation_init c side
      else mem.cellrelations.getD c cellrelation0)
  let linerelations := (List.range (side + side + 2)).map
    (fun l => if l < nlines then sumsquare_linerelation_init l ncells cellrelations
      else mem.linerelations.getD l linerelation0)
  let linecounts := (List.range (side + side + 2)).map
    (fun l => if l < nlines then { sum := 0, holes := side }
      else mem.linecounts.getD l linecount0)
  { side := side, nlines := nlines, ncells := ncells, nums := nums,
    cellrelations := cellrelations, linerelations := linerelations, linecounts := linecounts }

def sumsquare_side (sq : sumsquare) : Nat := sq.side
def sumsquare_nlines (sq : sumsquare) : Nat := sq.nlines
def sumsquare_ncells (sq : sumsquare) : Nat := sq.ncells
def sumsquare_getnum (sq : sumsquare) (c : Nat) : Nat := sq.nums.getD c 0
def sumsquare_getcellrelation (sq : sumsquare) (c : Nat) : sumsquare_cellrelation :=
  sq.cellrelations.getD c cellrelation0
def sumsquare_getlinerelation (sq : sumsquare) (l : Nat) : sumsquare_linerelation :=
  sq.linerelations.getD l linerelation0
def sumsquare_getlinecount (sq : sumsquare) (l : Nat) : sumsquare_linecount :=
  sq.linecounts.getD l linecount0

/-- The loop `linecounts[cell.celllines[l]].sum += sumdif` over `l < ncelllines`. -/
def sumsquare_addsums (cell : sumsquare_cellrelation) (sumdif : Int) :
    Nat → Nat → List sumsquare_linecount → List sumsquare_linecount
  | 0, _, lcs => lcs
  | k + 1, l, lcs =>
    let idx := cell.celllines.getD l 0
    let lc := lcs.getD idx linecount0
    sumsquare_addsums cell sumdif k (l + 1) (lcs.set idx { lc with sum := lc.sum + sumdif })

/-- The loop `linecounts[cell.celllines[l]].holes += holesdif` over `l < ncelllines`. -/
def sumsquare_addholes (cell : sumsquare_cellrelation) (holesdif : Int) :
    Nat → Nat → List sumsquare_linecount → List sumsquare_linecount
  | 0, _, lcs => lcs
  | k + 1, l, lcs =>
    let idx := cell.celllines.getD l 0
    let lc := lcs.getD idx linecount0
    sumsquare_addholes cell holesdif k (l + 1)
      (lcs.set idx { lc with holes := (((lc.holes : Int) + holesdif) % 256).toNat })

def sumsquare_setnum (sq : sumsquare) (cellidx : Nat) (n : Nat) : sumsquare :=
  let old := sumsquare_getnum sq cellidx
  let sumdif : Int := (n : Int) - (old : Int)
  let holesdif : Int := if old = 0 ∧ n ≠ 0 then -1 else if old ≠ 0 ∧ n = 0 then 1 else 0
  let cell := sumsquare_getcellrelation sq cellidx
  let sq :=
    if sumdif ≠ 0 then
      { sq with
        linecounts := sumsquare_addsums cell sumdif cell.ncelllines 0 sq.linecounts,
        nums := sq.nums.set cellidx ((((old : Int) + sumdif) % 256).toNat) }
    else sq
  if holesdif ≠ 0 then
    { sq with linecounts := sumsquare_addholes cell holesdif cell.ncelllines 0 sq.linecounts }
  else sq

/-- The loop of `sumsquare_emptycell`. -/
def sumsquare_emptycell_loop (sq : sumsquare) (line : sumsquare_linerelation) : Nat → Nat → Nat
  | 0, _ => 0
  | k + 1, c =>
    let cellidx := line.linecells.getD c 0
    if sumsquare_getnum sq cellidx = 0 then cellidx
    else sumsquare_emptycell_loop sq line k (c + 1)

def sumsquare_emptycell (sq : sumsquare) (lineidx : Nat) : Nat :=
  let line := sumsquare_getlinerelation sq lineidx
  sumsquare_emptycell_loop sq line line.nlinecells 0

/-! ## magicsquare.c -/

/-- The loop over the lines in `magicsquare_checksums`: returns `r` and `ln1hole`. -/
def magicsquare_checksums_loop (sq : sumsquare) (nl : sortednlist) (sm : sortednlistsums)
    (msum : Int) : Nat → Nat → Int → Bool × Int
  | 0, _, ln1hole => (true, ln1hole)
  | k + 1, l, ln1hole =>
    let line := sumsquare_getlinecount sq l
    if line.holes ≠ 0 then
      if line.sum + sm.minsums.getD (line.holes - 1) 0 > msum then (false, ln1hole)
      else if line.sum + sm.maxsums.getD (line.holes - 1) 0 < msum then (false, ln1hole)
      else if line.holes = 1 then
        if sortednlist_isremoved nl (msum - line.sum).toNat then (false, ln1hole)
        else if ln1hole < 0 then magicsquare_checksums_loop sq nl sm msum k (l + 1) (l : Int)
        else magicsquare_checksums_loop sq nl sm msum k (l + 1) ln1hole
      else magicsquare_checksums_loop sq nl sm msum k (l + 1) ln1hole
    else if line.sum ≠ msum then (false, ln1hole)
    else magicsquare_checksums_loop sq nl sm msum k (l + 1) ln1hole

/-- `magicsquare_checksums`: the result, `*pln1hole` and the updated sums. -/
def magicsquare_checksums (sq : sumsquare) (nl : sortednlist) (sm : sortednlistsums)
    (msum : Int) : Bool × Int × sortednlistsums :=
  let sm := sortednlistsums_get sm nl
  let r := magicsquare_checksums_loop sq nl sm msum (sumsquare_nlines sq) 0 (-1)
  (r.1, (if r.1 ∧ r.2 > -1 then r.2 else -1), sm)

def CELLIDXFROMIJ (i j side : Nat) : Nat := i * side + j

def magicsquare_checkequiv (sq : sumsquare) (filterlevel : Nat) : Bool :=
  let side := sq.side
  if filterlevel < 1 ∨ side < 2 then true
  else
    let last := side - 1
    let topleft := sumsquare_getnum sq (CELLIDXFROMIJ 0 0 side)
    let topright := sumsquare_getnum sq (CELLIDXFROMIJ 0 last side)
    let botleft := sumsquare_getnum sq (CELLIDXFROMIJ last 0 side)
    let botright := sumsquare_getnum sq (CELLIDXFROMIJ last last side)
    if topleft ≠ 0 ∧ ((topright ≠ 0 ∧ topleft > topright)
        ∨ (botleft ≠ 0 ∧ topleft > botleft)
        ∨ (botright ≠ 0 ∧ topleft > botright)) then false
    else if filterlevel < 2 then true
    else if topright ≠ 0 ∧ botleft ≠ 0 ∧ topright + 1 > botleft then false
    else if filterlevel < 3 ∨ side < 4 then true
    else
      let topleft2 := sumsquare_getnum sq (CELLIDXFROMIJ 1 1 side)
      let botright2 := sumsquare_getnum sq (CELLIDXFROMIJ (last - 1) (last - 1) side)
      if topleft2 ≠ 0 ∧ botright2 ≠ 0 ∧ topleft2 > botright2 then false
      else if filterlevel < 4 then true
      else
        let topright2 := sumsquare_getnum sq (CELLIDXFROMIJ 1 (last - 1) side)
        let botleft2 := sumsquare_getnum sq (CELLIDXFROMIJ (last - 1) 1 side)
        if topleft ≠ 0 ∧ ((topleft2 ≠ 0 ∧ topleft > topleft2)
            ∨ (topright2 ≠ 0 ∧ topleft > topright2)
            ∨ (botleft2 ≠ 0 ∧ topleft > botleft2)) then false
        else true

/-- The four moves of one ring `r` in `magicsquare_initpositionsorder`. -/
def magicsquare_initpositionsorder_ring (side r : Nat) (st : sortednlist × Nat) :
    sortednlist × Nat :=
  let last := side - 1
  let pos0 := CELLIDXFROMIJ r r side + 1
  let pl := (sortednlist_moveafter st.1 (pos0 % 256) (st.2 % 256)).2
  let pos1 := CELLIDXFROMIJ r (last - r) side + 1
  let pl := (sortednlist_moveafter pl (pos1 % 256) (pos0 % 256)).2
  let pos2 := CELLIDXFROMIJ (last - r) r side + 1
  let pl := (sortednlist_moveafter pl (pos2 % 256) (pos1 % 256)).2
  let pos3 := CELLIDXFROMIJ (last - r) (last - r) side + 1
  let pl := (sortednlist_moveafter pl (pos3 % 256) (pos2 % 256)).2
  (pl, pos3)

def magicsquare_initpositionsorder (pl : sortednlist) (side : Nat) : sortednlist :=
  let mside := side / 2 + side % 2
  ((List.range mside).foldl (fun st r => magicsquare_initpositionsorder_ring side r st) (pl, 0)).1

def MAGSQ_EMPTYPOS : Nat := 0
def MAGSQ_TRIEDNUM : Nat := 1
def MAGSQ_DERIVEDNUM : Nat := 2

def magicsquare_initnumtypes (arr : List Nat) (size : Nat) : List Nat :=
  (List.range size).foldl (fun a i => a.set i MAGSQ_EMPTYPOS) arr

/-- The local variables of `magicsquare_generate` that the search mutates, with the
squares handed to the printer so far. -/
structure magicsquare_state where
  sq : sumsquare
  nl : sortednlist
  pl : sortednlist
  sm : sortednlistsums
  numtypes : List Nat
  pos : Nat
  emitted : List (List Nat)
deriving DecidableEq

def magicsquare_insertderivednum (st : magicsquare_state) (pos num : Nat) : magicsquare_state :=
  let nl := (sortednlist_remove st.nl num).2
  let sq := sumsquare_setnum st.sq (pos - 1) num
  let numtypes := st.numtypes.set (pos - 1) MAGSQ_DERIVEDNUM
  let pl := (sortednlist_remove st.pl pos).2
  { st with sq := sq, nl := nl, pl := pl, numtypes := numtypes }

def magicsquare_removederivednum (st : magicsquare_state) (pos : Nat) : magicsquare_state :=
  let nl := (sortednlist_restore st.nl).2
  let sq := sumsquare_setnum st.sq (pos - 1) 0
  let numtypes := st.numtypes.set (pos - 1) MAGSQ_EMPTYPOS
  let pl := (sortednlist_restore st.pl).2
  { st with sq := sq, nl := nl, pl := pl, numtypes := numtypes }

def magicsquare_setnext (st : magicsquare_state) (pos : Nat) : Nat × magicsquare_state :=
  if st.numtypes.getD (pos - 1) 0 = MAGSQ_DERIVEDNUM then
    (0, magicsquare_removederivednum st pos)
  else
    let oldnum := sumsquare_getnum st.sq (pos - 1)
    let nl := if oldnum ≠ 0 then (sortednlist_restore st.nl).2 else st.nl
    let num := sortednlist_next nl oldnum
    if num ≠ 0 then
      let nl := (sortednlist_remove nl num).2
      let st :=
        if oldnum = 0 then
          { st with pl := (sortednlist_remove st.pl pos).2,
                    numtypes := st.numtypes.set (pos - 1) MAGSQ_TRIEDNUM }
        else st
      (num, { st with nl := nl, sq := sumsquare_setnum st.sq (pos - 1) num })
    else
      let st :=
        if oldnum ≠ 0 then
          { st with pl := (sortednlist_restore st.pl).2,
                    numtypes := st.numtypes.set (pos - 1) MAGSQ_EMPTYPOS }
        else st
      (num, { st with nl := nl, sq := sumsquare_setnum st.sq (pos - 1) num })

/-- The inner `while` of `magicsquare_generate`; `none` when the fuel runs out. -/
def magicsquare_generate_inner (filterlevel : Nat) (fillderived : Bool) (msum : Int) :
    Nat → magicsquare_state → Option magicsquare_state
  | 0, _ => none
  | fuel + 1, st =>
    let r := magicsquare_checksums st.sq st.nl st.sm msum
    let st := { st with sm := r.2.2 }
    if r.1 ∧ magicsquare_checkequiv st.sq filterlevel then
      let auxpos := sortednlist_first st.pl
      if auxpos = 0 then
        some { st with emitted := st.emitted ++ [st.sq.nums] }
      else if fillderived ∧ r.2.1 > -1 then
        let pos := sumsquare_emptycell st.sq r.2.1.toNat + 1
        let st := magicsquare_insertderivednum { st with pos := pos } pos
          ((msum - (sumsquare_getlinecount st.sq r.2.1.toNat).sum) % 256).toNat
        magicsquare_generate_inner filterlevel fillderived msum fuel st
      else some { st with pos := auxpos }
    else some st

/-- The outer `while (1)` of `magicsquare_generate`; `none` when the fuel runs out. -/
def magicsquare_generate_loop (filterlevel : Nat) (fillderived : Bool) (msum : Int) :
    Nat → magicsquare_state → Option magicsquare_state
  | 0, _ => none
  | fuel + 1, st =>
    let r := magicsquare_setnext st st.pos
    if r.1 ≠ 0 then
      match magicsquare_generate_inner filterlevel fillderived msum fuel r.2 with
      | none => none
      | some st => magicsquare_generate_loop filterlevel fillderived msum fuel st
    else if sortednlist_nremoved r.2.pl = 0 then some r.2
    else magicsquare_generate_loop filterlevel fillderived msum fuel
      { r.2 with pos := sortednlist_lastremoved r.2.pl }

/-- Prior content of the local arrays of `magicsquare_generate`. -/
structure magicsquare_mem where
  sqmem : sumsquare
  plmem : sortednlist
  nlmem : sortednlist
  smmem : sortednlistsums
  numtypes : List Nat

def magicsquare_start (mem : magicsquare_mem) (N : Nat) : magicsquare_state :=
  let sq := sumsquare_init mem.sqmem (N % 256)
  let pl := sortednlist_init mem.plmem ((N * N) % 256)
  let nl := sortednlist_init mem.nlmem ((N * N) % 256)
  let sm := sortednlistsums_init mem.smmem N
  let numtypes := magicsquare_initnumtypes
    ((List.range (N * N)).map (fun i => mem.numtypes.getD i 0)) (N * N)
  let pl := magicsquare_initpositionsorder pl N
  { sq := sq, nl := nl, pl := pl, sm := sm, numtypes := numtypes,
    pos := sortednlist_first pl, emitted := [] }

/-- `magicsquare_generate`: the squares emitted, in order; `none` when the fuel runs out. -/
def magicsquare_generate (mem : magicsquare_mem) (N : Nat) (filterlevel : Nat)
    (fillderived : Bool) (fuel : Nat) : Option (List (List Nat)) :=
  let st := magicsquare_start mem N
  let msum : Int := ((N * (N * N + 1)) / 2 : Nat)
  (magicsquare_generate_loop filterlevel fillderived msum fuel st).map (fun s => s.emitted)

/-- A memory content in which every byte of the local arrays is zero. -/
def mem0 : magicsquare_mem :=
  ⟨⟨0, 0, 0, [], [], [], []⟩, ⟨0, 0, [], []⟩, ⟨0, 0, [], []⟩, ⟨0, 0, [], []⟩, []⟩



/-! ## Specification-side notions -/

/-- Cell `c` lies on line `l` of a square of side `N`: the rows are the lines `0..N-1`,
the columns `N..2N-1`, the main diagonal is line `2N` and the anti-diagonal `2N+1`. -/
def lineHasCell (N l c : Nat) : Bool :=
  if l < N then c / N == l
  else if l < N + N then c % N + N == l
  else if l = N + N then c / N == c % N
  else if l = N + N + 1 then c / N + c % N + 1 == N
  else false

/-- The cells of line `l`, in ascending order. -/
def lineCells (N l : Nat) : List Nat := (List.range (N * N)).filter (lineHasCell N l)

/-- Sum of the numbers currently stored in the cells of line `l`. -/
def storedSum (sq : sumsquare) (N l : Nat) : Int :=
  ((lineCells N l).map (fun c => (sumsquare_getnum sq c : Int))).sum

/-- Number of cells of line `l` that currently hold 0. -/
def storedHoles (sq : sumsquare) (N l : Nat) : Nat :=
  ((lineCells N l).filter (fun c => sumsquare_getnum sq c == 0)).length

/-- A sequence of `sumsquare_setnum(sq, cellidx, n)` calls, given as pairs `(cellidx, n)`. -/
def sumsquare_setnums (sq : sumsquare) (calls : List (Nat × Nat)) : sumsquare :=
  calls.foldl (fun s c => sumsquare_setnum s c.1 c.2) sq

/-- Every one of the `2N+2` line counters agrees with the stored numbers. -/
def LineCountsExact (sq : sumsquare) (N : Nat) : Prop :=
  ∀ l, l < N + N + 2 →
    (sumsquare_getlinecount sq l).sum = storedSum sq N l ∧
    (sumsquare_getlinecount sq l).holes = storedHoles sq N l


/-- The line tables of a square of side `N`, as `sumsquare_init` builds them. -/
def cellrelationsOf (N : Nat) : List sumsquare_cellrelation :=
  (List.range (N * N)).map (fun c => sumsquare_cellrelation_init c N)

/-- The cell lists of the lines of a square of side `N`, as `sumsquare_init` builds them. -/
def linerelationsOf (N : Nat) : List sumsquare_linerelation :=
  (List.range (N + N + 2)).map
    (fun l => sumsquare_linerelation_init l (N * N) (cellrelationsOf N))

/-- A square of side `N` whose static tables are the initial ones, whose cells hold
bytes and whose line counters agree with the cells. -/
def SqInv (sq : sumsquare) (N : Nat) : Prop :=
  sq.side = N ∧ sq.nlines = N + N + 2 ∧ sq.ncells = N * N ∧
  sq.nums.length = N * N ∧ (∀ c, sumsquare_getnum sq c ≤ 255) ∧
  sq.cellrelations = cellrelationsOf N ∧
  sq.linerelations = linerelationsOf N ∧
  sq.linecounts.length = N + N + 2 ∧ LineCountsExact sq N


/-- The element array after the unlinking done by `sortednlist_remove(nl, n)`. -/
def unlink (es : List sortednlist_elem) (n : Nat) : List sortednlist_elem :=
  let es1 := es.set n ⟨true, (getelem es n).next, (getelem es n).prev⟩
  let es2 := es1.set (getelem es1 n).prev
    ⟨(getelem es1 (getelem es1 n).prev).isremoved, (getelem es1 n).next,
      (getelem es1 (getelem es1 n).prev).prev⟩
  es2.set (getelem es2 n).next
    ⟨(getelem es2 (getelem es2 n).next).isremoved, (getelem es2 (getelem es2 n).next).next,
      (getelem es2 n).prev⟩

/-- The element array after the relinking done by `sortednlist_restore` for the number `n`. -/
def relink (es : List sortednlist_elem) (n : Nat) : List sortednlist_elem :=
  let es1 := es.set n ⟨false, (getelem es n).next, (getelem es n).prev⟩
  let es2 := es1.set (getelem es1 n).prev
    ⟨(getelem es1 (getelem es1 n).prev).isremoved, n, (getelem es1 (getelem es1 n).prev).prev⟩
  es2.set (getelem es2 n).next
    ⟨(getelem es2 (getelem es2 n).next).isremoved, (getelem es2 (getelem es2 n).next).next, n⟩

/-- The elements `a -> xs[0] -> ... -> z` are linked to each other in both directions. -/
def Path (es : List sortednlist_elem) : Nat → List Nat → Nat → Prop
  | a, [], z => (getelem es a).next = z ∧ (getelem es z).prev = a
  | a, x :: xs, z => (getelem es a).next = x ∧ (getelem es x).prev = a ∧ Path es x xs z

/-- The element array of a list of size `K` whose traversal from the sentinel is `live`
and whose removed flags are set exactly outside `live`. -/
def Chain (es : List sortednlist_elem) (K : Nat) (live : List Nat) : Prop :=
  es.length = K + 1 ∧ Path es 0 live 0 ∧ live.Nodup ∧ (∀ x ∈ live, 1 ≤ x ∧ x ≤ K) ∧
  (∀ x, x ≤ K → ((getelem es x).isremoved = false ↔ x ∈ live))

/-- The element array after removing the numbers `ns` one after the other. -/
def elemsAfter (es0 : List sortednlist_elem) (ns : List Nat) : List sortednlist_elem :=
  ns.foldl unlink es0

/-- The list `nl` of size `K` is the list with elements `es0` from which exactly the
numbers `ns` were removed, in this order, and not yet restored. -/
def PoolRep (es0 : List sortednlist_elem) (K : Nat) (ns : List Nat) (nl : sortednlist) : Prop :=
  nl.size = K ∧ nl.nremoved = ns.length ∧ nl.stack.length = K ∧
  (∀ i, i < ns.length → nl.stack.getD i 0 = ns.getD i 0) ∧
  nl.elems = elemsAfter es0 ns

/-- The states of a list of size `K` reachable from `sortednlist_init` by
`sortednlist_remove` (with an argument satisfying its assertion) and `sortednlist_restore`. -/
inductive Reachable (K : Nat) : sortednlist → Prop
  | init (mem : sortednlist) : Reachable K (sortednlist_init mem K)
  | remove (nl : sortednlist) (n : Nat) : Reachable K nl → n < K + 1 →
      Reachable K (sortednlist_remove nl n).2
  | restore (nl : sortednlist) : Reachable K nl → Reachable K (sortednlist_restore nl).2

/-- The calls `sortednlist_remove(nl, n)` for the numbers of a sequence: the returned
values and the final list. -/
def sortednlist_removes (nl : sortednlist) : List Nat → List Nat × sortednlist
  | [] => ([], nl)
  | n :: ns =>
    ((sortednlist_remove nl n).1 :: (sortednlist_removes (sortednlist_remove nl n).2 ns).1,
      (sortednlist_removes (sortednlist_remove nl n).2 ns).2)

/-- A number `k` of calls `sortednlist_restore(nl)`: the returned values and the final list. -/
def sortednlist_restores (nl : sortednlist) : Nat → List Nat × sortednlist
  | 0 => ([], nl)
  | k + 1 =>
    ((sortednlist_restore nl).1 :: (sortednlist_restores (sortednlist_restore nl).2 k).1,
      (sortednlist_restores (sortednlist_restore nl).2 k).2)


/-- The numbers of the traversal `ord` that are not among the removed numbers `ns`. -/
def liveOf (ord ns : List Nat) : List Nat := ord.filter (fun x => decide (x ∉ ns))


/-- The element array after `sortednlist_moveafter` took `n` out of the list. -/
def detach (es : List sortednlist_elem) (n : Nat) : List sortednlist_elem :=
  let es1 := es.set (getelem es n).prev
    ⟨(getelem es (getelem es n).prev).isremoved, (getelem es n).next,
      (getelem es (getelem es n).prev).prev⟩
  es1.set (getelem es1 n).next
    ⟨(getelem es1 (getelem es1 n).next).isremoved, (getelem es1 (getelem es1 n).next).next,
      (getelem es1 n).prev⟩

/-- The element array after `sortednlist_moveafter` put `n` back after `p`. -/
def attach (es : List sortednlist_elem) (n p : Nat) : List sortednlist_elem :=
  let es3 := es.set n ⟨(getelem es n).isremoved, (getelem es n).next, p⟩
  let es4 := es3.set n ⟨(getelem es3 n).isremoved, (getelem es3 p).next, (getelem es3 n).prev⟩
  let es5 := es4.set (getelem es4 p).next
    ⟨(getelem es4 (getelem es4 p).next).isremoved, (getelem es4 (getelem es4 p).next).next, n⟩
  es5.set p ⟨(getelem es5 p).isremoved, n, (getelem es5 p).prev⟩


/-- A pool of size `K` with nothing removed whose traversal visits each of `1..K` once. -/
def PoolReady (pl : sortednlist) (K : Nat) : Prop :=
  ∃ live, Chain pl.elems K live ∧ live.Perm (List.range' 1 K) ∧
    pl.nremoved = 0 ∧ pl.size = K ∧ pl.stack.length = K


/-! ## The search: specification-side notions -/

/-- The magic constant `N(N*N+1)/2` as the `int` that `magicsquare_generate` computes. -/
def magicSum (N : Nat) : Int := ((N * (N * N + 1) / 2 : Nat) : Int)

/-- Sum of the entries of the grid `g` on line `l`. -/
def gridSum (g : List Nat) (N l : Nat) : Int :=
  ((lineCells N l).map (fun c => (g.getD c 0 : Int))).sum

/-- Number of zero entries of the grid `g` on line `l`. -/
def gridHoles (g : List Nat) (N l : Nat) : Nat :=
  ((lineCells N l).filter (fun c => g.getD c 0 == 0)).length

/-- A magic square of order `N`, as the list of its `N*N` cells in row-major order: it
holds each of `1..N*N` exactly once, and every row, every column and both main diagonals
(the `2N+2` lines) sum to the magic constant. -/
def IsMagicSquare (N : Nat) (g : List Nat) : Prop :=
  g.Perm (List.range' 1 (N * N)) ∧ ∀ l, l < N + N + 2 → gridSum g N l = magicSum N

/-- A square of side `N` whose cells hold the grid `g`, for `magicsquare_checkequiv`. -/
def squareOfGrid (N : Nat) (g : List Nat) : sumsquare :=
  { side := N, nlines := N + N + 2, ncells := N * N, nums := g,
    cellrelations := cellrelationsOf N, linerelations := linerelationsOf N, linecounts := [] }

/-- The grid `g` of side `N` passes `magicsquare_checkequiv` at the given filter level. -/
def Accepted (N : Nat) (filterlevel : Nat) (g : List Nat) : Prop :=
  magicsquare_checkequiv (squareOfGrid N g) filterlevel = true

/-- One placement of the search: the position (1-based), the number put there and whether
it was put as a derived number. -/
structure Frame where
  pos : Nat
  num : Nat
  derived : Bool
deriving DecidableEq

/-- The number that the placements `fs` put in cell `c`, or 0. -/
def cellOf (fs : List Frame) (c : Nat) : Nat :=
  match fs.find? (fun f => f.pos == c + 1) with
  | some f => f.num
  | none => 0

/-- The tag (`MAGSQ_EMPTYPOS`, `MAGSQ_TRIEDNUM`, `MAGSQ_DERIVEDNUM`) that the placements
`fs` give to cell `c`. -/
def tagOf (fs : List Frame) (c : Nat) : Nat :=
  match fs.find? (fun f => f.pos == c + 1) with
  | some f => if f.derived then MAGSQ_DERIVEDNUM else MAGSQ_TRIEDNUM
  | none => MAGSQ_EMPTYPOS

/-- The placements use distinct positions and distinct numbers, all in `1..K`. -/
def FramesOk (K : Nat) (fs : List Frame) : Prop :=
  (fs.map Frame.pos).Nodup ∧ (fs.map Frame.num).Nodup ∧
  ∀ f ∈ fs, 1 ≤ f.pos ∧ f.pos ≤ K ∧ 1 ≤ f.num ∧ f.num ≤ K

/-- The grid `g` agrees with the placements `fs`. -/
def Extends (fs : List Frame) (g : List Nat) : Prop :=
  ∀ f ∈ fs, g.getD (f.pos - 1) 0 = f.num

/-- The state `st` of the search holds exactly the placements `fs` (oldest first): both
pools have removed them in this order, the square holds their numbers and consistent
line counters, and the tags mark their positions. -/
def Rep (N : Nat) (plE nlE : List sortednlist_elem) (fs : List Frame)
    (st : magicsquare_state) : Prop :=
  PoolRep nlE (N * N) (fs.map Frame.num) st.nl ∧
  PoolRep plE (N * N) (fs.map Frame.pos) st.pl ∧
  SqInv st.sq N ∧ (∀ c, c < N * N → sumsquare_getnum st.sq c = cellOf fs c) ∧
  st.numtypes.length = N * N ∧ (∀ c, c < N * N → st.numtypes.getD c 0 = tagOf fs c) ∧
  st.sm.size = N ∧ st.sm.minsums.length = N ∧ st.sm.maxsums.length = N

/-- The fixed data of one run of the search for order `N`: the element arrays of the two
pools at the start, and the visiting order `ord` of the positions. -/
structure SearchCtx (N : Nat) (plE nlE : List sortednlist_elem) (ord : List Nat) : Prop where
  hN1 : 1 ≤ N
  hN : N * N ≤ 255
  hpl : Chain plE (N * N) ord
  hperm : ord.Perm (List.range' 1 (N * N))
  hnl : Chain nlE (N * N) (List.range' 1 (N * N))

/-- The bounds that `magicsquare_checksums` tests for line `l` of the grid `g` when the
available numbers are `A` in ascending order. -/
def lineOk (N : Nat) (msum : Int) (g A : List Nat) (l : Nat) : Prop :=
  if gridHoles g N l ≠ 0 then
    gridSum g N l + ((A.take (gridHoles g N l)).sum : Nat) ≤ msum ∧
    msum ≤ gridSum g N l + ((A.reverse.take (gridHoles g N l)).sum : Nat) ∧
    (gridHoles g N l = 1 → (msum - gridSum g N l).toNat ∈ A)
  else gridSum g N l = msum

/-- The inner loop of `magicsquare_generate` followed by the rest of the outer loop. -/
def magicsquare_generate_rest (filterlevel : Nat) (fillderived : Bool) (msum : Int)
    (fi fo : Nat) (st : magicsquare_state) : Option magicsquare_state :=
  match magicsquare_generate_inner filterlevel fillderived msum fi st with
  | none => none
  | some st2 => magicsquare_generate_loop filterlevel fillderived msum fo st2

/-- What the outer loop does after `magicsquare_setnext` returned 0. -/
def magicsquare_generate_back (filterlevel : Nat) (fillderived : Bool) (msum : Int)
    (fo : Nat) (st : magicsquare_state) : Option magicsquare_state :=
  if sortednlist_nremoved st.pl = 0 then some st
  else magicsquare_generate_loop filterlevel fillderived msum fo
    { st with pos := sortednlist_lastremoved st.pl }


/-- The numbers still available after the placements `fs`, in ascending order. -/
def availOf (N : Nat) (fs : List Frame) : List Nat :=
  liveOf (List.range' 1 (N * N)) (fs.map Frame.num)

/-- The positions still open after the placements `fs`, in visiting order. -/
def openOf (ord : List Nat) (fs : List Frame) : List Nat :=
  liveOf ord (fs.map Frame.pos)


/-- The magic squares of order `N` accepted at the filter level that agree with the
placements `fs`: what the search below these placements has to emit. -/
def Sol (N filterlevel : Nat) (fs : List Frame) (g : List Nat) : Prop :=
  IsMagicSquare N g ∧ Accepted N filterlevel g ∧ Extends fs g

/-- The search below a node: from a state that holds the placements `fs ++ [f]`, with `d`
positions still open, the inner loop and the outer loop that follows it come back to the
top of the outer loop at position `f.pos` with the same placements, having emitted each
solution below the node exactly once. -/
def NodeStmt (N filterlevel : Nat) (fillderived : Bool) (plE nlE : List sortednlist_elem)
    (d : Nat) : Prop :=
  ∀ (fs : List Frame) (f : Frame) (st : magicsquare_state),
    (fs ++ [f]).length + d = N * N → Rep N plE nlE (fs ++ [f]) st →
    FramesOk (N * N) (fs ++ [f]) → st.pos = f.pos →
    ∃ (k : Nat) (E : List (List Nat)) (st2 : magicsquare_state),
      Rep N plE nlE (fs ++ [f]) st2 ∧ st2.pos = f.pos ∧ st2.emitted = st.emitted ++ E ∧
      E.Nodup ∧ (∀ g, g ∈ E ↔ Sol N filterlevel (fs ++ [f]) g) ∧
      ∀ fi fo, d + 1 ≤ fi → N * N + 1 ≤ fo →
        magicsquare_generate_rest filterlevel fillderived (magicSum N) fi (fo + k) st =
          magicsquare_generate_loop filterlevel fillderived (magicSum N) fo st2


/-! ## The symmetries of a square -/

/-- The grid `g` of side `N` turned by a quarter: row `i` of the result is column `i` of `g`
read upwards. -/
def rotateGrid (N : Nat) (g : List Nat) : List Nat :=
  (List.range (N * N)).map (fun c => g.getD ((N - 1 - c % N) * N + c / N) 0)

/-- The grid `g` of side `N` reflected in its main diagonal. -/
def transposeGrid (N : Nat) (g : List Nat) : List Nat :=
  (List.range (N * N)).map (fun c => g.getD (c % N * N + c / N) 0)

/-- The four rotations of `g` and the four rotations of its reflection. -/
def symmetriesOf (N : Nat) (g : List Nat) : List (List Nat) :=
  [g, rotateGrid N g, rotateGrid N (rotateGrid N g),
    rotateGrid N (rotateGrid N (rotateGrid N g)),
    transposeGrid N g, rotateGrid N (transposeGrid N g),
    rotateGrid N (rotateGrid N (transposeGrid N g)),
    rotateGrid N (rotateGrid N (rotateGrid N (transposeGrid N g)))]

/-- The Lo Shu square, in row-major order. -/
def loShu : List Nat := [4, 9, 2, 3, 5, 7, 8, 1, 6]


/-! ## Reordering and traversal of a list -/

/-- The list `l` with `n` put immediately after the occurrence of `p` (at the end when `p`
does not occur). -/
def insertAfter (p n : Nat) : List Nat → List Nat
  | [] => [n]
  | x :: xs => if x = p then x :: n :: xs else x :: insertAfter p n xs

/-- The traversal `live` with `n` taken out and put back immediately after `p`, at the
front when `p` is the sentinel 0. -/
def movedAfter (live : List Nat) (n p : Nat) : List Nat :=
  if p = 0 then n :: live.erase n else insertAfter p n (live.erase n)

/-- The numbers met from `x` on by following `next` until the sentinel, at most `k`. -/
def sortednlist_traverse_from (nl : sortednlist) : Nat → Nat → List Nat
  | 0, _ => []
  | k + 1, x => if x = 0 then [] else x :: sortednlist_traverse_from nl k (sortednlist_next nl x)

/-- The traversal of the list: `first`, then `next` repeatedly until it gives 0. -/
def sortednlist_traversal (nl : sortednlist) : List Nat :=
  sortednlist_traverse_from nl nl.size (sortednlist_first nl)

/-- The numbers of `1..K` that are not removed, in ascending order. -/
def availableOf (nl : sortednlist) (K : Nat) : List Nat :=
  (List.range' 1 K).filter (fun x => !sortednlist_isremoved nl x)


/-! ## The visiting order of the positions -/

/-- The positions (cell index plus one) of the corners `(r,r)`, `(r,N-1-r)`, `(N-1-r,r)`,
`(N-1-r,N-1-r)` of ring `r`, in the order in which `magicsquare_initpositionsorder` moves
them. -/
def ringCorners (N r : Nat) : List Nat :=
  [CELLIDXFROMIJ r r N + 1, CELLIDXFROMIJ r (N - 1 - r) N + 1,
    CELLIDXFROMIJ (N - 1 - r) r N + 1, CELLIDXFROMIJ (N - 1 - r) (N - 1 - r) N + 1]

/-- The list `pre` with `n` added at its end, unless `n` is its last entry already. -/
def pushCorner (pre : List Nat) (n : Nat) : List Nat :=
  if pre.getLastD 0 = n then pre else pre ++ [n]

/-- The positions that `magicsquare_initpositionsorder` moves, in the order of the moves. -/
def cornerMoves (N : Nat) : List Nat :=
  ((List.range (N / 2 + N % 2)).map (ringCorners N)).flatten

/-- The corners of all the rings from the outside in; the centre of a square of odd side,
which is each of the four corners of the innermost ring, is written once. -/
def cornerPositions (N : Nat) : List Nat :=
  (cornerMoves N).foldl pushCorner []

/-- The numbers of `1..K` outside `pre`, in ascending order. -/
def restOf (K : Nat) (pre : List Nat) : List Nat :=
  (List.range' 1 K).filter (fun x => decide (x ∉ pre))

/-- The corners of all the rings first, then every other position in ascending order. -/
def positionsOrder (N : Nat) : List Nat :=
  cornerPositions N ++ restOf (N * N) (cornerPositions N)

/-- The ring of cell `c` in a square of side `N`, counted from the border. -/
def ringOf (N c : Nat) : Nat :=
  min (min (c / N) (c % N)) (min (N - 1 - c / N) (N - 1 - c % N))

/-- The order "ring by ring": for each ring its four corners, then its other cells in
ascending order, and only then the next ring. -/
def ringByRingOrder (N : Nat) : List Nat :=
  ((List.range (N / 2 + N % 2)).map (fun r =>
    (ringCorners N r).foldl pushCorner [] ++
      (List.range' 1 (N * N)).filter
        (fun x => decide (ringOf N (x - 1) = r ∧ x ∉ ringCorners N r)))).flatten

/-- One move of `magicsquare_initpositionsorder`: position `n` goes after the position
moved before it. -/
def positionsMove (st : sortednlist × Nat) (n : Nat) : sortednlist × Nat :=
  ((sortednlist_moveafter st.1 (n % 256) (st.2 % 256)).2, n)


/-- The state of the positions pool while it is reordered: the positions `pre` moved so
far come first, every other position follows in ascending order. -/
def OrderInv (K : Nat) (pre : List Nat) (st : sortednlist × Nat) : Prop :=
  Chain st.1.elems K (pre ++ restOf K pre) ∧ st.1.nremoved = 0 ∧ st.1.size = K ∧
  st.1.stack.length = K ∧ st.2 = pre.getLastD 0 ∧ pre.Nodup ∧ ∀ x ∈ pre, 1 ≤ x ∧ x ≤ K

/-! ## Feasibility of a line, and parts of a grid -/

/-- What `magicsquare_checksums` requires of one line, given the available numbers `A` in
ascending order: a full line sums to `M`; a line with holes can still reach `M` with the
smallest and with the largest available numbers; and the number missing from a line with
one hole is available. -/
def lineFeasible (M : Int) (A : List Nat) (line : sumsquare_linecount) : Prop :=
  (line.holes = 0 → line.sum = M) ∧
  (0 < line.holes →
    line.sum + (((A.take line.holes).sum : Nat) : Int) ≤ M ∧
    M ≤ line.sum + (((A.reverse.take line.holes).sum : Nat) : Int)) ∧
  (line.holes = 1 → ∃ v ∈ A, (v : Int) = M - line.sum)

/-- The grid `g` with the cells of `cells` cleared. -/
def clearCells (cells : List Nat) (g : List Nat) : List Nat :=
  (List.range g.length).map (fun c => if c ∈ cells then 0 else g.getD c 0)

/-- The grid `g` with every cell outside `cells` cleared. -/
def keepCells (cells : List Nat) (g : List Nat) : List Nat :=
  (List.range g.length).map (fun c => if c ∈ cells then g.getD c 0 else 0)

/-- The test of `magicsquare_checkequiv` at the levels 1 and 2, on the numbers `a`, `b`,
`c`, `d` of the top-left, top-right, bottom-left and bottom-right corners. -/
def cornerTest (L a b c d : Nat) : Bool :=
  if a ≠ 0 ∧ ((b ≠ 0 ∧ a > b) ∨ (c ≠ 0 ∧ a > c) ∨ (d ≠ 0 ∧ a > d)) then false
  else if L < 2 then true
  else if b ≠ 0 ∧ c ≠ 0 ∧ b + 1 > c then false
  else true

/-! ## The symmetries of the squares of order 4 -/

/-- The cells of `g` taken in the order of the index list `p`: cell `c` of the result is
cell `p[c]` of `g`. -/
def applyPerm (p g : List Nat) : List Nat := p.map (fun i => g.getD i 0)

/-- The grid `g` of side `N` with its rows and its columns both rearranged by `σ`: the cell
in row `i` and column `j` of the result is the cell in row `σ[i]` and column `σ[j]` of `g`. -/
def lineSwap (σ : List Nat) (N : Nat) (g : List Nat) : List Nat :=
  (List.range (N * N)).map (fun c => g.getD (σ.getD (c / N) 0 * N + σ.getD (c % N) 0) 0)

/-- The 32 images of a grid of side 4: each of its eight rotations and reflections, as it
is, with the two middle rows and the two middle columns exchanged, with the rows and the
columns exchanged inside each half, and with both exchanges. -/
def symmetries32 (g : List Nat) : List (List Nat) :=
  (symmetriesOf 4 g).flatMap (fun h =>
    [h, lineSwap [0, 2, 1, 3] 4 h, lineSwap [1, 0, 3, 2] 4 h,
      lineSwap [0, 2, 1, 3] 4 (lineSwap [1, 0, 3, 2] 4 h)])

/-- The 32 images as index lists: the images of the grid that holds `c` in cell `c`. -/
def group32 : List (List Nat) := symmetries32 (List.range 16)

/-- The test of `magicsquare_checkequiv` at level 4 on a square of side 4, on the numbers
`a`, `b`, `c`, `d` of the top-left, top-right, bottom-left and bottom-right corners and
`e`, `f`, `x`, `y` of the cells (1,1), (2,2), (1,2) and (2,1). -/
def diagTest (a b c d e f x y : Nat) : Bool :=
  if a ≠ 0 ∧ ((b ≠ 0 ∧ a > b) ∨ (c ≠ 0 ∧ a > c) ∨ (d ≠ 0 ∧ a > d)) then false
  else if b ≠ 0 ∧ c ≠ 0 ∧ b + 1 > c then false
  else if e ≠ 0 ∧ f ≠ 0 ∧ e > f then false
  else if a ≠ 0 ∧ ((e ≠ 0 ∧ a > e) ∨ (x ≠ 0 ∧ a > x) ∨ (y ≠ 0 ∧ a > y)) then false
  else true

/-! ## sumsquareio.c -/

/-- The bytes of the array `DIGITS`: the 65 characters of its string literal followed by
the terminating NUL that the array also holds. -/
def DIGITS : List Nat :=
  "0123456789ABCDEFGHIJKLMNOPQRSTUVWXYZ_abcdefghijklmnopqrstuvwxyz\x7b\x7d".toList.map
    Char.toNat ++ [0]

/-- `MAX_DIGITS` is `sizeof(DIGITS)`, the number of bytes of the array. -/
def MAX_DIGITS : Nat := DIGITS.length

def FIXEDWIDTH_BASE : Nat := MAX_DIGITS

/-- The first loop of `sumsquare_printfixedwidth`, `for (m = n / base, nwidth = 1, pow = 1;
m; nwidth++, pow *= base, m /= base)`, from the values `m`, `nwidth`, `pow`: the final
`nwidth` and `pow`; `none` when the fuel runs out. -/
def sumsquare_printfixedwidth_width : Nat → Nat → Nat → Nat → Nat → Option (Nat × Nat)
  | 0, _, _, _, _ => none
  | fuel + 1, base, m, nwidth, pow =>
    if m = 0 then some (nwidth, pow)
    else sumsquare_printfixedwidth_width fuel base (m / base) ((nwidth + 1) % 256) (pow * base)

/-- The loop `do { putchar(DIGITS[n / pow]); n %= pow; pow /= base; } while (pow > 1)` of
`sumsquare_printfixedwidth`: the final `n` and the bytes written; `none` when the fuel runs
out. -/
def sumsquare_printfixedwidth_digits : Nat → Nat → Nat → Nat → Option (Nat × List Nat)
  | 0, _, _, _ => none
  | fuel + 1, base, n, pow =>
    if pow / base > 1 then
      match sumsquare_printfixedwidth_digits fuel base (n % pow) (pow / base) with
      | none => none
      | some r => some (r.1, DIGITS.getD (n / pow) 0 :: r.2)
    else some (n % pow, [DIGITS.getD (n / pow) 0])

/-- `sumsquare_printfixedwidth(n, base, fixedwidth)` for `n >= 0`: the bytes written;
`none` when the function does not return (division by a zero base, or the first loop
running forever). -/
def sumsquare_printfixedwidth (n base fixedwidth : Nat) : Option (List Nat) :=
  if n + 1 > base then
    if base = 0 then none
    else
      match sumsquare_printfixedwidth_width (n + 1) base (n / base) 1 1 with
      | none => none
      | some w =>
        match sumsquare_printfixedwidth_digits (n + 1) base n w.2 with
        | none => none
        | some r =>
          some (List.replicate (fixedwidth - w.1) (DIGITS.getD 0 0) ++ r.2 ++
            [DIGITS.getD r.1 0])
  else some (List.replicate (fixedwidth - 1) (DIGITS.getD 0 0) ++ [DIGITS.getD n 0])

/-- The loop of `sumsquare_fixedwidth`, from the values `m` and `nwidth`; `none` when the
fuel runs out. -/
def sumsquare_fixedwidth_loop : Nat → Nat → Nat → Nat → Option Nat
  | 0, _, _, _ => none
  | fuel + 1, base, m, nwidth =>
    if m = 0 then some nwidth
    else sumsquare_fixedwidth_loop fuel base (m / base) ((nwidth + 1) % 256)

/-- `sumsquare_fixedwidth(sq, base)`; `none` when the function does not return. -/
def sumsquare_fixedwidth (sq : sumsquare) (base : Nat) : Option Nat :=
  if base = 0 then none
  else
    sumsquare_fixedwidth_loop (sumsquare_side sq * sumsquare_side sq + 1) base
      (sumsquare_side sq * sumsquare_side sq / base) 1

/-- The cell indices `i * side + j` that the two loops of `sumsquare_printreduced` hand to
`sumsquare_printfixedwidth`, in that order. -/
def sumsquare_printreduced_cells (side : Nat) (shortformat : Bool) : List Nat :=
  let maxline : Int := if shortformat then (side : Int) - 1 else (side : Int)
  let skipi : Int := if shortformat then (side : Int) - 2 else -1
  let skipj : Int := if shortformat then 1 else -1
  (List.range maxline.toNat).flatMap (fun i =>
    ((List.range maxline.toNat).filter
      (fun (j : Nat) => decide ((i : Int) ≠ skipi ∨ (j : Int) ≠ skipj))).map
        (fun j => i * side + j))

/-- The calls of `sumsquare_printfixedwidth` for the cells of a list, one after the other:
the bytes written. -/
def sumsquare_printreduced_loop (sq : sumsquare) (base fixedwidth : Nat) :
    List Nat → Option (List Nat)
  | [] => some []
  | c :: cs =>
    match sumsquare_printfixedwidth (sumsquare_getnum sq c) base fixedwidth with
    | none => none
    | some o =>
      match sumsquare_printreduced_loop sq base fixedwidth cs with
      | none => none
      | some r => some (o ++ r)

/-- `sumsquare_printreduced(sq, shortformat, base, fixedwidth)`: the bytes written, the
last one being the newline. -/
def sumsquare_printreduced (sq : sumsquare) (shortformat : Bool) (base fixedwidth : Nat) :
    Option (List Nat) :=
  (sumsquare_printreduced_loop sq base fixedwidth
    (sumsquare_printreduced_cells (sumsquare_side sq) shortformat)).map (fun o => o ++ [10])

/-- The value of a byte as a digit: its index in `DIGITS`. -/
def digitValue (s : Nat) : Nat := DIGITS.indexOf s

/-- A group of bytes read as digits in the given base, most significant first. -/
def readDigits (base : Nat) (syms : List Nat) : Nat :=
  syms.foldl (fun acc s => acc * base + digitValue s) 0

/-! ## The array accesses of `magicsquare_checksums` -/

/-- The loop over the lines in `magicsquare_checksums` with its array accesses checked: the
result is `none` as soon as a line index is outside `linecounts`, an index `holes - 1` is
not below `sm->len` or outside `minsums` or `maxsums`, or the number `msum - sum` handed to
`sortednlist_isremoved` is not between `sortednlist_first` and `sortednlist_last` or not in
`1..size`; otherwise it is the result of the loop. -/
def magicsquare_checksums_loop_checked (sq : sumsquare) (nl : sortednlist)
    (sm : sortednlistsums) (msum : Int) : Nat → Nat → Int → Option (Bool × Int)
  | 0, _, ln1hole => some (true, ln1hole)
  | k + 1, l, ln1hole =>
    if ¬ l < sq.linecounts.length then none
    else
      let line := sumsquare_getlinecount sq l
      if line.holes ≠ 0 then
        if ¬ (line.holes - 1 < sm.len ∧ line.holes - 1 < sm.minsums.length ∧
            line.holes - 1 < sm.maxsums.length) then none
        else if line.sum + sm.minsums.getD (line.holes - 1) 0 > msum then some (false, ln1hole)
        else if line.sum + sm.maxsums.getD (line.holes - 1) 0 < msum then some (false, ln1hole)
        else if line.holes = 1 then
          if ¬ ((sortednlist_first nl : Int) ≤ msum - line.sum ∧
              msum - line.sum ≤ (sortednlist_last nl : Int) ∧
              1 ≤ msum - line.sum ∧ msum - line.sum ≤ (nl.size : Int)) then none
          else if sortednlist_isremoved nl (msum - line.sum).toNat then some (false, ln1hole)
          else if ln1hole < 0 then
            magicsquare_checksums_loop_checked sq nl sm msum k (l + 1) (l : Int)
          else magicsquare_checksums_loop_checked sq nl sm msum k (l + 1) ln1hole
        else magicsquare_checksums_loop_checked sq nl sm msum k (l + 1) ln1hole
      else if line.sum ≠ msum then some (false, ln1hole)
      else magicsquare_checksums_loop_checked sq nl sm msum k (l + 1) ln1hole

/-- `magicsquare_checksums` with the array accesses of its loop checked: `none` when one
of them is out of range. -/
def magicsquare_checksums_checked (sq : sumsquare) (nl : sortednlist) (sm : sortednlistsums)
    (msum : Int) : Option (Bool × Int × sortednlistsums) :=
  let sm := sortednlistsums_get sm nl
  (magicsquare_checksums_loop_checked sq nl sm msum (sumsquare_nlines sq) 0 (-1)).map
    (fun r => (r.1, (if r.1 ∧ r.2 > -1 then r.2 else -1), sm))

/-! ## The assertions of the search -/

/-- The assertions of `magicsquare_insertderivednum(sq, nl, pl, numtypes, pos, num)`,
with those of its two calls of `sortednlist_remove`. -/
def magicsquare_insertderivednum_asserts (st : magicsquare_state) (pos num : Nat) : Prop :=
  st.numtypes.getD (pos - 1) 0 = MAGSQ_EMPTYPOS ∧
  sumsquare_getnum st.sq (pos - 1) = 0 ∧
  sortednlist_isremoved st.nl num = false ∧
  sortednlist_isremoved st.pl pos = false ∧
  num < st.nl.size + 1 ∧ pos < st.pl.size + 1

/-- The assertions of `magicsquare_removederivednum(sq, nl, pl, numtypes, pos)`. -/
def magicsquare_removederivednum_asserts (st : magicsquare_state) (pos : Nat) : Prop :=
  st.numtypes.getD (pos - 1) 0 = MAGSQ_DERIVEDNUM ∧
  sumsquare_getnum st.sq (pos - 1) ≠ 0 ∧
  sortednlist_nremoved st.nl ≠ 0 ∧
  sortednlist_lastremoved st.nl = sumsquare_getnum st.sq (pos - 1) ∧
  sortednlist_nremoved st.pl ≠ 0 ∧
  pos = sortednlist_lastremoved st.pl

/-- The assertions met by a call `magicsquare_setnext(sq, nl, pl, numtypes, pos)`: those of
`magicsquare_removederivednum` for a derived number, and otherwise those of the branches
taken, where `oldnum` is the number in the cell and `num` the value that the function
returns; with those of the calls of `sortednlist_remove`. -/
def magicsquare_setnext_asserts (st : magicsquare_state) (pos : Nat) : Prop :=
  if st.numtypes.getD (pos - 1) 0 = MAGSQ_DERIVEDNUM then
    magicsquare_removederivednum_asserts st pos
  else
    (sumsquare_getnum st.sq (pos - 1) ≠ 0 →
      sumsquare_getnum st.sq (pos - 1) = sortednlist_lastremoved st.nl) ∧
    ((magicsquare_setnext st pos).1 ≠ 0 →
      (magicsquare_setnext st pos).1 < st.nl.size + 1 ∧
      (sumsquare_getnum st.sq (pos - 1) = 0 →
        st.numtypes.getD (pos - 1) 0 = MAGSQ_EMPTYPOS ∧
        sortednlist_isremoved st.pl pos = false ∧ pos < st.pl.size + 1)) ∧
    ((magicsquare_setnext st pos).1 = 0 → sumsquare_getnum st.sq (pos - 1) ≠ 0 →
      st.numtypes.getD (pos - 1) 0 = MAGSQ_TRIEDNUM ∧ pos = sortednlist_lastremoved st.pl)

/-- The assertion `line.holes <= sm->len` of `magicsquare_checksums`, for every line with
holes, `len` being the one that `sortednlistsums_get` has just stored. -/
def magicsquare_checksums_asserts (sq : sumsquare) (nl : sortednlist)
    (sm : sortednlistsums) : Prop :=
  ∀ l, l < sumsquare_nlines sq → (sumsquare_getlinecount sq l).holes ≠ 0 →
    (sumsquare_getlinecount sq l).holes ≤ (sortednlistsums_get sm nl).len

/-- The assertions met by one turn of the inner `while` of `magicsquare_generate` from the
state `st`: the one of `magicsquare_checksums` and, when the turn inserts a derived
number, those of `magicsquare_insertderivednum`. -/
def magicsquare_inner_asserts (filterlevel : Nat) (fillderived : Bool) (msum : Int)
    (st : magicsquare_state) : Prop :=
  magicsquare_checksums_asserts st.sq st.nl st.sm ∧
  (((magicsquare_checksums st.sq st.nl st.sm msum).1 = true ∧
      magicsquare_checkequiv st.sq filterlevel = true) →
    sortednlist_first st.pl ≠ 0 →
    (fillderived = true ∧ (magicsquare_checksums st.sq st.nl st.sm msum).2.1 > -1) →
    magicsquare_insertderivednum_asserts
      { st with sm := (magicsquare_checksums st.sq st.nl st.sm msum).2.2,
                pos := sumsquare_emptycell st.sq
                  (magicsquare_checksums st.sq st.nl st.sm msum).2.1.toNat + 1 }
      (sumsquare_emptycell st.sq (magicsquare_checksums st.sq st.nl st.sm msum).2.1.toNat + 1)
      ((msum - (sumsquare_getlinecount st.sq
        (magicsquare_checksums st.sq st.nl st.sm msum).2.1.toNat).sum) % 256).toNat)

/-- The states that `magicsquare_generate` goes through from the state `st0`, taken at the
top of its loops: the flag is `false` at the top of the outer `while (1)`, about to call
`magicsquare_setnext`, and `true` at the top of the inner `while`, about to call
`magicsquare_checksums`. Each rule is one path through the loop body. -/
inductive magicsquare_reach (filterlevel : Nat) (fillderived : Bool) (msum : Int)
    (st0 : magicsquare_state) : Bool → magicsquare_state → Prop
  | start : magicsquare_reach filterlevel fillderived msum st0 false st0
  | placed (st : magicsquare_state) :
      magicsquare_reach filterlevel fillderived msum st0 false st →
      (magicsquare_setnext st st.pos).1 ≠ 0 →
      magicsquare_reach filterlevel fillderived msum st0 true (magicsquare_setnext st st.pos).2
  | back (st : magicsquare_state) :
      magicsquare_reach filterlevel fillderived msum st0 false st →
      (magicsquare_setnext st st.pos).1 = 0 →
      sortednlist_nremoved (magicsquare_setnext st st.pos).2.pl ≠ 0 →
      magicsquare_reach filterlevel fillderived msum st0 false
        { (magicsquare_setnext st st.pos).2 with
          pos := sortednlist_lastremoved (magicsquare_setnext st st.pos).2.pl }
  | failed (st : magicsquare_state) :
      magicsquare_reach filterlevel fillderived msum st0 true st →
      ¬ ((magicsquare_checksums st.sq st.nl st.sm msum).1 = true ∧
        magicsquare_checkequiv st.sq filterlevel = true) →
      magicsquare_reach filterlevel fillderived msum st0 false
        { st with sm := (magicsquare_checksums st.sq st.nl st.sm msum).2.2 }
  | emitted (st : magicsquare_state) :
      magicsquare_reach filterlevel fillderived msum st0 true st →
      ((magicsquare_checksums st.sq st.nl st.sm msum).1 = true ∧
        magicsquare_checkequiv st.sq filterlevel = true) →
      sortednlist_first st.pl = 0 →
      magicsquare_reach filterlevel fillderived msum st0 false
        { st with sm := (magicsquare_checksums st.sq st.nl st.sm msum).2.2,
                  emitted := st.emitted ++ [st.sq.nums] }
  | derived (st : magicsquare_state) :
      magicsquare_reach filterlevel fillderived msum st0 true st →
      ((magicsquare_checksums st.sq st.nl st.sm msum).1 = true ∧
        magicsquare_checkequiv st.sq filterlevel = true) →
      sortednlist_first st.pl ≠ 0 →
      (fillderived = true ∧ (magicsquare_checksums st.sq st.nl st.sm msum).2.1 > -1) →
      magicsquare_reach filterlevel fillderived msum st0 true
        (magicsquare_insertderivednum
          { st with sm := (magicsquare_checksums st.sq st.nl st.sm msum).2.2,
                    pos := sumsquare_emptycell st.sq
                      (magicsquare_checksums st.sq st.nl st.sm msum).2.1.toNat + 1 }
          (sumsquare_emptycell st.sq
            (magicsquare_checksums st.sq st.nl st.sm msum).2.1.toNat + 1)
          ((msum - (sumsquare_getlinecount st.sq
            (magicsquare_checksums st.sq st.nl st.sm msum).2.1.toNat).sum) % 256).toNat)
  | advanced (st : magicsquare_state) :
      magicsquare_reach filterlevel fillderived msum st0 true st →
      ((magicsquare_checksums st.sq st.nl st.sm msum).1 = true ∧
        magicsquare_checkequiv st.sq filterlevel = true) →
      sortednlist_first st.pl ≠ 0 →
      ¬ (fillderived = true ∧ (magicsquare_checksums st.sq st.nl st.sm msum).2.1 > -1) →
      magicsquare_reach filterlevel fillderived msum st0 false
        { st with sm := (magicsquare_checksums st.sq st.nl st.sm msum).2.2,
                  pos := sortednlist_first st.pl }

/-- The consistency of a state of the search for order `N`: a
position's tag is empty exactly when its cell is empty, and exactly when the position is
not removed from the positions pool; a number is removed from the numbers pool exactly when
a cell holds it; both undo stacks have the same length and the cell of the `i`-th removed
position holds the `i`-th removed number; and no line has more holes than the length `len`
that `sortednlistsums_get` computes. -/
def magicsquare_invariant (N : Nat) (st : magicsquare_state) : Prop :=
  (∀ c, c < N * N →
    (st.numtypes.getD c 0 = MAGSQ_EMPTYPOS ↔ sumsquare_getnum st.sq c = 0) ∧
    (sumsquare_getnum st.sq c = 0 ↔ sortednlist_isremoved st.pl (c + 1) = false)) ∧
  (∀ v, 1 ≤ v → v ≤ N * N →
    (sortednlist_isremoved st.nl v = true ↔ ∃ c, c < N * N ∧ sumsquare_getnum st.sq c = v)) ∧
  sortednlist_nremoved st.nl = sortednlist_nremoved st.pl ∧
  (∀ i, i < sortednlist_nremoved st.pl →
    1 ≤ st.pl.stack.getD i 0 ∧ st.pl.stack.getD i 0 ≤ N * N ∧
    sumsquare_getnum st.sq (st.pl.stack.getD i 0 - 1) = st.nl.stack.getD i 0) ∧
  (∀ l, l < N + N + 2 →
    (sumsquare_getlinecount st.sq l).holes ≤ (sortednlistsums_get st.sm st.nl).len)

/-- The state `st`, at the top of the outer (`false`) or of the inner (`true`) loop, holds
some placements `fs`; at the top of the outer loop the cursor `pos` is either the first
open position or the position of the newest placement, at the top of the inner loop it is
the position of the newest placement. -/
def ReachInv (N : Nat) (plE nlE : List sortednlist_elem) (ord : List Nat) (b : Bool)
    (st : magicsquare_state) : Prop :=
  ∃ fs, Rep N plE nlE fs st ∧ FramesOk (N * N) fs ∧
    ((b = false ∧ ∃ rest, openOf ord fs = st.pos :: rest) ∨
      ∃ fs0 f, fs = fs0 ++ [f] ∧ st.pos = f.pos)

/-! ## Order 4: the accepted magic squares

The squares of order 4 that the level-4 test accepts are listed, and a search over the cells
checks that the list is complete: the cells are fixed in the order (0,0), (1,1), (2,2), (3,3),
(0,3), (3,0), (1,2), (2,1), (0,1), (0,2), (3,1), (3,2), (1,0), (2,0), (1,3), (2,3), where
seven cells run over `1..16` and the line sums give the nine others. The cell with index `i`
of the row-major grid is called `ki`. -/

/-- The 220 magic squares of order 4 that pass the level-4 test of `magicsquare_checkequiv`,
as row-major grids in lexicographic order. -/
def order4Squares : List (List Nat) :=
  [[(1 : Nat), 6, 15, 12, 16, 11, 2, 5, 4, 7, 14, 9, 13, 10, 3, 8],
   [(1 : Nat), 6, 16, 11, 15, 12, 2, 5, 4, 7, 13, 10, 14, 9, 3, 8],
   [(1 : Nat), 7, 14, 12, 8, 13, 2, 11, 9, 4, 15, 6, 16, 10, 3, 5],
   [(1 : Nat), 7, 14, 12, 11, 13, 2, 8, 6, 4, 15, 9, 16, 10, 3, 5],
   [(1 : Nat), 7, 14, 12, 16, 10, 3, 5, 4, 6, 15, 9, 13, 11, 2, 8],
   [(1 : Nat), 7, 16, 10, 14, 12, 3, 5, 4, 6, 13, 11, 15, 9, 2, 8],
   [(1 : Nat), 8, 11, 14, 12, 13, 2, 7, 6, 3, 16, 9, 15, 10, 5, 4],
   [(1 : Nat), 8, 12, 13, 7, 14, 2, 11, 10, 3, 15, 6, 16, 9, 5, 4],
   [(1 : Nat), 8, 12, 13, 11, 14, 2, 7, 6, 3, 15, 10, 16, 9, 5, 4],
   [(1 : Nat), 8, 13, 12, 14, 11, 2, 7, 4, 5, 16, 9, 15, 10, 3, 6],
   [(1 : Nat), 8, 13, 12, 15, 10, 3, 6, 4, 5, 16, 9, 14, 11, 2, 7],
   [(1 : Nat), 8, 13, 12, 16, 11, 2, 5, 3, 6, 15, 10, 14, 9, 4, 7],
   [(1 : Nat), 8, 14, 11, 7, 12, 2, 13, 10, 5, 15, 4, 16, 9, 3, 6],
   [(1 : Nat), 8, 14, 11, 13, 12, 2, 7, 4, 5, 15, 10, 16, 9, 3, 6],
   [(1 : Nat), 8, 15, 10, 6, 12, 3, 13, 11, 5, 14, 4, 16, 9, 2, 7],
   [(1 : Nat), 8, 15, 10, 13, 12, 3, 6, 4, 5, 14, 11, 16, 9, 2, 7],
   [(1 : Nat), 10, 15, 8, 5, 11, 4, 14, 12, 6, 13, 3, 16, 7, 2, 9],
   [(1 : Nat), 10, 15, 8, 14, 11, 4, 5, 3, 6, 13, 12, 16, 7, 2, 9],
   [(1 : Nat), 10, 15, 8, 16, 6, 3, 9, 5, 11, 14, 4, 12, 7, 2, 13],
   [(1 : Nat), 10, 15, 8, 16, 7, 2, 9, 4, 11, 14, 5, 13, 6, 3, 12],
   [(1 : Nat), 10, 15, 8, 16, 7, 2, 9, 6, 13, 12, 3, 11, 4, 5, 14],
   [(1 : Nat), 10, 16, 7, 15, 8, 2, 9, 4, 11, 13, 6, 14, 5, 3, 12],
   [(1 : Nat), 10, 16, 7, 15, 8, 2, 9, 6, 13, 11, 4, 12, 3, 5, 14],
   [(1 : Nat), 11, 14, 8, 16, 5, 4, 9, 7, 12, 13, 2, 10, 6, 3, 15],
   [(1 : Nat), 11, 14, 8, 16, 6, 3, 9, 4, 10, 15, 5, 13, 7, 2, 12],
   [(1 : Nat), 11, 14, 8, 16, 6, 3, 9, 7, 13, 12, 2, 10, 4, 5, 15],
   [(1 : Nat), 11, 16, 6, 14, 8, 3, 9, 4, 10, 13, 7, 15, 5, 2, 12],
   [(1 : Nat), 11, 16, 6, 14, 8, 3, 9, 7, 13, 10, 4, 12, 2, 5, 15],
   [(1 : Nat), 12, 7, 14, 8, 13, 2, 11, 10, 3, 16, 5, 15, 6, 9, 4],
   [(1 : Nat), 12, 8, 13, 7, 14, 2, 11, 10, 3, 15, 6, 16, 5, 9, 4],
   [(1 : Nat), 12, 8, 13, 11, 14, 2, 7, 6, 3, 15, 10, 16, 5, 9, 4],
   [(1 : Nat), 12, 13, 8, 6, 10, 3, 15, 11, 7, 14, 2, 16, 5, 4, 9],
   [(1 : Nat), 12, 13, 8, 14, 7, 2, 11, 4, 9, 16, 5, 15, 6, 3, 10],
   [(1 : Nat), 12, 13, 8, 15, 6, 3, 10, 4, 9, 16, 5, 14, 7, 2, 11],
   [(1 : Nat), 12, 13, 8, 15, 10, 3, 6, 2, 7, 14, 11, 16, 5, 4, 9],
   [(1 : Nat), 12, 13, 8, 16, 7, 2, 9, 3, 10, 15, 6, 14, 5, 4, 11],
   [(1 : Nat), 12, 13, 8, 16, 9, 4, 5, 2, 7, 14, 11, 15, 6, 3, 10],
   [(1 : Nat), 12, 14, 7, 11, 8, 2, 13, 6, 9, 15, 4, 16, 5, 3, 10],
   [(1 : Nat), 12, 14, 7, 13, 8, 2, 11, 4, 9, 15, 6, 16, 5, 3, 10],
   [(1 : Nat), 12, 14, 7, 15, 6, 4, 9, 8, 13, 11, 2, 10, 3, 5, 16],
   [(1 : Nat), 12, 15, 6, 7, 9, 4, 14, 10, 8, 13, 3, 16, 5, 2, 11],
   [(1 : Nat), 12, 15, 6, 10, 8, 3, 13, 7, 9, 14, 4, 16, 5, 2, 11],
   [(1 : Nat), 12, 15, 6, 13, 8, 3, 10, 4, 9, 14, 7, 16, 5, 2, 11],
   [(1 : Nat), 12, 15, 6, 14, 7, 4, 9, 8, 13, 10, 3, 11, 2, 5, 16],
   [(1 : Nat), 12, 15, 6, 14, 9, 4, 7, 3, 8, 13, 10, 16, 5, 2, 11],
   [(1 : Nat), 13, 8, 12, 16, 11, 2, 5, 3, 6, 15, 10, 14, 4, 9, 7],
   [(1 : Nat), 13, 12, 8, 6, 10, 3, 15, 11, 7, 14, 2, 16, 4, 5, 9],
   [(1 : Nat), 13, 12, 8, 15, 10, 3, 6, 2, 7, 14, 11, 16, 4, 5, 9],
   [(1 : Nat), 13, 12, 8, 16, 4, 5, 9, 6, 10, 15, 3, 11, 7, 2, 14],
   [(1 : Nat), 13, 12, 8, 16, 4, 5, 9, 7, 11, 14, 2, 10, 6, 3, 15],
   [(1 : Nat), 13, 12, 8, 16, 7, 2, 9, 3, 10, 15, 6, 14, 4, 5, 11],
   [(1 : Nat), 13, 16, 4, 12, 8, 5, 9, 6, 10, 11, 7, 15, 3, 2, 14],
   [(1 : Nat), 13, 16, 4, 12, 8, 5, 9, 7, 11, 10, 6, 14, 2, 3, 15],
   [(1 : Nat), 14, 7, 12, 8, 11, 2, 13, 10, 5, 16, 3, 15, 4, 9, 6],
   [(1 : Nat), 14, 7, 12, 8, 13, 2, 11, 9, 4, 15, 6, 16, 3, 10, 5],
   [(1 : Nat), 14, 7, 12, 11, 13, 2, 8, 6, 4, 15, 9, 16, 3, 10, 5],
   [(1 : Nat), 14, 8, 11, 7, 12, 2, 13, 10, 5, 15, 4, 16, 3, 9, 6],
   [(1 : Nat), 14, 8, 11, 13, 12, 2, 7, 4, 5, 15, 10, 16, 3, 9, 6],
   [(1 : Nat), 14, 11, 8, 12, 7, 2, 13, 6, 9, 16, 3, 15, 4, 5, 10],
   [(1 : Nat), 14, 11, 8, 15, 4, 5, 10, 6, 9, 16, 3, 12, 7, 2, 13],
   [(1 : Nat), 14, 11, 8, 16, 5, 4, 9, 7, 12, 13, 2, 10, 3, 6, 15],
   [(1 : Nat), 14, 12, 7, 11, 8, 2, 13, 6, 9, 15, 4, 16, 3, 5, 10],
   [(1 : Nat), 14, 12, 7, 13, 8, 2, 11, 4, 9, 15, 6, 16, 3, 5, 10],
   [(1 : Nat), 14, 12, 7, 15, 4, 6, 9, 8, 11, 13, 2, 10, 5, 3, 16],
   [(1 : Nat), 14, 15, 4, 7, 9, 6, 12, 10, 8, 11, 5, 16, 3, 2, 13],
   [(1 : Nat), 14, 15, 4, 10, 8, 5, 11, 7, 9, 12, 6, 16, 3, 2, 13],
   [(1 : Nat), 14, 15, 4, 11, 8, 5, 10, 6, 9, 12, 7, 16, 3, 2, 13],
   [(1 : Nat), 14, 15, 4, 12, 7, 6, 9, 8, 11, 10, 5, 13, 2, 3, 16],
   [(1 : Nat), 14, 15, 4, 12, 9, 6, 7, 5, 8, 11, 10, 16, 3, 2, 13],
   [(1 : Nat), 15, 6, 12, 8, 10, 3, 13, 11, 5, 16, 2, 14, 4, 9, 7],
   [(1 : Nat), 15, 8, 10, 6, 12, 3, 13, 11, 5, 14, 4, 16, 2, 9, 7],
   [(1 : Nat), 15, 8, 10, 13, 12, 3, 6, 4, 5, 14, 11, 16, 2, 9, 7],
   [(1 : Nat), 15, 10, 8, 5, 11, 4, 14, 12, 6, 13, 3, 16, 2, 7, 9],
   [(1 : Nat), 15, 10, 8, 12, 6, 3, 13, 7, 9, 16, 2, 14, 4, 5, 11],
   [(1 : Nat), 15, 10, 8, 14, 4, 5, 11, 7, 9, 16, 2, 12, 6, 3, 13],
   [(1 : Nat), 15, 10, 8, 14, 11, 4, 5, 3, 6, 13, 12, 16, 2, 7, 9],
   [(1 : Nat), 15, 10, 8, 16, 6, 3, 9, 5, 11, 14, 4, 12, 2, 7, 13],
   [(1 : Nat), 15, 12, 6, 7, 9, 4, 14, 10, 8, 13, 3, 16, 2, 5, 11],
   [(1 : Nat), 15, 12, 6, 10, 8, 3, 13, 7, 9, 14, 4, 16, 2, 5, 11],
   [(1 : Nat), 15, 12, 6, 13, 8, 3, 10, 4, 9, 14, 7, 16, 2, 5, 11],
   [(1 : Nat), 15, 12, 6, 14, 4, 7, 9, 8, 10, 13, 3, 11, 5, 2, 16],
   [(1 : Nat), 15, 12, 6, 14, 9, 4, 7, 3, 8, 13, 10, 16, 2, 5, 11],
   [(1 : Nat), 15, 14, 4, 7, 9, 6, 12, 10, 8, 11, 5, 16, 2, 3, 13],
   [(1 : Nat), 15, 14, 4, 10, 8, 5, 11, 7, 9, 12, 6, 16, 2, 3, 13],
   [(1 : Nat), 15, 14, 4, 11, 8, 5, 10, 6, 9, 12, 7, 16, 2, 3, 13],
   [(1 : Nat), 15, 14, 4, 12, 6, 7, 9, 8, 10, 11, 5, 13, 3, 2, 16],
   [(1 : Nat), 15, 14, 4, 12, 9, 6, 7, 5, 8, 11, 10, 16, 2, 3, 13],
   [(1 : Nat), 16, 5, 12, 8, 13, 4, 9, 10, 3, 14, 7, 15, 2, 11, 6],
   [(1 : Nat), 16, 5, 12, 10, 13, 4, 7, 8, 3, 14, 9, 15, 2, 11, 6],
   [(1 : Nat), 16, 6, 11, 7, 10, 4, 13, 12, 5, 15, 2, 14, 3, 9, 8],
   [(1 : Nat), 16, 7, 10, 6, 11, 4, 13, 12, 5, 14, 3, 15, 2, 9, 8],
   [(1 : Nat), 16, 9, 8, 4, 10, 7, 13, 15, 5, 12, 2, 14, 3, 6, 11],
   [(1 : Nat), 16, 9, 8, 4, 11, 6, 13, 14, 5, 12, 3, 15, 2, 7, 10],
   [(1 : Nat), 16, 9, 8, 14, 5, 4, 11, 7, 10, 15, 2, 12, 3, 6, 13],
   [(1 : Nat), 16, 9, 8, 14, 11, 6, 3, 4, 5, 12, 13, 15, 2, 7, 10],
   [(1 : Nat), 16, 9, 8, 15, 10, 7, 2, 4, 5, 12, 13, 14, 3, 6, 11],
   [(1 : Nat), 16, 10, 7, 11, 6, 4, 13, 8, 9, 15, 2, 14, 3, 5, 12],
   [(1 : Nat), 16, 10, 7, 13, 4, 6, 11, 8, 9, 15, 2, 12, 5, 3, 14],
   [(1 : Nat), 16, 11, 6, 10, 7, 4, 13, 8, 9, 14, 3, 15, 2, 5, 12],
   [(1 : Nat), 16, 11, 6, 13, 4, 7, 10, 8, 9, 14, 3, 12, 5, 2, 15],
   [(1 : Nat), 16, 13, 4, 6, 9, 8, 11, 12, 7, 10, 5, 15, 2, 3, 14],
   [(1 : Nat), 16, 13, 4, 10, 7, 6, 11, 8, 9, 12, 5, 15, 2, 3, 14],
   [(1 : Nat), 16, 13, 4, 11, 6, 7, 10, 8, 9, 12, 5, 14, 3, 2, 15],
   [(1 : Nat), 16, 13, 4, 12, 9, 8, 5, 6, 7, 10, 11, 15, 2, 3, 14],
   [(2 : Nat), 5, 16, 11, 15, 10, 3, 6, 4, 7, 14, 9, 13, 12, 1, 8],
   [(2 : Nat), 6, 15, 11, 7, 13, 4, 10, 9, 3, 14, 8, 16, 12, 1, 5],
   [(2 : Nat), 6, 15, 11, 9, 13, 4, 8, 7, 3, 14, 10, 16, 12, 1, 5],
   [(2 : Nat), 7, 14, 11, 8, 10, 3, 13, 9, 5, 16, 4, 15, 12, 1, 6],
   [(2 : Nat), 7, 14, 11, 13, 10, 3, 8, 4, 5, 16, 9, 15, 12, 1, 6],
   [(2 : Nat), 7, 14, 11, 16, 9, 4, 5, 3, 6, 15, 10, 13, 12, 1, 8],
   [(2 : Nat), 7, 16, 9, 5, 11, 4, 14, 12, 6, 13, 3, 15, 10, 1, 8],
   [(2 : Nat), 7, 16, 9, 14, 11, 4, 5, 3, 6, 13, 12, 15, 10, 1, 8],
   [(2 : Nat), 8, 13, 11, 15, 9, 4, 6, 3, 5, 16, 10, 14, 12, 1, 7],
   [(2 : Nat), 8, 15, 9, 13, 11, 4, 6, 3, 5, 14, 12, 16, 10, 1, 7],
   [(2 : Nat), 9, 16, 7, 15, 5, 4, 10, 6, 12, 13, 3, 11, 8, 1, 14],
   [(2 : Nat), 9, 16, 7, 15, 6, 3, 10, 4, 11, 14, 5, 13, 8, 1, 12],
   [(2 : Nat), 10, 15, 7, 3, 11, 6, 14, 13, 5, 12, 4, 16, 8, 1, 9],
   [(2 : Nat), 10, 15, 7, 13, 11, 6, 4, 3, 5, 12, 14, 16, 8, 1, 9],
   [(2 : Nat), 11, 13, 8, 16, 5, 3, 10, 7, 14, 12, 1, 9, 4, 6, 15],
   [(2 : Nat), 11, 14, 7, 5, 9, 4, 16, 12, 8, 13, 1, 15, 6, 3, 10],
   [(2 : Nat), 11, 14, 7, 12, 6, 3, 13, 5, 9, 16, 4, 15, 8, 1, 10],
   [(2 : Nat), 11, 14, 7, 13, 6, 3, 12, 4, 9, 16, 5, 15, 8, 1, 10],
   [(2 : Nat), 11, 14, 7, 15, 4, 5, 10, 8, 13, 12, 1, 9, 6, 3, 16],
   [(2 : Nat), 11, 14, 7, 15, 10, 3, 6, 1, 8, 13, 12, 16, 5, 4, 9],
   [(2 : Nat), 11, 14, 7, 16, 5, 4, 9, 3, 10, 15, 6, 13, 8, 1, 12],
   [(2 : Nat), 11, 14, 7, 16, 9, 4, 5, 1, 8, 13, 12, 15, 6, 3, 10],
   [(2 : Nat), 11, 16, 5, 9, 7, 4, 14, 8, 10, 13, 3, 15, 6, 1, 12],
   [(2 : Nat), 11, 16, 5, 13, 8, 3, 10, 7, 14, 9, 4, 12, 1, 6, 15],
   [(2 : Nat), 11, 16, 5, 14, 7, 4, 9, 3, 10, 13, 8, 15, 6, 1, 12],
   [(2 : Nat), 12, 13, 7, 15, 5, 4, 10, 3, 9, 16, 6, 14, 8, 1, 11],
   [(2 : Nat), 12, 13, 7, 15, 5, 4, 10, 8, 14, 11, 1, 9, 3, 6, 16],
   [(2 : Nat), 12, 15, 5, 13, 7, 4, 10, 3, 9, 14, 8, 16, 6, 1, 11],
   [(2 : Nat), 12, 15, 5, 13, 7, 4, 10, 8, 14, 9, 3, 11, 1, 6, 16],
   [(2 : Nat), 13, 11, 8, 16, 3, 5, 10, 7, 12, 14, 1, 9, 6, 4, 15],
   [(2 : Nat), 13, 12, 7, 16, 3, 6, 9, 5, 10, 15, 4, 11, 8, 1, 14],
   [(2 : Nat), 13, 16, 3, 9, 7, 6, 12, 8, 10, 11, 5, 15, 4, 1, 14],
   [(2 : Nat), 13, 16, 3, 11, 8, 5, 10, 7, 12, 9, 6, 14, 1, 4, 15],
   [(2 : Nat), 13, 16, 3, 12, 7, 6, 9, 5, 10, 11, 8, 15, 4, 1, 14],
   [(2 : Nat), 14, 11, 7, 5, 9, 4, 16, 12, 8, 13, 1, 15, 3, 6, 10],
   [(2 : Nat), 14, 11, 7, 15, 3, 6, 10, 5, 9, 16, 4, 12, 8, 1, 13],
   [(2 : Nat), 14, 11, 7, 15, 3, 6, 10, 8, 12, 13, 1, 9, 5, 4, 16],
   [(2 : Nat), 14, 11, 7, 15, 4, 5, 10, 8, 13, 12, 1, 9, 3, 6, 16],
   [(2 : Nat), 14, 11, 7, 16, 9, 4, 5, 1, 8, 13, 12, 15, 3, 6, 10],
   [(2 : Nat), 14, 15, 3, 5, 9, 8, 12, 11, 7, 10, 6, 16, 4, 1, 13],
   [(2 : Nat), 14, 15, 3, 11, 7, 6, 10, 5, 9, 12, 8, 16, 4, 1, 13],
   [(2 : Nat), 14, 15, 3, 11, 7, 6, 10, 8, 12, 9, 5, 13, 1, 4, 16],
   [(2 : Nat), 14, 15, 3, 11, 9, 8, 6, 5, 7, 10, 12, 16, 4, 1, 13],
   [(2 : Nat), 15, 5, 12, 8, 9, 3, 14, 11, 6, 16, 1, 13, 4, 10, 7],
   [(2 : Nat), 15, 8, 9, 5, 12, 3, 14, 11, 6, 13, 4, 16, 1, 10, 7],
   [(2 : Nat), 15, 9, 8, 12, 5, 3, 14, 7, 10, 16, 1, 13, 4, 6, 11],
   [(2 : Nat), 15, 9, 8, 14, 3, 5, 12, 7, 10, 16, 1, 11, 6, 4, 13],
   [(2 : Nat), 15, 10, 7, 3, 9, 8, 14, 16, 6, 11, 1, 13, 4, 5, 12],
   [(2 : Nat), 15, 10, 7, 11, 4, 5, 14, 8, 9, 16, 1, 13, 6, 3, 12],
   [(2 : Nat), 15, 10, 7, 16, 9, 8, 1, 3, 6, 11, 14, 13, 4, 5, 12],
   [(2 : Nat), 15, 12, 5, 9, 8, 3, 14, 7, 10, 13, 4, 16, 1, 6, 11],
   [(2 : Nat), 15, 12, 5, 14, 3, 8, 9, 7, 10, 13, 4, 11, 6, 1, 16],
   [(2 : Nat), 15, 14, 3, 9, 8, 5, 12, 7, 10, 11, 6, 16, 1, 4, 13],
   [(2 : Nat), 15, 14, 3, 12, 5, 8, 9, 7, 10, 11, 6, 13, 4, 1, 16],
   [(2 : Nat), 16, 5, 11, 7, 9, 4, 14, 12, 6, 15, 1, 13, 3, 10, 8],
   [(2 : Nat), 16, 5, 11, 15, 10, 3, 6, 4, 7, 14, 9, 13, 1, 12, 8],
   [(2 : Nat), 16, 7, 9, 5, 11, 4, 14, 12, 6, 13, 3, 15, 1, 10, 8],
   [(2 : Nat), 16, 7, 9, 14, 11, 4, 5, 3, 6, 13, 12, 15, 1, 10, 8],
   [(2 : Nat), 16, 9, 7, 11, 5, 4, 14, 8, 10, 15, 1, 13, 3, 6, 12],
   [(2 : Nat), 16, 9, 7, 13, 3, 6, 12, 8, 10, 15, 1, 11, 5, 4, 14],
   [(2 : Nat), 16, 9, 7, 15, 5, 4, 10, 6, 12, 13, 3, 11, 1, 8, 14],
   [(2 : Nat), 16, 9, 7, 15, 6, 3, 10, 4, 11, 14, 5, 13, 1, 8, 12],
   [(2 : Nat), 16, 11, 5, 9, 7, 4, 14, 8, 10, 13, 3, 15, 1, 6, 12],
   [(2 : Nat), 16, 11, 5, 13, 3, 8, 10, 7, 9, 14, 4, 12, 6, 1, 15],
   [(2 : Nat), 16, 11, 5, 14, 7, 4, 9, 3, 10, 13, 8, 15, 1, 6, 12],
   [(2 : Nat), 16, 13, 3, 9, 7, 6, 12, 8, 10, 11, 5, 15, 1, 4, 14],
   [(2 : Nat), 16, 13, 3, 11, 5, 8, 10, 7, 9, 12, 6, 14, 4, 1, 15],
   [(2 : Nat), 16, 13, 3, 12, 7, 6, 9, 5, 10, 11, 8, 15, 1, 4, 14],
   [(3 : Nat), 6, 15, 10, 16, 9, 4, 5, 2, 7, 14, 11, 13, 12, 1, 8],
   [(3 : Nat), 6, 16, 9, 5, 10, 4, 15, 12, 7, 13, 2, 14, 11, 1, 8],
   [(3 : Nat), 6, 16, 9, 15, 10, 4, 5, 2, 7, 13, 12, 14, 11, 1, 8],
   [(3 : Nat), 8, 13, 10, 5, 9, 4, 16, 12, 6, 15, 1, 14, 11, 2, 7],
   [(3 : Nat), 8, 13, 10, 14, 9, 4, 7, 2, 5, 16, 11, 15, 12, 1, 6],
   [(3 : Nat), 8, 13, 10, 16, 9, 4, 5, 1, 6, 15, 12, 14, 11, 2, 7],
   [(3 : Nat), 8, 14, 9, 13, 10, 4, 7, 2, 5, 15, 12, 16, 11, 1, 6],
   [(3 : Nat), 9, 16, 6, 14, 4, 5, 11, 7, 13, 12, 2, 10, 8, 1, 15],
   [(3 : Nat), 10, 15, 6, 16, 5, 4, 9, 2, 11, 14, 7, 13, 8, 1, 12],
   [(3 : Nat), 10, 16, 5, 9, 6, 4, 15, 8, 11, 13, 2, 14, 7, 1, 12],
   [(3 : Nat), 10, 16, 5, 15, 6, 4, 9, 2, 11, 13, 8, 14, 7, 1, 12],
   [(3 : Nat), 11, 14, 6, 2, 10, 7, 15, 13, 5, 12, 4, 16, 8, 1, 9],
   [(3 : Nat), 11, 14, 6, 13, 10, 7, 4, 2, 5, 12, 15, 16, 8, 1, 9],
   [(3 : Nat), 12, 13, 6, 9, 5, 4, 16, 8, 10, 15, 1, 14, 7, 2, 11],
   [(3 : Nat), 12, 13, 6, 14, 5, 4, 11, 2, 9, 16, 7, 15, 8, 1, 10],
   [(3 : Nat), 12, 13, 6, 14, 5, 4, 11, 8, 15, 10, 1, 9, 2, 7, 16],
   [(3 : Nat), 12, 13, 6, 16, 5, 4, 9, 1, 10, 15, 8, 14, 7, 2, 11],
   [(3 : Nat), 12, 14, 5, 13, 6, 4, 11, 2, 9, 15, 8, 16, 7, 1, 10],
   [(3 : Nat), 12, 14, 5, 13, 6, 4, 11, 8, 15, 9, 2, 10, 1, 7, 16],
   [(3 : Nat), 13, 12, 6, 10, 4, 5, 15, 7, 9, 16, 2, 14, 8, 1, 11],
   [(3 : Nat), 13, 12, 6, 15, 4, 5, 10, 2, 9, 16, 7, 14, 8, 1, 11],
   [(3 : Nat), 14, 7, 10, 2, 11, 6, 15, 16, 5, 12, 1, 13, 4, 9, 8],
   [(3 : Nat), 14, 7, 10, 16, 11, 6, 1, 2, 5, 12, 15, 13, 4, 9, 8],
   [(3 : Nat), 14, 11, 6, 2, 9, 8, 15, 16, 7, 10, 1, 13, 4, 5, 12],
   [(3 : Nat), 14, 11, 6, 16, 9, 8, 1, 2, 7, 10, 15, 13, 4, 5, 12],
   [(3 : Nat), 16, 5, 10, 6, 9, 4, 15, 12, 7, 14, 1, 13, 2, 11, 8],
   [(3 : Nat), 16, 6, 9, 5, 10, 4, 15, 12, 7, 13, 2, 14, 1, 11, 8],
   [(3 : Nat), 16, 6, 9, 15, 10, 4, 5, 2, 7, 13, 12, 14, 1, 11, 8],
   [(3 : Nat), 16, 9, 6, 10, 5, 4, 15, 8, 11, 14, 1, 13, 2, 7, 12],
   [(3 : Nat), 16, 9, 6, 14, 4, 5, 11, 7, 13, 12, 2, 10, 1, 8, 15],
   [(3 : Nat), 16, 10, 5, 9, 6, 4, 15, 8, 11, 13, 2, 14, 1, 7, 12],
   [(3 : Nat), 16, 10, 5, 15, 6, 4, 9, 2, 11, 13, 8, 14, 1, 7, 12],
   [(4 : Nat), 6, 15, 9, 3, 10, 5, 16, 14, 7, 12, 1, 13, 11, 2, 8],
   [(4 : Nat), 6, 15, 9, 16, 10, 5, 3, 1, 7, 12, 14, 13, 11, 2, 8],
   [(4 : Nat), 8, 13, 9, 1, 11, 6, 16, 15, 5, 12, 2, 14, 10, 3, 7],
   [(4 : Nat), 8, 13, 9, 15, 11, 6, 2, 1, 5, 12, 16, 14, 10, 3, 7],
   [(4 : Nat), 12, 13, 5, 1, 9, 8, 16, 14, 6, 11, 3, 15, 7, 2, 10],
   [(4 : Nat), 12, 13, 5, 1, 9, 8, 16, 15, 7, 10, 2, 14, 6, 3, 11],
   [(4 : Nat), 12, 13, 5, 14, 9, 8, 3, 1, 6, 11, 16, 15, 7, 2, 10],
   [(4 : Nat), 12, 13, 5, 15, 9, 8, 2, 1, 7, 10, 16, 14, 6, 3, 11],
   [(4 : Nat), 15, 6, 9, 3, 10, 5, 16, 14, 7, 12, 1, 13, 2, 11, 8],
   [(4 : Nat), 15, 6, 9, 16, 10, 5, 3, 1, 7, 12, 14, 13, 2, 11, 8],
   [(5 : Nat), 4, 15, 10, 16, 9, 6, 3, 2, 7, 12, 13, 11, 14, 1, 8],
   [(5 : Nat), 4, 16, 9, 3, 10, 6, 15, 14, 7, 11, 2, 12, 13, 1, 8],
   [(5 : Nat), 4, 16, 9, 15, 10, 6, 3, 2, 7, 11, 14, 12, 13, 1, 8],
   [(5 : Nat), 16, 3, 10, 4, 9, 6, 15, 14, 7, 12, 1, 11, 2, 13, 8],
   [(5 : Nat), 16, 4, 9, 3, 10, 6, 15, 14, 7, 11, 2, 12, 1, 13, 8],
   [(5 : Nat), 16, 4, 9, 15, 10, 6, 3, 2, 7, 11, 14, 12, 1, 13, 8]]

/-- The check `f` holds of each of the numbers `1..16`. -/
def all16 (f : Nat → Bool) : Bool :=
  f 1 && (f 2 && (f 3 && (f 4 && (f 5 && (f 6 && (f 7 && (f 8 && (f 9 && (f 10 && (f 11 && (f 12
    && (f 13 && (f 14 && (f 15 && (f 16)))))))))))))))

/-- Step 16 of the order-4 search check: when the cell (2,3), `k11`, is one of `1..16` and differs
from the cells fixed before it, the grid is one of `order4Squares`. -/
def order4Step16 (k0 k5 k10 k15 k3 k12 k6 k9 k1 k2 k13 k14 k4 k8 k7 k11 : Nat) : Bool :=
  !(Nat.ble 1 k11 && (Nat.ble k11 16 && (!Nat.beq k0 k11 && (!Nat.beq k5 k11 && (!Nat.beq k10 k11
    && (!Nat.beq k15 k11 && (!Nat.beq k3 k11 && (!Nat.beq k12 k11 && (!Nat.beq k6 k11 && (!Nat.beq
    k9 k11 && (!Nat.beq k1 k11 && (!Nat.beq k2 k11 && (!Nat.beq k13 k11 && (!Nat.beq k14 k11 &&
    (!Nat.beq k4 k11 && (!Nat.beq k8 k11 && (!Nat.beq k7 k11))))))))))))))))) ||
    order4Squares.contains [k0, k1, k2, k3, k4, k5, k6, k7, k8, k9, k10, k11, k12, k13, k14, k15]

/-- Step 15 of the order-4 search check: when the cell (1,3), `k7`, is one of `1..16` and differs
from the cells fixed before it, the check goes on with the cell (2,3) that the line sums give,
`34 - k8 - k9 - k10`. -/
def order4Step15 (k0 k5 k10 k15 k3 k12 k6 k9 k1 k2 k13 k14 k4 k8 k7 : Nat) : Bool :=
  !(Nat.ble 1 k7 && (Nat.ble k7 16 && (!Nat.beq k0 k7 && (!Nat.beq k5 k7 && (!Nat.beq k10 k7 &&
    (!Nat.beq k15 k7 && (!Nat.beq k3 k7 && (!Nat.beq k12 k7 && (!Nat.beq k6 k7 && (!Nat.beq k9 k7
    && (!Nat.beq k1 k7 && (!Nat.beq k2 k7 && (!Nat.beq k13 k7 && (!Nat.beq k14 k7 && (!Nat.beq k4
    k7 && (!Nat.beq k8 k7)))))))))))))))) ||
    order4Step16 k0 k5 k10 k15 k3 k12 k6 k9 k1 k2 k13 k14 k4 k8 k7 (Nat.sub (Nat.sub (Nat.sub 34
      k8) k9) k10)

/-- Step 14 of the order-4 search check: when the cell (2,0), `k8`, is one of `1..16` and differs
from the cells fixed before it, the check goes on with the cell (1,3) that the line sums give,
`34 - k4 - k5 - k6`. -/
def order4Step14 (k0 k5 k10 k15 k3 k12 k6 k9 k1 k2 k13 k14 k4 k8 : Nat) : Bool :=
  !(Nat.ble 1 k8 && (Nat.ble k8 16 && (!Nat.beq k0 k8 && (!Nat.beq k5 k8 && (!Nat.beq k10 k8 &&
    (!Nat.beq k15 k8 && (!Nat.beq k3 k8 && (!Nat.beq k12 k8 && (!Nat.beq k6 k8 && (!Nat.beq k9 k8
    && (!Nat.beq k1 k8 && (!Nat.beq k2 k8 && (!Nat.beq k13 k8 && (!Nat.beq k14 k8 && (!Nat.beq k4
    k8))))))))))))))) ||
    order4Step15 k0 k5 k10 k15 k3 k12 k6 k9 k1 k2 k13 k14 k4 k8 (Nat.sub (Nat.sub (Nat.sub 34 k4)
      k5) k6)

/-- Step 13 of the order-4 search check: when the cell (1,0), `k4`, differs from the cells fixed
before it, the check goes on with the cell (2,0) that the line sums give, `34 - k0 - k4 - k12`. -/
def order4Step13 (k0 k5 k10 k15 k3 k12 k6 k9 k1 k2 k13 k14 k4 : Nat) : Bool :=
  !(!Nat.beq k0 k4 && (!Nat.beq k5 k4 && (!Nat.beq k10 k4 && (!Nat.beq k15 k4 && (!Nat.beq k3 k4
    && (!Nat.beq k12 k4 && (!Nat.beq k6 k4 && (!Nat.beq k9 k4 && (!Nat.beq k1 k4 && (!Nat.beq k2
    k4 && (!Nat.beq k13 k4 && (!Nat.beq k14 k4)))))))))))) ||
    order4Step14 k0 k5 k10 k15 k3 k12 k6 k9 k1 k2 k13 k14 k4 (Nat.sub (Nat.sub (Nat.sub 34 k0) k4)
      k12)

/-- Step 12 of the order-4 search check: when the cell (3,2), `k14`, is one of `1..16` and differs
from the cells fixed before it, the check goes on with each value of the cell (1,0). -/
def order4Step12 (k0 k5 k10 k15 k3 k12 k6 k9 k1 k2 k13 k14 : Nat) : Bool :=
  !(Nat.ble 1 k14 && (Nat.ble k14 16 && (!Nat.beq k0 k14 && (!Nat.beq k5 k14 && (!Nat.beq k10 k14
    && (!Nat.beq k15 k14 && (!Nat.beq k3 k14 && (!Nat.beq k12 k14 && (!Nat.beq k6 k14 && (!Nat.beq
    k9 k14 && (!Nat.beq k1 k14 && (!Nat.beq k2 k14 && (!Nat.beq k13 k14))))))))))))) ||
    all16 (order4Step13 k0 k5 k10 k15 k3 k12 k6 k9 k1 k2 k13 k14)

/-- Step 11 of the order-4 search check: when the cell (3,1), `k13`, is one of `1..16` and differs
from the cells fixed before it, the check goes on with the cell (3,2) that the line sums give,
`34 - k12 - k13 - k15`. -/
def order4Step11 (k0 k5 k10 k15 k3 k12 k6 k9 k1 k2 k13 : Nat) : Bool :=
  !(Nat.ble 1 k13 && (Nat.ble k13 16 && (!Nat.beq k0 k13 && (!Nat.beq k5 k13 && (!Nat.beq k10 k13
    && (!Nat.beq k15 k13 && (!Nat.beq k3 k13 && (!Nat.beq k12 k13 && (!Nat.beq k6 k13 && (!Nat.beq
    k9 k13 && (!Nat.beq k1 k13 && (!Nat.beq k2 k13)))))))))))) ||
    order4Step12 k0 k5 k10 k15 k3 k12 k6 k9 k1 k2 k13 (Nat.sub (Nat.sub (Nat.sub 34 k12) k13) k15)

/-- Step 10 of the order-4 search check: when the cell (0,2), `k2`, is one of `1..16` and differs
from the cells fixed before it, the check goes on with the cell (3,1) that the line sums give,
`34 - k1 - k5 - k9`. -/
def order4Step10 (k0 k5 k10 k15 k3 k12 k6 k9 k1 k2 : Nat) : Bool :=
  !(Nat.ble 1 k2 && (Nat.ble k2 16 && (!Nat.beq k0 k2 && (!Nat.beq k5 k2 && (!Nat.beq k10 k2 &&
    (!Nat.beq k15 k2 && (!Nat.beq k3 k2 && (!Nat.beq k12 k2 && (!Nat.beq k6 k2 && (!Nat.beq k9 k2
    && (!Nat.beq k1 k2))))))))))) ||
    order4Step11 k0 k5 k10 k15 k3 k12 k6 k9 k1 k2 (Nat.sub (Nat.sub (Nat.sub 34 k1) k5) k9)

/-- Step 9 of the order-4 search check: when the cell (0,1), `k1`, differs from the cells fixed
before it, the check goes on with the cell (0,2) that the line sums give, `34 - k0 - k1 - k3`. -/
def order4Step9 (k0 k5 k10 k15 k3 k12 k6 k9 k1 : Nat) : Bool :=
  !(!Nat.beq k0 k1 && (!Nat.beq k5 k1 && (!Nat.beq k10 k1 && (!Nat.beq k15 k1 && (!Nat.beq k3 k1
    && (!Nat.beq k12 k1 && (!Nat.beq k6 k1 && (!Nat.beq k9 k1)))))))) ||
    order4Step10 k0 k5 k10 k15 k3 k12 k6 k9 k1 (Nat.sub (Nat.sub (Nat.sub 34 k0) k1) k3)

/-- Step 8 of the order-4 search check: when the cell (2,1), `k9`, is one of `1..16`, is not below
`k0` and differs from the cells fixed before it, the check goes on with each value of the cell
(0,1). -/
def order4Step8 (k0 k5 k10 k15 k3 k12 k6 k9 : Nat) : Bool :=
  !(Nat.ble 1 k9 && (Nat.ble k9 16 && (Nat.ble k0 k9 && (!Nat.beq k0 k9 && (!Nat.beq k5 k9 &&
    (!Nat.beq k10 k9 && (!Nat.beq k15 k9 && (!Nat.beq k3 k9 && (!Nat.beq k12 k9 && (!Nat.beq k6
    k9)))))))))) ||
    all16 (order4Step9 k0 k5 k10 k15 k3 k12 k6 k9)

/-- Step 7 of the order-4 search check: when the cell (1,2), `k6`, is not below `k0` and differs
from the cells fixed before it, the check goes on with the cell (2,1) that the line sums give,
`34 - k3 - k6 - k12`. -/
def order4Step7 (k0 k5 k10 k15 k3 k12 k6 : Nat) : Bool :=
  !(Nat.ble k0 k6 && (!Nat.beq k0 k6 && (!Nat.beq k5 k6 && (!Nat.beq k10 k6 && (!Nat.beq k15 k6 &&
    (!Nat.beq k3 k6 && (!Nat.beq k12 k6))))))) ||
    order4Step8 k0 k5 k10 k15 k3 k12 k6 (Nat.sub (Nat.sub (Nat.sub 34 k3) k6) k12)

/-- Step 6 of the order-4 search check: when the cell (3,0), `k12`, is one of `1..16`, is not below
`k3` and differs from the cells fixed before it, the check goes on with each value of the cell
(1,2). -/
def order4Step6 (k0 k5 k10 k15 k3 k12 : Nat) : Bool :=
  !(Nat.ble 1 k12 && (Nat.ble k12 16 && (Nat.ble k3 k12 && (!Nat.beq k0 k12 && (!Nat.beq k5 k12 &&
    (!Nat.beq k10 k12 && (!Nat.beq k15 k12 && (!Nat.beq k3 k12)))))))) ||
    all16 (order4Step7 k0 k5 k10 k15 k3 k12)

/-- Step 5 of the order-4 search check: when the cell (0,3), `k3`, is not below `k0` and differs
from the cells fixed before it, the check goes on with the cell (3,0) that the line sums give,
`k5 + k10 - k3`. -/
def order4Step5 (k0 k5 k10 k15 k3 : Nat) : Bool :=
  !(Nat.ble k0 k3 && (!Nat.beq k0 k3 && (!Nat.beq k5 k3 && (!Nat.beq k10 k3 && (!Nat.beq k15
    k3))))) ||
    order4Step6 k0 k5 k10 k15 k3 (Nat.sub (Nat.add k5 k10) k3)

/-- Step 4 of the order-4 search check: when the cell (3,3), `k15`, is one of `1..16`, is not below
`k0` and differs from the cells fixed before it, the check goes on with each value of the cell
(0,3). -/
def order4Step4 (k0 k5 k10 k15 : Nat) : Bool :=
  !(Nat.ble 1 k15 && (Nat.ble k15 16 && (Nat.ble k0 k15 && (!Nat.beq k0 k15 && (!Nat.beq k5 k15 &&
    (!Nat.beq k10 k15)))))) ||
    all16 (order4Step5 k0 k5 k10 k15)

/-- Step 3 of the order-4 search check: when the cell (2,2), `k10`, is not below `k5` and differs
from the cells fixed before it, the check goes on with the cell (3,3) that the line sums give,
`34 - k0 - k5 - k10`. -/
def order4Step3 (k0 k5 k10 : Nat) : Bool :=
  !(Nat.ble k5 k10 && (!Nat.beq k0 k10 && (!Nat.beq k5 k10))) ||
    order4Step4 k0 k5 k10 (Nat.sub (Nat.sub (Nat.sub 34 k0) k5) k10)

/-- Step 2 of the order-4 search check: when the cell (1,1), `k5`, is not below `k0` and differs
from the cells fixed before it, the check goes on with each value of the cell (2,2). -/
def order4Step2 (k0 k5 : Nat) : Bool :=
  !(Nat.ble k0 k5 && (!Nat.beq k0 k5)) ||
    all16 (order4Step3 k0 k5)

/-- Step 1 of the order-4 search check: the check goes on with each value of the cell (1,1). -/
def order4Step1 (k0 : Nat) : Bool :=
  all16 (order4Step2 k0)

/-- The order-4 search check, over all values of the top-left corner: every grid of sixteen
distinct numbers of `1..16` whose lines sum to 34 and that has its corners and inner cells in
the order the level-4 test asks for is one of `order4Squares`. -/
def order4Search : Bool :=
  all16 order4Step1

theorem getD_set_eq {α : Type} (l : List α) (i j : Nat) (v d : α) :
    (l.set i v).getD j d = if i = j ∧ i < l.length then v else l.getD j d := by
  simp only [List.getD_eq_getElem?_getD, List.getElem?_set]
  by_cases h : i = j
  · subst h
    by_cases h2 : i < l.length
    · simp [h2]
    · have h3 : l[i]? = none := List.getElem?_eq_none (by omega)
      simp [h2, h3]
  · simp [h]

theorem cellrelation_init_lines (N c : Nat) (hN : N * N ≤ 255) (hc : c < N * N) :
    (sumsquare_cellrelation_init c N).celllines =
      [c / N, N + c % N] ++ (if c / N = c % N then [N + N] else [])
        ++ (if c / N + c % N + 1 = N then [N + N + 1] else []) ∧
    (sumsquare_cellrelation_init c N).ncelllines
      = (sumsquare_cellrelation_init c N).celllines.length := by
  have hN0 : 0 < N := by
    rcases Nat.eq_zero_or_pos N with h | h
    · subst h; simp at hc
    · exact h
  have hN16 : N < 16 := by
    by_contra h
    have : 16 * 16 ≤ N * N := Nat.mul_le_mul (by omega) (by omega)
    omega
  have hi : c / N < N := by
    rw [Nat.div_lt_iff_lt_mul hN0]; exact hc
  have hj : c % N < N := Nat.mod_lt _ hN0
  unfold sumsquare_cellrelation_init
  simp only []
  have e1 : (c / N) % 256 = c / N := Nat.mod_eq_of_lt (by omega)
  have e2 : (N + c % N) % 256 = N + c % N := Nat.mod_eq_of_lt (by omega)
  have e3 : (N + N) % 256 = N + N := Nat.mod_eq_of_lt (by omega)
  have e4 : (N + N + 1) % 256 = N + N + 1 := Nat.mod_eq_of_lt (by omega)
  rw [e1, e2, e3, e4]
  constructor
  · split_ifs <;> simp
  · trivial



/-- One step of the loops of `sumsquare_setnum` over the lines of a cell. -/
theorem addsums_length (cell : sumsquare_cellrelation) (d : Int) (k : Nat) :
    ∀ (l : Nat) (lcs : List sumsquare_linecount),
      (sumsquare_addsums cell d k l lcs).length = lcs.length := by
  induction k with
  | zero => intro l lcs; rfl
  | succ k ih => intro l lcs; simp [sumsquare_addsums, ih]

theorem addholes_length (cell : sumsquare_cellrelation) (d : Int) (k : Nat) :
    ∀ (l : Nat) (lcs : List sumsquare_linecount),
      (sumsquare_addholes cell d k l lcs).length = lcs.length := by
  induction k with
  | zero => intro l lcs; rfl
  | succ k ih => intro l lcs; simp [sumsquare_addholes, ih]

theorem addsums_getD (cell : sumsquare_cellrelation) (d : Int) (k : Nat) :
    ∀ (l : Nat) (lcs : List sumsquare_linecount) (x : Nat),
      l + k ≤ cell.celllines.length → cell.celllines.Nodup →
      (∀ y ∈ cell.celllines, y < lcs.length) →
      (sumsquare_addsums cell d k l lcs).getD x linecount0 =
        if x ∈ (cell.celllines.drop l).take k then
          { lcs.getD x linecount0 with sum := (lcs.getD x linecount0).sum + d }
        else lcs.getD x linecount0 := by
  induction k with
  | zero => intro l lcs x _ _ _; simp [sumsquare_addsums]
  | succ k ih =>
    intro l lcs x hl hnd hlt
    have hl1 : l < cell.celllines.length := by omega
    have hdrop : (cell.celllines.drop l).take (k + 1)
        = cell.celllines[l] :: (cell.celllines.drop (l + 1)).take k := by
      rw [List.drop_eq_getElem_cons hl1, List.take_succ_cons]
    have hget : cell.celllines.getD l 0 = cell.celllines[l] := by
      simp [List.getD_eq_getElem?_getD, List.getElem?_eq_getElem hl1]
    have hidx : cell.celllines[l] < lcs.length := hlt _ (List.getElem_mem _)
    have hnotin : cell.celllines[l] ∉ (cell.celllines.drop (l + 1)).take k := by
      intro hmem
      have h1 : cell.celllines[l] ∈ cell.celllines.drop (l + 1) := List.mem_of_mem_take hmem
      have h2 := hnd
      rw [← List.take_append_drop (l + 1) cell.celllines] at h2
      have h3 := (List.nodup_append.mp h2).2.2
      have h4 : cell.celllines[l] ∈ cell.celllines.take (l + 1) := by
        rw [List.mem_take_iff_getElem]
        exact ⟨l, by simp; omega, rfl⟩
      exact h3 h4 h1
    simp only [sumsquare_addsums]
    rw [ih (l + 1) _ x (by omega) hnd (by simpa using hlt), hdrop, hget]
    simp only [List.mem_cons, getD_set_eq]
    by_cases hx : x = cell.celllines[l]
    · subst hx
      simp [hnotin, hidx]
    · have hx2 : ¬ cell.celllines[l] = x := fun h => hx h.symm
      simp [hx, hx2]



theorem addholes_getD (cell : sumsquare_cellrelation) (d : Int) (k : Nat) :
    ∀ (l : Nat) (lcs : List sumsquare_linecount) (x : Nat),
      l + k ≤ cell.celllines.length → cell.celllines.Nodup →
      (∀ y ∈ cell.celllines, y < lcs.length) →
      (sumsquare_addholes cell d k l lcs).getD x linecount0 =
        if x ∈ (cell.celllines.drop l).take k then
          { lcs.getD x linecount0 with
            holes := ((((lcs.getD x linecount0).holes : Int) + d) % 256).toNat }
        else lcs.getD x linecount0 := by
  induction k with
  | zero => intro l lcs x _ _ _; simp [sumsquare_addholes]
  | succ k ih =>
    intro l lcs x hl hnd hlt
    have hl1 : l < cell.celllines.length := by omega
    have hdrop : (cell.celllines.drop l).take (k + 1)
        = cell.celllines[l] :: (cell.celllines.drop (l + 1)).take k := by
      rw [List.drop_eq_getElem_cons hl1, List.take_succ_cons]
    have hget : cell.celllines.getD l 0 = cell.celllines[l] := by
      simp [List.getD_eq_getElem?_getD, List.getElem?_eq_getElem hl1]
    have hidx : cell.celllines[l] < lcs.length := hlt _ (List.getElem_mem _)
    have hnotin : cell.celllines[l] ∉ (cell.celllines.drop (l + 1)).take k := by
      intro hmem
      have h1 : cell.celllines[l] ∈ cell.celllines.drop (l + 1) := List.mem_of_mem_take hmem
      have h2 := hnd
      rw [← List.take_append_drop (l + 1) cell.celllines] at h2
      have h3 := (List.nodup_append.mp h2).2.2
      have h4 : cell.celllines[l] ∈ cell.celllines.take (l + 1) := by
        rw [List.mem_take_iff_getElem]
        exact ⟨l, by simp; omega, rfl⟩
      exact h3 h4 h1
    simp only [sumsquare_addholes]
    rw [ih (l + 1) _ x (by omega) hnd (by simpa using hlt), hdrop, hget]
    simp only [List.mem_cons, getD_set_eq]
    by_cases hx : x = cell.celllines[l]
    · subst hx
      simp [hnotin, hidx]
    · have hx2 : ¬ cell.celllines[l] = x := fun h => hx h.symm
      simp [hx, hx2]

/-- Changing a function at one point changes the sum over a duplicate-free list by the
difference at that point, when the point is in the list. -/
theorem sum_map_update (cs : List Nat) (f g : Nat → Int) (c : Nat) (hnd : cs.Nodup)
    (hfg : ∀ x, x ≠ c → g x = f x) :
    (cs.map g).sum = (cs.map f).sum + (if c ∈ cs then g c - f c else 0) := by
  induction cs with
  | nil => simp
  | cons a t ih =>
    have hnd2 := List.nodup_cons.mp hnd
    rw [List.map_cons, List.map_cons, List.sum_cons, List.sum_cons, ih hnd2.2]
    by_cases hac : a = c
    · subst hac
      simp [hnd2.1]
      ring
    · have hca : ¬ c = a := fun h => hac h.symm
      simp [hfg a hac, hca]
      ring

theorem count_zero_update (cs : List Nat) (f g : Nat → Nat) (c : Nat) (hnd : cs.Nodup)
    (hfg : ∀ x, x ≠ c → g x = f x) :
    (((cs.filter (fun x => g x == 0)).length : Nat) : Int) =
      ((cs.filter (fun x => f x == 0)).length : Int) +
        (if c ∈ cs then (if g c = 0 then 1 else 0) - (if f c = 0 then 1 else 0) else 0) := by
  induction cs with
  | nil => simp
  | cons a t ih =>
    have hnd2 := List.nodup_cons.mp hnd
    have ih2 := ih hnd2.2
    by_cases hac : a = c
    · subst hac
      simp only [List.filter_cons, List.mem_cons, true_or, if_true]
      simp only [hnd2.1, if_false] at ih2
      by_cases h1 : g a = 0 <;> by_cases h2 : f a = 0 <;> simp [h1, h2] <;> omega
    · have hca : ¬ c = a := fun h => hac h.symm
      simp only [List.filter_cons, List.mem_cons, hca, false_or, hfg a hac]
      by_cases h2 : f a = 0 <;> simp [h2] <;> omega



theorem lineCells_length (N : Nat) (hN : N * N ≤ 255) :
    ∀ l, l < N + N + 2 → (lineCells N l).length = N := by
  have hN16 : N < 16 := by
    by_contra h
    have : 16 * 16 ≤ N * N := Nat.mul_le_mul (by omega) (by omega)
    omega
  interval_cases N <;> decide



theorem getD_map_range {α : Type} (f : Nat → α) (n c : Nat) (d : α) :
    ((List.range n).map f).getD c d = if c < n then f c else d := by
  simp only [List.getD_eq_getElem?_getD]
  by_cases h : c < n
  · simp [h, List.getElem?_eq_getElem]
  · have h3 : ((List.range n).map f)[c]? = none := List.getElem?_eq_none (by simp; omega)
    simp [h, h3]

theorem lt16_of_sq (N : Nat) (hN : N * N ≤ 255) : N < 16 := by
  by_contra h
  have : 16 * 16 ≤ N * N := Nat.mul_le_mul (by omega) (by omega)
  omega

theorem sumsquare_init_inv (mem : sumsquare) (N : Nat) (hN : N * N ≤ 255) :
    SqInv (sumsquare_init mem N) N ∧ ∀ c, sumsquare_getnum (sumsquare_init mem N) c = 0 := by
  have hN16 := lt16_of_sq N hN
  have e1 : (N * N) % 256 = N * N := Nat.mod_eq_of_lt (by omega)
  have e2 : (N + N + 2) % 256 = N + N + 2 := Nat.mod_eq_of_lt (by omega)
  have hnum : ∀ c, sumsquare_getnum (sumsquare_init mem N) c = 0 := by
    intro c
    simp only [sumsquare_getnum, sumsquare_init, e1, getD_map_range]
    split_ifs <;> rfl
  have hcr : (sumsquare_init mem N).cellrelations = cellrelationsOf N := by
    simp only [sumsquare_init, e1, cellrelationsOf]
    apply List.map_congr_left
    intro c hc
    simp [List.mem_range.mp hc]
  refine ⟨⟨rfl, ?_, ?_, ?_, ?_, hcr, ?_, ?_, ?_⟩, hnum⟩
  · simp [sumsquare_init, e2]
  · simp [sumsquare_init, e1]
  · simp [sumsquare_init]
  · intro c; rw [hnum c]; omega
  · have hcr2 := hcr
    simp only [sumsquare_init, e1] at hcr2
    simp only [sumsquare_init, e1, e2, linerelationsOf, hcr2]
    apply List.map_congr_left
    intro l hl
    simp [List.mem_range.mp hl]
  · simp [sumsquare_init]
  · intro l hl
    have hlc : sumsquare_getlinecount (sumsquare_init mem N) l = ⟨0, N⟩ := by
      simp only [sumsquare_getlinecount, sumsquare_init, e2, getD_map_range]
      simp [hl]
    rw [hlc]
    constructor
    · simp [storedSum, hnum]
    · simp [storedHoles, hnum, lineCells_length N hN l hl]



theorem cellrelation_init_facts (N c : Nat) (hN : N * N ≤ 255) (hc : c < N * N) :
    (sumsquare_cellrelation_init c N).celllines.Nodup ∧
    (∀ y ∈ (sumsquare_cellrelation_init c N).celllines, y < N + N + 2) ∧
    (∀ l, l < N + N + 2 →
      (l ∈ (sumsquare_cellrelation_init c N).celllines ↔ lineHasCell N l c = true)) := by
  have hN0 : 0 < N := by
    rcases Nat.eq_zero_or_pos N with h | h
    · subst h; simp at hc
    · exact h
  have hi : c / N < N := by
    rw [Nat.div_lt_iff_lt_mul hN0]; exact hc
  have hj : c % N < N := Nat.mod_lt _ hN0
  rw [(cellrelation_init_lines N c hN hc).1]
  refine ⟨?_, ?_, ?_⟩
  · split_ifs <;> simp <;> omega
  · intro y hy
    split_ifs at hy <;> simp at hy <;> omega
  · intro l hl
    unfold lineHasCell
    split_ifs <;> simp <;> omega

theorem lineCells_nodup (N l : Nat) : (lineCells N l).Nodup :=
  List.Nodup.filter _ (List.nodup_range _)

theorem mem_lineCells (N l c : Nat) :
    c ∈ lineCells N l ↔ c < N * N ∧ lineHasCell N l c = true := by
  simp [lineCells]



theorem storedHoles_le (sq : sumsquare) (N l : Nat) (hN : N * N ≤ 255) (hl : l < N + N + 2) :
    storedHoles sq N l ≤ N := by
  have h := lineCells_length N hN l hl
  unfold storedHoles
  calc ((lineCells N l).filter _).length ≤ (lineCells N l).length := List.length_filter_le _ _
    _ = N := h

theorem set_getD_self (l : List Nat) (c : Nat) : l.set c (l.getD c 0) = l := by
  apply List.ext_getElem
  · simp
  · intro i h1 h2
    rw [List.getElem_set]
    split_ifs with h
    · subst h
      simp [List.getD_eq_getElem?_getD, List.getElem?_eq_getElem h2]
    · rfl

theorem sumsquare_setnum_fields (sq : sumsquare) (N c n : Nat) (hN : N * N ≤ 255)
    (h : SqInv sq N) (hc : c < N * N) (hn : n ≤ 255) :
    (sumsquare_setnum sq c n).side = sq.side ∧
    (sumsquare_setnum sq c n).nlines = sq.nlines ∧
    (sumsquare_setnum sq c n).ncells = sq.ncells ∧
    (sumsquare_setnum sq c n).cellrelations = sq.cellrelations ∧
    (sumsquare_setnum sq c n).linerelations = sq.linerelations ∧
    (sumsquare_setnum sq c n).nums = sq.nums.set c n ∧
    (sumsquare_setnum sq c n).linecounts.length = sq.linecounts.length ∧
    ∀ l, l < N + N + 2 →
      ((sumsquare_getlinecount (sumsquare_setnum sq c n) l).sum =
        (sumsquare_getlinecount sq l).sum +
          (if lineHasCell N l c = true then (n : Int) - (sumsquare_getnum sq c : Int) else 0)) ∧
      (((sumsquare_getlinecount (sumsquare_setnum sq c n) l).holes : Int) =
        (if lineHasCell N l c = true then
          ((((sumsquare_getlinecount sq l).holes : Int) +
            ((if n = 0 then 1 else 0) - (if sumsquare_getnum sq c = 0 then 1 else 0))) % 256)
         else ((sumsquare_getlinecount sq l).holes : Int))) := by
  obtain ⟨hside, hnl, hnc, hlen, hbyte, hcr, hlr, hlcl, hexact⟩ := h
  have hcell : sumsquare_getcellrelation sq c = sumsquare_cellrelation_init c N := by
    simp [sumsquare_getcellrelation, hcr, cellrelationsOf, getD_map_range, hc]
  obtain ⟨hnd, hlt, hmem⟩ := cellrelation_init_facts N c hN hc
  have hncl := (cellrelation_init_lines N c hN hc).2
  have hlt2 : ∀ y ∈ (sumsquare_cellrelation_init c N).celllines, y < sq.linecounts.length := by
    intro y hy; rw [hlcl]; exact hlt y hy
  have hold : sumsquare_getnum sq c ≤ 255 := hbyte c
  by_cases hd0 : n = sumsquare_getnum sq c
  · -- nothing changes
    have hsame : sumsquare_setnum sq c n = sq := by
      unfold sumsquare_setnum
      simp [← hd0]
    rw [hsame]
    refine ⟨rfl, rfl, rfl, rfl, rfl, ?_, rfl, ?_⟩
    · rw [hd0]; exact (set_getD_self sq.nums c).symm
    · intro l hl
      have hh := (hexact l hl).2
      have hle := storedHoles_le sq N l hN hl
      have hN16 := lt16_of_sq N hN
      constructor
      · simp [hd0]
      · rw [hd0, sub_self, add_zero]
        split_ifs
        · omega
        · rfl
  · have hsum : ((n : Int) - (sumsquare_getnum sq c : Int)) ≠ 0 := by omega
    have hnum : ((((sumsquare_getnum sq c : Nat) : Int) + ((n : Int) - (sumsquare_getnum sq c : Int))) % 256).toNat = n := by
      have : ((sumsquare_getnum sq c : Nat) : Int) + ((n : Int) - (sumsquare_getnum sq c : Int)) = (n : Int) := by ring
      rw [this]; omega
    by_cases hh0 : (sumsquare_getnum sq c = 0 ∧ n ≠ 0) ∨ (sumsquare_getnum sq c ≠ 0 ∧ n = 0)
    · have hhd : (if sumsquare_getnum sq c = 0 ∧ n ≠ 0 then (-1 : Int)
          else if sumsquare_getnum sq c ≠ 0 ∧ n = 0 then 1 else 0) ≠ 0 := by
        rcases hh0 with hh | hh
        · simp [hh]
        · simp [hh]
      have hhdv : (if sumsquare_getnum sq c = 0 ∧ n ≠ 0 then (-1 : Int)
          else if sumsquare_getnum sq c ≠ 0 ∧ n = 0 then 1 else 0)
          = ((if n = 0 then 1 else 0) - (if sumsquare_getnum sq c = 0 then 1 else 0)) := by
        rcases hh0 with hh | hh
        · simp [hh]
        · simp [hh]
      have hres : sumsquare_setnum sq c n =
          { sq with
            linecounts := sumsquare_addholes (sumsquare_cellrelation_init c N)
              ((if n = 0 then 1 else 0) - (if sumsquare_getnum sq c = 0 then 1 else 0))
              (sumsquare_cellrelation_init c N).celllines.length 0
              (sumsquare_addsums (sumsquare_cellrelation_init c N)
                ((n : Int) - (sumsquare_getnum sq c : Int))
                (sumsquare_cellrelation_init c N).celllines.length 0 sq.linecounts),
            nums := sq.nums.set c n } := by
        unfold sumsquare_setnum
        simp only [hcell, hncl, hnum, hhdv] at hhd ⊢
        rw [if_pos hsum, if_pos hhd]
      rw [hres]
      refine ⟨rfl, rfl, rfl, rfl, rfl, rfl, ?_, ?_⟩
      · simp [addholes_length, addsums_length]
      · intro l hl
        simp only [sumsquare_getlinecount]
        rw [addholes_getD _ _ _ 0 _ l (by omega) hnd
          (by intro y hy; rw [addsums_length]; exact hlt2 y hy),
          addsums_getD _ _ _ 0 _ l (by omega) hnd hlt2]
        simp only [List.drop_zero, List.take_length, hmem l hl]
        split_ifs <;> simp <;> omega
    · have hhd : (if sumsquare_getnum sq c = 0 ∧ n ≠ 0 then (-1 : Int)
          else if sumsquare_getnum sq c ≠ 0 ∧ n = 0 then 1 else 0) = 0 := by
        push_neg at hh0
        by_cases ha : sumsquare_getnum sq c = 0
        · have := hh0.1 ha; simp [ha, this]
        · have := hh0.2 ha; simp [ha, this]
      have hres : sumsquare_setnum sq c n =
          { sq with
            linecounts := sumsquare_addsums (sumsquare_cellrelation_init c N)
                ((n : Int) - (sumsquare_getnum sq c : Int))
                (sumsquare_cellrelation_init c N).celllines.length 0 sq.linecounts,
            nums := sq.nums.set c n } := by
        unfold sumsquare_setnum
        simp only [hcell, hncl, hnum, hhd]
        rw [if_pos hsum]
        simp
      rw [hres]
      refine ⟨rfl, rfl, rfl, rfl, rfl, rfl, ?_, ?_⟩
      · simp [addsums_length]
      · intro l hl
        simp only [sumsquare_getlinecount]
        rw [addsums_getD _ _ _ 0 _ l (by omega) hnd hlt2]
        simp only [List.drop_zero, List.take_length, hmem l hl]
        have hh := (hexact l hl).2
        have hle := storedHoles_le sq N l hN hl
        have hN16 := lt16_of_sq N hN
        simp only [sumsquare_getlinecount] at hh
        push_neg at hh0
        have hz : ((if n = 0 then (1:Int) else 0) - (if sumsquare_getnum sq c = 0 then 1 else 0)) = 0 := by
          by_cases ha : sumsquare_getnum sq c = 0
          · have := hh0.1 ha; simp [ha, this]
          · have := hh0.2 ha; simp [ha, this]
        rw [hz]
        split_ifs
        · refine ⟨by simp, ?_⟩
          simp only [add_zero]
          omega
        · simp



theorem sumsquare_setnum_getnum (sq : sumsquare) (N c n : Nat) (hN : N * N ≤ 255)
    (h : SqInv sq N) (hc : c < N * N) (hn : n ≤ 255) (x : Nat) :
    sumsquare_getnum (sumsquare_setnum sq c n) x = if x = c then n else sumsquare_getnum sq x := by
  have hf := (sumsquare_setnum_fields sq N c n hN h hc hn).2.2.2.2.2.1
  have hlen : c < sq.nums.length := by rw [h.2.2.2.1]; exact hc
  simp only [sumsquare_getnum, hf, getD_set_eq]
  by_cases hx : x = c
  · subst hx; simp [hlen]
  · have hx2 : ¬ c = x := fun e => hx e.symm
    simp [hx, hx2]

theorem sumsquare_setnum_inv (sq : sumsquare) (N c n : Nat) (hN : N * N ≤ 255)
    (h : SqInv sq N) (hc : c < N * N) (hn : n ≤ 255) :
    SqInv (sumsquare_setnum sq c n) N := by
  have hf := sumsquare_setnum_fields sq N c n hN h hc hn
  have hg := sumsquare_setnum_getnum sq N c n hN h hc hn
  obtain ⟨hside, hnl, hnc, hlen, hbyte, hcr, hlr, hlcl, hexact⟩ := h
  obtain ⟨f1, f2, f3, f4, f5, f6, f7, f8⟩ := hf
  have hN16 := lt16_of_sq N hN
  refine ⟨by rw [f1, hside], by rw [f2, hnl], by rw [f3, hnc], by rw [f6]; simpa using hlen,
    ?_, by rw [f4, hcr], by rw [f5, hlr], by rw [f7, hlcl], ?_⟩
  · intro x
    rw [hg x]
    split_ifs
    · exact hn
    · exact hbyte x
  · intro l hl
    obtain ⟨s1, s2⟩ := f8 l hl
    obtain ⟨e1, e2⟩ := hexact l hl
    have hmemc : c ∈ lineCells N l ↔ lineHasCell N l c = true := by
      rw [mem_lineCells]; simp [hc]
    constructor
    · rw [s1, e1]
      unfold storedSum
      rw [sum_map_update (lineCells N l) (fun x => (sumsquare_getnum sq x : Int))
        (fun x => (sumsquare_getnum (sumsquare_setnum sq c n) x : Int)) c (lineCells_nodup N l)
        (by intro x hx; simp [hg x, hx])]
      simp only [hg c, if_true, hmemc]
    · have hcount := count_zero_update (lineCells N l) (fun x => sumsquare_getnum sq x)
        (fun x => sumsquare_getnum (sumsquare_setnum sq c n) x) c (lineCells_nodup N l)
        (by intro x hx; simp [hg x, hx])
      simp only [hg c, if_true, hmemc] at hcount
      have hle := storedHoles_le (sumsquare_setnum sq c n) N l hN hl
      have hle0 := storedHoles_le sq N l hN hl
      unfold storedHoles at hle hle0 e2 ⊢
      rw [e2] at s2
      by_cases hm : lineHasCell N l c = true
      · rw [if_pos hm] at s2 hcount
        omega
      · rw [if_neg hm] at s2 hcount
        omega

theorem sumsquare_setnums_inv (N : Nat) (hN : N * N ≤ 255) (calls : List (Nat × Nat)) :
    ∀ sq : sumsquare, SqInv sq N → (∀ call ∈ calls, call.1 < N * N ∧ call.2 ≤ 255) →
      SqInv (sumsquare_setnums sq calls) N := by
  induction calls with
  | nil => intro sq h _; exact h
  | cons a t ih =>
    intro sq h hcalls
    have ha := hcalls a (List.mem_cons_self _ _)
    exact ih _ (sumsquare_setnum_inv sq N a.1 a.2 hN h ha.1 ha.2)
      (fun call hcall => hcalls call (List.mem_cons_of_mem _ hcall))

theorem sortednlist_remove_eq (nl : sortednlist) (n : Nat) :
    sortednlist_remove nl n =
      if (getelem nl.elems n).isremoved then (0, nl)
      else (n, { nl with nremoved := (nl.nremoved + 1) % 256,
                         stack := nl.stack.set nl.nremoved n,
                         elems := unlink nl.elems n }) := rfl

theorem sortednlist_restore_eq (nl : sortednlist) :
    sortednlist_restore nl =
      if nl.nremoved ≠ 0 then
        (nl.stack.getD (nl.nremoved - 1) 0,
          { nl with nremoved := nl.nremoved - 1,
                    elems := relink nl.elems (nl.stack.getD (nl.nremoved - 1) 0) })
      else (0, nl) := rfl

theorem getelem_set (es : List sortednlist_elem) (i j : Nat) (v : sortednlist_elem) :
    getelem (es.set i v) j = if i = j ∧ i < es.length then v else getelem es j := by
  unfold getelem; exact getD_set_eq es i j v elem0

theorem unlink_length (es : List sortednlist_elem) (m : Nat) :
    (unlink es m).length = es.length := by
  simp [unlink]

theorem relink_length (es : List sortednlist_elem) (m : Nat) :
    (relink es m).length = es.length := by
  simp [relink]

theorem unlink_getelem (es : List sortednlist_elem) (m x : Nat) (hm : m < es.length)
    (ha : (getelem es m).prev < es.length) (hb : (getelem es m).next < es.length) :
    getelem (unlink es m) x =
      ⟨if x = m then true else (getelem es x).isremoved,
       if x = (getelem es m).prev then (getelem es m).next else (getelem es x).next,
       if x = (getelem es m).next then (getelem es m).prev else (getelem es x).prev⟩ := by
  unfold unlink
  generalize hes1 : es.set m ⟨true, (getelem es m).next, (getelem es m).prev⟩ = es1
  have l1 : es1.length = es.length := by rw [← hes1]; simp
  have g1 : ∀ y, getelem es1 y =
      if m = y then ⟨true, (getelem es m).next, (getelem es m).prev⟩ else getelem es y := by
    intro y; rw [← hes1, getelem_set]; simp [hm]
  have g1m : getelem es1 m = ⟨true, (getelem es m).next, (getelem es m).prev⟩ := by simp [g1]
  simp only [g1m]
  generalize hes2 : es1.set (getelem es m).prev
    ⟨(getelem es1 (getelem es m).prev).isremoved, (getelem es m).next,
      (getelem es1 (getelem es m).prev).prev⟩ = es2
  have l2 : es2.length = es.length := by rw [← hes2]; simp [l1]
  have g2 : ∀ y, getelem es2 y =
      if (getelem es m).prev = y then
        ⟨(getelem es1 (getelem es m).prev).isremoved, (getelem es m).next,
          (getelem es1 (getelem es m).prev).prev⟩
      else getelem es1 y := by
    intro y; rw [← hes2, getelem_set]; simp [l1, ha]
  have g2n : (getelem es2 m).next = (getelem es m).next := by
    rw [g2]; split_ifs with h
    · rfl
    · rw [g1m]
  have g2p : (getelem es2 m).prev = (getelem es m).prev := by
    rw [g2]; split_ifs with h
    · have e : getelem es1 (getelem es m).prev = getelem es1 m := congrArg (getelem es1) h
      show (getelem es1 (getelem es m).prev).prev = (getelem es m).prev
      rw [e, g1m]
    · rw [g1m]
  simp only [g2n, g2p]
  rw [getelem_set, l2]
  by_cases h3 : (getelem es m).next = x
  · subst h3
    simp only [hb, and_self, if_true, g2]
    by_cases h2 : (getelem es m).prev = (getelem es m).next
    · simp only [h2, if_true, g1]
      by_cases h1 : m = (getelem es m).next
      · simp [← h1]
      · have h1b : ¬ (getelem es m).next = m := fun e => h1 e.symm
        simp [h1, h1b]
    · have h2b : ¬ (getelem es m).next = (getelem es m).prev := fun e => h2 e.symm
      simp only [h2, h2b, if_false, g1]
      by_cases h1 : m = (getelem es m).next
      · simp [← h1]
      · have h1b : ¬ (getelem es m).next = m := fun e => h1 e.symm
        simp [h1, h1b]
  · have h3b : ¬ x = (getelem es m).next := fun e => h3 e.symm
    simp only [h3, false_and, if_false, h3b, g2]
    by_cases h2 : (getelem es m).prev = x
    · subst h2
      simp only [if_true, g1]
      by_cases h1 : m = (getelem es m).prev
      · simp [← h1]
      · have h1b : ¬ (getelem es m).prev = m := fun e => h1 e.symm
        simp [h1, h1b]
    · have h2b : ¬ x = (getelem es m).prev := fun e => h2 e.symm
      simp only [h2, h2b, if_false, g1]
      by_cases h1 : m = x
      · subst h1; simp
      · have h1b : ¬ x = m := fun e => h1 e.symm
        simp [h1, h1b]



theorem relink_getelem (es : List sortednlist_elem) (m x : Nat) (hm : m < es.length)
    (ha : (getelem es m).prev < es.length) (hb : (getelem es m).next < es.length)
    (ham : (getelem es m).prev ≠ m) :
    getelem (relink es m) x =
      ⟨if x = m then false else (getelem es x).isremoved,
       if x = (getelem es m).prev then m else (getelem es x).next,
       if x = (getelem es m).next then m else (getelem es x).prev⟩ := by
  unfold relink
  generalize hes1 : es.set m ⟨false, (getelem es m).next, (getelem es m).prev⟩ = es1
  have l1 : es1.length = es.length := by rw [← hes1]; simp
  have g1 : ∀ y, getelem es1 y =
      if m = y then ⟨false, (getelem es m).next, (getelem es m).prev⟩ else getelem es y := by
    intro y; rw [← hes1, getelem_set]; simp [hm]
  have g1m : getelem es1 m = ⟨false, (getelem es m).next, (getelem es m).prev⟩ := by simp [g1]
  simp only [g1m]
  generalize hes2 : es1.set (getelem es m).prev
    ⟨(getelem es1 (getelem es m).prev).isremoved, m,
      (getelem es1 (getelem es m).prev).prev⟩ = es2
  have l2 : es2.length = es.length := by rw [← hes2]; simp [l1]
  have g2 : ∀ y, getelem es2 y =
      if (getelem es m).prev = y then
        ⟨(getelem es1 (getelem es m).prev).isremoved, m,
          (getelem es1 (getelem es m).prev).prev⟩
      else getelem es1 y := by
    intro y; rw [← hes2, getelem_set]; simp [l1, ha]
  have g2m : getelem es2 m = ⟨false, (getelem es m).next, (getelem es m).prev⟩ := by
    rw [g2, if_neg ham, g1m]
  simp only [g2m]
  rw [getelem_set, l2]
  by_cases h3 : (getelem es m).next = x
  · subst h3
    simp only [hb, and_self, if_true, g2]
    by_cases h2 : (getelem es m).prev = (getelem es m).next
    · simp only [h2, if_true, g1]
      by_cases h1 : m = (getelem es m).next
      · simp [← h1]
      · have h1b : ¬ (getelem es m).next = m := fun e => h1 e.symm
        simp [h1, h1b]
    · have h2b : ¬ (getelem es m).next = (getelem es m).prev := fun e => h2 e.symm
      simp only [h2, h2b, if_false, g1]
      by_cases h1 : m = (getelem es m).next
      · simp [← h1]
      · have h1b : ¬ (getelem es m).next = m := fun e => h1 e.symm
        simp [h1, h1b]
  · have h3b : ¬ x = (getelem es m).next := fun e => h3 e.symm
    simp only [h3, false_and, if_false, h3b, g2]
    by_cases h2 : (getelem es m).prev = x
    · subst h2
      simp only [if_true, g1]
      have h1 : ¬ m = (getelem es m).prev := fun e => ham e.symm
      simp [h1, ham]
    · have h2b : ¬ x = (getelem es m).prev := fun e => h2 e.symm
      simp only [h2, h2b, if_false, g1]
      by_cases h1 : m = x
      · subst h1; simp
      · have h1b : ¬ x = m := fun e => h1 e.symm
        simp [h1, h1b]

theorem elems_ext (es es2 : List sortednlist_elem) (hl : es.length = es2.length)
    (h : ∀ x, x < es.length → getelem es x = getelem es2 x) : es = es2 := by
  apply List.ext_getElem hl
  intro i h1 h2
  have := h i h1
  simp only [getelem, List.getD_eq_getElem?_getD, List.getElem?_eq_getElem h1,
    List.getElem?_eq_getElem h2, Option.getD_some] at this
  exact this

theorem elem_eta (e : sortednlist_elem) : (⟨e.isremoved, e.next, e.prev⟩ : sortednlist_elem) = e := by
  cases e; rfl

/-- Restoring right after removing gives back the element array, when `m` is linked
between two other elements of the array. -/
theorem relink_unlink (es : List sortednlist_elem) (m : Nat) (hm : m < es.length)
    (ha : (getelem es m).prev < es.length) (hb : (getelem es m).next < es.length)
    (ham : (getelem es m).prev ≠ m) (hbm : (getelem es m).next ≠ m)
    (hflag : (getelem es m).isremoved = false)
    (hna : (getelem es (getelem es m).prev).next = m)
    (hpb : (getelem es (getelem es m).next).prev = m) :
    relink (unlink es m) m = es := by
  have hum : getelem (unlink es m) m = ⟨true, (getelem es m).next, (getelem es m).prev⟩ := by
    rw [unlink_getelem es m m hm ha hb]
    simp [ham.symm, hbm.symm]
  apply elems_ext
  · simp [relink_length, unlink_length]
  · intro x _
    rw [relink_getelem (unlink es m) m x (by rw [unlink_length]; exact hm)
      (by rw [hum, unlink_length]; exact ha) (by rw [hum, unlink_length]; exact hb)
      (by rw [hum]; exact ham)]
    rw [hum, unlink_getelem es m x hm ha hb]
    dsimp only
    have hf : (if x = m then false else if x = m then true else (getelem es x).isremoved)
        = (getelem es x).isremoved := by
      by_cases h1 : x = m
      · subst h1; simp [hflag]
      · simp [h1]
    have hn : (if x = (getelem es m).prev then m
        else if x = (getelem es m).prev then (getelem es m).next else (getelem es x).next)
        = (getelem es x).next := by
      by_cases h1 : x = (getelem es m).prev
      · rw [if_pos h1, h1, hna]
      · simp [h1]
    have hp : (if x = (getelem es m).next then m
        else if x = (getelem es m).next then (getelem es m).prev else (getelem es x).prev)
        = (getelem es x).prev := by
      by_cases h1 : x = (getelem es m).next
      · rw [if_pos h1, h1, hpb]
      · simp [h1]
    rw [hf, hn, hp]



theorem Path_congr (es es2 : List sortednlist_elem) (z : Nat) :
    ∀ (xs : List Nat) (a : Nat),
      (∀ x ∈ a :: xs, (getelem es2 x).next = (getelem es x).next) →
      (∀ y ∈ xs ++ [z], (getelem es2 y).prev = (getelem es y).prev) →
      Path es a xs z → Path es2 a xs z := by
  intro xs
  induction xs with
  | nil =>
    intro a hn hp h
    simp only [Path] at h ⊢
    rw [hn a (by simp), hp z (by simp)]
    exact h
  | cons x t ih =>
    intro a hn hp h
    simp only [Path] at h ⊢
    rw [hn a (by simp), hp x (by simp)]
    refine ⟨h.1, h.2.1, ih x ?_ ?_ h.2.2⟩
    · intro y hy; exact hn y (List.mem_cons_of_mem _ hy)
    · intro y hy; exact hp y (by simp at hy ⊢; tauto)

theorem Path_append (es : List sortednlist_elem) (x z : Nat) (l2 : List Nat) :
    ∀ (l1 : List Nat) (a : Nat),
      Path es a (l1 ++ x :: l2) z ↔ Path es a l1 x ∧ Path es x l2 z := by
  intro l1
  induction l1 with
  | nil => intro a; simp only [List.nil_append, Path]; tauto
  | cons y t ih =>
    intro a
    rw [List.cons_append]
    simp only [Path]
    rw [ih y]
    tauto

theorem Path_head (es : List sortednlist_elem) (a z : Nat) (xs : List Nat)
    (h : Path es a xs z) : (getelem es a).next = (xs ++ [z]).headD 0 := by
  cases xs with
  | nil => simpa [Path] using h.1
  | cons x t => simpa [Path] using h.1

theorem Path_end (es : List sortednlist_elem) (z : Nat) :
    ∀ (xs : List Nat) (a : Nat), Path es a xs z →
      (getelem es z).prev = xs.getLastD a ∧
      (getelem es (xs.getLastD a)).next = z := by
  intro xs
  induction xs with
  | nil => intro a h; simp only [Path] at h; simp [h.1, h.2]
  | cons x t ih =>
    intro a h
    simp only [Path] at h
    have := ih x h.2.2
    rw [List.getLastD_cons]
    exact this

theorem Path_head_prev (es : List sortednlist_elem) (a z : Nat) (xs : List Nat)
    (h : Path es a xs z) : (getelem es ((xs ++ [z]).headD 0)).prev = a := by
  cases xs with
  | nil => simpa [Path] using h.2
  | cons x t => simpa [Path] using h.2.1

theorem headD_append_singleton (xs : List Nat) : (xs ++ [0]).headD 0 = xs.headD 0 := by
  cases xs <;> rfl

/-- Unlinking `m` joins the path that ends at `m` to the path that starts at `m`. -/
theorem Path_bridge (es es2 : List sortednlist_elem) (m z A B : Nat) (l2 : List Nat)
    (hn2 : ∀ x, (getelem es2 x).next = if x = A then B else (getelem es x).next)
    (hp2 : ∀ x, (getelem es2 x).prev = if x = B then A else (getelem es x).prev)
    (hmA : (getelem es m).prev = A) (hmB : (getelem es m).next = B)
    (hA : (getelem es A).next = m) (hB : (getelem es B).prev = m)
    (hz : z ∉ l2) (hl2 : (m :: l2).Nodup) :
    ∀ (l1 : List Nat) (a : Nat), (l1 ++ m :: l2).Nodup → a ∉ l1 ++ m :: l2 → z ∉ l1 →
      Path es a l1 m → Path es m l2 z → Path es2 a (l1 ++ l2) z := by
  intro l1
  induction l1 with
  | nil =>
    intro a _ ha _ P1 P2
    simp only [Path] at P1
    have haA : a = A := by rw [← hmA, P1.2]
    have ham : a ≠ m := by intro e; apply ha; simp [e]
    have hal2 : a ∉ l2 := by intro e; apply ha; simp [e]
    rw [List.nil_append]
    cases l2 with
    | nil =>
      simp only [Path] at P2 ⊢
      have hzB : z = B := by rw [← hmB, P2.1]
      rw [hn2, hp2]
      simp [haA, hzB]
    | cons y t =>
      simp only [Path] at P2 ⊢
      have hyB : y = B := by rw [← hmB, P2.1]
      rw [hn2, hp2]
      refine ⟨by simp [haA, hyB], by simp [haA, hyB], ?_⟩
      apply Path_congr es es2 z t y _ _ P2.2.2
      · intro x hx
        rw [hn2, if_neg]
        intro e
        rw [← haA] at e
        rw [e] at hx
        exact hal2 hx
      · intro x hx
        rw [hp2, if_neg]
        intro e
        rw [← hyB] at e
        have hnd := (List.nodup_cons.mp hl2).2
        have hyt := (List.nodup_cons.mp hnd).1
        simp only [List.mem_append, List.mem_singleton] at hx
        rcases hx with hx | hx
        · rw [e] at hx; exact hyt hx
        · rw [hx] at e; apply hz; simp [e]
  | cons x1 t ih =>
    intro a hnd ha hz1 P1 P2
    simp only [Path] at P1
    simp only [List.cons_append, Path]
    rw [List.cons_append] at hnd ha
    have hnd2 := List.nodup_cons.mp hnd
    have hx1m : x1 ≠ m := by intro e; apply hnd2.1; simp [e]
    have ham : a ≠ m := by intro e; apply ha; simp [e]
    rw [hn2, hp2, if_neg, if_neg]
    · refine ⟨P1.1, P1.2.1, ih x1 hnd2.2 hnd2.1 ?_ P1.2.2 P2⟩
      intro e; apply hz1; simp [e]
    · intro e
      rw [e, hB] at P1
      exact ham P1.2.1.symm
    · intro e
      rw [e, hA] at P1
      exact hx1m P1.1.symm



theorem Chain_split_facts (es : List sortednlist_elem) (K m : Nat) (l1 l2 : List Nat)
    (h : Chain es K (l1 ++ m :: l2)) :
    m < es.length ∧ (getelem es m).prev < es.length ∧ (getelem es m).next < es.length ∧
    (getelem es m).prev ≠ m ∧ (getelem es m).next ≠ m ∧
    (getelem es m).isremoved = false ∧
    (getelem es (getelem es m).prev).next = m ∧
    (getelem es (getelem es m).next).prev = m ∧
    (getelem es m).prev = l1.getLastD 0 ∧ (getelem es m).next = l2.headD 0 ∧
    (getelem es m).prev ∉ l2 ∧ (getelem es m).next ∉ l1 := by
  obtain ⟨hlen, hpath, hnd, hrange, hflag⟩ := h
  obtain ⟨P1, P2⟩ := (Path_append es m 0 l2 l1 0).mp hpath
  have hm : m ∈ l1 ++ m :: l2 := by simp
  have hmr := hrange m hm
  have hprev : (getelem es m).prev = l1.getLastD 0 := (Path_end es m l1 0 P1).1
  have hnext : (getelem es m).next = l2.headD 0 := by
    rw [Path_head es m 0 l2 P2, headD_append_singleton]
  have hna : (getelem es (getelem es m).prev).next = m := by
    rw [hprev]; exact (Path_end es m l1 0 P1).2
  have hpb : (getelem es (getelem es m).next).prev = m := by
    rw [hnext, ← headD_append_singleton]; exact Path_head_prev es m 0 l2 P2
  have hnd1 : m ∉ l1 := by
    intro e
    have := (List.nodup_append.mp hnd).2.2 e (List.mem_cons_self _ _)
    exact this
  have hnd2 : m ∉ l2 := (List.nodup_cons.mp (List.nodup_append.mp hnd).2.1).1
  have hamem : l1.getLastD 0 = 0 ∨ l1.getLastD 0 ∈ l1 := by
    rcases List.eq_nil_or_concat l1 with e | ⟨t, x, e⟩
    · left; rw [e]; rfl
    · right; rw [e]; simp
  have hbmem : l2.headD 0 = 0 ∨ l2.headD 0 ∈ l2 := by
    cases l2 with
    | nil => left; rfl
    | cons y t => right; simp
  have hdisj : ∀ x, x ∈ l1 → x ∈ l2 → False := by
    intro x h1 h2
    exact (List.nodup_append.mp hnd).2.2 h1 (List.mem_cons_of_mem _ h2)
  have h0 : ∀ x, x ∈ l1 ++ m :: l2 → x ≠ 0 := fun x hx => by have := hrange x hx; omega
  refine ⟨by omega, ?_, ?_, ?_, ?_, ?_, hna, hpb, hprev, hnext, ?_, ?_⟩
  · rw [hprev]
    rcases hamem with e | e
    · rw [e]; omega
    · have := hrange _ (List.mem_append_left _ e); omega
  · rw [hnext]
    rcases hbmem with e | e
    · rw [e]; omega
    · have := hrange _ (List.mem_append_right _ (List.mem_cons_of_mem _ e)); omega
  · rw [hprev]
    rcases hamem with e | e
    · rw [e]; omega
    · intro e2; rw [e2] at e; exact hnd1 e
  · rw [hnext]
    rcases hbmem with e | e
    · rw [e]; omega
    · intro e2; rw [e2] at e; exact hnd2 e
  · exact (hflag m hmr.2).mpr hm
  · rw [hprev]
    rcases hamem with e | e
    · rw [e]; intro e2; exact h0 0 (List.mem_append_right _ (List.mem_cons_of_mem _ e2)) rfl
    · intro e2; exact hdisj _ e e2
  · rw [hnext]
    rcases hbmem with e | e
    · rw [e]; intro e2; exact h0 0 (List.mem_append_left _ e2) rfl
    · intro e2; exact hdisj _ e2 e

theorem Chain_relink_unlink (es : List sortednlist_elem) (K m : Nat) (l1 l2 : List Nat)
    (h : Chain es K (l1 ++ m :: l2)) : relink (unlink es m) m = es := by
  obtain ⟨h1, h2, h3, h4, h5, h6, h7, h8, _⟩ := Chain_split_facts es K m l1 l2 h
  exact relink_unlink es m h1 h2 h3 h4 h5 h6 h7 h8

theorem Chain_unlink (es : List sortednlist_elem) (K m : Nat) (l1 l2 : List Nat)
    (h : Chain es K (l1 ++ m :: l2)) : Chain (unlink es m) K (l1 ++ l2) := by
  obtain ⟨h1, h2, h3, h4, h5, h6, h7, h8, h9, h10, h11, h12⟩ := Chain_split_facts es K m l1 l2 h
  obtain ⟨hlen, hpath, hnd, hrange, hflag⟩ := h
  obtain ⟨P1, P2⟩ := (Path_append es m 0 l2 l1 0).mp hpath
  have h0 : ∀ x, x ∈ l1 ++ m :: l2 → x ≠ 0 := fun x hx => by have := hrange x hx; omega
  have hnd1 : m ∉ l1 := by
    intro e
    exact (List.nodup_append.mp hnd).2.2 e (List.mem_cons_self _ _)
  have hnd2 : m ∉ l2 := (List.nodup_cons.mp (List.nodup_append.mp hnd).2.1).1
  refine ⟨by rw [unlink_length, hlen], ?_, ?_, ?_, ?_⟩
  · apply Path_bridge es (unlink es m) m 0 (getelem es m).prev (getelem es m).next l2
      _ _ rfl rfl h7 h8 _ (List.nodup_append.mp hnd).2.1 l1 0 hnd _ _ P1 P2
    · intro x; rw [unlink_getelem es m x h1 h2 h3]
    · intro x; rw [unlink_getelem es m x h1 h2 h3]
    · intro e; exact h0 0 (List.mem_append_right _ (List.mem_cons_of_mem _ e)) rfl
    · intro e; exact h0 0 e rfl
    · intro e; exact h0 0 (List.mem_append_left _ e) rfl
  · have := List.nodup_append.mp hnd
    rw [List.nodup_append]
    refine ⟨this.1, (List.nodup_cons.mp this.2.1).2, ?_⟩
    intro x hx1 hx2
    exact this.2.2 hx1 (List.mem_cons_of_mem _ hx2)
  · intro x hx
    apply hrange
    simp only [List.mem_append, List.mem_cons] at hx ⊢
    tauto
  · intro x hx
    rw [unlink_getelem es m x h1 h2 h3]
    dsimp only
    by_cases hxm : x = m
    · subst hxm
      simp [hnd1, hnd2]
    · rw [if_neg hxm, hflag x hx]
      simp [hxm]



theorem init_loop_length (k : Nat) : ∀ es : List sortednlist_elem,
    (sortednlist_init_loop es k).length = es.length := by
  induction k with
  | zero => intro es; rfl
  | succ k ih => intro es; simp [sortednlist_init_loop, ih]

theorem init_loop_getelem (k : Nat) : ∀ (es : List sortednlist_elem) (i : Nat),
    getelem (sortednlist_init_loop es k) i =
      if 1 ≤ i ∧ i ≤ k ∧ i < es.length then ⟨false, (i + 1) % 256, i - 1⟩ else getelem es i := by
  induction k with
  | zero => intro es i; rw [if_neg (by omega)]; rfl
  | succ k ih =>
    intro es i
    simp only [sortednlist_init_loop]
    rw [ih, getelem_set, List.length_set]
    by_cases h1 : i = k + 1
    · subst h1
      by_cases h2 : k + 1 < es.length
      · simp [h2]
      · simp [h2]
    · by_cases h2 : 1 ≤ i ∧ i ≤ k ∧ i < es.length
      · rw [if_pos h2, if_pos (by omega)]
      · rw [if_neg h2, if_neg (by omega), if_neg (by omega)]

theorem sortednlist_init_elems (mem : sortednlist) (K : Nat) (hK : K ≤ 255) :
    (sortednlist_init mem K).elems.length = K + 1 ∧
    getelem (sortednlist_init mem K).elems 0 = ⟨true, 1, K⟩ ∧
    (1 ≤ K → getelem (sortednlist_init mem K).elems K = ⟨false, 0, K - 1⟩) ∧
    (∀ i, 1 ≤ i → i < K → getelem (sortednlist_init mem K).elems i = ⟨false, i + 1, i - 1⟩) := by
  refine ⟨?_, ?_, ?_, ?_⟩
  · simp [sortednlist_init, init_loop_length]
  · simp [sortednlist_init, getelem_set, init_loop_length]
  · intro h1
    have h2 : ¬ 0 = K := by omega
    have h3 : (1 ≤ K ∧ K < K + 1) := by omega
    simp [sortednlist_init, getelem_set, init_loop_length, init_loop_getelem, h2, h3]
  · intro i h1 h2
    have e : (i + 1) % 256 = i + 1 := Nat.mod_eq_of_lt (by omega)
    have h3 : ¬ K = i := by omega
    have h4 : ¬ 0 = i := by omega
    have h5 : 1 ≤ i ∧ i ≤ K ∧ i < K + 1 := by omega
    simp [sortednlist_init, getelem_set, init_loop_length, init_loop_getelem, h3, h4, h5, e]

theorem Path_range (es : List sortednlist_elem) (z : Nat) :
    ∀ (n a : Nat),
      (∀ i, a ≤ i → i < a + n → (getelem es i).next = i + 1 ∧ (getelem es (i + 1)).prev = i) →
      (getelem es (a + n)).next = z → (getelem es z).prev = a + n →
      Path es a (List.range' (a + 1) n) z := by
  intro n
  induction n with
  | zero => intro a _ h1 h2; simpa [Path] using ⟨h1, h2⟩
  | succ n ih =>
    intro a h h1 h2
    rw [List.range'_succ]
    simp only [Path]
    refine ⟨(h a (by omega) (by omega)).1, (h a (by omega) (by omega)).2, ih (a + 1) ?_ ?_ ?_⟩
    · intro i hi1 hi2; exact h i (by omega) (by omega)
    · rw [← h1]; congr 2; omega
    · rw [h2]; omega

theorem sortednlist_init_chain (mem : sortednlist) (K : Nat) (hK1 : 1 ≤ K) (hK : K ≤ 255) :
    Chain (sortednlist_init mem K).elems K (List.range' 1 K) := by
  obtain ⟨hlen, hg0, hgK, hgi⟩ := sortednlist_init_elems mem K hK
  have hgK := hgK hK1
  have hnext : ∀ i, i < K → (getelem (sortednlist_init mem K).elems i).next = i + 1 := by
    intro i hi
    by_cases h0 : i = 0
    · subst h0; rw [hg0]
    · rw [hgi i (by omega) hi]
  have hprev : ∀ i, 1 ≤ i → i ≤ K → (getelem (sortednlist_init mem K).elems i).prev = i - 1 := by
    intro i hi1 hi
    by_cases h0 : i = K
    · subst h0; rw [hgK]
    · rw [hgi i hi1 (by omega)]
  refine ⟨hlen, ?_, List.nodup_range' 1 K, ?_, ?_⟩
  · apply Path_range _ 0 K 0
    · intro i _ hi
      rw [hnext i (by omega), hprev (i + 1) (by omega) (by omega)]
      exact ⟨rfl, by omega⟩
    · have : 0 + K = K := by omega
      rw [this, hgK]
    · rw [hg0]; show K = 0 + K; omega
  · intro x hx
    rw [List.mem_range'_1] at hx
    omega
  · intro x hx
    rw [List.mem_range'_1]
    by_cases h0 : x = 0
    · subst h0; rw [hg0]; simp
    · by_cases h1 : x = K
      · subst h1; rw [hgK]; simp; omega
      · rw [hgi x (by omega) (by omega)]; simp; omega

theorem liveOf_nil (ord : List Nat) : liveOf ord [] = ord := by
  simp [liveOf]

theorem mem_liveOf (ord ns : List Nat) (x : Nat) : x ∈ liveOf ord ns ↔ x ∈ ord ∧ x ∉ ns := by
  simp [liveOf]

theorem liveOf_nodup (ord ns : List Nat) (h : ord.Nodup) : (liveOf ord ns).Nodup :=
  List.Nodup.filter _ h

theorem filter_ne_split (l1 l2 : List Nat) (m : Nat) (h : (l1 ++ m :: l2).Nodup) :
    (l1 ++ m :: l2).filter (fun x => decide (x ≠ m)) = l1 ++ l2 := by
  have h1 : m ∉ l1 := fun e => (List.nodup_append.mp h).2.2 e (List.mem_cons_self _ _)
  have h2 : m ∉ l2 := (List.nodup_cons.mp (List.nodup_append.mp h).2.1).1
  rw [List.filter_append, List.filter_cons]
  have e1 : l1.filter (fun x => decide (x ≠ m)) = l1 := by
    rw [List.filter_eq_self]
    intro x hx
    have : x ≠ m := fun e => h1 (e ▸ hx)
    simpa using this
  have e2 : l2.filter (fun x => decide (x ≠ m)) = l2 := by
    rw [List.filter_eq_self]
    intro x hx
    have : x ≠ m := fun e => h2 (e ▸ hx)
    simpa using this
  rw [e1, e2]
  simp

theorem liveOf_snoc (ord ns : List Nat) (m : Nat) :
    liveOf ord (ns ++ [m]) = (liveOf ord ns).filter (fun x => decide (x ≠ m)) := by
  unfold liveOf
  rw [List.filter_filter]
  apply List.filter_congr
  intro x _
  simp [not_or]
  exact Bool.and_comm _ _

theorem liveOf_snoc_split (ord ns l1 l2 : List Nat) (m : Nat) (hord : ord.Nodup)
    (h : liveOf ord ns = l1 ++ m :: l2) : liveOf ord (ns ++ [m]) = l1 ++ l2 := by
  rw [liveOf_snoc, h]
  apply filter_ne_split
  rw [← h]
  exact liveOf_nodup ord ns hord

theorem elemsAfter_snoc (es0 : List sortednlist_elem) (ns : List Nat) (m : Nat) :
    elemsAfter es0 (ns ++ [m]) = unlink (elemsAfter es0 ns) m := by
  simp [elemsAfter, List.foldl_append]

/-- Removing numbers that are in the traversal, each once, leaves a chain over the
numbers that were not removed. -/
theorem Chain_elemsAfter (es0 : List sortednlist_elem) (K : Nat) (ord : List Nat)
    (h0 : Chain es0 K ord) :
    ∀ ns : List Nat, ns.Nodup → (∀ n ∈ ns, n ∈ ord) →
      Chain (elemsAfter es0 ns) K (liveOf ord ns) := by
  intro ns
  induction ns using List.reverseRecOn with
  | nil => intro _ _; rw [liveOf_nil]; exact h0
  | append_singleton ns m ih =>
    intro hnd hsub
    have hnd2 := List.nodup_append.mp hnd
    have hm : m ∈ liveOf ord ns := by
      rw [mem_liveOf]
      refine ⟨hsub m (by simp), ?_⟩
      intro e
      exact hnd2.2.2 e (List.mem_singleton_self m)
    have ih2 := ih hnd2.1 (fun n hn => hsub n (List.mem_append_left _ hn))
    obtain ⟨l1, l2, hsplit⟩ := List.append_of_mem hm
    rw [elemsAfter_snoc, liveOf_snoc_split ord ns l1 l2 m h0.2.2.1 hsplit]
    rw [hsplit] at ih2
    exact Chain_unlink _ K m l1 l2 ih2

theorem relink_elemsAfter (es0 : List sortednlist_elem) (K : Nat) (ord : List Nat)
    (h0 : Chain es0 K ord) (ns : List Nat) (m : Nat) (hnd : (ns ++ [m]).Nodup)
    (hsub : ∀ n ∈ ns ++ [m], n ∈ ord) :
    relink (elemsAfter es0 (ns ++ [m])) m = elemsAfter es0 ns := by
  have hnd2 := List.nodup_append.mp hnd
  have hm : m ∈ liveOf ord ns := by
    rw [mem_liveOf]
    refine ⟨hsub m (by simp), ?_⟩
    intro e
    exact hnd2.2.2 e (List.mem_singleton_self m)
  have ih2 := Chain_elemsAfter es0 K ord h0 ns hnd2.1
    (fun n hn => hsub n (List.mem_append_left _ hn))
  obtain ⟨l1, l2, hsplit⟩ := List.append_of_mem hm
  rw [hsplit] at ih2
  rw [elemsAfter_snoc]
  exact Chain_relink_unlink _ K m l1 l2 ih2

theorem Chain_length_le (es : List sortednlist_elem) (K : Nat) (live : List Nat)
    (h : Chain es K live) : live.length ≤ K := by
  have hsub : live ⊆ List.range' 1 K := by
    intro x hx
    have := h.2.2.2.1 x hx
    rw [List.mem_range'_1]; omega
  have := (List.Nodup.subperm h.2.2.1 hsub).length_le
  simpa using this

theorem removed_length_lt (es0 : List sortednlist_elem) (K : Nat) (ord : List Nat)
    (h0 : Chain es0 K ord) (ns : List Nat) (m : Nat) (hnd : (ns ++ [m]).Nodup)
    (hsub : ∀ n ∈ ns ++ [m], n ∈ ord) : ns.length < K := by
  have h1 := (List.Nodup.subperm hnd (fun x hx => hsub x hx)).length_le
  have h2 := Chain_length_le es0 K ord h0
  simp at h1
  omega



theorem getD_append_left' (ns : List Nat) (m i : Nat) (h : i < ns.length) :
    (ns ++ [m]).getD i 0 = ns.getD i 0 := by
  simp [List.getD_eq_getElem?_getD, List.getElem?_append_left h]

theorem getD_append_length (ns : List Nat) (m : Nat) :
    (ns ++ [m]).getD ns.length 0 = m := by
  simp [List.getD_eq_getElem?_getD]

theorem PoolRep_isremoved (es0 : List sortednlist_elem) (K : Nat) (ord : List Nat)
    (h0 : Chain es0 K ord) (ns : List Nat) (nl : sortednlist) (hrep : PoolRep es0 K ns nl)
    (hnd : ns.Nodup) (hsub : ∀ n ∈ ns, n ∈ ord) (x : Nat) (hx : x ≤ K) :
    sortednlist_isremoved nl x = false ↔ x ∈ liveOf ord ns := by
  have hc := Chain_elemsAfter es0 K ord h0 ns hnd hsub
  unfold sortednlist_isremoved
  rw [hrep.2.2.2.2]
  exact hc.2.2.2.2 x hx

theorem PoolRep_remove (es0 : List sortednlist_elem) (K : Nat) (ord : List Nat)
    (h0 : Chain es0 K ord) (hK : K ≤ 255) (ns : List Nat) (m : Nat) (nl : sortednlist)
    (hrep : PoolRep es0 K ns nl) (hnd : (ns ++ [m]).Nodup)
    (hsub : ∀ n ∈ ns ++ [m], n ∈ ord) :
    (sortednlist_remove nl m).1 = m ∧ PoolRep es0 K (ns ++ [m]) (sortednlist_remove nl m).2 := by
  have hnd2 := List.nodup_append.mp hnd
  have hsub2 : ∀ n ∈ ns, n ∈ ord := fun n hn => hsub n (List.mem_append_left _ hn)
  have hmo : m ∈ ord := hsub m (by simp)
  have hmK := h0.2.2.2.1 m hmo
  have hm : m ∈ liveOf ord ns := by
    rw [mem_liveOf]
    exact ⟨hmo, fun e => hnd2.2.2 e (List.mem_singleton_self m)⟩
  have hflag : (getelem nl.elems m).isremoved = false :=
    (PoolRep_isremoved es0 K ord h0 ns nl hrep hnd2.1 hsub2 m hmK.2).mpr hm
  have hlt := removed_length_lt es0 K ord h0 ns m hnd hsub
  obtain ⟨r1, r2, r3, r4, r5⟩ := hrep
  rw [sortednlist_remove_eq, hflag]
  simp only [Bool.false_eq_true, if_false]
  refine ⟨trivial, r1, ?_, ?_, ?_, ?_⟩
  · show (nl.nremoved + 1) % 256 = (ns ++ [m]).length
    rw [r2, List.length_append, List.length_singleton]
    exact Nat.mod_eq_of_lt (by omega)
  · show (nl.stack.set nl.nremoved m).length = K
    rw [List.length_set, r3]
  · intro i hi
    show (nl.stack.set nl.nremoved m).getD i 0 = (ns ++ [m]).getD i 0
    rw [getD_set_eq, r2, r3]
    rw [List.length_append, List.length_singleton] at hi
    by_cases hi2 : ns.length = i
    · subst hi2
      rw [if_pos ⟨rfl, hlt⟩, getD_append_length]
    · rw [if_neg (by tauto), getD_append_left' ns m i (by omega)]
      exact r4 i (by omega)
  · show unlink nl.elems m = elemsAfter es0 (ns ++ [m])
    rw [elemsAfter_snoc, r5]

theorem PoolRep_restore (es0 : List sortednlist_elem) (K : Nat) (ord : List Nat)
    (h0 : Chain es0 K ord) (ns : List Nat) (m : Nat) (nl : sortednlist)
    (hrep : PoolRep es0 K (ns ++ [m]) nl) (hnd : (ns ++ [m]).Nodup)
    (hsub : ∀ n ∈ ns ++ [m], n ∈ ord) :
    (sortednlist_restore nl).1 = m ∧ PoolRep es0 K ns (sortednlist_restore nl).2 := by
  obtain ⟨r1, r2, r3, r4, r5⟩ := hrep
  rw [List.length_append, List.length_singleton] at r2 r4
  have hne : nl.nremoved ≠ 0 := by omega
  have htop : nl.stack.getD (nl.nremoved - 1) 0 = m := by
    have e : nl.nremoved - 1 = ns.length := by omega
    rw [e, r4 ns.length (by omega), getD_append_length]
  rw [sortednlist_restore_eq, if_pos hne, htop]
  refine ⟨rfl, r1, ?_, r3, ?_, ?_⟩
  · show nl.nremoved - 1 = ns.length
    omega
  · intro i hi
    show nl.stack.getD i 0 = ns.getD i 0
    rw [r4 i (by omega), getD_append_left' ns m i hi]
  · show relink nl.elems m = elemsAfter es0 ns
    rw [r5]
    exact relink_elemsAfter es0 K ord h0 ns m hnd hsub

theorem PoolRep_init (mem : sortednlist) (K : Nat) :
    PoolRep (sortednlist_init mem K).elems K [] (sortednlist_init mem K) := by
  refine ⟨rfl, rfl, ?_, ?_, rfl⟩
  · simp [sortednlist_init]
  · intro i hi; simp at hi

theorem Reachable_rep (K : Nat) (hK1 : 1 ≤ K) (hK : K ≤ 255) (nl : sortednlist)
    (hr : Reachable K nl) :
    ∃ (mem : sortednlist) (ns : List Nat),
      PoolRep (sortednlist_init mem K).elems K ns nl ∧ ns.Nodup ∧
      ∀ n ∈ ns, n ∈ List.range' 1 K := by
  induction hr with
  | init mem => exact ⟨mem, [], PoolRep_init mem K, List.nodup_nil, by simp⟩
  | remove nl n _ hn ih =>
    obtain ⟨mem, ns, hrep, hnd, hsub⟩ := ih
    have h0 := sortednlist_init_chain mem K hK1 hK
    by_cases hflag : (getelem nl.elems n).isremoved = true
    · rw [sortednlist_remove_eq, if_pos hflag]
      exact ⟨mem, ns, hrep, hnd, hsub⟩
    · have hflag2 : sortednlist_isremoved nl n = false := by
        simpa [sortednlist_isremoved] using hflag
      have hlive := (PoolRep_isremoved _ K _ h0 ns nl hrep hnd hsub n (by omega)).mp hflag2
      rw [mem_liveOf] at hlive
      have hnd2 : (ns ++ [n]).Nodup := by
        rw [List.nodup_append]
        refine ⟨hnd, List.nodup_singleton n, ?_⟩
        intro x hx1 hx2
        rw [List.mem_singleton] at hx2
        subst hx2
        exact hlive.2 hx1
      have hsub2 : ∀ x ∈ ns ++ [n], x ∈ List.range' 1 K := by
        intro x hx
        rw [List.mem_append, List.mem_singleton] at hx
        rcases hx with hx | hx
        · exact hsub x hx
        · rw [hx]; exact hlive.1
      exact ⟨mem, ns ++ [n], (PoolRep_remove _ K _ h0 hK ns n nl hrep hnd2 hsub2).2, hnd2, hsub2⟩
  | restore nl _ ih =>
    obtain ⟨mem, ns, hrep, hnd, hsub⟩ := ih
    have h0 := sortednlist_init_chain mem K hK1 hK
    rcases List.eq_nil_or_concat ns with e | ⟨t, m, e⟩
    · subst e
      have : nl.nremoved = 0 := hrep.2.1
      rw [sortednlist_restore_eq, if_neg (by simp [this])]
      exact ⟨mem, [], hrep, hnd, hsub⟩
    · rw [List.concat_eq_append] at e
      subst e
      refine ⟨mem, t, (PoolRep_restore _ K _ h0 t m nl hrep hnd hsub).2,
        (List.nodup_append.mp hnd).1, fun x hx => hsub x (List.mem_append_left _ hx)⟩

theorem PoolRep_removes (es0 : List sortednlist_elem) (K : Nat) (ord : List Nat)
    (h0 : Chain es0 K ord) (hK : K ≤ 255) (ms : List Nat) :
    ∀ (ns : List Nat) (nl : sortednlist), PoolRep es0 K ns nl → (ns ++ ms).Nodup →
      (∀ n ∈ ns ++ ms, n ∈ ord) →
      (sortednlist_removes nl ms).1 = ms ∧
      PoolRep es0 K (ns ++ ms) (sortednlist_removes nl ms).2 := by
  induction ms with
  | nil => intro ns nl hrep _ _; simpa [sortednlist_removes] using hrep
  | cons m t ih =>
    intro ns nl hrep hnd hsub
    have e : ns ++ m :: t = (ns ++ [m]) ++ t := by simp
    rw [e] at hnd hsub ⊢
    have hnd1 := (List.nodup_append.mp hnd).1
    have hsub1 : ∀ n ∈ ns ++ [m], n ∈ ord := fun n hn => hsub n (List.mem_append_left _ hn)
    obtain ⟨a1, a2⟩ := PoolRep_remove es0 K ord h0 hK ns m nl hrep hnd1 hsub1
    obtain ⟨b1, b2⟩ := ih (ns ++ [m]) _ a2 hnd hsub
    simp only [sortednlist_removes]
    rw [a1, b1]
    exact ⟨rfl, b2⟩

theorem PoolRep_restores (es0 : List sortednlist_elem) (K : Nat) (ord : List Nat)
    (h0 : Chain es0 K ord) (ns : List Nat) (ms : List Nat) :
    ∀ (nl : sortednlist), PoolRep es0 K (ns ++ ms) nl → (ns ++ ms).Nodup →
      (∀ n ∈ ns ++ ms, n ∈ ord) →
      (sortednlist_restores nl ms.length).1 = ms.reverse ∧
      PoolRep es0 K ns (sortednlist_restores nl ms.length).2 := by
  induction ms using List.reverseRecOn with
  | nil => intro nl hrep _ _; simpa [sortednlist_restores] using hrep
  | append_singleton t m ih =>
    intro nl hrep hnd hsub
    rw [← List.append_assoc] at hrep hnd hsub
    obtain ⟨a1, a2⟩ := PoolRep_restore es0 K ord h0 (ns ++ t) m nl hrep hnd hsub
    obtain ⟨b1, b2⟩ := ih _ a2 (List.nodup_append.mp hnd).1
      (fun n hn => hsub n (List.mem_append_left _ hn))
    rw [List.length_append, List.length_singleton]
    simp only [sortednlist_restores]
    rw [a1, b1]
    exact ⟨by simp, b2⟩

/-- C9: in a list of size `K` reachable from `sortednlist_init` by removals and
restorations, removing `k` distinct present numbers of `1..K` succeeds each time, and `k`
restorations then return them in reverse order and give back the same `first`, `last`
and `nremoved` and the same `next`, `prev` and `isremoved` of every element `0..K`. -/
theorem C9_remove_restore_roundtrip (K : Nat) (hK : K ≤ 255) (nl : sortednlist)
    (hr : Reachable K nl) (ns : List Nat) (hnd : ns.Nodup)
    (hpres : ∀ n ∈ ns, 1 ≤ n ∧ n ≤ K ∧ sortednlist_isremoved nl n = false) :
    (sortednlist_removes nl ns).1 = ns ∧
    (sortednlist_restores (sortednlist_removes nl ns).2 ns.length).1 = ns.reverse ∧
    sortednlist_first (sortednlist_restores (sortednlist_removes nl ns).2 ns.length).2
      = sortednlist_first nl ∧
    sortednlist_last (sortednlist_restores (sortednlist_removes nl ns).2 ns.length).2
      = sortednlist_last nl ∧
    sortednlist_nremoved (sortednlist_restores (sortednlist_removes nl ns).2 ns.length).2
      = sortednlist_nremoved nl ∧
    ∀ e, e ≤ K →
      sortednlist_next (sortednlist_restores (sortednlist_removes nl ns).2 ns.length).2 e
        = sortednlist_next nl e ∧
      sortednlist_prev (sortednlist_restores (sortednlist_removes nl ns).2 ns.length).2 e
        = sortednlist_prev nl e ∧
      sortednlist_isremoved (sortednlist_restores (sortednlist_removes nl ns).2 ns.length).2 e
        = sortednlist_isremoved nl e := by
  rcases Nat.eq_zero_or_pos K with hK0 | hK1
  · have hns : ns = [] := by
      cases ns with
      | nil => rfl
      | cons a t => have := hpres a (List.mem_cons_self _ _); omega
    subst hns
    simp [sortednlist_removes, sortednlist_restores]
  · obtain ⟨mem, ns0, hrep, hnd0, hsub0⟩ := Reachable_rep K hK1 hK nl hr
    have h0 := sortednlist_init_chain mem K hK1 hK
    have hlive : ∀ n ∈ ns, n ∈ List.range' 1 K ∧ n ∉ ns0 := by
      intro n hn
      have := hpres n hn
      have h2 := (PoolRep_isremoved _ K _ h0 ns0 nl hrep hnd0 hsub0 n this.2.1).mp this.2.2
      rwa [mem_liveOf] at h2
    have hnd2 : (ns0 ++ ns).Nodup := by
      rw [List.nodup_append]
      exact ⟨hnd0, hnd, fun x hx1 hx2 => (hlive x hx2).2 hx1⟩
    have hsub2 : ∀ n ∈ ns0 ++ ns, n ∈ List.range' 1 K := by
      intro n hn
      rw [List.mem_append] at hn
      rcases hn with hn | hn
      · exact hsub0 n hn
      · exact (hlive n hn).1
    obtain ⟨a1, a2⟩ := PoolRep_removes _ K _ h0 hK ns ns0 nl hrep hnd2 hsub2
    obtain ⟨b1, b2⟩ := PoolRep_restores _ K _ h0 ns0 ns _ a2 hnd2 hsub2
    have helems : (sortednlist_restores (sortednlist_removes nl ns).2 ns.length).2.elems
        = nl.elems := by rw [b2.2.2.2.2, hrep.2.2.2.2]
    have hnrem : (sortednlist_restores (sortednlist_removes nl ns).2 ns.length).2.nremoved
        = nl.nremoved := by rw [b2.2.1, hrep.2.1]
    refine ⟨a1, b1, ?_, ?_, hnrem, ?_⟩
    · simp only [sortednlist_first, helems]
    · simp only [sortednlist_last, helems]
    · intro e _
      simp only [sortednlist_next, sortednlist_prev, sortednlist_isremoved, helems]
      exact ⟨trivial, trivial, trivial⟩

theorem C9_remove_restore_roundtrip_witness :
    (sortednlist_removes (sortednlist_remove (sortednlist_init mem0.nlmem 4) 2).2 [3, 1]).1
      = [3, 1] ∧
    (sortednlist_restores
      (sortednlist_removes (sortednlist_remove (sortednlist_init mem0.nlmem 4) 2).2 [3, 1]).2
      2).1 = [1, 3] ∧
    sortednlist_first (sortednlist_restores
      (sortednlist_removes (sortednlist_remove (sortednlist_init mem0.nlmem 4) 2).2 [3, 1]).2
      2).2 = 1 :=
  have h := C9_remove_restore_roundtrip 4 (by decide)
    (sortednlist_remove (sortednlist_init mem0.nlmem 4) 2).2
    (Reachable.remove _ 2 (Reachable.init mem0.nlmem) (by decide)) [3, 1] (by decide)
    (by decide)
  ⟨h.1, h.2.1, h.2.2.1.trans (by decide)⟩

/-- C10 as stated fails for side 16: `ncells` is `16*16` cut to a byte, which is 0, so
`sumsquare_init` initialises no cell and no cell relation, and every line starts with sum 0
and 16 holes; `sumsquare_setnum(sq, 0, 5)` then finds no line recorded for cell 0 and
stores 5 in it without touching any line counter: cell 0, which lies on row 0, holds 5,
while the counters of row 0 still say sum 0 and 16 holes. (In the C code the arrays `nums`,
`cellrelations` and `linerelations` start at the same address when `ncells` is 0, and the
byte they share is 0 after `sumsquare_init`; the three facts stated here hold there too.) -/
theorem C10_counterexample :
    (sumsquare_getlinecount
      (sumsquare_setnums (sumsquare_init mem0.sqmem 16) [(0, 5)]) 0).sum = 0 ∧
    (sumsquare_getlinecount
      (sumsquare_setnums (sumsquare_init mem0.sqmem 16) [(0, 5)]) 0).holes = 16 ∧
    sumsquare_getnum (sumsquare_setnums (sumsquare_init mem0.sqmem 16) [(0, 5)]) 0 = 5 := by
  refine ⟨by decide, by decide, by decide⟩

/-- C10 (amended): for every side `N >= 1` with `N*N <= 255` and every sequence of
`sumsquare_setnum` calls (cell index below `N*N`, value in `0..255`) applied after
`sumsquare_init`, each of the `2N+2` lines has `linecount.sum` equal to the sum of the
numbers stored in its cells and `linecount.holes` equal to the number of its cells
holding 0. -/
theorem C10_linecounts_exact (mem : sumsquare) (N : Nat) (calls : List (Nat × Nat))
    (_hN1 : 1 ≤ N) (hN : N * N ≤ 255)
    (hcalls : ∀ call ∈ calls, call.1 < N * N ∧ call.2 ≤ 255) :
    LineCountsExact (sumsquare_setnums (sumsquare_init mem N) calls) N :=
  (sumsquare_setnums_inv N hN calls _ (sumsquare_init_inv mem N hN).1 hcalls).2.2.2.2.2.2.2.2

theorem C10_linecounts_exact_witness :
    1 ≤ 3 ∧ 3 * 3 ≤ 255 ∧
    (∀ call ∈ [(0, 2), (4, 5), (0, 0), (8, 7)], call.1 < 3 * 3 ∧ call.2 ≤ 255) ∧
    LineCountsExact
      (sumsquare_setnums (sumsquare_init mem0.sqmem 3) [(0, 2), (4, 5), (0, 0), (8, 7)]) 3 :=
  ⟨by decide, by decide, by decide,
    C10_linecounts_exact mem0.sqmem 3 [(0, 2), (4, 5), (0, 0), (8, 7)] (by decide) (by decide)
      (by decide)⟩

theorem sortednlist_moveafter_eq (nl : sortednlist) (n p : Nat) :
    sortednlist_moveafter nl n p =
      if nl.nremoved ≠ 0 then (0, nl)
      else if n = p ∨ (getelem nl.elems n).prev = p then (1, nl)
      else (1, { nl with elems := attach (detach nl.elems n) n p }) := rfl

theorem detach_length (es : List sortednlist_elem) (n : Nat) :
    (detach es n).length = es.length := by
  simp [detach]

theorem attach_length (es : List sortednlist_elem) (n p : Nat) :
    (attach es n p).length = es.length := by
  simp [attach]

theorem detach_getelem (es : List sortednlist_elem) (m x : Nat)
    (ha : (getelem es m).prev < es.length) (hb : (getelem es m).next < es.length)
    (ham : (getelem es m).prev ≠ m) :
    getelem (detach es m) x =
      ⟨(getelem es x).isremoved,
       if x = (getelem es m).prev then (getelem es m).next else (getelem es x).next,
       if x = (getelem es m).next then (getelem es m).prev else (getelem es x).prev⟩ := by
  unfold detach
  generalize hes1 : es.set (getelem es m).prev
    ⟨(getelem es (getelem es m).prev).isremoved, (getelem es m).next,
      (getelem es (getelem es m).prev).prev⟩ = es1
  have l1 : es1.length = es.length := by rw [← hes1]; simp
  have g1 : ∀ y, getelem es1 y =
      if (getelem es m).prev = y then
        ⟨(getelem es (getelem es m).prev).isremoved, (getelem es m).next,
          (getelem es (getelem es m).prev).prev⟩
      else getelem es y := by
    intro y; rw [← hes1, getelem_set]; simp [ha]
  have g1m : getelem es1 m = getelem es m := by rw [g1, if_neg ham]
  simp only [g1m]
  rw [getelem_set, l1]
  by_cases h3 : (getelem es m).next = x
  · subst h3
    simp only [hb, and_self, if_true, g1]
    by_cases h2 : (getelem es m).prev = (getelem es m).next
    · simp [h2]
    · have h2b : ¬ (getelem es m).next = (getelem es m).prev := fun e => h2 e.symm
      simp [h2, h2b]
  · have h3b : ¬ x = (getelem es m).next := fun e => h3 e.symm
    simp only [h3, false_and, if_false, h3b, g1]
    by_cases h2 : (getelem es m).prev = x
    · subst h2
      simp
    · have h2b : ¬ x = (getelem es m).prev := fun e => h2 e.symm
      simp [h2, h2b]

theorem attach_getelem (es : List sortednlist_elem) (n p x : Nat) (hn : n < es.length)
    (hp : p < es.length) (hc : (getelem es p).next < es.length) (hnp : n ≠ p)
    (hnc : (getelem es p).next ≠ n) :
    getelem (attach es n p) x =
      ⟨(getelem es x).isremoved,
       if x = p then n else if x = n then (getelem es p).next else (getelem es x).next,
       if x = (getelem es p).next then n else if x = n then p else (getelem es x).prev⟩ := by
  unfold attach
  generalize hes3 : es.set n ⟨(getelem es n).isremoved, (getelem es n).next, p⟩ = es3
  have l3 : es3.length = es.length := by rw [← hes3]; simp
  have g3 : ∀ y, getelem es3 y =
      if n = y then ⟨(getelem es n).isremoved, (getelem es n).next, p⟩ else getelem es y := by
    intro y; rw [← hes3, getelem_set]; simp [hn]
  have g3n : getelem es3 n = ⟨(getelem es n).isremoved, (getelem es n).next, p⟩ := by simp [g3]
  have g3p : getelem es3 p = getelem es p := by rw [g3, if_neg hnp]
  simp only [g3n, g3p]
  generalize hes4 : es3.set n ⟨(getelem es n).isremoved, (getelem es p).next, p⟩ = es4
  have l4 : es4.length = es.length := by rw [← hes4]; simp [l3]
  have g4 : ∀ y, getelem es4 y =
      if n = y then ⟨(getelem es n).isremoved, (getelem es p).next, p⟩ else getelem es y := by
    intro y; rw [← hes4, getelem_set, l3]
    by_cases h : n = y
    · subst h
      rw [if_pos ⟨rfl, hn⟩, if_pos rfl]
    · rw [if_neg (fun e => h e.1), if_neg h, g3, if_neg h]
  have g4p : getelem es4 p = getelem es p := by rw [g4, if_neg hnp]
  simp only [g4p]
  generalize hes5 : es4.set (getelem es p).next
    ⟨(getelem es4 (getelem es p).next).isremoved, (getelem es4 (getelem es p).next).next, n⟩
    = es5
  have l5 : es5.length = es.length := by rw [← hes5]; simp [l4]
  have hcn : ¬ n = (getelem es p).next := fun e => hnc e.symm
  have g5 : ∀ y, getelem es5 y =
      if (getelem es p).next = y then
        ⟨(getelem es (getelem es p).next).isremoved, (getelem es (getelem es p).next).next, n⟩
      else getelem es4 y := by
    intro y; rw [← hes5, getelem_set, l4, g4, if_neg hcn]
    simp [hc]
  rw [getelem_set, l5]
  by_cases h1 : p = x
  · subst h1
    simp only [hp, and_self, if_true, g5]
    by_cases h2 : (getelem es p).next = p
    · simp [h2]
    · have h2b : ¬ p = (getelem es p).next := fun e => h2 e.symm
      have hpn : ¬ p = n := fun e => hnp e.symm
      simp [h2, h2b, g4, hnp, hpn]
  · have h1b : ¬ x = p := fun e => h1 e.symm
    simp only [h1, false_and, if_false, h1b, g5]
    by_cases h2 : (getelem es p).next = x
    · subst h2
      simp [hnc]
    · have h2b : ¬ x = (getelem es p).next := fun e => h2 e.symm
      simp only [h2, h2b, if_false, g4]
      by_cases h3 : n = x
      · subst h3; simp
      · have h3b : ¬ x = n := fun e => h3 e.symm
        simp [h3, h3b]



/-- Linking `n` right after `p` extends the path that starts at `p`. -/
theorem Path_attach (es es6 : List sortednlist_elem) (n p z c : Nat) (q2 : List Nat)
    (hn6 : ∀ x, (getelem es6 x).next =
      if x = p then n else if x = n then c else (getelem es x).next)
    (hp6 : ∀ x, (getelem es6 x).prev =
      if x = c then n else if x = n then p else (getelem es x).prev)
    (hc : (getelem es p).next = c)
    (hnq : n ∉ q2) (hnz : n ≠ z) (hnp : n ≠ p) (hpq : p ∉ q2) (hzq : z ∉ q2) (hq : q2.Nodup)
    (P : Path es p q2 z) : Path es6 p (n :: q2) z := by
  cases q2 with
  | nil =>
    simp only [Path] at P ⊢
    have hcz : c = z := by rw [← hc, P.1]
    rw [hn6, hp6, hn6, hp6]
    subst hcz
    refine ⟨by simp, ?_, ?_, by simp⟩
    · rw [if_neg hnz, if_pos rfl]
    · rw [if_neg hnp, if_pos rfl]
  | cons y t =>
    simp only [Path] at P ⊢
    have hcy : c = y := by rw [← hc, P.1]
    subst hcy
    have hnc : n ≠ c := fun e => hnq (by simp [e])
    have hpc : p ≠ c := fun e => hpq (by simp [e])
    have hzc : z ≠ c := fun e => hzq (by simp [e])
    have hct : c ∉ t := (List.nodup_cons.mp hq).1
    rw [hn6, hp6, hn6, hp6]
    refine ⟨by simp, ?_, ?_, by simp, ?_⟩
    · rw [if_neg hnc, if_pos rfl]
    · rw [if_neg hnp, if_pos rfl]
    · apply Path_congr es es6 z t c _ _ P.2.2
      · intro x hx
        have hxp : x ≠ p := fun e => hpq (e ▸ hx)
        have hxn : x ≠ n := fun e => hnq (e ▸ hx)
        rw [hn6, if_neg hxp, if_neg hxn]
      · intro x hx
        rw [List.mem_append, List.mem_singleton] at hx
        have hxc : x ≠ c := by
          rcases hx with hx | hx
          · intro e; exact hct (e ▸ hx)
          · rw [hx]; exact hzc
        have hxn : x ≠ n := by
          rcases hx with hx | hx
          · intro e; exact hnq (List.mem_cons_of_mem _ (e ▸ hx))
          · rw [hx]; exact fun e => hnz e.symm
        rw [hp6, if_neg hxc, if_neg hxn]

theorem Chain_zero_not_mem (es : List sortednlist_elem) (K : Nat) (live : List Nat)
    (h : Chain es K live) : 0 ∉ live := by
  intro e; have := h.2.2.2.1 0 e; omega

theorem erase_mid (l1 l2 : List Nat) (n : Nat) (h : n ∉ l1) :
    (l1 ++ n :: l2).erase n = l1 ++ l2 := by
  rw [List.erase_append_right _ h, List.erase_cons_head]

theorem insertAfter_mid (q1 q2 : List Nat) (p n : Nat) (h : p ∉ q1) :
    insertAfter p n (q1 ++ p :: q2) = q1 ++ p :: n :: q2 := by
  induction q1 with
  | nil => simp [insertAfter]
  | cons x t ih =>
    have hx : x ≠ p := fun e => h (by simp [e])
    have ht : p ∉ t := fun e => h (List.mem_cons_of_mem _ e)
    show insertAfter p n (x :: (t ++ p :: q2)) = x :: (t ++ p :: n :: q2)
    rw [insertAfter, if_neg hx, ih ht]

theorem movedAfter_already (l1 l2 : List Nat) (n p : Nat) (hn1 : n ∉ l1)
    (h9 : p = l1.getLastD 0) (hnd : l1.Nodup) (h0 : (0 : Nat) ∉ l1) :
    movedAfter (l1 ++ n :: l2) n p = l1 ++ n :: l2 := by
  unfold movedAfter
  rw [erase_mid l1 l2 n hn1]
  rcases List.eq_nil_or_concat l1 with e | ⟨t, m, e⟩
  · subst e
    simp only [List.getLastD_nil] at h9
    rw [if_pos h9]; rfl
  · rw [List.concat_eq_append] at e
    subst e
    have hl : (t ++ [m]).getLastD 0 = m := by simp
    rw [hl] at h9
    subst h9
    have hp0 : p ≠ 0 := fun e => h0 (by simp [e])
    have hpt : p ∉ t := fun e => by
      have := (List.nodup_append.mp hnd).2.2 e (List.mem_singleton_self p)
      exact this
    rw [if_neg hp0, List.append_assoc, List.singleton_append, insertAfter_mid t l2 p n hpt,
      List.append_assoc, List.singleton_append]

theorem moveafter_chain (nl : sortednlist) (K : Nat) (live : List Nat) (n p : Nat)
    (hC : Chain nl.elems K live) (hrem : nl.nremoved = 0) (hn : n ∈ live)
    (hp : p = 0 ∨ p ∈ live) :
    ∃ live2, Chain (sortednlist_moveafter nl n p).2.elems K live2 ∧ live2.Perm live ∧
      (sortednlist_moveafter nl n p).2.nremoved = 0 ∧
      (sortednlist_moveafter nl n p).2.size = nl.size ∧
      (sortednlist_moveafter nl n p).2.stack = nl.stack ∧
      (sortednlist_moveafter nl n p).1 = 1 ∧
      (n ≠ p → live2 = movedAfter live n p) := by
  rw [sortednlist_moveafter_eq, if_neg (by simp [hrem])]
  by_cases hearly : n = p ∨ (getelem nl.elems n).prev = p
  · rw [if_pos hearly]
    refine ⟨live, hC, List.Perm.refl _, hrem, rfl, rfl, rfl, ?_⟩
    intro hnp
    have hprev : (getelem nl.elems n).prev = p := by
      rcases hearly with e | e
      · exact absurd e hnp
      · exact e
    obtain ⟨l1, l2, hsplit⟩ := List.append_of_mem hn
    subst hsplit
    have h9 := (Chain_split_facts nl.elems K n l1 l2 hC).2.2.2.2.2.2.2.2.1
    have hnd := hC.2.2.1
    have h0mem := Chain_zero_not_mem _ _ _ hC
    have hnd1 : n ∉ l1 := fun e => (List.nodup_append.mp hnd).2.2 e (List.mem_cons_self _ _)
    rw [hprev] at h9
    exact (movedAfter_already l1 l2 n p hnd1 h9 (List.nodup_append.mp hnd).1
      (fun e => h0mem (by simp [e]))).symm
  · rw [if_neg hearly]
    push_neg at hearly
    obtain ⟨hnp, hprevp⟩ := hearly
    obtain ⟨l1, l2, hsplit⟩ := List.append_of_mem hn
    subst hsplit
    obtain ⟨h1, h2, h3, h4, h5, h6, h7, h8, h9, h10, h11, h12⟩ :=
      Chain_split_facts nl.elems K n l1 l2 hC
    have h0mem := Chain_zero_not_mem _ _ _ hC
    obtain ⟨hlen, hpath, hnd, hrange, hflag⟩ := hC
    obtain ⟨P1, P2⟩ := (Path_append nl.elems n 0 l2 l1 0).mp hpath
    have hnd1 : n ∉ l1 := fun e => (List.nodup_append.mp hnd).2.2 e (List.mem_cons_self _ _)
    have hnd2 : n ∉ l2 := (List.nodup_cons.mp (List.nodup_append.mp hnd).2.1).1
    have hndl1 : l1.Nodup := (List.nodup_append.mp hnd).1
    have hndl2 : l2.Nodup := (List.nodup_cons.mp (List.nodup_append.mp hnd).2.1).2
    have hdisj : ∀ x, x ∈ l1 → x ∈ l2 → False := fun x a b =>
      (List.nodup_append.mp hnd).2.2 a (List.mem_cons_of_mem _ b)
    have hnd12 : (l1 ++ l2).Nodup := by
      rw [List.nodup_append]; exact ⟨hndl1, hndl2, fun x a b => hdisj x a b⟩
    have hn0 : n ≠ 0 := fun e => h0mem (by simp [← e])
    have h0l1 : (0 : Nat) ∉ l1 := fun e => h0mem (by simp [e])
    have h0l2 : (0 : Nat) ∉ l2 := fun e => h0mem (by simp [e])
    -- after taking n out
    have g2 := fun x => detach_getelem nl.elems n x h2 h3 h4
    have l2len : (detach nl.elems n).length = K + 1 := by rw [detach_length, hlen]
    have Pd : Path (detach nl.elems n) 0 (l1 ++ l2) 0 := by
      apply Path_bridge nl.elems (detach nl.elems n) n 0 (getelem nl.elems n).prev
        (getelem nl.elems n).next l2 _ _ rfl rfl h7 h8 h0l2
        (List.nodup_append.mp hnd).2.1 l1 0 hnd h0mem h0l1 P1 P2
      · intro x; rw [g2 x]
      · intro x; rw [g2 x]
    have hp2 : p = 0 ∨ p ∈ l1 ++ l2 := by
      rcases hp with hp | hp
      · left; exact hp
      · right
        simp only [List.mem_append, List.mem_cons] at hp ⊢
        rcases hp with hp | hp | hp
        · left; exact hp
        · exact absurd hp.symm hnp
        · right; exact hp
    have hpK : p < (detach nl.elems n).length := by
      rw [l2len]
      rcases hp with hp | hp
      · omega
      · have := hrange p hp; omega
    have hnK : n < (detach nl.elems n).length := by rw [detach_length]; exact h1
    -- the successor of p in the shortened list
    have hcfacts : (getelem (detach nl.elems n) p).next < (detach nl.elems n).length ∧
        (getelem (detach nl.elems n) p).next ≠ n ∧
        ∃ live2, Path (attach (detach nl.elems n) n p) 0 live2 0 ∧
          live2.Perm (l1 ++ n :: l2) ∧ live2 = movedAfter (l1 ++ n :: l2) n p := by
      rcases hp2 with hp0 | hpm
      · subst hp0
        have hc := Path_head _ 0 0 (l1 ++ l2) Pd
        rw [headD_append_singleton] at hc
        have hcm : (l1 ++ l2).headD 0 = 0 ∨ (l1 ++ l2).headD 0 ∈ l1 ++ l2 := by
          cases (l1 ++ l2) with
          | nil => left; rfl
          | cons y t => right; simp
        have hclt : (getelem (detach nl.elems n) 0).next < (detach nl.elems n).length := by
          rw [l2len, hc]
          rcases hcm with e | e
          · rw [e]; omega
          · have := hrange _ (by
              simp only [List.mem_append, List.mem_cons] at e ⊢; tauto); omega
        have hcn : (getelem (detach nl.elems n) 0).next ≠ n := by
          rw [hc]
          rcases hcm with e | e
          · rw [e]; exact fun e2 => hn0 e2.symm
          · intro e2; rw [e2] at e
            rcases List.mem_append.mp e with e3 | e3
            · exact hnd1 e3
            · exact hnd2 e3
        refine ⟨hclt, hcn, n :: (l1 ++ l2), ?_, ?_, ?_⟩
        rotate_left 2
        · unfold movedAfter
          rw [if_pos rfl, erase_mid l1 l2 n hnd1]
        · apply Path_attach (detach nl.elems n) _ n 0 0 _ (l1 ++ l2) _ _ rfl _ hn0 hn0 _ _ hnd12 Pd
          · intro x; rw [attach_getelem _ n 0 x hnK hpK hclt hn0 hcn]
          · intro x; rw [attach_getelem _ n 0 x hnK hpK hclt hn0 hcn]
          · intro e
            rcases List.mem_append.mp e with e3 | e3
            · exact hnd1 e3
            · exact hnd2 e3
          · intro e
            rcases List.mem_append.mp e with e3 | e3
            · exact h0l1 e3
            · exact h0l2 e3
          · intro e
            rcases List.mem_append.mp e with e3 | e3
            · exact h0l1 e3
            · exact h0l2 e3
        · exact (List.perm_middle).symm
      · obtain ⟨q1, q2, hq⟩ := List.append_of_mem hpm
        rw [hq] at Pd hnd12
        obtain ⟨Q1, Q2⟩ := (Path_append _ p 0 q2 q1 0).mp Pd
        have hmemq : ∀ x, x ∈ q1 ++ p :: q2 → x ∈ l1 ++ l2 := by
          intro x hx; rw [hq]; exact hx
        have hpq1 : p ∉ q1 := fun e => (List.nodup_append.mp hnd12).2.2 e (List.mem_cons_self _ _)
        have hpq2 : p ∉ q2 := (List.nodup_cons.mp (List.nodup_append.mp hnd12).2.1).1
        have hq2nd : q2.Nodup := (List.nodup_cons.mp (List.nodup_append.mp hnd12).2.1).2
        have hnq : ∀ x, x ∈ q1 ++ p :: q2 → x ≠ n := by
          intro x hx e
          have := hmemq x hx
          rw [e] at this
          rcases List.mem_append.mp this with e3 | e3
          · exact hnd1 e3
          · exact hnd2 e3
        have h0q : ∀ x, x ∈ q1 ++ p :: q2 → x ≠ 0 := by
          intro x hx e
          have := hmemq x hx
          rw [e] at this
          rcases List.mem_append.mp this with e3 | e3
          · exact h0l1 e3
          · exact h0l2 e3
        have hc := Path_head _ p 0 q2 Q2
        rw [headD_append_singleton] at hc
        have hcm : q2.headD 0 = 0 ∨ q2.headD 0 ∈ q2 := by
          cases q2 with
          | nil => left; rfl
          | cons y t => right; simp
        have hclt : (getelem (detach nl.elems n) p).next < (detach nl.elems n).length := by
          rw [l2len, hc]
          rcases hcm with e | e
          · rw [e]; omega
          · have h3 := hmemq _ (List.mem_append_right _ (List.mem_cons_of_mem _ e))
            have := hrange _ (by
              simp only [List.mem_append, List.mem_cons] at h3 ⊢; tauto); omega
        have hcn : (getelem (detach nl.elems n) p).next ≠ n := by
          rw [hc]
          rcases hcm with e | e
          · rw [e]; exact fun e2 => hn0 e2.symm
          · exact hnq _ (List.mem_append_right _ (List.mem_cons_of_mem _ e))
        have hcq1 : (getelem (detach nl.elems n) p).next ∉ q1 := by
          rw [hc]
          rcases hcm with e | e
          · rw [e]; intro e2; exact h0q 0 (List.mem_append_left _ e2) rfl
          · intro e2
            exact (List.nodup_append.mp hnd12).2.2 e2 (List.mem_cons_of_mem _ e)
        have hcp : (getelem (detach nl.elems n) p).next ≠ p := by
          rw [hc]
          rcases hcm with e | e
          · rw [e]; exact fun e2 => h0q p (by simp) e2.symm
          · intro e2; rw [e2] at e; exact hpq2 e
        have g6 := fun x => attach_getelem (detach nl.elems n) n p x hnK hpK hclt hnp hcn
        refine ⟨hclt, hcn, q1 ++ p :: n :: q2, ?_, ?_, ?_⟩
        rotate_left 2
        · unfold movedAfter
          rw [if_neg (h0q p (by simp)), erase_mid l1 l2 n hnd1, hq, insertAfter_mid q1 q2 p n hpq1]
        · rw [Path_append]
          constructor
          · apply Path_congr (detach nl.elems n) _ p q1 0 _ _ Q1
            · intro x hx
              have hxp : x ≠ p := by
                rcases List.mem_cons.mp hx with e | e
                · rw [e]; exact fun e2 => h0q p (by simp) e2.symm
                · intro e2; exact hpq1 (e2 ▸ e)
              have hxn : x ≠ n := by
                rcases List.mem_cons.mp hx with e | e
                · rw [e]; exact fun e2 => hn0 e2.symm
                · exact hnq x (List.mem_append_left _ e)
              rw [g6 x]; simp [hxp, hxn]
            · intro x hx
              rw [List.mem_append, List.mem_singleton] at hx
              have hxc : x ≠ (getelem (detach nl.elems n) p).next := by
                rcases hx with e | e
                · intro e2; exact hcq1 (e2 ▸ e)
                · rw [e]; exact fun e2 => hcp e2.symm
              have hxn : x ≠ n := by
                rcases hx with e | e
                · exact hnq x (List.mem_append_left _ e)
                · rw [e]; exact fun e2 => hnp e2.symm
              rw [g6 x]; simp [hxc, hxn]
          · apply Path_attach (detach nl.elems n) _ n p 0 _ q2 _ _ rfl _ hn0 hnp hpq2 _ hq2nd Q2
            · intro x; rw [g6 x]
            · intro x; rw [g6 x]
            · intro e; exact hnq n (List.mem_append_right _ (List.mem_cons_of_mem _ e)) rfl
            · intro e; exact h0q 0 (List.mem_append_right _ (List.mem_cons_of_mem _ e)) rfl
        · have e1 : (q1 ++ p :: n :: q2).Perm (n :: (q1 ++ p :: q2)) := by
            have := @List.perm_middle _ n q1 (p :: q2)
            exact (List.Perm.append_left q1 (List.Perm.swap n p q2)).trans this
          rw [← hq] at e1
          exact e1.trans (List.perm_middle).symm
    obtain ⟨hclt, hcn, live2, hpath2, hperm, hexact⟩ := hcfacts
    refine ⟨live2, ⟨?_, hpath2, ?_, ?_, ?_⟩, hperm, hrem, rfl, rfl, rfl, fun _ => hexact⟩
    · show (attach (detach nl.elems n) n p).length = K + 1
      rw [attach_length, l2len]
    · exact (List.Perm.nodup_iff hperm).mpr hnd
    · intro x hx; exact hrange x ((List.Perm.mem_iff hperm).mp hx)
    · intro x hx
      show (getelem (attach (detach nl.elems n) n p) x).isremoved = false ↔ x ∈ live2
      rw [attach_getelem _ n p x hnK hpK hclt hnp hcn, g2 x, List.Perm.mem_iff hperm]
      exact hflag x hx



theorem cellidx_bound (N i j : Nat) (hi : i < N) (hj : j < N) :
    1 ≤ CELLIDXFROMIJ i j N + 1 ∧ CELLIDXFROMIJ i j N + 1 ≤ N * N := by
  unfold CELLIDXFROMIJ
  have h1 : i * N + N ≤ N * N := by
    have : (i + 1) * N ≤ N * N := Nat.mul_le_mul_right N (by omega)
    rw [Nat.add_mul, Nat.one_mul] at this; exact this
  omega

theorem PoolReady_moveafter (pl : sortednlist) (K n p : Nat) (h : PoolReady pl K)
    (hn1 : 1 ≤ n) (hn : n ≤ K) (hp : p ≤ K) :
    PoolReady (sortednlist_moveafter pl n p).2 K := by
  obtain ⟨live, hC, hperm, hrem, hsize, hstack⟩ := h
  have hmem : ∀ x, 1 ≤ x → x ≤ K → x ∈ live := by
    intro x h1 h2
    rw [List.Perm.mem_iff hperm, List.mem_range'_1]; omega
  have hp2 : p = 0 ∨ p ∈ live := by
    rcases Nat.eq_zero_or_pos p with e | e
    · left; exact e
    · right; exact hmem p e hp
  obtain ⟨live2, c1, c2, c3, c4, c5, _⟩ :=
    moveafter_chain pl K live n p hC hrem (hmem n hn1 hn) hp2
  exact ⟨live2, c1, c2.trans hperm, c3, by rw [c4, hsize], by rw [c5, hstack]⟩

theorem PoolReady_ring (N r : Nat) (hN : N * N ≤ 255) (hr : r < N / 2 + N % 2)
    (st : sortednlist × Nat) (h : PoolReady st.1 (N * N)) (h2 : st.2 ≤ N * N) :
    PoolReady (magicsquare_initpositionsorder_ring N r st).1 (N * N) ∧
    (magicsquare_initpositionsorder_ring N r st).2 ≤ N * N := by
  have hrN : r < N := by omega
  have hlr : N - 1 - r < N := by omega
  have b0 := cellidx_bound N r r hrN hrN
  have b1 := cellidx_bound N r (N - 1 - r) hrN hlr
  have b2 := cellidx_bound N (N - 1 - r) r hlr hrN
  have b3 := cellidx_bound N (N - 1 - r) (N - 1 - r) hlr hlr
  have m0 : (CELLIDXFROMIJ r r N + 1) % 256 = CELLIDXFROMIJ r r N + 1 :=
    Nat.mod_eq_of_lt (by omega)
  have m1 : (CELLIDXFROMIJ r (N - 1 - r) N + 1) % 256 = CELLIDXFROMIJ r (N - 1 - r) N + 1 :=
    Nat.mod_eq_of_lt (by omega)
  have m2 : (CELLIDXFROMIJ (N - 1 - r) r N + 1) % 256 = CELLIDXFROMIJ (N - 1 - r) r N + 1 :=
    Nat.mod_eq_of_lt (by omega)
  have m3 : (CELLIDXFROMIJ (N - 1 - r) (N - 1 - r) N + 1) % 256
      = CELLIDXFROMIJ (N - 1 - r) (N - 1 - r) N + 1 := Nat.mod_eq_of_lt (by omega)
  have ms : st.2 % 256 = st.2 := Nat.mod_eq_of_lt (by omega)
  unfold magicsquare_initpositionsorder_ring
  simp only [m0, m1, m2, m3, ms]
  refine ⟨?_, b3.2⟩
  apply PoolReady_moveafter _ _ _ _ _ b3.1 b3.2 b2.2
  apply PoolReady_moveafter _ _ _ _ _ b2.1 b2.2 b1.2
  apply PoolReady_moveafter _ _ _ _ _ b1.1 b1.2 b0.2
  exact PoolReady_moveafter _ _ _ _ h b0.1 b0.2 h2

theorem PoolReady_rings (N : Nat) (hN : N * N ≤ 255) (rs : List Nat) :
    ∀ (st : sortednlist × Nat), (∀ r ∈ rs, r < N / 2 + N % 2) →
      PoolReady st.1 (N * N) → st.2 ≤ N * N →
      PoolReady (rs.foldl (fun st r => magicsquare_initpositionsorder_ring N r st) st).1 (N * N) := by
  induction rs with
  | nil => intro st _ h _; exact h
  | cons r t ih =>
    intro st hr h h2
    rw [List.foldl_cons]
    have := PoolReady_ring N r hN (hr r (List.mem_cons_self _ _)) st h h2
    exact ih _ (fun x hx => hr x (List.mem_cons_of_mem _ hx)) this.1 this.2

theorem PoolReady_init (mem : sortednlist) (K : Nat) (hK1 : 1 ≤ K) (hK : K ≤ 255) :
    PoolReady (sortednlist_init mem K) K :=
  ⟨List.range' 1 K, sortednlist_init_chain mem K hK1 hK, List.Perm.refl _, rfl, rfl,
    by simp [sortednlist_init]⟩

theorem PoolReady_initpositionsorder (mem : sortednlist) (N : Nat) (hN1 : 1 ≤ N)
    (hN : N * N ≤ 255) :
    PoolReady (magicsquare_initpositionsorder (sortednlist_init mem (N * N)) N) (N * N) := by
  unfold magicsquare_initpositionsorder
  apply PoolReady_rings N hN
  · intro r hr; exact List.mem_range.mp hr
  · exact PoolReady_init mem (N * N) (Nat.mul_pos hN1 hN1) hN
  · exact Nat.zero_le _

theorem headD_drop (l : List Nat) (i : Nat) : (l.drop i).headD 0 = l.getD i 0 := by
  induction l generalizing i with
  | nil => simp
  | cons a t ih =>
    cases i with
    | zero => simp
    | succ i => simpa using ih i

theorem getLastD_reverse (l : List Nat) : l.reverse.getLastD 0 = l.headD 0 := by
  cases l with
  | nil => rfl
  | cons a t => simp

theorem getD_eq_getElem' (l : List Nat) (i : Nat) (h : i < l.length) : l.getD i 0 = l[i] := by
  simp [List.getD_eq_getElem?_getD, List.getElem?_eq_getElem h]

theorem getD_of_le (l : List Nat) (i : Nat) (h : l.length ≤ i) : l.getD i 0 = 0 := by
  simp [List.getD_eq_getElem?_getD, List.getElem?_eq_none h]

theorem split_at (l : List Nat) (i : Nat) (h : i < l.length) :
    l = l.take i ++ l.getD i 0 :: l.drop (i + 1) := by
  rw [getD_eq_getElem' l i h, ← List.drop_eq_getElem_cons h, List.take_append_drop]

theorem Chain_first (es : List sortednlist_elem) (K : Nat) (A : List Nat) (h : Chain es K A) :
    (getelem es 0).next = A.getD 0 0 := by
  rw [Path_head es 0 0 A h.2.1, headD_append_singleton, ← headD_drop A 0, List.drop_zero]

theorem Chain_last (es : List sortednlist_elem) (K : Nat) (A : List Nat) (h : Chain es K A) :
    (getelem es 0).prev = A.reverse.getD 0 0 := by
  rw [(Path_end es 0 A 0 h.2.1).1, ← headD_drop A.reverse 0, List.drop_zero,
    ← getLastD_reverse A.reverse, List.reverse_reverse]

theorem Chain_next_getD (es : List sortednlist_elem) (K : Nat) (A : List Nat)
    (h : Chain es K A) (i : Nat) (hi : i < A.length) :
    (getelem es (A.getD i 0)).next = A.getD (i + 1) 0 := by
  have hs := split_at A i hi
  rw [hs] at h
  have := (Chain_split_facts es K _ _ _ h).2.2.2.2.2.2.2.2.2.1
  rw [this, headD_drop]

theorem Chain_prev_getD (es : List sortednlist_elem) (K : Nat) (A : List Nat)
    (h : Chain es K A) (i : Nat) (hi : i < A.length) :
    (getelem es (A.reverse.getD i 0)).prev = A.reverse.getD (i + 1) 0 := by
  have hi2 : i < A.reverse.length := by simpa using hi
  have hs := split_at A.reverse i hi2
  have hA : A = (A.reverse.drop (i + 1)).reverse ++ A.reverse.getD i 0
      :: (A.reverse.take i).reverse := by
    calc A = A.reverse.reverse := (List.reverse_reverse A).symm
      _ = (A.reverse.take i ++ A.reverse.getD i 0 :: A.reverse.drop (i + 1)).reverse := by
          rw [← hs]
      _ = _ := by simp
  rw [hA] at h
  have := (Chain_split_facts es K _ _ _ h).2.2.2.2.2.2.2.2.1
  rw [this, getLastD_reverse, headD_drop]

theorem Chain_getD_ne_zero (es : List sortednlist_elem) (K : Nat) (A : List Nat)
    (h : Chain es K A) (i : Nat) (hi : i < A.length) : A.getD i 0 ≠ 0 := by
  rw [getD_eq_getElem' A i hi]
  have := h.2.2.2.1 _ (List.getElem_mem hi)
  omega

theorem sum_take_succ_getD (A : List Nat) (i : Nat) (hi : i < A.length) :
    (((A.take (i + 1)).sum : Nat) : Int) = ((A.take i).sum : Nat) + (A.getD i 0 : Nat) := by
  rw [List.sum_take_succ A i hi, getD_eq_getElem' A i hi]
  push_cast
  rfl

/-- The loop of `sortednlistsums_get` on a pool whose available numbers are `A`: it stops
after `min(size, |A|)` rounds having stored the sums of the first and of the last numbers. -/
theorem sums_loop_spec (nl : sortednlist) (K : Nat) (A : List Nat) (hC : Chain nl.elems K A)
    (S : Nat) :
    ∀ (k l : Nat) (mins maxs : List Int), l + k = S → l ≤ A.length →
      mins.length = S → maxs.length = S →
      (sortednlistsums_get_loop nl k l (A.getD l 0) (A.reverse.getD l 0)
        ((A.take l).sum : Nat) ((A.reverse.take l).sum : Nat) mins maxs).1 = min S A.length ∧
      (sortednlistsums_get_loop nl k l (A.getD l 0) (A.reverse.getD l 0)
        ((A.take l).sum : Nat) ((A.reverse.take l).sum : Nat) mins maxs).2.1.length = S ∧
      (sortednlistsums_get_loop nl k l (A.getD l 0) (A.reverse.getD l 0)
        ((A.take l).sum : Nat) ((A.reverse.take l).sum : Nat) mins maxs).2.2.length = S ∧
      ∀ i, i < min S A.length →
        (sortednlistsums_get_loop nl k l (A.getD l 0) (A.reverse.getD l 0)
          ((A.take l).sum : Nat) ((A.reverse.take l).sum : Nat) mins maxs).2.1.getD i 0 =
          (if i < l then mins.getD i 0 else (((A.take (i + 1)).sum : Nat) : Int)) ∧
        (sortednlistsums_get_loop nl k l (A.getD l 0) (A.reverse.getD l 0)
          ((A.take l).sum : Nat) ((A.reverse.take l).sum : Nat) mins maxs).2.2.getD i 0 =
          (if i < l then maxs.getD i 0 else (((A.reverse.take (i + 1)).sum : Nat) : Int)) := by
  intro k
  induction k with
  | zero =>
    intro l mins maxs hl hlA hm1 hm2
    simp only [sortednlistsums_get_loop]
    have : l = S := by omega
    subst this
    refine ⟨by omega, hm1, hm2, ?_⟩
    intro i hi
    rw [if_pos (by omega), if_pos (by omega)]
    exact ⟨rfl, rfl⟩
  | succ k ih =>
    intro l mins maxs hl hlA hm1 hm2
    by_cases hend : l = A.length
    · have hz : A.getD l 0 = 0 := getD_of_le A l (by omega)
      simp only [sortednlistsums_get_loop, hz, if_true]
      refine ⟨by omega, hm1, hm2, ?_⟩
      intro i hi
      rw [if_pos (by omega), if_pos (by omega)]
      exact ⟨rfl, rfl⟩
    · have hlt : l < A.length := by omega
      have hltr : l < A.reverse.length := by simpa using hlt
      have hnz := Chain_getD_ne_zero nl.elems K A hC l hlt
      simp only [sortednlistsums_get_loop, hnz, if_false]
      have e1 : sortednlist_next nl (A.getD l 0) = A.getD (l + 1) 0 :=
        Chain_next_getD nl.elems K A hC l hlt
      have e2 : sortednlist_prev nl (A.reverse.getD l 0) = A.reverse.getD (l + 1) 0 :=
        Chain_prev_getD nl.elems K A hC l hlt
      have s1 := sum_take_succ_getD A l hlt
      have s2 := sum_take_succ_getD A.reverse l hltr
      rw [e1, e2, ← s1, ← s2]
      obtain ⟨r1, r2, r3, r4⟩ := ih (l + 1)
        (mins.set l (((A.take (l + 1)).sum : Nat) : Int))
        (maxs.set l (((A.reverse.take (l + 1)).sum : Nat) : Int))
        (by omega) (by omega) (by simpa using hm1) (by simpa using hm2)
      refine ⟨r1, r2, r3, ?_⟩
      intro i hi
      obtain ⟨q1, q2⟩ := r4 i hi
      rw [q1, q2]
      by_cases hil : i < l
      · have c1 : i < l + 1 := by omega
        have c2 : ¬ (l = i ∧ l < mins.length) := by omega
        have c3 : ¬ (l = i ∧ l < maxs.length) := by omega
        simp only [c1, hil, if_true, getD_set_eq, c2, c3, if_false, and_self]
      · by_cases hil2 : i = l
        · subst hil2
          have c1 : i < i + 1 := by omega
          have c2 : (i = i ∧ i < mins.length) := ⟨rfl, by omega⟩
          have c3 : (i = i ∧ i < maxs.length) := ⟨rfl, by omega⟩
          simp only [c1, hil, if_true, getD_set_eq, c2, c3, if_false, and_self]
        · have c1 : ¬ i < l + 1 := by omega
          simp only [c1, hil, if_false, and_self]



/-- What `sortednlistsums_get` leaves in the sums, for a pool whose available numbers are
`A` in traversal order. -/
theorem sortednlistsums_get_spec (sm : sortednlistsums) (nl : sortednlist) (K : Nat)
    (A : List Nat) (hC : Chain nl.elems K A) (S : Nat) (hS : sm.size = S)
    (h1 : sm.minsums.length = S) (h2 : sm.maxsums.length = S) :
    (sortednlistsums_get sm nl).size = S ∧
    (sortednlistsums_get sm nl).len = min S A.length ∧
    (sortednlistsums_get sm nl).minsums.length = S ∧
    (sortednlistsums_get sm nl).maxsums.length = S ∧
    ∀ h, 1 ≤ h → h ≤ min S A.length →
      (sortednlistsums_get sm nl).minsums.getD (h - 1) 0 = (((A.take h).sum : Nat) : Int) ∧
      (sortednlistsums_get sm nl).maxsums.getD (h - 1) 0
        = (((A.reverse.take h).sum : Nat) : Int) := by
  have hf : sortednlist_first nl = A.getD 0 0 := Chain_first nl.elems K A hC
  have hl : sortednlist_last nl = A.reverse.getD 0 0 := Chain_last nl.elems K A hC
  have key := sums_loop_spec nl K A hC S S 0 sm.minsums sm.maxsums (by omega) (by omega) h1 h2
  simp only [List.take_zero, List.sum_nil, Nat.cast_zero] at key
  unfold sortednlistsums_get
  rw [hf, hl, hS]
  obtain ⟨k1, k2, k3, k4⟩ := key
  refine ⟨rfl, k1, k2, k3, ?_⟩
  intro h hh1 hh2
  have := k4 (h - 1) (by omega)
  rw [if_neg (by omega), if_neg (by omega)] at this
  have e : h - 1 + 1 = h := by omega
  rw [e] at this
  exact this

theorem storedSum_eq (sq : sumsquare) (N l : Nat) : storedSum sq N l = gridSum sq.nums N l := rfl

theorem storedHoles_eq (sq : sumsquare) (N l : Nat) :
    storedHoles sq N l = gridHoles sq.nums N l := rfl

theorem take_one_sum (A : List Nat) : (A.take 1).sum = A.getD 0 0 := by
  cases A with
  | nil => rfl
  | cons a t => simp

/-- The line loop of `magicsquare_checksums` passes exactly when every remaining line
satisfies its bounds, and then reports the first line with one hole. -/
theorem checksums_loop_spec (sq : sumsquare) (nl : sortednlist) (sm : sortednlistsums)
    (msum : Int) (N K : Nat) (A : List Nat) (hsq : SqInv sq N) (hC : Chain nl.elems K A)
    (hsums : ∀ h, 1 ≤ h → h ≤ min N A.length →
      sm.minsums.getD (h - 1) 0 = (((A.take h).sum : Nat) : Int) ∧
      sm.maxsums.getD (h - 1) 0 = (((A.reverse.take h).sum : Nat) : Int))
    (hholes : ∀ l, l < N + N + 2 → gridHoles sq.nums N l ≤ min N A.length) :
    ∀ (k l : Nat) (ln : Int), l + k = N + N + 2 →
      ((magicsquare_checksums_loop sq nl sm msum k l ln).1 = true ↔
        ∀ l2, l ≤ l2 → l2 < N + N + 2 → lineOk N msum sq.nums A l2) ∧
      ((magicsquare_checksums_loop sq nl sm msum k l ln).1 = true →
        ((magicsquare_checksums_loop sq nl sm msum k l ln).2 = ln ∨
          (ln < 0 ∧ ∃ l2, l ≤ l2 ∧ l2 < N + N + 2 ∧
            (magicsquare_checksums_loop sq nl sm msum k l ln).2 = (l2 : Int) ∧
            gridHoles sq.nums N l2 = 1))) := by
  intro k
  induction k with
  | zero =>
    intro l ln hl
    simp only [magicsquare_checksums_loop]
    refine ⟨⟨fun _ l2 h1 h2 => by omega, fun _ => trivial⟩, fun _ => Or.inl trivial⟩
  | succ k ih =>
    intro l ln hl
    have hlt : l < N + N + 2 := by omega
    obtain ⟨hsum, hhol⟩ := hsq.2.2.2.2.2.2.2.2 l hlt
    rw [storedSum_eq] at hsum
    rw [storedHoles_eq] at hhol
    have hb := hholes l hlt
    have hrest : (∀ l2, l ≤ l2 → l2 < N + N + 2 → lineOk N msum sq.nums A l2) ↔
        (lineOk N msum sq.nums A l ∧
          ∀ l2, l + 1 ≤ l2 → l2 < N + N + 2 → lineOk N msum sq.nums A l2) := by
      constructor
      · intro h; exact ⟨h l (le_refl _) hlt, fun l2 a b => h l2 (by omega) b⟩
      · intro h l2 a b
        rcases Nat.eq_or_lt_of_le a with e | e
        · rw [← e]; exact h.1
        · exact h.2 l2 e b
    have ihn := fun ln2 => ih (l + 1) ln2 (by omega)
    simp only [magicsquare_checksums_loop]
    rw [hsum, hhol, hrest]
    by_cases hz : gridHoles sq.nums N l = 0
    · -- a full line
      have hok : lineOk N msum sq.nums A l ↔ gridSum sq.nums N l = msum := by
        unfold lineOk; rw [if_neg (by simpa using hz)]
      rw [if_neg (by simpa using hz)]
      by_cases hs : gridSum sq.nums N l = msum
      · rw [if_neg (by simpa using hs)]
        refine ⟨?_, ?_⟩
        · rw [(ihn ln).1]; simp [hok, hs]
        · intro h
          rcases (ihn ln).2 h with e | ⟨e1, l2, e2, e3, e4, e5⟩
          · exact Or.inl e
          · exact Or.inr ⟨e1, l2, by omega, e3, e4, e5⟩
      · rw [if_pos (by simpa using hs)]
        simp [hok, hs]
    · rw [if_pos (by simpa using hz)]
      obtain ⟨hmin, hmax⟩ := hsums (gridHoles sq.nums N l) (by omega) hb
      rw [hmin, hmax]
      have hok : lineOk N msum sq.nums A l ↔
          (gridSum sq.nums N l + ((A.take (gridHoles sq.nums N l)).sum : Nat) ≤ msum ∧
            msum ≤ gridSum sq.nums N l + ((A.reverse.take (gridHoles sq.nums N l)).sum : Nat) ∧
            (gridHoles sq.nums N l = 1 → (msum - gridSum sq.nums N l).toNat ∈ A)) := by
        unfold lineOk; rw [if_pos (by simpa using hz)]
      by_cases c1 : gridSum sq.nums N l + ((A.take (gridHoles sq.nums N l)).sum : Nat) > msum
      · rw [if_pos c1]
        have : ¬ lineOk N msum sq.nums A l := by
          rw [hok]; intro h; omega
        simp [this]
      · rw [if_neg c1]
        by_cases c2 : gridSum sq.nums N l + ((A.reverse.take (gridHoles sq.nums N l)).sum : Nat)
            < msum
        · rw [if_pos c2]
          have : ¬ lineOk N msum sq.nums A l := by
            rw [hok]; intro h; omega
          simp [this]
        · rw [if_neg c2]
          by_cases c3 : gridHoles sq.nums N l = 1
          · rw [if_pos c3]
            -- the number that fills the hole
            rw [c3] at c1 c2 hb
            rw [take_one_sum] at c1 c2
            have hA0 : 0 < A.length := by omega
            have hAr0 : 0 < A.reverse.length := by simpa using hA0
            have hmn := hC.2.2.2.1 (A.getD 0 0) (by
              rw [getD_eq_getElem' A 0 hA0]; exact List.getElem_mem hA0)
            have hmx := hC.2.2.2.1 (A.reverse.getD 0 0) (by
              rw [getD_eq_getElem' A.reverse 0 hAr0]
              exact List.mem_reverse.mp (List.getElem_mem hAr0))
            have hidx : (msum - gridSum sq.nums N l).toNat ≤ K := by omega
            have hflag := hC.2.2.2.2 _ hidx
            by_cases c4 : sortednlist_isremoved nl (msum - gridSum sq.nums N l).toNat = true
            · rw [if_pos c4]
              have : ¬ lineOk N msum sq.nums A l := by
                rw [hok]; intro h
                have := hflag.mpr (h.2.2 c3)
                unfold sortednlist_isremoved at c4
                rw [this] at c4
                exact absurd c4 (by decide)
              simp [this]
            · rw [if_neg c4]
              have hmem : (msum - gridSum sq.nums N l).toNat ∈ A := by
                apply hflag.mp
                unfold sortednlist_isremoved at c4
                simpa using c4
              have hokl : lineOk N msum sq.nums A l := by
                rw [hok, c3, take_one_sum, take_one_sum]
                exact ⟨by omega, by omega, fun _ => hmem⟩
              by_cases c5 : ln < 0
              · rw [if_pos c5]
                refine ⟨?_, ?_⟩
                · rw [(ihn (l : Int)).1]; simp [hokl]
                · intro h
                  right
                  refine ⟨c5, ?_⟩
                  rcases (ihn (l : Int)).2 h with e | ⟨e1, _⟩
                  · exact ⟨l, le_refl _, hlt, e, c3⟩
                  · omega
              · rw [if_neg c5]
                refine ⟨?_, ?_⟩
                · rw [(ihn ln).1]; simp [hokl]
                · intro h
                  rcases (ihn ln).2 h with e | ⟨e1, _⟩
                  · exact Or.inl e
                  · exact absurd e1 c5
          · rw [if_neg c3]
            have hokl : lineOk N msum sq.nums A l := by
              rw [hok]
              exact ⟨by omega, by omega, fun h => absurd h c3⟩
            refine ⟨?_, ?_⟩
            · rw [(ihn ln).1]; simp [hokl]
            · intro h
              rcases (ihn ln).2 h with e | ⟨e1, l2, e2, e3, e4, e5⟩
              · exact Or.inl e
              · exact Or.inr ⟨e1, l2, by omega, e3, e4, e5⟩

theorem find_pos_none (fs : List Frame) (p : Nat) (h : p ∉ fs.map Frame.pos) :
    fs.find? (fun f => f.pos == p) = none := by
  rw [List.find?_eq_none]
  intro f hf
  simp only [beq_iff_eq]
  intro e
  exact h (List.mem_map.mpr ⟨f, hf, e⟩)

theorem find_pos_some (fs : List Frame) (f : Frame) (hf : f ∈ fs)
    (hnd : (fs.map Frame.pos).Nodup) :
    fs.find? (fun g => g.pos == f.pos) = some f := by
  induction fs with
  | nil => cases hf
  | cons a t ih =>
    rw [List.map_cons, List.nodup_cons] at hnd
    rw [List.find?_cons]
    rcases List.mem_cons.mp hf with e | e
    · subst e; simp
    · have hne : a.pos ≠ f.pos := by
        intro e2
        exact hnd.1 (List.mem_map.mpr ⟨f, e, e2.symm⟩)
      have : (a.pos == f.pos) = false := by simpa using hne
      rw [this]
      exact ih e hnd.2

theorem cellOf_none (fs : List Frame) (c : Nat) (h : c + 1 ∉ fs.map Frame.pos) :
    cellOf fs c = 0 := by
  unfold cellOf; rw [find_pos_none fs (c + 1) h]

theorem tagOf_none (fs : List Frame) (c : Nat) (h : c + 1 ∉ fs.map Frame.pos) :
    tagOf fs c = MAGSQ_EMPTYPOS := by
  unfold tagOf; rw [find_pos_none fs (c + 1) h]

theorem cellOf_mem (fs : List Frame) (f : Frame) (hf : f ∈ fs)
    (hnd : (fs.map Frame.pos).Nodup) (c : Nat) (hc : c + 1 = f.pos) :
    cellOf fs c = f.num := by
  unfold cellOf; rw [hc, find_pos_some fs f hf hnd]

theorem tagOf_mem (fs : List Frame) (f : Frame) (hf : f ∈ fs)
    (hnd : (fs.map Frame.pos).Nodup) (c : Nat) (hc : c + 1 = f.pos) :
    tagOf fs c = if f.derived then MAGSQ_DERIVEDNUM else MAGSQ_TRIEDNUM := by
  unfold tagOf; rw [hc, find_pos_some fs f hf hnd]

theorem cellOf_cases (fs : List Frame) (c : Nat) :
    (c + 1 ∉ fs.map Frame.pos ∧ cellOf fs c = 0) ∨
    ∃ f, f ∈ fs ∧ f.pos = c + 1 ∧ cellOf fs c = f.num := by
  unfold cellOf
  cases h : fs.find? (fun f => f.pos == c + 1) with
  | none =>
    left
    rw [List.find?_eq_none] at h
    refine ⟨?_, rfl⟩
    intro hm
    obtain ⟨f, hf, e⟩ := List.mem_map.mp hm
    exact h f hf (by simpa using e)
  | some f =>
    right
    have h1 := List.find?_some h
    exact ⟨f, List.mem_of_find?_eq_some h, by simpa using h1, rfl⟩

theorem cellOf_snoc (fs : List Frame) (f : Frame) (c : Nat) (h : f.pos ∉ fs.map Frame.pos) :
    cellOf (fs ++ [f]) c = if c + 1 = f.pos then f.num else cellOf fs c := by
  by_cases hc : c + 1 = f.pos
  · rw [if_pos hc]
    unfold cellOf
    rw [List.find?_append, find_pos_none fs (c + 1) (hc ▸ h)]
    simp [hc]
  · rw [if_neg hc]
    unfold cellOf
    rw [List.find?_append]
    have : [f].find? (fun g => g.pos == c + 1) = none := by
      rw [List.find?_eq_none]
      intro g hg
      rw [List.mem_singleton] at hg
      subst hg
      simpa using fun e => hc e.symm
    rw [this]
    simp

theorem tagOf_snoc (fs : List Frame) (f : Frame) (c : Nat) (h : f.pos ∉ fs.map Frame.pos) :
    tagOf (fs ++ [f]) c =
      if c + 1 = f.pos then (if f.derived then MAGSQ_DERIVEDNUM else MAGSQ_TRIEDNUM)
      else tagOf fs c := by
  by_cases hc : c + 1 = f.pos
  · rw [if_pos hc]
    unfold tagOf
    rw [List.find?_append, find_pos_none fs (c + 1) (hc ▸ h)]
    simp [hc]
  · rw [if_neg hc]
    unfold tagOf
    rw [List.find?_append]
    have : [f].find? (fun g => g.pos == c + 1) = none := by
      rw [List.find?_eq_none]
      intro g hg
      rw [List.mem_singleton] at hg
      subst hg
      simpa using fun e => hc e.symm
    rw [this]
    simp

theorem FramesOk_snoc (K : Nat) (fs : List Frame) (f : Frame) (h : FramesOk K (fs ++ [f])) :
    FramesOk K fs ∧ f.pos ∉ fs.map Frame.pos ∧ f.num ∉ fs.map Frame.num ∧
    1 ≤ f.pos ∧ f.pos ≤ K ∧ 1 ≤ f.num ∧ f.num ≤ K := by
  obtain ⟨h1, h2, h3⟩ := h
  rw [List.map_append, List.map_singleton] at h1 h2
  have a1 := List.nodup_append.mp h1
  have a2 := List.nodup_append.mp h2
  refine ⟨⟨a1.1, a2.1, fun g hg => h3 g (List.mem_append_left _ hg)⟩, ?_, ?_,
    h3 f (by simp)⟩
  · intro e; exact a1.2.2 e (List.mem_singleton_self _)
  · intro e; exact a2.2.2 e (List.mem_singleton_self _)

theorem FramesOk_snoc_intro (K : Nat) (fs : List Frame) (f : Frame) (h : FramesOk K fs)
    (hp : f.pos ∉ fs.map Frame.pos) (hn : f.num ∉ fs.map Frame.num)
    (hb : 1 ≤ f.pos ∧ f.pos ≤ K ∧ 1 ≤ f.num ∧ f.num ≤ K) : FramesOk K (fs ++ [f]) := by
  obtain ⟨h1, h2, h3⟩ := h
  refine ⟨?_, ?_, ?_⟩
  · rw [List.map_append, List.map_singleton, List.nodup_append]
    refine ⟨h1, List.nodup_singleton _, ?_⟩
    intro x hx1 hx2
    rw [List.mem_singleton] at hx2
    exact hp (hx2 ▸ hx1)
  · rw [List.map_append, List.map_singleton, List.nodup_append]
    refine ⟨h2, List.nodup_singleton _, ?_⟩
    intro x hx1 hx2
    rw [List.mem_singleton] at hx2
    exact hn (hx2 ▸ hx1)
  · intro g hg
    rcases List.mem_append.mp hg with e | e
    · exact h3 g e
    · rw [List.mem_singleton] at e; rw [e]; exact hb



theorem ctx_num_sub (N : Nat) (fs : List Frame) (h : FramesOk (N * N) fs) :
    ∀ n ∈ fs.map Frame.num, n ∈ List.range' 1 (N * N) := by
  intro n hn
  obtain ⟨f, hf, e⟩ := List.mem_map.mp hn
  have := h.2.2 f hf
  rw [List.mem_range'_1, ← e]; omega

theorem ctx_pos_sub (N : Nat) (plE nlE : List sortednlist_elem) (ord : List Nat)
    (ctx : SearchCtx N plE nlE ord) (fs : List Frame) (h : FramesOk (N * N) fs) :
    ∀ n ∈ fs.map Frame.pos, n ∈ ord := by
  intro n hn
  obtain ⟨f, hf, e⟩ := List.mem_map.mp hn
  have := h.2.2 f hf
  rw [List.Perm.mem_iff ctx.hperm, List.mem_range'_1, ← e]; omega

theorem Rep_push (N : Nat) (plE nlE : List sortednlist_elem) (ord : List Nat)
    (ctx : SearchCtx N plE nlE ord) (fs : List Frame) (f : Frame)
    (st st2 : magicsquare_state) (hrep : Rep N plE nlE fs st)
    (hok : FramesOk (N * N) (fs ++ [f]))
    (hnl : st2.nl = (sortednlist_remove st.nl f.num).2)
    (hpl : st2.pl = (sortednlist_remove st.pl f.pos).2)
    (hsq : st2.sq = sumsquare_setnum st.sq (f.pos - 1) f.num)
    (hnt : st2.numtypes = st.numtypes.set (f.pos - 1)
      (if f.derived then MAGSQ_DERIVEDNUM else MAGSQ_TRIEDNUM))
    (hsm : st2.sm = st.sm) : Rep N plE nlE (fs ++ [f]) st2 := by
  obtain ⟨r1, r2, r3, r4, r5, r6, r7, r8, r9⟩ := hrep
  obtain ⟨hok0, hp, hn, b1, b2, b3, b4⟩ := FramesOk_snoc (N * N) fs f hok
  have hN := ctx.hN
  have hnd1 := hok.1
  have hnd2 := hok.2.1
  have hs1 := ctx_pos_sub N plE nlE ord ctx _ hok
  have hs2 := ctx_num_sub N _ hok
  rw [List.map_append, List.map_singleton] at hnd1 hnd2 hs1 hs2
  have hc : f.pos - 1 < N * N := by omega
  refine ⟨?_, ?_, ?_, ?_, ?_, ?_, ?_, ?_, ?_⟩
  · rw [hnl, List.map_append, List.map_singleton]
    exact (PoolRep_remove nlE (N * N) _ ctx.hnl hN _ f.num st.nl r1 hnd2 hs2).2
  · rw [hpl, List.map_append, List.map_singleton]
    exact (PoolRep_remove plE (N * N) _ ctx.hpl hN _ f.pos st.pl r2 hnd1 hs1).2
  · rw [hsq]; exact sumsquare_setnum_inv st.sq N _ _ hN r3 hc (by omega)
  · intro c hcK
    rw [hsq, sumsquare_setnum_getnum st.sq N _ _ hN r3 hc (by omega), cellOf_snoc fs f c hp,
      r4 c hcK]
    by_cases e : c = f.pos - 1
    · have e2 : c + 1 = f.pos := by omega
      rw [if_pos e, if_pos e2]
    · have e2 : ¬ c + 1 = f.pos := by omega
      rw [if_neg e, if_neg e2]
  · rw [hnt, List.length_set, r5]
  · intro c hcK
    rw [hnt, getD_set_eq, tagOf_snoc fs f c hp, r6 c hcK, r5]
    by_cases e : c = f.pos - 1
    · have e2 : c + 1 = f.pos := by omega
      have e3 : f.pos - 1 = c ∧ f.pos - 1 < N * N := ⟨e.symm, hc⟩
      rw [if_pos e3, if_pos e2]
    · have e2 : ¬ c + 1 = f.pos := by omega
      have e3 : ¬ (f.pos - 1 = c ∧ f.pos - 1 < N * N) := fun h => e h.1.symm
      rw [if_neg e3, if_neg e2]
  · rw [hsm]; exact r7
  · rw [hsm]; exact r8
  · rw [hsm]; exact r9

theorem Rep_pop (N : Nat) (plE nlE : List sortednlist_elem) (ord : List Nat)
    (ctx : SearchCtx N plE nlE ord) (fs : List Frame) (f : Frame)
    (st st2 : magicsquare_state) (hrep : Rep N plE nlE (fs ++ [f]) st)
    (hok : FramesOk (N * N) (fs ++ [f]))
    (hnl : st2.nl = (sortednlist_restore st.nl).2)
    (hpl : st2.pl = (sortednlist_restore st.pl).2)
    (hsq : st2.sq = sumsquare_setnum st.sq (f.pos - 1) 0)
    (hnt : st2.numtypes = st.numtypes.set (f.pos - 1) MAGSQ_EMPTYPOS)
    (hsm : st2.sm = st.sm) : Rep N plE nlE fs st2 := by
  obtain ⟨r1, r2, r3, r4, r5, r6, r7, r8, r9⟩ := hrep
  obtain ⟨hok0, hp, hn, b1, b2, b3, b4⟩ := FramesOk_snoc (N * N) fs f hok
  have hN := ctx.hN
  have hnd1 := hok.1
  have hnd2 := hok.2.1
  have hs1 := ctx_pos_sub N plE nlE ord ctx _ hok
  have hs2 := ctx_num_sub N _ hok
  rw [List.map_append, List.map_singleton] at hnd1 hnd2 hs1 hs2 r1 r2
  have hc : f.pos - 1 < N * N := by omega
  refine ⟨?_, ?_, ?_, ?_, ?_, ?_, ?_, ?_, ?_⟩
  · rw [hnl]
    exact (PoolRep_restore nlE (N * N) _ ctx.hnl _ f.num st.nl r1 hnd2 hs2).2
  · rw [hpl]
    exact (PoolRep_restore plE (N * N) _ ctx.hpl _ f.pos st.pl r2 hnd1 hs1).2
  · rw [hsq]; exact sumsquare_setnum_inv st.sq N _ _ hN r3 hc (by omega)
  · intro c hcK
    rw [hsq, sumsquare_setnum_getnum st.sq N _ _ hN r3 hc (by omega), r4 c hcK,
      cellOf_snoc fs f c hp]
    by_cases e : c = f.pos - 1
    · rw [if_pos e]
      have : c + 1 = f.pos := by omega
      rw [cellOf_none fs c (this ▸ hp)]
    · have e2 : ¬ c + 1 = f.pos := by omega
      rw [if_neg e, if_neg e2]
  · rw [hnt, List.length_set, r5]
  · intro c hcK
    rw [hnt, getD_set_eq, r6 c hcK, tagOf_snoc fs f c hp, r5]
    by_cases e : c = f.pos - 1
    · have e3 : f.pos - 1 = c ∧ f.pos - 1 < N * N := ⟨e.symm, hc⟩
      rw [if_pos e3]
      have : c + 1 = f.pos := by omega
      rw [tagOf_none fs c (this ▸ hp)]
    · have e2 : ¬ c + 1 = f.pos := by omega
      have e3 : ¬ (f.pos - 1 = c ∧ f.pos - 1 < N * N) := fun h => e h.1.symm
      rw [if_neg e3, if_neg e2]
  · rw [hsm]; exact r7
  · rw [hsm]; exact r8
  · rw [hsm]; exact r9

theorem Rep_restore_vals (N : Nat) (plE nlE : List sortednlist_elem) (ord : List Nat)
    (ctx : SearchCtx N plE nlE ord) (fs : List Frame) (f : Frame)
    (st : magicsquare_state) (hrep : Rep N plE nlE (fs ++ [f]) st)
    (hok : FramesOk (N * N) (fs ++ [f])) :
    (sortednlist_restore st.nl).1 = f.num ∧ (sortednlist_restore st.pl).1 = f.pos ∧
    PoolRep nlE (N * N) (fs.map Frame.num) (sortednlist_restore st.nl).2 := by
  obtain ⟨r1, r2, _⟩ := hrep
  have hnd1 := hok.1
  have hnd2 := hok.2.1
  have hs1 := ctx_pos_sub N plE nlE ord ctx _ hok
  have hs2 := ctx_num_sub N _ hok
  rw [List.map_append, List.map_singleton] at hnd1 hnd2 hs1 hs2 r1 r2
  have a := PoolRep_restore nlE (N * N) _ ctx.hnl _ f.num st.nl r1 hnd2 hs2
  exact ⟨a.1, (PoolRep_restore plE (N * N) _ ctx.hpl _ f.pos st.pl r2 hnd1 hs1).1, a.2⟩

/-- Replacing the number tried at the last position by another available number. -/
theorem Rep_replace (N : Nat) (plE nlE : List sortednlist_elem) (ord : List Nat)
    (ctx : SearchCtx N plE nlE ord) (fs : List Frame) (p v v2 : Nat)
    (st st2 : magicsquare_state) (hrep : Rep N plE nlE (fs ++ [⟨p, v, false⟩]) st)
    (hok : FramesOk (N * N) (fs ++ [⟨p, v, false⟩]))
    (hok2 : FramesOk (N * N) (fs ++ [⟨p, v2, false⟩]))
    (hnl : st2.nl = (sortednlist_remove (sortednlist_restore st.nl).2 v2).2)
    (hpl : st2.pl = st.pl)
    (hsq : st2.sq = sumsquare_setnum st.sq (p - 1) v2)
    (hnt : st2.numtypes = st.numtypes)
    (hsm : st2.sm = st.sm) : Rep N plE nlE (fs ++ [⟨p, v2, false⟩]) st2 := by
  have hv := Rep_restore_vals N plE nlE ord ctx fs ⟨p, v, false⟩ st hrep hok
  obtain ⟨r1, r2, r3, r4, r5, r6, r7, r8, r9⟩ := hrep
  obtain ⟨hok0, hp, hn, b1, b2, b3, b4⟩ := FramesOk_snoc (N * N) fs _ hok
  obtain ⟨_, hp2, hn2, c1, c2, c3, c4⟩ := FramesOk_snoc (N * N) fs _ hok2
  have hN := ctx.hN
  have hnd2 := hok2.2.1
  have hs2 := ctx_num_sub N _ hok2
  rw [List.map_append, List.map_singleton] at hnd2 hs2
  dsimp only at hp hn b1 b2 b3 b4 hp2 hn2 c1 c2 c3 c4
  have hc : p - 1 < N * N := by omega
  refine ⟨?_, ?_, ?_, ?_, ?_, ?_, ?_, ?_, ?_⟩
  · rw [hnl, List.map_append, List.map_singleton]
    exact (PoolRep_remove nlE (N * N) _ ctx.hnl hN _ v2 _ hv.2.2 hnd2 hs2).2
  · rw [hpl]; simpa using r2
  · rw [hsq]; exact sumsquare_setnum_inv st.sq N _ _ hN r3 hc (by omega)
  · intro c hcK
    rw [hsq, sumsquare_setnum_getnum st.sq N _ _ hN r3 hc (by omega), r4 c hcK,
      cellOf_snoc fs _ c hp, cellOf_snoc fs _ c hp2]
    dsimp only
    by_cases e : c = p - 1
    · have e2 : c + 1 = p := by omega
      rw [if_pos e, if_pos e2]
    · have e2 : ¬ c + 1 = p := by omega
      rw [if_neg e, if_neg e2, if_neg e2]
  · rw [hnt, r5]
  · intro c hcK
    rw [hnt, r6 c hcK, tagOf_snoc fs _ c hp, tagOf_snoc fs _ c hp2]
  · rw [hsm]; exact r7
  · rw [hsm]; exact r8
  · rw [hsm]; exact r9

theorem Rep_nl_chain (N : Nat) (plE nlE : List sortednlist_elem) (ord : List Nat)
    (ctx : SearchCtx N plE nlE ord) (fs : List Frame) (st : magicsquare_state)
    (hrep : Rep N plE nlE fs st) (hok : FramesOk (N * N) fs) :
    Chain st.nl.elems (N * N) (availOf N fs) := by
  rw [hrep.1.2.2.2.2]
  exact Chain_elemsAfter nlE (N * N) _ ctx.hnl _ hok.2.1 (ctx_num_sub N fs hok)

theorem Rep_pl_chain (N : Nat) (plE nlE : List sortednlist_elem) (ord : List Nat)
    (ctx : SearchCtx N plE nlE ord) (fs : List Frame) (st : magicsquare_state)
    (hrep : Rep N plE nlE fs st) (hok : FramesOk (N * N) fs) :
    Chain st.pl.elems (N * N) (openOf ord fs) := by
  rw [hrep.2.1.2.2.2.2]
  exact Chain_elemsAfter plE (N * N) _ ctx.hpl _ hok.1 (ctx_pos_sub N plE nlE ord ctx fs hok)

theorem mem_openOf (N : Nat) (plE nlE : List sortednlist_elem) (ord : List Nat)
    (ctx : SearchCtx N plE nlE ord) (fs : List Frame) (p : Nat) :
    p ∈ openOf ord fs ↔ (1 ≤ p ∧ p ≤ N * N) ∧ p ∉ fs.map Frame.pos := by
  unfold openOf
  rw [mem_liveOf, List.Perm.mem_iff ctx.hperm, List.mem_range'_1]
  constructor
  · intro h; exact ⟨⟨h.1.1, by omega⟩, h.2⟩
  · intro h; exact ⟨⟨h.1.1, by omega⟩, h.2⟩

theorem mem_availOf (N : Nat) (fs : List Frame) (v : Nat) :
    v ∈ availOf N fs ↔ (1 ≤ v ∧ v ≤ N * N) ∧ v ∉ fs.map Frame.num := by
  unfold availOf
  rw [mem_liveOf, List.mem_range'_1]
  constructor
  · intro h; exact ⟨⟨h.1.1, by omega⟩, h.2⟩
  · intro h; exact ⟨⟨h.1.1, by omega⟩, h.2⟩

theorem availOf_nodup (N : Nat) (fs : List Frame) : (availOf N fs).Nodup :=
  liveOf_nodup _ _ (List.nodup_range' 1 (N * N))

/-- `magicsquare_setnext` at an open position puts the smallest available number. -/
theorem setnext_fresh (N : Nat) (plE nlE : List sortednlist_elem) (ord : List Nat)
    (ctx : SearchCtx N plE nlE ord) (fs : List Frame) (st : magicsquare_state)
    (hrep : Rep N plE nlE fs st) (hok : FramesOk (N * N) fs) (p v : Nat) (rest : List Nat)
    (hp : p ∈ openOf ord fs) (hav : availOf N fs = v :: rest) :
    (magicsquare_setnext st p).1 = v ∧ v ≠ 0 ∧
    Rep N plE nlE (fs ++ [⟨p, v, false⟩]) (magicsquare_setnext st p).2 ∧
    FramesOk (N * N) (fs ++ [⟨p, v, false⟩]) ∧
    (magicsquare_setnext st p).2.pos = st.pos ∧
    (magicsquare_setnext st p).2.emitted = st.emitted := by
  have hpm := (mem_openOf N plE nlE ord ctx fs p).mp hp
  have hvm := (mem_availOf N fs v).mp (by rw [hav]; simp)
  have hc : p - 1 < N * N := by omega
  have hpp : p - 1 + 1 = p := by omega
  have htag : st.numtypes.getD (p - 1) 0 = MAGSQ_EMPTYPOS := by
    rw [hrep.2.2.2.2.2.1 _ hc]
    exact tagOf_none fs _ (by rw [hpp]; exact hpm.2)
  have hcell : sumsquare_getnum st.sq (p - 1) = 0 := by
    rw [hrep.2.2.2.1 _ hc]
    exact cellOf_none fs _ (by rw [hpp]; exact hpm.2)
  have hC := Rep_nl_chain N plE nlE ord ctx fs st hrep hok
  have hfirst : sortednlist_next st.nl 0 = v := by
    have := Chain_first _ _ _ hC
    unfold sortednlist_next
    rw [this, hav]; rfl
  have hv0 : v ≠ 0 := by omega
  have hok2 : FramesOk (N * N) (fs ++ [⟨p, v, false⟩]) :=
    FramesOk_snoc_intro _ fs _ hok hpm.2 hvm.2 ⟨hpm.1.1, hpm.1.2, hvm.1.1, hvm.1.2⟩
  have hres : magicsquare_setnext st p =
      (v, { st with pl := (sortednlist_remove st.pl p).2,
                    numtypes := st.numtypes.set (p - 1) MAGSQ_TRIEDNUM,
                    nl := (sortednlist_remove st.nl v).2,
                    sq := sumsquare_setnum st.sq (p - 1) v }) := by
    unfold magicsquare_setnext
    rw [htag, if_neg (by decide)]
    simp only [hcell, ne_eq, not_true_eq_false, if_false, hfirst, hv0, not_false_eq_true,
      if_true]
  rw [hres]
  refine ⟨rfl, hv0, ?_, hok2, rfl, rfl⟩
  exact Rep_push N plE nlE ord ctx fs ⟨p, v, false⟩ st _ hrep hok2 rfl rfl rfl rfl rfl



theorem tried_reads (N : Nat) (plE nlE : List sortednlist_elem) (ord : List Nat)
    (ctx : SearchCtx N plE nlE ord) (fs : List Frame) (f : Frame) (st : magicsquare_state)
    (hrep : Rep N plE nlE (fs ++ [f]) st) (hok : FramesOk (N * N) (fs ++ [f])) :
    st.numtypes.getD (f.pos - 1) 0 = (if f.derived then MAGSQ_DERIVEDNUM else MAGSQ_TRIEDNUM) ∧
    sumsquare_getnum st.sq (f.pos - 1) = f.num := by
  obtain ⟨hok0, hp, hn, b1, b2, b3, b4⟩ := FramesOk_snoc (N * N) fs f hok
  have hc : f.pos - 1 < N * N := by omega
  have hpp : f.pos - 1 + 1 = f.pos := by omega
  constructor
  · rw [hrep.2.2.2.2.2.1 _ hc, tagOf_snoc fs f _ hp, if_pos hpp]
  · rw [hrep.2.2.2.1 _ hc, cellOf_snoc fs f _ hp, if_pos hpp]

/-- `magicsquare_setnext` at the position tried last moves on to the next available
number, when there is one. -/
theorem setnext_tried_next (N : Nat) (plE nlE : List sortednlist_elem) (ord : List Nat)
    (ctx : SearchCtx N plE nlE ord) (fs : List Frame) (st : magicsquare_state) (p v v2 : Nat)
    (done rest : List Nat)
    (hrep : Rep N plE nlE (fs ++ [⟨p, v, false⟩]) st)
    (hok : FramesOk (N * N) (fs ++ [⟨p, v, false⟩]))
    (hav : availOf N fs = done ++ v :: v2 :: rest) :
    (magicsquare_setnext st p).1 = v2 ∧ v2 ≠ 0 ∧
    Rep N plE nlE (fs ++ [⟨p, v2, false⟩]) (magicsquare_setnext st p).2 ∧
    FramesOk (N * N) (fs ++ [⟨p, v2, false⟩]) ∧
    (magicsquare_setnext st p).2.pos = st.pos ∧
    (magicsquare_setnext st p).2.emitted = st.emitted := by
  obtain ⟨htag, hcell⟩ := tried_reads N plE nlE ord ctx fs _ st hrep hok
  dsimp only at htag hcell
  obtain ⟨hok0, hp, hn, b1, b2, b3, b4⟩ := FramesOk_snoc (N * N) fs _ hok
  dsimp only at hp hn b1 b2 b3 b4
  have hv := Rep_restore_vals N plE nlE ord ctx fs _ st hrep hok
  have hC : Chain (sortednlist_restore st.nl).2.elems (N * N) (availOf N fs) := by
    rw [hv.2.2.2.2.2.2]
    exact Chain_elemsAfter nlE (N * N) _ ctx.hnl _ hok0.2.1 (ctx_num_sub N fs hok0)
  rw [hav] at hC
  have hnext : sortednlist_next (sortednlist_restore st.nl).2 v = v2 := by
    have := (Chain_split_facts _ _ _ _ _ hC).2.2.2.2.2.2.2.2.2.1
    unfold sortednlist_next
    rw [this]; rfl
  have hv2m := (mem_availOf N fs v2).mp (by rw [hav]; simp)
  have hv20 : v2 ≠ 0 := by omega
  have hv0 : v ≠ 0 := by omega
  have hok2 : FramesOk (N * N) (fs ++ [⟨p, v2, false⟩]) :=
    FramesOk_snoc_intro _ fs _ hok0 hp hv2m.2 ⟨b1, b2, hv2m.1.1, hv2m.1.2⟩
  have hres : magicsquare_setnext st p =
      (v2, { st with nl := (sortednlist_remove (sortednlist_restore st.nl).2 v2).2,
                     sq := sumsquare_setnum st.sq (p - 1) v2 }) := by
    unfold magicsquare_setnext
    rw [htag, if_neg (by decide)]
    simp only [hcell, ne_eq, hv0, not_false_eq_true, if_true, hnext, hv20, if_false]
  rw [hres]
  refine ⟨rfl, hv20, ?_, hok2, rfl, rfl⟩
  exact Rep_replace N plE nlE ord ctx fs p v v2 st _ hrep hok hok2 rfl rfl rfl rfl rfl

/-- `magicsquare_setnext` at the position tried last, when no larger number is available,
clears the position and returns 0. -/
theorem setnext_tried_last (N : Nat) (plE nlE : List sortednlist_elem) (ord : List Nat)
    (ctx : SearchCtx N plE nlE ord) (fs : List Frame) (st : magicsquare_state) (p v : Nat)
    (done : List Nat)
    (hrep : Rep N plE nlE (fs ++ [⟨p, v, false⟩]) st)
    (hok : FramesOk (N * N) (fs ++ [⟨p, v, false⟩]))
    (hav : availOf N fs = done ++ [v]) :
    (magicsquare_setnext st p).1 = 0 ∧
    Rep N plE nlE fs (magicsquare_setnext st p).2 ∧
    (magicsquare_setnext st p).2.pos = st.pos ∧
    (magicsquare_setnext st p).2.emitted = st.emitted := by
  obtain ⟨htag, hcell⟩ := tried_reads N plE nlE ord ctx fs _ st hrep hok
  dsimp only at htag hcell
  obtain ⟨hok0, hp, hn, b1, b2, b3, b4⟩ := FramesOk_snoc (N * N) fs _ hok
  dsimp only at hp hn b1 b2 b3 b4
  have hv := Rep_restore_vals N plE nlE ord ctx fs _ st hrep hok
  have hC : Chain (sortednlist_restore st.nl).2.elems (N * N) (availOf N fs) := by
    rw [hv.2.2.2.2.2.2]
    exact Chain_elemsAfter nlE (N * N) _ ctx.hnl _ hok0.2.1 (ctx_num_sub N fs hok0)
  rw [hav] at hC
  have hnext : sortednlist_next (sortednlist_restore st.nl).2 v = 0 := by
    have := (Chain_split_facts _ _ _ _ _ hC).2.2.2.2.2.2.2.2.2.1
    unfold sortednlist_next
    rw [this]; rfl
  have hv0 : v ≠ 0 := by omega
  have hres : magicsquare_setnext st p =
      (0, { st with pl := (sortednlist_restore st.pl).2,
                    numtypes := st.numtypes.set (p - 1) MAGSQ_EMPTYPOS,
                    nl := (sortednlist_restore st.nl).2,
                    sq := sumsquare_setnum st.sq (p - 1) 0 }) := by
    unfold magicsquare_setnext
    rw [htag, if_neg (by decide)]
    simp only [hcell, ne_eq, hv0, not_false_eq_true, if_true, hnext, not_true_eq_false,
      if_false]
  rw [hres]
  refine ⟨rfl, ?_, rfl, rfl⟩
  exact Rep_pop N plE nlE ord ctx fs ⟨p, v, false⟩ st _ hrep hok rfl rfl rfl rfl rfl

/-- `magicsquare_setnext` at a position holding a derived number removes it and returns 0. -/
theorem setnext_derived (N : Nat) (plE nlE : List sortednlist_elem) (ord : List Nat)
    (ctx : SearchCtx N plE nlE ord) (fs : List Frame) (st : magicsquare_state) (p v : Nat)
    (hrep : Rep N plE nlE (fs ++ [⟨p, v, true⟩]) st)
    (hok : FramesOk (N * N) (fs ++ [⟨p, v, true⟩])) :
    (magicsquare_setnext st p).1 = 0 ∧
    Rep N plE nlE fs (magicsquare_setnext st p).2 ∧
    (magicsquare_setnext st p).2.pos = st.pos ∧
    (magicsquare_setnext st p).2.emitted = st.emitted := by
  obtain ⟨htag, _⟩ := tried_reads N plE nlE ord ctx fs _ st hrep hok
  dsimp only at htag
  have hres : magicsquare_setnext st p = (0, magicsquare_removederivednum st p) := by
    unfold magicsquare_setnext
    rw [htag]
    simp
  rw [hres]
  refine ⟨rfl, ?_, rfl, rfl⟩
  exact Rep_pop N plE nlE ord ctx fs ⟨p, v, true⟩ st _ hrep hok rfl rfl rfl rfl rfl

theorem insertderived_rep (N : Nat) (plE nlE : List sortednlist_elem) (ord : List Nat)
    (ctx : SearchCtx N plE nlE ord) (fs : List Frame) (st : magicsquare_state) (p v : Nat)
    (hrep : Rep N plE nlE fs st) (hok : FramesOk (N * N) (fs ++ [⟨p, v, true⟩])) :
    Rep N plE nlE (fs ++ [⟨p, v, true⟩]) (magicsquare_insertderivednum st p v) ∧
    (magicsquare_insertderivednum st p v).pos = st.pos ∧
    (magicsquare_insertderivednum st p v).emitted = st.emitted :=
  ⟨Rep_push N plE nlE ord ctx fs ⟨p, v, true⟩ st _ hrep hok rfl rfl rfl rfl rfl, rfl, rfl⟩

/-! ### Sums of the smallest and of the largest numbers of a sorted list -/

theorem take_shift_le (A : List Nat) :
    ∀ (a h : Nat), (a :: A).Pairwise (· < ·) → h ≤ A.length →
      ((a :: A).take h).sum ≤ (A.take h).sum := by
  induction A with
  | nil => intro a h _ hh; simp at hh; subst hh; simp
  | cons b t ih =>
    intro a h hp hh
    cases h with
    | zero => simp
    | succ h =>
      rw [List.take_succ_cons, List.take_succ_cons, List.sum_cons, List.sum_cons]
      have hab : a < b := (List.pairwise_cons.mp hp).1 b (List.mem_cons_self _ _)
      have := ih b h (List.pairwise_cons.mp hp).2 (by simpa using hh)
      omega

theorem take_shift_ge (A : List Nat) :
    ∀ (a h : Nat), (a :: A).Pairwise (· > ·) → h ≤ A.length →
      (A.take h).sum ≤ ((a :: A).take h).sum := by
  induction A with
  | nil => intro a h _ hh; simp at hh; subst hh; simp
  | cons b t ih =>
    intro a h hp hh
    cases h with
    | zero => simp
    | succ h =>
      rw [List.take_succ_cons, List.take_succ_cons, List.sum_cons, List.sum_cons]
      have hab : a > b := (List.pairwise_cons.mp hp).1 b (List.mem_cons_self _ _)
      have := ih b h (List.pairwise_cons.mp hp).2 (by simpa using hh)
      omega

theorem length_le_of_nodup_sub (X A : List Nat) (hX : X.Nodup) (hsub : ∀ x ∈ X, x ∈ A) :
    X.length ≤ A.length :=
  (List.Nodup.subperm hX (fun x hx => hsub x hx)).length_le

/-- Distinct numbers taken from an ascending list sum to at least the sum of as many of
its first numbers. -/
theorem sum_take_le_of_sub (A : List Nat) :
    ∀ (X : List Nat), A.Pairwise (· < ·) → X.Nodup → (∀ x ∈ X, x ∈ A) →
      (A.take X.length).sum ≤ X.sum := by
  induction A with
  | nil =>
    intro X _ _ hsub
    cases X with
    | nil => simp
    | cons x t => exact absurd (hsub x (List.mem_cons_self _ _)) (by simp)
  | cons a t ih =>
    intro X hp hX hsub
    by_cases ha : a ∈ X
    · have hX2 : (X.erase a).Nodup := hX.erase a
      have hsub2 : ∀ x ∈ X.erase a, x ∈ t := by
        intro x hx
        have h1 := (List.Nodup.mem_erase_iff hX).mp hx
        rcases List.mem_cons.mp (hsub x h1.2) with e | e
        · exact absurd e h1.1
        · exact e
      have hlen : X.length = (X.erase a).length + 1 := by
        rw [List.length_erase_of_mem ha]
        have : 0 < X.length := List.length_pos_of_mem ha
        omega
      have hsum : X.sum = a + (X.erase a).sum := (List.sum_erase ha).symm
      rw [hlen, List.take_succ_cons, List.sum_cons, hsum]
      have := ih (X.erase a) (List.pairwise_cons.mp hp).2 hX2 hsub2
      omega
    · have hsub2 : ∀ x ∈ X, x ∈ t := by
        intro x hx
        rcases List.mem_cons.mp (hsub x hx) with e | e
        · exact absurd (e ▸ hx) ha
        · exact e
      have h1 := ih X (List.pairwise_cons.mp hp).2 hX hsub2
      have h2 := take_shift_le t a X.length hp (length_le_of_nodup_sub X t hX hsub2)
      omega

/-- Distinct numbers taken from a descending list sum to at most the sum of as many of
its first numbers. -/
theorem sum_le_take_of_sub (A : List Nat) :
    ∀ (X : List Nat), A.Pairwise (· > ·) → X.Nodup → (∀ x ∈ X, x ∈ A) →
      X.sum ≤ (A.take X.length).sum := by
  induction A with
  | nil =>
    intro X _ _ hsub
    cases X with
    | nil => simp
    | cons x t => exact absurd (hsub x (List.mem_cons_self _ _)) (by simp)
  | cons a t ih =>
    intro X hp hX hsub
    by_cases ha : a ∈ X
    · have hX2 : (X.erase a).Nodup := hX.erase a
      have hsub2 : ∀ x ∈ X.erase a, x ∈ t := by
        intro x hx
        have h1 := (List.Nodup.mem_erase_iff hX).mp hx
        rcases List.mem_cons.mp (hsub x h1.2) with e | e
        · exact absurd e h1.1
        · exact e
      have hlen : X.length = (X.erase a).length + 1 := by
        rw [List.length_erase_of_mem ha]
        have : 0 < X.length := List.length_pos_of_mem ha
        omega
      have hsum : X.sum = a + (X.erase a).sum := (List.sum_erase ha).symm
      rw [hlen, List.take_succ_cons, List.sum_cons, hsum]
      have := ih (X.erase a) (List.pairwise_cons.mp hp).2 hX2 hsub2
      omega
    · have hsub2 : ∀ x ∈ X, x ∈ t := by
        intro x hx
        rcases List.mem_cons.mp (hsub x hx) with e | e
        · exact absurd (e ▸ hx) ha
        · exact e
      have h1 := ih X (List.pairwise_cons.mp hp).2 hX hsub2
      have h2 := take_shift_ge t a X.length hp (length_le_of_nodup_sub X t hX hsub2)
      omega

theorem availOf_sorted (N : Nat) (fs : List Frame) : (availOf N fs).Pairwise (· < ·) := by
  unfold availOf liveOf
  exact List.Pairwise.filter _ (List.pairwise_lt_range' 1 (N * N))

theorem availOf_reverse_sorted (N : Nat) (fs : List Frame) :
    (availOf N fs).reverse.Pairwise (· > ·) := by
  rw [List.pairwise_reverse]
  exact availOf_sorted N fs



/-! ### Magic squares that agree with the placements -/

theorem magic_basic (N : Nat) (g : List Nat) (h : IsMagicSquare N g) :
    g.length = N * N ∧ g.Nodup ∧
    ∀ c, c < N * N → 1 ≤ g.getD c 0 ∧ g.getD c 0 ≤ N * N := by
  have hlen : g.length = N * N := by rw [h.1.length_eq]; simp
  refine ⟨hlen, (List.Perm.nodup_iff h.1).mpr (List.nodup_range' 1 _), ?_⟩
  intro c hc
  have hc2 : c < g.length := by omega
  have hm : g.getD c 0 ∈ g := by
    rw [getD_eq_getElem' g c hc2]; exact List.getElem_mem hc2
  have := (List.Perm.mem_iff h.1).mp hm
  rw [List.mem_range'_1] at this
  omega

theorem magic_inj (N : Nat) (g : List Nat) (h : IsMagicSquare N g) (c d : Nat)
    (hc : c < N * N) (hd : d < N * N) (e : g.getD c 0 = g.getD d 0) : c = d := by
  obtain ⟨hlen, hnd, _⟩ := magic_basic N g h
  have hc2 : c < g.length := by omega
  have hd2 : d < g.length := by omega
  rw [getD_eq_getElem' g c hc2, getD_eq_getElem' g d hd2] at e
  exact (List.Nodup.getElem_inj_iff hnd).mp e

theorem ext_filled (N : Nat) (fs : List Frame) (g : List Nat) (hext : Extends fs g)
    (hok : FramesOk (N * N) fs) (c : Nat) (hne : cellOf fs c ≠ 0) :
    g.getD c 0 = cellOf fs c := by
  rcases cellOf_cases fs c with h | ⟨f, hf, hp, hv⟩
  · exact absurd h.2 hne
  · rw [hv, ← hext f hf, hp]; rfl

theorem cellOf_zero_iff (N : Nat) (fs : List Frame) (hok : FramesOk (N * N) fs) (c : Nat) :
    cellOf fs c = 0 ↔ c + 1 ∉ fs.map Frame.pos := by
  constructor
  · intro h hm
    rcases cellOf_cases fs c with h2 | ⟨f, hf, hp, hv⟩
    · exact h2.1 hm
    · have := hok.2.2 f hf
      omega
  · exact cellOf_none fs c

theorem ext_empty (N : Nat) (fs : List Frame) (g : List Nat) (hmag : IsMagicSquare N g)
    (hext : Extends fs g) (hok : FramesOk (N * N) fs) (c : Nat) (hc : c < N * N)
    (hz : cellOf fs c = 0) : g.getD c 0 ∈ availOf N fs := by
  rw [mem_availOf]
  refine ⟨(magic_basic N g hmag).2.2 c hc, ?_⟩
  intro hm
  obtain ⟨f, hf, e⟩ := List.mem_map.mp hm
  have hb := hok.2.2 f hf
  have := magic_inj N g hmag (f.pos - 1) c (by omega) hc (by rw [hext f hf, e])
  have hpos : c + 1 ∈ fs.map Frame.pos := List.mem_map.mpr ⟨f, hf, by omega⟩
  exact (cellOf_zero_iff N fs hok c).mp hz hpos

theorem sum_split_zero (cs : List Nat) (a b : Nat → Nat)
    (h : ∀ c ∈ cs, b c ≠ 0 → a c = b c) :
    (cs.map a).sum = (cs.map b).sum + ((cs.filter (fun c => b c == 0)).map a).sum := by
  induction cs with
  | nil => simp
  | cons x t ih =>
    have ih2 := ih (fun c hc => h c (List.mem_cons_of_mem _ hc))
    rw [List.map_cons, List.map_cons, List.sum_cons, List.sum_cons, List.filter_cons]
    by_cases hx : b x = 0
    · simp only [hx, beq_self_eq_true, if_true, List.map_cons, List.sum_cons]
      omega
    · have := h x (List.mem_cons_self _ _) hx
      have hb : (b x == 0) = false := by simpa using hx
      simp only [hb]
      simp only [Bool.false_eq_true, if_false]
      omega

theorem gridSum_cast (g : List Nat) (N l : Nat) :
    gridSum g N l = (((lineCells N l).map (fun c => g.getD c 0)).sum : Nat) := by
  unfold gridSum
  rw [Nat.cast_list_sum, List.map_map]
  rfl

/-- The numbers that a magic square puts in the empty cells of a line. -/
theorem line_fill (N : Nat) (fs : List Frame) (P g : List Nat) (l : Nat)
    (hok : FramesOk (N * N) fs) (hP : ∀ c, c < N * N → P.getD c 0 = cellOf fs c)
    (hmag : IsMagicSquare N g) (hext : Extends fs g) :
    gridSum g N l = gridSum P N l +
      ((((lineCells N l).filter (fun c => P.getD c 0 == 0)).map (fun c => g.getD c 0)).sum : Nat)
    ∧ (((lineCells N l).filter (fun c => P.getD c 0 == 0)).map (fun c => g.getD c 0)).Nodup
    ∧ (∀ x ∈ ((lineCells N l).filter (fun c => P.getD c 0 == 0)).map (fun c => g.getD c 0),
        x ∈ availOf N fs)
    ∧ (((lineCells N l).filter (fun c => P.getD c 0 == 0)).map (fun c => g.getD c 0)).length
        = gridHoles P N l := by
  have hcK : ∀ c ∈ lineCells N l, c < N * N := fun c hc => ((mem_lineCells N l c).mp hc).1
  refine ⟨?_, ?_, ?_, ?_⟩
  · rw [gridSum_cast, gridSum_cast, ← Nat.cast_add]
    congr 1
    apply sum_split_zero
    intro c hc hne
    rw [hP c (hcK c hc)] at hne ⊢
    exact ext_filled N fs g hext hok c hne
  · apply List.Nodup.map_on
    · intro c hc d hd e
      exact magic_inj N g hmag c d (hcK c (List.mem_of_mem_filter hc))
        (hcK d (List.mem_of_mem_filter hd)) e
    · exact List.Nodup.filter _ (lineCells_nodup N l)
  · intro x hx
    obtain ⟨c, hc, e⟩ := List.mem_map.mp hx
    have hc1 := List.mem_of_mem_filter hc
    have hc2 : P.getD c 0 = 0 := by simpa using (List.mem_filter.mp hc).2
    rw [← e]
    exact ext_empty N fs g hmag hext hok c (hcK c hc1) (by rw [← hP c (hcK c hc1)]; exact hc2)
  · rw [List.length_map]; rfl

theorem single_of_length_one (X : List Nat) (h : X.length = 1) : X = [X.sum] := by
  cases X with
  | nil => simp at h
  | cons a t =>
    cases t with
    | nil => simp
    | cons b u => simp at h

/-- The bounds tested by `magicsquare_checksums` hold on every partial square that a magic
square completes. -/
theorem pruning_sound (N : Nat) (fs : List Frame) (P g : List Nat) (l : Nat)
    (hok : FramesOk (N * N) fs) (hP : ∀ c, c < N * N → P.getD c 0 = cellOf fs c)
    (hmag : IsMagicSquare N g) (hext : Extends fs g) (hl : l < N + N + 2) :
    lineOk N (magicSum N) P (availOf N fs) l := by
  obtain ⟨h1, h2, h3, h4⟩ := line_fill N fs P g l hok hP hmag hext
  have hM := hmag.2 l hl
  rw [h1] at hM
  unfold lineOk
  by_cases hz : gridHoles P N l = 0
  · rw [if_neg (by simpa using hz)]
    rw [hz] at h4
    have : ((lineCells N l).filter (fun c => P.getD c 0 == 0)).map (fun c => g.getD c 0) = [] :=
      List.length_eq_zero.mp h4
    rw [this] at hM
    simpa using hM
  · rw [if_pos (by simpa using hz)]
    have lo := sum_take_le_of_sub (availOf N fs) _ (availOf_sorted N fs) h2 h3
    have hi := sum_le_take_of_sub (availOf N fs).reverse _ (availOf_reverse_sorted N fs) h2
      (fun x hx => List.mem_reverse.mpr (h3 x hx))
    rw [h4] at lo hi
    refine ⟨by omega, by omega, ?_⟩
    intro hone
    rw [hone] at h4
    have hs := single_of_length_one _ h4
    have hmem := h3 _ (by rw [hs]; exact List.mem_singleton_self _)
    have : (magicSum N - gridSum P N l).toNat
        = (((lineCells N l).filter (fun c => P.getD c 0 == 0)).map (fun c => g.getD c 0)).sum := by
      omega
    rw [this]
    exact hmem

theorem checkequiv_congr (sq : sumsquare) (N : Nat) (h : sq.side = N) (L : Nat) :
    magicsquare_checkequiv sq L = magicsquare_checkequiv (squareOfGrid N sq.nums) L := by
  unfold magicsquare_checkequiv sumsquare_getnum squareOfGrid
  simp only [h]

/-- A comparison of two filled cells that rejects a partial square also rejects every
square that keeps these two cells. -/
theorem bad_mono (a b a2 b2 : Nat) (ha : a2 = 0 ∨ a2 = a) (hb : b2 = 0 ∨ b2 = b)
    (h : a2 ≠ 0 ∧ b2 ≠ 0 ∧ a2 > b2) : a ≠ 0 ∧ b ≠ 0 ∧ a > b := by
  rcases ha with e | e <;> rcases hb with e2 | e2 <;> subst e <;> subst e2 <;> omega

theorem bad3_mono (a x y z a2 x2 y2 z2 : Nat) (ha : a2 = 0 ∨ a2 = a) (hx : x2 = 0 ∨ x2 = x)
    (hy : y2 = 0 ∨ y2 = y) (hz : z2 = 0 ∨ z2 = z)
    (h : a2 ≠ 0 ∧ ((x2 ≠ 0 ∧ a2 > x2) ∨ (y2 ≠ 0 ∧ a2 > y2) ∨ (z2 ≠ 0 ∧ a2 > z2))) :
    a ≠ 0 ∧ ((x ≠ 0 ∧ a > x) ∨ (y ≠ 0 ∧ a > y) ∨ (z ≠ 0 ∧ a > z)) := by
  obtain ⟨h0, h1⟩ := h
  have ea : a2 = a := by rcases ha with e | e; exact absurd e h0; exact e
  subst ea
  refine ⟨h0, ?_⟩
  rcases h1 with ⟨k1, k2⟩ | ⟨k1, k2⟩ | ⟨k1, k2⟩
  · left
    have : x2 = x := by rcases hx with e | e; exact absurd e k1; exact e
    subst this; exact ⟨k1, k2⟩
  · right; left
    have : y2 = y := by rcases hy with e | e; exact absurd e k1; exact e
    subst this; exact ⟨k1, k2⟩
  · right; right
    have : z2 = z := by rcases hz with e | e; exact absurd e k1; exact e
    subst this; exact ⟨k1, k2⟩

theorem bad2_mono (x y x2 y2 : Nat) (hx : x2 = 0 ∨ x2 = x) (hy : y2 = 0 ∨ y2 = y)
    (h : x2 ≠ 0 ∧ y2 ≠ 0 ∧ x2 + 1 > y2) : x ≠ 0 ∧ y ≠ 0 ∧ x + 1 > y := by
  obtain ⟨h0, h1, h2⟩ := h
  have : x2 = x := by rcases hx with e | e; exact absurd e h0; exact e
  subst this
  have : y2 = y := by rcases hy with e | e; exact absurd e h1; exact e
  subst this
  exact ⟨h0, h1, h2⟩

theorem step_iff (c p : Prop) [Decidable c] [Decidable p] (X : Bool) :
    (if c then true else if p then false else X) = true ↔ c ∨ (¬ p ∧ X = true) := by
  by_cases hc : c
  · simp [hc]
  · by_cases hp : p
    · simp [hc, hp]
    · simp [hc, hp]

theorem shape_iff (c0 c1 c2 c3 p1 p2 p3 p4 : Prop)
    [Decidable c0] [Decidable c1] [Decidable c2] [Decidable c3]
    [Decidable p1] [Decidable p2] [Decidable p3] [Decidable p4] :
    (if c0 then true else if p1 then false else if c1 then true else if p2 then false
      else if c2 then true else if p3 then false else if c3 then true
      else if p4 then false else true) = true ↔
    c0 ∨ (¬ p1 ∧ (c1 ∨ (¬ p2 ∧ (c2 ∨ (¬ p3 ∧ (c3 ∨ ¬ p4)))))) := by
  rw [step_iff, step_iff, step_iff, step_iff]
  simp

theorem checkequiv_iff (sq : sumsquare) (L : Nat) :
    magicsquare_checkequiv sq L = true ↔
    (L < 1 ∨ sq.side < 2) ∨
    (¬ (sumsquare_getnum sq (CELLIDXFROMIJ 0 0 sq.side) ≠ 0 ∧
        ((sumsquare_getnum sq (CELLIDXFROMIJ 0 (sq.side - 1) sq.side) ≠ 0 ∧
            sumsquare_getnum sq (CELLIDXFROMIJ 0 0 sq.side)
              > sumsquare_getnum sq (CELLIDXFROMIJ 0 (sq.side - 1) sq.side)) ∨
          (sumsquare_getnum sq (CELLIDXFROMIJ (sq.side - 1) 0 sq.side) ≠ 0 ∧
            sumsquare_getnum sq (CELLIDXFROMIJ 0 0 sq.side)
              > sumsquare_getnum sq (CELLIDXFROMIJ (sq.side - 1) 0 sq.side)) ∨
          (sumsquare_getnum sq (CELLIDXFROMIJ (sq.side - 1) (sq.side - 1) sq.side) ≠ 0 ∧
            sumsquare_getnum sq (CELLIDXFROMIJ 0 0 sq.side)
              > sumsquare_getnum sq (CELLIDXFROMIJ (sq.side - 1) (sq.side - 1) sq.side)))) ∧
      (L < 2 ∨
        (¬ (sumsquare_getnum sq (CELLIDXFROMIJ 0 (sq.side - 1) sq.side) ≠ 0 ∧
            sumsquare_getnum sq (CELLIDXFROMIJ (sq.side - 1) 0 sq.side) ≠ 0 ∧
            sumsquare_getnum sq (CELLIDXFROMIJ 0 (sq.side - 1) sq.side) + 1
              > sumsquare_getnum sq (CELLIDXFROMIJ (sq.side - 1) 0 sq.side)) ∧
          ((L < 3 ∨ sq.side < 4) ∨
            (¬ (sumsquare_getnum sq (CELLIDXFROMIJ 1 1 sq.side) ≠ 0 ∧
                sumsquare_getnum sq
                  (CELLIDXFROMIJ (sq.side - 1 - 1) (sq.side - 1 - 1) sq.side) ≠ 0 ∧
                sumsquare_getnum sq (CELLIDXFROMIJ 1 1 sq.side)
                  > sumsquare_getnum sq
                    (CELLIDXFROMIJ (sq.side - 1 - 1) (sq.side - 1 - 1) sq.side)) ∧
              (L < 4 ∨
                ¬ (sumsquare_getnum sq (CELLIDXFROMIJ 0 0 sq.side) ≠ 0 ∧
                  ((sumsquare_getnum sq (CELLIDXFROMIJ 1 1 sq.side) ≠ 0 ∧
                      sumsquare_getnum sq (CELLIDXFROMIJ 0 0 sq.side)
                        > sumsquare_getnum sq (CELLIDXFROMIJ 1 1 sq.side)) ∨
                    (sumsquare_getnum sq (CELLIDXFROMIJ 1 (sq.side - 1 - 1) sq.side) ≠ 0 ∧
                      sumsquare_getnum sq (CELLIDXFROMIJ 0 0 sq.side)
                        > sumsquare_getnum sq (CELLIDXFROMIJ 1 (sq.side - 1 - 1) sq.side)) ∨
                    (sumsquare_getnum sq (CELLIDXFROMIJ (sq.side - 1 - 1) 1 sq.side) ≠ 0 ∧
                      sumsquare_getnum sq (CELLIDXFROMIJ 0 0 sq.side)
                        > sumsquare_getnum sq
                          (CELLIDXFROMIJ (sq.side - 1 - 1) 1 sq.side)))))))))) := by
  unfold magicsquare_checkequiv
  exact shape_iff _ _ _ _ _ _ _ _

theorem prop_mono (c0 c1 c2 c3 d0 d1 d2 d3 p1 p2 p3 p4 q1 q2 q3 q4 : Prop)
    (e0 : c0 → d0) (e1 : c1 → d1) (e2 : c2 → d2) (e3 : c3 → d3)
    (h1 : q1 → p1) (h2 : q2 → p2) (h3 : q3 → p3) (h4 : q4 → p4)
    (h : c0 ∨ (¬ p1 ∧ (c1 ∨ (¬ p2 ∧ (c2 ∨ (¬ p3 ∧ (c3 ∨ ¬ p4))))))) :
    d0 ∨ (¬ q1 ∧ (d1 ∨ (¬ q2 ∧ (d2 ∨ (¬ q3 ∧ (d3 ∨ ¬ q4)))))) := by
  rcases h with h | ⟨n1, h⟩
  · exact Or.inl (e0 h)
  · refine Or.inr ⟨fun q => n1 (h1 q), ?_⟩
    rcases h with h | ⟨n2, h⟩
    · exact Or.inl (e1 h)
    · refine Or.inr ⟨fun q => n2 (h2 q), ?_⟩
      rcases h with h | ⟨n3, h⟩
      · exact Or.inl (e2 h)
      · refine Or.inr ⟨fun q => n3 (h3 q), ?_⟩
        rcases h with h | n4
        · exact Or.inl (e3 h)
        · exact Or.inr (fun q => n4 (h4 q))

theorem checkequiv_mono (N L : Nat) (P g : List Nat)
    (h : ∀ c, P.getD c 0 = 0 ∨ P.getD c 0 = g.getD c 0)
    (hg : magicsquare_checkequiv (squareOfGrid N g) L = true) :
    magicsquare_checkequiv (squareOfGrid N P) L = true := by
  rw [checkequiv_iff] at hg ⊢
  simp only [sumsquare_getnum, squareOfGrid] at hg ⊢
  refine prop_mono _ _ _ _ _ _ _ _ _ _ _ _ _ _ _ _ id id id id ?_ ?_ ?_ ?_ hg
  · exact bad3_mono _ _ _ _ _ _ _ _ (h (CELLIDXFROMIJ 0 0 N)) (h (CELLIDXFROMIJ 0 (N - 1) N))
      (h (CELLIDXFROMIJ (N - 1) 0 N)) (h (CELLIDXFROMIJ (N - 1) (N - 1) N))
  · exact bad2_mono _ _ _ _ (h (CELLIDXFROMIJ 0 (N - 1) N)) (h (CELLIDXFROMIJ (N - 1) 0 N))
  · exact bad_mono _ _ _ _ (h (CELLIDXFROMIJ 1 1 N))
      (h (CELLIDXFROMIJ (N - 1 - 1) (N - 1 - 1) N))
  · exact bad3_mono _ _ _ _ _ _ _ _ (h (CELLIDXFROMIJ 0 0 N)) (h (CELLIDXFROMIJ 1 1 N))
      (h (CELLIDXFROMIJ 1 (N - 1 - 1) N)) (h (CELLIDXFROMIJ (N - 1 - 1) 1 N))

/-- A square accepted at a filter level is accepted at every lower level. -/
theorem checkequiv_level_mono (sq : sumsquare) (L : Nat)
    (h : magicsquare_checkequiv sq (L + 1) = true) : magicsquare_checkequiv sq L = true := by
  rw [checkequiv_iff] at h ⊢
  refine prop_mono _ _ _ _ _ _ _ _ _ _ _ _ _ _ _ _ ?_ ?_ ?_ ?_ id id id id h
  · intro e; rcases e with e | e
    · left; omega
    · right; exact e
  · intro e; omega
  · intro e; rcases e with e | e
    · left; omega
    · right; exact e
  · intro e; omega

theorem liveOf_length (ord ns : List Nat) (hord : ord.Nodup) (hns : ns.Nodup)
    (hsub : ∀ n ∈ ns, n ∈ ord) : (liveOf ord ns).length + ns.length = ord.length := by
  have h1 : (ord.filter (fun x => decide (x ∈ ns))).Perm ns := by
    rw [List.perm_ext_iff_of_nodup (List.Nodup.filter _ hord) hns]
    intro a
    simp only [List.mem_filter, decide_eq_true_eq]
    exact ⟨fun h => h.2, fun h => ⟨hsub a h, h⟩⟩
  have h2 := (List.filter_append_perm (fun x => decide (x ∈ ns)) ord).length_eq
  rw [List.length_append, h1.length_eq] at h2
  unfold liveOf
  have h3 : (ord.filter (fun x => decide (x ∉ ns))) =
      (ord.filter (fun x => !decide (x ∈ ns))) := by
    apply List.filter_congr
    intro x _
    simp
  rw [h3]
  omega

theorem availOf_length (N : Nat) (fs : List Frame) (hok : FramesOk (N * N) fs) :
    (availOf N fs).length + fs.length = N * N := by
  have := liveOf_length (List.range' 1 (N * N)) (fs.map Frame.num) (List.nodup_range' 1 _)
    hok.2.1 (ctx_num_sub N fs hok)
  simpa [availOf] using this

theorem openOf_length (N : Nat) (plE nlE : List sortednlist_elem) (ord : List Nat)
    (ctx : SearchCtx N plE nlE ord) (fs : List Frame) (hok : FramesOk (N * N) fs) :
    (openOf ord fs).length + fs.length = N * N := by
  have := liveOf_length ord (fs.map Frame.pos) ctx.hpl.2.2.1 hok.1
    (ctx_pos_sub N plE nlE ord ctx fs hok)
  have h2 := ctx.hperm.length_eq
  simp only [List.length_map, List.length_range'] at this h2
  unfold openOf
  omega

theorem gridHoles_le_N (N : Nat) (P : List Nat) (l : Nat) (hN : N * N ≤ 255)
    (hl : l < N + N + 2) : gridHoles P N l ≤ N := by
  have h := lineCells_length N hN l hl
  unfold gridHoles
  calc ((lineCells N l).filter _).length ≤ (lineCells N l).length := List.length_filter_le _ _
    _ = N := h

theorem gridHoles_le_avail (N : Nat) (plE nlE : List sortednlist_elem) (ord : List Nat)
    (ctx : SearchCtx N plE nlE ord) (fs : List Frame) (hok : FramesOk (N * N) fs)
    (P : List Nat) (hP : ∀ c, c < N * N → P.getD c 0 = cellOf fs c) (l : Nat) :
    gridHoles P N l ≤ (availOf N fs).length := by
  have h1 := availOf_length N fs hok
  have h2 := openOf_length N plE nlE ord ctx fs hok
  have hnd : (((lineCells N l).filter (fun c => P.getD c 0 == 0)).map (· + 1)).Nodup := by
    apply List.Nodup.map
    · intro a b e; simpa using e
    · exact List.Nodup.filter _ (lineCells_nodup N l)
  have hsub : ∀ x ∈ ((lineCells N l).filter (fun c => P.getD c 0 == 0)).map (· + 1),
      x ∈ openOf ord fs := by
    intro x hx
    obtain ⟨c, hc, e⟩ := List.mem_map.mp hx
    have hc1 := ((mem_lineCells N l c).mp (List.mem_of_mem_filter hc)).1
    have hc2 : P.getD c 0 = 0 := by simpa using (List.mem_filter.mp hc).2
    rw [hP c hc1, cellOf_zero_iff N fs hok c] at hc2
    rw [mem_openOf N plE nlE ord ctx fs x, ← e]
    exact ⟨⟨by omega, by omega⟩, hc2⟩
  have := length_le_of_nodup_sub _ _ hnd hsub
  rw [List.length_map] at this
  unfold gridHoles
  omega

/-- `magicsquare_checksums` on a state of the search: it passes exactly when every line
satisfies its bounds, and a line index it reports is a line with exactly one hole. -/
theorem checksums_rep (N : Nat) (plE nlE : List sortednlist_elem) (ord : List Nat)
    (ctx : SearchCtx N plE nlE ord) (fs : List Frame) (st : magicsquare_state)
    (hrep : Rep N plE nlE fs st) (hok : FramesOk (N * N) fs) :
    ((magicsquare_checksums st.sq st.nl st.sm (magicSum N)).1 = true ↔
      ∀ l, l < N + N + 2 → lineOk N (magicSum N) st.sq.nums (availOf N fs) l) ∧
    ((magicsquare_checksums st.sq st.nl st.sm (magicSum N)).1 = true →
      (magicsquare_checksums st.sq st.nl st.sm (magicSum N)).2.1 > -1 →
      ∃ l, l < N + N + 2 ∧
        (magicsquare_checksums st.sq st.nl st.sm (magicSum N)).2.1 = (l : Int) ∧
        gridHoles st.sq.nums N l = 1) ∧
    Rep N plE nlE fs { st with sm := (magicsquare_checksums st.sq st.nl st.sm (magicSum N)).2.2 } := by
  have hC := Rep_nl_chain N plE nlE ord ctx fs st hrep hok
  obtain ⟨r1, r2, r3, r4, r5, r6, r7, r8, r9⟩ := hrep
  obtain ⟨g1, g2, g3, g4, g5⟩ :=
    sortednlistsums_get_spec st.sm st.nl (N * N) (availOf N fs) hC N r7 r8 r9
  have hP : ∀ c, c < N * N → st.sq.nums.getD c 0 = cellOf fs c := r4
  have hholes : ∀ l, l < N + N + 2 →
      gridHoles st.sq.nums N l ≤ min N (availOf N fs).length := by
    intro l hl
    exact Nat.le_min.mpr ⟨gridHoles_le_N N _ l ctx.hN hl,
      gridHoles_le_avail N plE nlE ord ctx fs hok _ hP l⟩
  have key := checksums_loop_spec st.sq st.nl (sortednlistsums_get st.sm st.nl) (magicSum N)
    N (N * N) (availOf N fs) r3 hC g5 hholes (N + N + 2) 0 (-1) (by omega)
  have hnl : sumsquare_nlines st.sq = N + N + 2 := r3.2.1
  unfold magicsquare_checksums
  rw [hnl]
  refine ⟨?_, ?_, ?_⟩
  · rw [key.1]
    exact ⟨fun h l hl => h l (Nat.zero_le _) hl, fun h l _ hl => h l hl⟩
  · intro ht hgt
    dsimp only at ht hgt ⊢
    rw [ht] at hgt ⊢
    simp only [true_and] at hgt ⊢
    rcases key.2 ht with e | ⟨_, l, _, hl, e, hh⟩
    · rw [e] at hgt
      simp at hgt
    · have hpos : (magicsquare_checksums_loop st.sq st.nl (sortednlistsums_get st.sm st.nl)
          (magicSum N) (N + N + 2) 0 (-1)).2 > -1 := by rw [e]; omega
      rw [if_pos hpos]
      exact ⟨l, hl, e, hh⟩
  · exact ⟨r1, r2, r3, r4, r5, r6, g1, g3, g4⟩

theorem all_filled (N : Nat) (plE nlE : List sortednlist_elem) (ord : List Nat)
    (ctx : SearchCtx N plE nlE ord) (fs : List Frame) (hok : FramesOk (N * N) fs)
    (hopen : openOf ord fs = []) (c : Nat) (hc : c < N * N) :
    1 ≤ cellOf fs c ∧ cellOf fs c ≤ N * N := by
  have hmem : c + 1 ∈ fs.map Frame.pos := by
    by_contra h
    have := (mem_openOf N plE nlE ord ctx fs (c + 1)).mpr ⟨⟨by omega, by omega⟩, h⟩
    rw [hopen] at this
    exact absurd this (List.not_mem_nil _)
  rcases cellOf_cases fs c with h | ⟨f, hf, hp, hv⟩
  · exact absurd hmem h.1
  · have := hok.2.2 f hf
    omega

theorem cellOf_inj (N : Nat) (fs : List Frame) (hok : FramesOk (N * N) fs) (c d : Nat)
    (hc : cellOf fs c ≠ 0) (e : cellOf fs c = cellOf fs d) : c = d := by
  rcases cellOf_cases fs c with h | ⟨f, hf, hp, hv⟩
  · exact absurd h.2 hc
  · rcases cellOf_cases fs d with h | ⟨f2, hf2, hp2, hv2⟩
    · rw [h.2] at e; exact absurd e hc
    · have hnum : f.num = f2.num := by rw [← hv, ← hv2, e]
      have := List.inj_on_of_nodup_map hok.2.1 hf hf2 hnum
      subst this
      omega

/-- When no position is left open and every line has the magic sum, the square is a magic
square, and it is the only one that agrees with the placements. -/
theorem complete_case (N : Nat) (plE nlE : List sortednlist_elem) (ord : List Nat)
    (ctx : SearchCtx N plE nlE ord) (fs : List Frame) (st : magicsquare_state)
    (hrep : Rep N plE nlE fs st) (hok : FramesOk (N * N) fs) (hopen : openOf ord fs = [])
    (hchk : ∀ l, l < N + N + 2 → lineOk N (magicSum N) st.sq.nums (availOf N fs) l) :
    IsMagicSquare N st.sq.nums ∧ Extends fs st.sq.nums ∧
    ∀ g, IsMagicSquare N g → Extends fs g → g = st.sq.nums := by
  have hlen : st.sq.nums.length = N * N := hrep.2.2.1.2.2.2.1
  have hP : ∀ c, c < N * N → st.sq.nums.getD c 0 = cellOf fs c := hrep.2.2.2.1
  have hfill := all_filled N plE nlE ord ctx fs hok hopen
  have hmap : st.sq.nums = (List.range (N * N)).map (fun c => cellOf fs c) := by
    apply List.ext_getElem
    · simp [hlen]
    · intro i h1 h2
      have := hP i (by omega)
      rw [getD_eq_getElem' _ i h1] at this
      simp [this]
  have hnd : st.sq.nums.Nodup := by
    rw [hmap]
    apply List.Nodup.map_on
    · intro c hc d _ e
      have := hfill c (List.mem_range.mp hc)
      exact cellOf_inj N fs hok c d (by omega) e
    · exact List.nodup_range _
  have hsub : ∀ x ∈ st.sq.nums, x ∈ List.range' 1 (N * N) := by
    intro x hx
    rw [hmap] at hx
    obtain ⟨c, hc, e⟩ := List.mem_map.mp hx
    have := hfill c (List.mem_range.mp hc)
    rw [List.mem_range'_1, ← e]; omega
  have hperm : st.sq.nums.Perm (List.range' 1 (N * N)) :=
    (List.Nodup.subperm hnd (fun x hx => hsub x hx)).perm_of_length_le (by simp [hlen])
  refine ⟨⟨hperm, ?_⟩, ?_, ?_⟩
  · intro l hl
    have hz : gridHoles st.sq.nums N l = 0 := by
      unfold gridHoles
      rw [List.length_eq_zero, List.filter_eq_nil_iff]
      intro c hc
      have hcK := ((mem_lineCells N l c).mp hc).1
      have := hfill c hcK
      rw [hP c hcK]
      simp; omega
    have := hchk l hl
    unfold lineOk at this
    rw [if_neg (by simpa using hz)] at this
    exact this
  · intro f hf
    have hb := hok.2.2 f hf
    rw [hP (f.pos - 1) (by omega)]
    exact cellOf_mem fs f hf hok.1 _ (by omega)
  · intro g hmag hext
    apply List.ext_getElem
    · rw [(magic_basic N g hmag).1, hlen]
    · intro i h1 h2
      have hi : i < N * N := by omega
      have := ext_filled N fs g hext hok i (by have := hfill i hi; omega)
      rw [← hP i hi, getD_eq_getElem' _ i h1, getD_eq_getElem' _ i h2] at this
      exact this

theorem linerelationsOf_getD (N l : Nat) (hN : N * N ≤ 255) (hl : l < N + N + 2) :
    (linerelationsOf N).getD l linerelation0 = ⟨N, lineCells N l⟩ := by
  unfold linerelationsOf
  rw [getD_map_range, if_pos hl]
  unfold sumsquare_linerelation_init
  have hcells : (List.range (N * N)).filter (fun c =>
      (((cellrelationsOf N).getD c cellrelation0).celllines.take
        ((cellrelationsOf N).getD c cellrelation0).ncelllines).contains l) = lineCells N l := by
    unfold lineCells
    apply List.filter_congr
    intro c hc
    have hcK := List.mem_range.mp hc
    have hcell : (cellrelationsOf N).getD c cellrelation0 = sumsquare_cellrelation_init c N := by
      unfold cellrelationsOf
      rw [getD_map_range, if_pos hcK]
    rw [hcell, (cellrelation_init_lines N c hN hcK).2, List.take_length]
    have := (cellrelation_init_facts N c hN hcK).2.2 l hl
    by_cases h : lineHasCell N l c = true
    · rw [h]; simpa using this.mpr h
    · have h2 : lineHasCell N l c = false := by simpa using h
      rw [h2]
      simpa using fun e => h (this.mp e)
  simp only [hcells]
  have hlenN := lineCells_length N hN l hl
  have hN16 := lt16_of_sq N hN
  rw [hlenN, Nat.mod_eq_of_lt (by omega)]

theorem emptycell_loop_spec (sq : sumsquare) (line : sumsquare_linerelation) :
    ∀ (k c : Nat), c + k = line.linecells.length →
      (∃ x ∈ line.linecells.drop c, sumsquare_getnum sq x = 0) →
      sumsquare_emptycell_loop sq line k c ∈ line.linecells ∧
      sumsquare_getnum sq (sumsquare_emptycell_loop sq line k c) = 0 := by
  intro k
  induction k with
  | zero =>
    intro c hc hex
    obtain ⟨x, hx, _⟩ := hex
    rw [List.drop_of_length_le (by omega)] at hx
    exact absurd hx (List.not_mem_nil _)
  | succ k ih =>
    intro c hc hex
    have hlt : c < line.linecells.length := by omega
    simp only [sumsquare_emptycell_loop]
    have hget : line.linecells.getD c 0 = line.linecells[c] := getD_eq_getElem' _ c hlt
    by_cases hz : sumsquare_getnum sq (line.linecells.getD c 0) = 0
    · rw [if_pos hz]
      exact ⟨by rw [hget]; exact List.getElem_mem hlt, hz⟩
    · rw [if_neg hz]
      apply ih (c + 1) (by omega)
      obtain ⟨x, hx, hx0⟩ := hex
      rw [List.drop_eq_getElem_cons hlt] at hx
      rcases List.mem_cons.mp hx with e | e
      · rw [e, ← hget] at hx0; exact absurd hx0 hz
      · exact ⟨x, e, hx0⟩

theorem emptycell_spec (N : Nat) (sq : sumsquare) (l : Nat) (hN : N * N ≤ 255)
    (hsq : SqInv sq N) (hl : l < N + N + 2) (hh : gridHoles sq.nums N l = 1) :
    sumsquare_emptycell sq l ∈ lineCells N l ∧ sq.nums.getD (sumsquare_emptycell sq l) 0 = 0 := by
  have hline : sumsquare_getlinerelation sq l = ⟨N, lineCells N l⟩ := by
    unfold sumsquare_getlinerelation
    rw [hsq.2.2.2.2.2.2.1]
    exact linerelationsOf_getD N l hN hl
  have hlenN := lineCells_length N hN l hl
  have hex : ∃ x ∈ lineCells N l, sumsquare_getnum sq x = 0 := by
    unfold gridHoles at hh
    have : 0 < ((lineCells N l).filter (fun c => sq.nums.getD c 0 == 0)).length := by omega
    obtain ⟨x, hx⟩ := List.exists_mem_of_length_pos this
    refine ⟨x, List.mem_of_mem_filter hx, ?_⟩
    have := (List.mem_filter.mp hx).2
    simpa [sumsquare_getnum] using this
  unfold sumsquare_emptycell
  rw [hline]
  have := emptycell_loop_spec sq ⟨N, lineCells N l⟩ N 0 (by simp [hlenN])
    (by simpa using hex)
  exact this

theorem Extends_snoc (fs : List Frame) (f : Frame) (g : List Nat) :
    Extends (fs ++ [f]) g ↔ Extends fs g ∧ g.getD (f.pos - 1) 0 = f.num := by
  unfold Extends
  constructor
  · intro h
    exact ⟨fun x hx => h x (List.mem_append_left _ hx), h f (by simp)⟩
  · intro h x hx
    rcases List.mem_append.mp hx with e | e
    · exact h.1 x e
    · rw [List.mem_singleton] at e; rw [e]; exact h.2

theorem Sol_snoc (N L : Nat) (fs : List Frame) (f : Frame) (g : List Nat) :
    Sol N L (fs ++ [f]) g ↔ Sol N L fs g ∧ g.getD (f.pos - 1) 0 = f.num := by
  unfold Sol
  rw [Extends_snoc]
  tauto

/-- The forced number: in a line with one hole whose bounds hold, the number that gives
the magic sum is available, its cell is open, and every magic square that agrees with the
placements has this number in this cell. -/
theorem derived_case (N : Nat) (plE nlE : List sortednlist_elem) (ord : List Nat)
    (ctx : SearchCtx N plE nlE ord) (fs : List Frame) (st : magicsquare_state)
    (hrep : Rep N plE nlE fs st) (hok : FramesOk (N * N) fs) (l : Nat) (hl : l < N + N + 2)
    (hh : gridHoles st.sq.nums N l = 1)
    (hline : lineOk N (magicSum N) st.sq.nums (availOf N fs) l) :
    FramesOk (N * N) (fs ++ [⟨sumsquare_emptycell st.sq l + 1,
      (magicSum N - (sumsquare_getlinecount st.sq l).sum).toNat, true⟩]) ∧
    ∀ g, IsMagicSquare N g → Extends fs g →
      g.getD (sumsquare_emptycell st.sq l) 0
        = (magicSum N - (sumsquare_getlinecount st.sq l).sum).toNat := by
  have hsq : SqInv st.sq N := hrep.2.2.1
  have hP : ∀ c, c < N * N → st.sq.nums.getD c 0 = cellOf fs c := hrep.2.2.2.1
  have hsum : (sumsquare_getlinecount st.sq l).sum = gridSum st.sq.nums N l :=
    (hsq.2.2.2.2.2.2.2.2 l hl).1
  obtain ⟨hc1, hc2⟩ := emptycell_spec N st.sq l ctx.hN hsq hl hh
  have hcK := ((mem_lineCells N l _).mp hc1).1
  rw [hsum]
  have hv : (magicSum N - gridSum st.sq.nums N l).toNat ∈ availOf N fs := by
    unfold lineOk at hline
    rw [if_pos (by omega)] at hline
    exact hline.2.2 hh
  have hvm := (mem_availOf N fs _).mp hv
  have hopen : sumsquare_emptycell st.sq l + 1 ∉ fs.map Frame.pos := by
    rw [← cellOf_zero_iff N fs hok, ← hP _ hcK]
    exact hc2
  refine ⟨FramesOk_snoc_intro _ fs _ hok hopen hvm.2 ⟨by simp, by simp; omega, hvm.1.1, hvm.1.2⟩, ?_⟩
  intro g hmag hext
  obtain ⟨h1, h2, h3, h4⟩ := line_fill N fs st.sq.nums g l hok hP hmag hext
  have hM := hmag.2 l hl
  rw [h1] at hM
  rw [hh] at h4
  have hlen1 : ((lineCells N l).filter (fun c => st.sq.nums.getD c 0 == 0)).length = 1 := by
    rw [List.length_map] at h4; exact h4
  have hmemc : sumsquare_emptycell st.sq l ∈
      (lineCells N l).filter (fun c => st.sq.nums.getD c 0 == 0) := by
    rw [List.mem_filter]
    exact ⟨hc1, by simpa using hc2⟩
  obtain ⟨x, hx⟩ := List.length_eq_one.mp hlen1
  rw [hx] at hmemc hM
  rw [List.mem_singleton] at hmemc
  rw [hmemc]
  simp only [List.map_cons, List.map_nil, List.sum_cons, List.sum_nil, add_zero] at hM
  omega

theorem Rep_lastremoved (N : Nat) (plE nlE : List sortednlist_elem) (fs : List Frame)
    (f : Frame) (st : magicsquare_state) (hrep : Rep N plE nlE (fs ++ [f]) st) :
    sortednlist_nremoved st.pl ≠ 0 ∧ sortednlist_lastremoved st.pl = f.pos := by
  obtain ⟨_, h3, _, h5, _⟩ := hrep.2.1
  rw [List.map_append, List.map_singleton, List.length_append, List.length_singleton,
    List.length_map] at h3 h5
  unfold sortednlist_nremoved sortednlist_lastremoved
  constructor
  · omega
  · rw [h3]
    have := h5 fs.length (by omega)
    rw [Nat.add_sub_cancel, this]
    have e : (List.map Frame.pos fs).length = fs.length := List.length_map _ _
    rw [← e, getD_append_length]

theorem Rep_first_pl (N : Nat) (plE nlE : List sortednlist_elem) (ord : List Nat)
    (ctx : SearchCtx N plE nlE ord) (fs : List Frame) (st : magicsquare_state)
    (hrep : Rep N plE nlE fs st) (hok : FramesOk (N * N) fs) :
    (sortednlist_first st.pl = 0 ↔ openOf ord fs = []) ∧
    (sortednlist_first st.pl ≠ 0 →
      ∃ rest, openOf ord fs = sortednlist_first st.pl :: rest) := by
  have hC := Rep_pl_chain N plE nlE ord ctx fs st hrep hok
  have hf : sortednlist_first st.pl = (openOf ord fs).getD 0 0 := Chain_first _ _ _ hC
  rw [hf]
  cases hopen : openOf ord fs with
  | nil => simp
  | cons p t =>
    have hp : p ≠ 0 := by
      have := hC.2.2.2.1 p (by rw [hopen]; simp)
      omega
    simp [hp]

theorem Rep_with_pos (N : Nat) (plE nlE : List sortednlist_elem) (fs : List Frame)
    (st : magicsquare_state) (p : Nat) (h : Rep N plE nlE fs st) :
    Rep N plE nlE fs { st with pos := p } := h

theorem Rep_with_emitted (N : Nat) (plE nlE : List sortednlist_elem) (fs : List Frame)
    (st : magicsquare_state) (e : List (List Nat)) (h : Rep N plE nlE fs st) :
    Rep N plE nlE fs { st with emitted := e } := h

/-- No magic square agrees with placements on which `magicsquare_checksums` or
`magicsquare_checkequiv` fails. -/
theorem no_sol_of_fail (N L : Nat) (plE nlE : List sortednlist_elem) (ord : List Nat)
    (ctx : SearchCtx N plE nlE ord) (fs : List Frame) (st : magicsquare_state)
    (hrep : Rep N plE nlE fs st) (hok : FramesOk (N * N) fs)
    (hfail : ¬ ((magicsquare_checksums st.sq st.nl st.sm (magicSum N)).1 = true ∧
      magicsquare_checkequiv st.sq L = true)) (g : List Nat) : ¬ Sol N L fs g := by
  intro hsol
  obtain ⟨hmag, hacc, hext⟩ := hsol
  have hP : ∀ c, c < N * N → st.sq.nums.getD c 0 = cellOf fs c := hrep.2.2.2.1
  apply hfail
  constructor
  · rw [(checksums_rep N plE nlE ord ctx fs st hrep hok).1]
    intro l hl
    exact pruning_sound N fs st.sq.nums g l hok hP hmag hext hl
  · rw [checkequiv_congr st.sq N hrep.2.2.1.1 L]
    apply checkequiv_mono N L st.sq.nums g _ hacc
    intro c
    by_cases hc : c < N * N
    · by_cases hz : st.sq.nums.getD c 0 = 0
      · left; exact hz
      · right
        rw [hP c hc] at hz ⊢
        exact (ext_filled N fs g hext hok c hz).symm
    · left
      exact getD_of_le _ c (by rw [hrep.2.2.1.2.2.2.1]; omega)

theorem loop_succ (L : Nat) (fd : Bool) (M : Int) (fo : Nat) (st : magicsquare_state) :
    magicsquare_generate_loop L fd M (fo + 1) st =
      if (magicsquare_setnext st st.pos).1 ≠ 0 then
        magicsquare_generate_rest L fd M fo fo (magicsquare_setnext st st.pos).2
      else magicsquare_generate_back L fd M fo (magicsquare_setnext st st.pos).2 := by
  simp only [magicsquare_generate_loop, magicsquare_generate_rest, magicsquare_generate_back]

theorem inner_fail (L : Nat) (fd : Bool) (M : Int) (fi : Nat) (st : magicsquare_state)
    (h : ¬ ((magicsquare_checksums st.sq st.nl st.sm M).1 = true ∧
      magicsquare_checkequiv st.sq L = true)) :
    magicsquare_generate_inner L fd M (fi + 1) st =
      some { st with sm := (magicsquare_checksums st.sq st.nl st.sm M).2.2 } := by
  simp only [magicsquare_generate_inner]
  rw [if_neg h]

theorem inner_emit (L : Nat) (fd : Bool) (M : Int) (fi : Nat) (st : magicsquare_state)
    (h : (magicsquare_checksums st.sq st.nl st.sm M).1 = true ∧
      magicsquare_checkequiv st.sq L = true)
    (h0 : sortednlist_first st.pl = 0) :
    magicsquare_generate_inner L fd M (fi + 1) st =
      some { st with sm := (magicsquare_checksums st.sq st.nl st.sm M).2.2,
                     emitted := st.emitted ++ [st.sq.nums] } := by
  simp only [magicsquare_generate_inner]
  rw [if_pos h, if_pos h0]

theorem inner_derive (L : Nat) (fd : Bool) (M : Int) (fi : Nat) (st : magicsquare_state)
    (h : (magicsquare_checksums st.sq st.nl st.sm M).1 = true ∧
      magicsquare_checkequiv st.sq L = true)
    (h0 : sortednlist_first st.pl ≠ 0)
    (h1 : fd = true ∧ (magicsquare_checksums st.sq st.nl st.sm M).2.1 > -1) :
    magicsquare_generate_inner L fd M (fi + 1) st =
      magicsquare_generate_inner L fd M fi
        (magicsquare_insertderivednum
          { st with sm := (magicsquare_checksums st.sq st.nl st.sm M).2.2,
                    pos := sumsquare_emptycell st.sq
                      (magicsquare_checksums st.sq st.nl st.sm M).2.1.toNat + 1 }
          (sumsquare_emptycell st.sq (magicsquare_checksums st.sq st.nl st.sm M).2.1.toNat + 1)
          ((M - (sumsquare_getlinecount st.sq
            (magicsquare_checksums st.sq st.nl st.sm M).2.1.toNat).sum) % 256).toNat) := by
  conv_lhs => simp only [magicsquare_generate_inner]
  rw [if_pos h, if_neg h0, if_pos h1]

theorem inner_advance (L : Nat) (fd : Bool) (M : Int) (fi : Nat) (st : magicsquare_state)
    (h : (magicsquare_checksums st.sq st.nl st.sm M).1 = true ∧
      magicsquare_checkequiv st.sq L = true)
    (h0 : sortednlist_first st.pl ≠ 0)
    (h1 : ¬ (fd = true ∧ (magicsquare_checksums st.sq st.nl st.sm M).2.1 > -1)) :
    magicsquare_generate_inner L fd M (fi + 1) st =
      some { st with sm := (magicsquare_checksums st.sq st.nl st.sm M).2.2,
                     pos := sortednlist_first st.pl } := by
  simp only [magicsquare_generate_inner]
  rw [if_pos h, if_neg h0, if_neg h1]



theorem frames_ok_place (N : Nat) (plE nlE : List sortednlist_elem) (ord : List Nat)
    (ctx : SearchCtx N plE nlE ord) (fs : List Frame) (hok : FramesOk (N * N) fs)
    (p v : Nat) (b : Bool) (hp : p ∈ openOf ord fs) (hv : v ∈ availOf N fs) :
    FramesOk (N * N) (fs ++ [⟨p, v, b⟩]) := by
  have hpm := (mem_openOf N plE nlE ord ctx fs p).mp hp
  have hvm := (mem_availOf N fs v).mp hv
  exact FramesOk_snoc_intro _ fs _ hok hpm.2 hvm.2 ⟨hpm.1.1, hpm.1.2, hvm.1.1, hvm.1.2⟩

/-- The candidates that remain at a position: the outer loop tries each of them in turn,
explores the node below it, and finally clears the position. -/
theorem cand_lemma (N L : Nat) (fd : Bool) (plE nlE : List sortednlist_elem) (ord : List Nat)
    (ctx : SearchCtx N plE nlE ord) (d : Nat) (H : NodeStmt N L fd plE nlE d)
    (fs : List Frame) (p : Nat) (hlen : fs.length + 1 + d = N * N)
    (hok : FramesOk (N * N) fs) (hp : p ∈ openOf ord fs) :
    ∀ (rest done : List Nat) (v : Nat) (st : magicsquare_state),
      availOf N fs = done ++ v :: rest → Rep N plE nlE (fs ++ [⟨p, v, false⟩]) st →
      st.pos = p →
      ∃ (k : Nat) (E : List (List Nat)) (st2 : magicsquare_state),
        Rep N plE nlE fs st2 ∧ st2.emitted = st.emitted ++ E ∧ E.Nodup ∧
        (∀ g, g ∈ E ↔ Sol N L fs g ∧ g.getD (p - 1) 0 ∈ rest) ∧
        ∀ fo, N * N + 1 ≤ fo →
          magicsquare_generate_loop L fd (magicSum N) (fo + k + 1) st =
            magicsquare_generate_back L fd (magicSum N) fo st2 := by
  intro rest
  induction rest with
  | nil =>
    intro done v st hav hrep hpos
    have hokv := frames_ok_place N plE nlE ord ctx fs hok p v false hp (by rw [hav]; simp)
    obtain ⟨s1, s2, s3, s4⟩ := setnext_tried_last N plE nlE ord ctx fs st p v done hrep hokv hav
    refine ⟨0, [], (magicsquare_setnext st p).2, s2, by simp [s4], List.nodup_nil, ?_, ?_⟩
    · intro g; simp
    · intro fo _
      rw [Nat.add_zero, loop_succ, hpos, s1]
      simp
  | cons v2 rest2 ih =>
    intro done v st hav hrep hpos
    have hokv := frames_ok_place N plE nlE ord ctx fs hok p v false hp (by rw [hav]; simp)
    obtain ⟨s1, s2, s3, s4, s5, s6⟩ :=
      setnext_tried_next N plE nlE ord ctx fs st p v v2 done rest2 hrep hokv hav
    have hlen2 : (fs ++ [(⟨p, v2, false⟩ : Frame)]).length + d = N * N := by
      rw [List.length_append, List.length_singleton]; exact hlen
    obtain ⟨k1, E1, st1, n1, n2, n3, n4, n5, n6⟩ :=
      H fs ⟨p, v2, false⟩ (magicsquare_setnext st p).2 hlen2 s3 s4 (by rw [s5, hpos])
    have hav2 : availOf N fs = (done ++ [v]) ++ v2 :: rest2 := by rw [hav]; simp
    obtain ⟨k2, E2, st2, c1, c2, c3, c4, c5⟩ := ih (done ++ [v]) v2 st1 hav2 n1 n2
    have hndav : (done ++ v :: v2 :: rest2).Nodup := by rw [← hav]; exact availOf_nodup N fs
    have hv2rest : v2 ∉ rest2 := by
      have := (List.nodup_cons.mp (List.nodup_append.mp hndav).2.1).2
      exact (List.nodup_cons.mp this).1
    refine ⟨k1 + k2 + 1, E1 ++ E2, st2, c1, ?_, ?_, ?_, ?_⟩
    · rw [c2, n3, s6, List.append_assoc]
    · rw [List.nodup_append]
      refine ⟨n4, c3, ?_⟩
      intro g hg1 hg2
      have a1 := ((Sol_snoc N L fs _ g).mp ((n5 g).mp hg1)).2
      have a2 := ((c4 g).mp hg2).2
      dsimp only at a1
      rw [a1] at a2
      exact hv2rest a2
    · intro g
      rw [List.mem_append, n5 g, c4 g, Sol_snoc, List.mem_cons]
      dsimp only
      tauto
    · intro fo hfo
      have e : fo + (k1 + k2 + 1) + 1 = (fo + k2 + 1 + k1) + 1 := by omega
      rw [e, loop_succ, hpos, s1, if_pos s2, n6 _ _ (by omega) (by omega), c5 fo hfo]

/-- An open position: the outer loop tries every available number there and comes back
with the position open again, having emitted each solution below exactly once. -/
theorem fresh_lemma (N L : Nat) (fd : Bool) (plE nlE : List sortednlist_elem) (ord : List Nat)
    (ctx : SearchCtx N plE nlE ord) (d : Nat) (H : NodeStmt N L fd plE nlE d)
    (fs : List Frame) (p : Nat) (restp : List Nat) (st : magicsquare_state)
    (hlen : fs.length + 1 + d = N * N) (hok : FramesOk (N * N) fs)
    (hrep : Rep N plE nlE fs st) (hopen : openOf ord fs = p :: restp) (hpos : st.pos = p) :
    ∃ (k : Nat) (E : List (List Nat)) (st2 : magicsquare_state),
      Rep N plE nlE fs st2 ∧ st2.emitted = st.emitted ++ E ∧ E.Nodup ∧
      (∀ g, g ∈ E ↔ Sol N L fs g) ∧
      ∀ fo, N * N + 1 ≤ fo →
        magicsquare_generate_loop L fd (magicSum N) (fo + k + 1) st =
          magicsquare_generate_back L fd (magicSum N) fo st2 := by
  have hp : p ∈ openOf ord fs := by rw [hopen]; simp
  have hpm := (mem_openOf N plE nlE ord ctx fs p).mp hp
  have havlen := availOf_length N fs hok
  obtain ⟨v, rest, hav⟩ : ∃ v rest, availOf N fs = v :: rest := by
    cases h : availOf N fs with
    | nil => rw [h] at havlen; simp at havlen; omega
    | cons v rest => exact ⟨v, rest, rfl⟩
  obtain ⟨s1, s2, s3, s4, s5, s6⟩ := setnext_fresh N plE nlE ord ctx fs st hrep hok p v rest hp hav
  have hlen2 : (fs ++ [(⟨p, v, false⟩ : Frame)]).length + d = N * N := by
    rw [List.length_append, List.length_singleton]; exact hlen
  obtain ⟨k1, E1, st1, n1, n2, n3, n4, n5, n6⟩ :=
    H fs ⟨p, v, false⟩ (magicsquare_setnext st p).2 hlen2 s3 s4 (by rw [s5, hpos])
  obtain ⟨k2, E2, st2, c1, c2, c3, c4, c5⟩ :=
    cand_lemma N L fd plE nlE ord ctx d H fs p hlen hok hp rest [] v st1 (by simpa using hav)
      n1 n2
  have hndav : (v :: rest).Nodup := by rw [← hav]; exact availOf_nodup N fs
  refine ⟨k1 + k2 + 1, E1 ++ E2, st2, c1, ?_, ?_, ?_, ?_⟩
  · rw [c2, n3, s6, List.append_assoc]
  · rw [List.nodup_append]
    refine ⟨n4, c3, ?_⟩
    intro g hg1 hg2
    have a1 := ((Sol_snoc N L fs _ g).mp ((n5 g).mp hg1)).2
    have a2 := ((c4 g).mp hg2).2
    dsimp only at a1
    rw [a1] at a2
    exact (List.nodup_cons.mp hndav).1 a2
  · intro g
    rw [List.mem_append, n5 g, c4 g, Sol_snoc]
    dsimp only
    constructor
    · intro h
      rcases h with h | h
      · exact h.1
      · exact h.1
    · intro h
      have hz : cellOf fs (p - 1) = 0 :=
        cellOf_none fs _ (by rw [Nat.sub_add_cancel hpm.1.1]; exact hpm.2)
      have := ext_empty N fs g h.1 h.2.2 hok (p - 1) (by omega) hz
      rw [hav, List.mem_cons] at this
      rcases this with e | e
      · left; exact ⟨h, e⟩
      · right; exact ⟨h, e⟩
  · intro fo hfo
    have e : fo + (k1 + k2 + 1) + 1 = (fo + k2 + 1 + k1) + 1 := by omega
    rw [e, loop_succ, hpos, s1, if_pos s2, n6 _ _ (by omega) (by omega), c5 fo hfo]

theorem rest_fail (L : Nat) (fd : Bool) (M : Int) (fi fo : Nat) (st : magicsquare_state)
    (h : ¬ ((magicsquare_checksums st.sq st.nl st.sm M).1 = true ∧
      magicsquare_checkequiv st.sq L = true)) :
    magicsquare_generate_rest L fd M (fi + 1) fo st =
      magicsquare_generate_loop L fd M fo
        { st with sm := (magicsquare_checksums st.sq st.nl st.sm M).2.2 } := by
  unfold magicsquare_generate_rest
  rw [inner_fail L fd M fi st h]

theorem rest_emit (L : Nat) (fd : Bool) (M : Int) (fi fo : Nat) (st : magicsquare_state)
    (h : (magicsquare_checksums st.sq st.nl st.sm M).1 = true ∧
      magicsquare_checkequiv st.sq L = true)
    (h0 : sortednlist_first st.pl = 0) :
    magicsquare_generate_rest L fd M (fi + 1) fo st =
      magicsquare_generate_loop L fd M fo
        { st with sm := (magicsquare_checksums st.sq st.nl st.sm M).2.2,
                  emitted := st.emitted ++ [st.sq.nums] } := by
  unfold magicsquare_generate_rest
  rw [inner_emit L fd M fi st h h0]

theorem rest_derive (L : Nat) (fd : Bool) (M : Int) (fi fo : Nat) (st : magicsquare_state)
    (h : (magicsquare_checksums st.sq st.nl st.sm M).1 = true ∧
      magicsquare_checkequiv st.sq L = true)
    (h0 : sortednlist_first st.pl ≠ 0)
    (h1 : fd = true ∧ (magicsquare_checksums st.sq st.nl st.sm M).2.1 > -1) :
    magicsquare_generate_rest L fd M (fi + 1) fo st =
      magicsquare_generate_rest L fd M fi fo
        (magicsquare_insertderivednum
          { st with sm := (magicsquare_checksums st.sq st.nl st.sm M).2.2,
                    pos := sumsquare_emptycell st.sq
                      (magicsquare_checksums st.sq st.nl st.sm M).2.1.toNat + 1 }
          (sumsquare_emptycell st.sq (magicsquare_checksums st.sq st.nl st.sm M).2.1.toNat + 1)
          ((M - (sumsquare_getlinecount st.sq
            (magicsquare_checksums st.sq st.nl st.sm M).2.1.toNat).sum) % 256).toNat) := by
  unfold magicsquare_generate_rest
  rw [inner_derive L fd M fi st h h0 h1]

theorem rest_advance (L : Nat) (fd : Bool) (M : Int) (fi fo : Nat) (st : magicsquare_state)
    (h : (magicsquare_checksums st.sq st.nl st.sm M).1 = true ∧
      magicsquare_checkequiv st.sq L = true)
    (h0 : sortednlist_first st.pl ≠ 0)
    (h1 : ¬ (fd = true ∧ (magicsquare_checksums st.sq st.nl st.sm M).2.1 > -1)) :
    magicsquare_generate_rest L fd M (fi + 1) fo st =
      magicsquare_generate_loop L fd M fo
        { st with sm := (magicsquare_checksums st.sq st.nl st.sm M).2.2,
                  pos := sortednlist_first st.pl } := by
  unfold magicsquare_generate_rest
  rw [inner_advance L fd M fi st h h0 h1]

theorem back_nonempty (L : Nat) (fd : Bool) (M : Int) (fo : Nat) (st : magicsquare_state)
    (h : sortednlist_nremoved st.pl ≠ 0) :
    magicsquare_generate_back L fd M fo st =
      magicsquare_generate_loop L fd M fo { st with pos := sortednlist_lastremoved st.pl } := by
  unfold magicsquare_generate_back
  rw [if_neg h]

/-- One node of the search, given the nodes with one open position less. -/
theorem node_step (N L : Nat) (fd : Bool) (plE nlE : List sortednlist_elem) (ord : List Nat)
    (ctx : SearchCtx N plE nlE ord) (d : Nat)
    (H : ∀ d', d = d' + 1 → NodeStmt N L fd plE nlE d') : NodeStmt N L fd plE nlE d := by
  intro fs f st hlen hrep hok hpos
  obtain ⟨hc1, hc2, hc3⟩ := checksums_rep N plE nlE ord ctx (fs ++ [f]) st hrep hok
  by_cases hpass : ((magicsquare_checksums st.sq st.nl st.sm (magicSum N)).1 = true ∧
      magicsquare_checkequiv st.sq L = true)
  swap
  · refine ⟨0, [], _, hc3, hpos, ?_, List.nodup_nil, ?_, ?_⟩
    · exact (List.append_nil _).symm
    · intro g
      simp only [List.not_mem_nil, false_iff]
      exact no_sol_of_fail N L plE nlE ord ctx (fs ++ [f]) st hrep hok hpass g
    · intro fi fo hfi hfo
      obtain ⟨fi', rfl⟩ : ∃ fi', fi = fi' + 1 := ⟨fi - 1, by omega⟩
      exact rest_fail L fd _ fi' fo st hpass
  have hlines := hc1.mp hpass.1
  obtain ⟨hf1, hf2⟩ := Rep_first_pl N plE nlE ord ctx (fs ++ [f]) st hrep hok
  by_cases h0 : sortednlist_first st.pl = 0
  · have hopen := hf1.mp h0
    obtain ⟨m1, m2, m3⟩ := complete_case N plE nlE ord ctx (fs ++ [f]) st hrep hok hopen hlines
    have hacc : Accepted N L st.sq.nums := by
      unfold Accepted
      rw [← checkequiv_congr st.sq N hrep.2.2.1.1 L]
      exact hpass.2
    refine ⟨0, [st.sq.nums], _,
      Rep_with_emitted N plE nlE (fs ++ [f]) _ (st.emitted ++ [st.sq.nums]) hc3, hpos, rfl,
      List.nodup_singleton _, ?_, ?_⟩
    · intro g
      rw [List.mem_singleton]
      constructor
      · intro e; rw [e]; exact ⟨m1, hacc, m2⟩
      · intro h; exact m3 g h.1 h.2.2
    · intro fi fo hfi hfo
      obtain ⟨fi', rfl⟩ : ∃ fi', fi = fi' + 1 := ⟨fi - 1, by omega⟩
      exact rest_emit L fd _ fi' fo st hpass h0
  by_cases h1 : (fd = true ∧ (magicsquare_checksums st.sq st.nl st.sm (magicSum N)).2.1 > -1)
  · obtain ⟨l, hl, hln, hh⟩ := hc2 hpass.1 h1.2
    have hlt : (magicsquare_checksums st.sq st.nl st.sm (magicSum N)).2.1.toNat = l := by
      rw [hln]; exact Int.toNat_natCast l
    obtain ⟨hokd, hforced⟩ :=
      derived_case N plE nlE ord ctx (fs ++ [f]) st hrep hok l hl hh (hlines l hl)
    obtain ⟨r1, r2, r3⟩ := insertderived_rep N plE nlE ord ctx (fs ++ [f])
      { st with sm := (magicsquare_checksums st.sq st.nl st.sm (magicSum N)).2.2,
                pos := sumsquare_emptycell st.sq l + 1 }
      (sumsquare_emptycell st.sq l + 1)
      ((magicSum N - (sumsquare_getlinecount st.sq l).sum).toNat)
      (Rep_with_pos N plE nlE (fs ++ [f]) _ _ hc3) hokd
    have hal := availOf_length N _ hokd
    rw [List.length_append, List.length_singleton] at hal
    obtain ⟨d', rfl⟩ : ∃ d', d = d' + 1 := ⟨d - 1, by omega⟩
    obtain ⟨k1, E1, st4, n1, n2, n3, n4, n5, n6⟩ := H d' rfl (fs ++ [f]) _ _
      (by rw [List.length_append, List.length_singleton]; omega) r1 hokd r2
    obtain ⟨s1, s2, s3, s4⟩ := setnext_derived N plE nlE ord ctx (fs ++ [f]) st4 _ _ n1 hokd
    obtain ⟨q1, q2⟩ := Rep_lastremoved N plE nlE fs f _ s2
    refine ⟨k1 + 1, E1,
      { (magicsquare_setnext st4 (sumsquare_emptycell st.sq l + 1)).2 with
        pos := sortednlist_lastremoved
          (magicsquare_setnext st4 (sumsquare_emptycell st.sq l + 1)).2.pl },
      Rep_with_pos N plE nlE (fs ++ [f]) _ _ s2, q2, ?_, n4, ?_, ?_⟩
    · show (magicsquare_setnext st4 (sumsquare_emptycell st.sq l + 1)).2.emitted = _
      rw [s4, n3, r3]
    · intro g
      rw [n5 g, Sol_snoc]
      constructor
      · intro h; exact h.1
      · intro h
        refine ⟨h, ?_⟩
        show g.getD (sumsquare_emptycell st.sq l + 1 - 1) 0 = _
        rw [Nat.add_sub_cancel]
        exact hforced g h.1 h.2.2
    · intro fi fo hfi hfo
      obtain ⟨fi', rfl⟩ : ∃ fi', fi = fi' + 1 := ⟨fi - 1, by omega⟩
      have e : fo + (k1 + 1) = (fo + 1) + k1 := by omega
      have hv : ((magicSum N - (sumsquare_getlinecount st.sq l).sum) % 256).toNat =
          (magicSum N - (sumsquare_getlinecount st.sq l).sum).toNat := by
        have hb := hokd.2.2 ⟨sumsquare_emptycell st.sq l + 1,
          (magicSum N - (sumsquare_getlinecount st.sq l).sum).toNat, true⟩ (by simp)
        have h255 := ctx.hN
        dsimp only at hb
        omega
      rw [rest_derive L fd _ fi' _ st hpass h0 h1, hlt, hv, e,
        n6 fi' (fo + 1) (by omega) (by omega), loop_succ, n2, s1]
      simp only [ne_eq, not_true_eq_false, if_false]
      rw [back_nonempty L fd _ fo _ q1]
  · obtain ⟨restp, hopen⟩ := hf2 h0
    have hol := openOf_length N plE nlE ord ctx (fs ++ [f]) hok
    rw [hopen, List.length_cons] at hol
    obtain ⟨d', rfl⟩ : ∃ d', d = d' + 1 := ⟨d - 1, by omega⟩
    obtain ⟨k1, E1, st3, c1, c2, c3, c4, c5⟩ :=
      fresh_lemma N L fd plE nlE ord ctx d' (H d' rfl) (fs ++ [f]) (sortednlist_first st.pl)
        restp
        { st with sm := (magicsquare_checksums st.sq st.nl st.sm (magicSum N)).2.2,
                  pos := sortednlist_first st.pl }
        (by omega) hok (Rep_with_pos N plE nlE (fs ++ [f]) _ _ hc3) hopen rfl
    obtain ⟨q1, q2⟩ := Rep_lastremoved N plE nlE fs f _ c1
    refine ⟨k1 + 1, E1, { st3 with pos := sortednlist_lastremoved st3.pl },
      Rep_with_pos N plE nlE (fs ++ [f]) _ _ c1, q2, c2, c3, c4, ?_⟩
    intro fi fo hfi hfo
    obtain ⟨fi', rfl⟩ : ∃ fi', fi = fi' + 1 := ⟨fi - 1, by omega⟩
    have e : fo + (k1 + 1) = fo + k1 + 1 := by omega
    rw [rest_advance L fd _ fi' _ st hpass h0 h1, e, c5 fo hfo, back_nonempty L fd _ fo _ q1]

/-- Every node of the search is explored completely and left as it was found. -/
theorem node_all (N L : Nat) (fd : Bool) (plE nlE : List sortednlist_elem) (ord : List Nat)
    (ctx : SearchCtx N plE nlE ord) : ∀ d, NodeStmt N L fd plE nlE d := by
  intro d
  induction d with
  | zero => exact node_step N L fd plE nlE ord ctx 0 (fun d' h => by omega)
  | succ d ih =>
    refine node_step N L fd plE nlE ord ctx (d + 1) (fun d' h => ?_)
    have e : d' = d := by omega
    rw [e]; exact ih

/-! ## Fuel -/

theorem inner_mono (L : Nat) (fd : Bool) (M : Int) :
    ∀ (f : Nat) (st r : magicsquare_state),
      magicsquare_generate_inner L fd M f st = some r →
      magicsquare_generate_inner L fd M (f + 1) st = some r := by
  intro f
  induction f with
  | zero => intro st r h; simp [magicsquare_generate_inner] at h
  | succ f ih =>
    intro st r h
    by_cases hpass : ((magicsquare_checksums st.sq st.nl st.sm M).1 = true ∧
        magicsquare_checkequiv st.sq L = true)
    swap
    · rw [inner_fail L fd M f st hpass] at h
      rw [inner_fail L fd M (f + 1) st hpass]; exact h
    by_cases h0 : sortednlist_first st.pl = 0
    · rw [inner_emit L fd M f st hpass h0] at h
      rw [inner_emit L fd M (f + 1) st hpass h0]; exact h
    by_cases h1 : (fd = true ∧ (magicsquare_checksums st.sq st.nl st.sm M).2.1 > -1)
    · rw [inner_derive L fd M f st hpass h0 h1] at h
      rw [inner_derive L fd M (f + 1) st hpass h0 h1]
      exact ih _ _ h
    · rw [inner_advance L fd M f st hpass h0 h1] at h
      rw [inner_advance L fd M (f + 1) st hpass h0 h1]; exact h

theorem loop_mono (L : Nat) (fd : Bool) (M : Int) :
    ∀ (f : Nat) (st r : magicsquare_state),
      magicsquare_generate_loop L fd M f st = some r →
      magicsquare_generate_loop L fd M (f + 1) st = some r := by
  intro f
  induction f with
  | zero => intro st r h; simp [magicsquare_generate_loop] at h
  | succ f ih =>
    intro st r h
    rw [loop_succ] at h ⊢
    by_cases hn : (magicsquare_setnext st st.pos).1 ≠ 0
    · rw [if_pos hn] at h ⊢
      unfold magicsquare_generate_rest at h ⊢
      cases hi : magicsquare_generate_inner L fd M f (magicsquare_setnext st st.pos).2 with
      | none => rw [hi] at h; simp at h
      | some s2 =>
        rw [hi] at h
        rw [inner_mono L fd M f _ s2 hi]
        exact ih _ _ h
    · rw [if_neg hn] at h ⊢
      unfold magicsquare_generate_back at h ⊢
      by_cases hz : sortednlist_nremoved (magicsquare_setnext st st.pos).2.pl = 0
      · rw [if_pos hz] at h ⊢; exact h
      · rw [if_neg hz] at h ⊢; exact ih _ _ h

theorem loop_mono_add (L : Nat) (fd : Bool) (M : Int) (f : Nat) (st r : magicsquare_state)
    (h : magicsquare_generate_loop L fd M f st = some r) (n : Nat) :
    magicsquare_generate_loop L fd M (f + n) st = some r := by
  induction n with
  | zero => exact h
  | succ n ih => exact loop_mono L fd M (f + n) st r ih

/-- More fuel does not change a result of `magicsquare_generate`. -/
theorem generate_mono (mem : magicsquare_mem) (N L : Nat) (fd : Bool) (f f2 : Nat)
    (E : List (List Nat)) (hle : f ≤ f2) (h : magicsquare_generate mem N L fd f = some E) :
    magicsquare_generate mem N L fd f2 = some E := by
  unfold magicsquare_generate at h ⊢
  simp only [Option.map_eq_some'] at h ⊢
  obtain ⟨r, hr, hE⟩ := h
  refine ⟨r, ?_, hE⟩
  obtain ⟨n, rfl⟩ : ∃ n, f2 = f + n := ⟨f2 - f, by omega⟩
  exact loop_mono_add L fd _ f _ r hr n

/-! ## The start state -/

theorem initnumtypes_spec (n : Nat) (arr : List Nat) :
    (magicsquare_initnumtypes arr n).length = arr.length ∧
    ∀ c, c < n → (magicsquare_initnumtypes arr n).getD c 0 = 0 := by
  unfold magicsquare_initnumtypes
  induction n with
  | zero => simp
  | succ n ih =>
    rw [List.range_succ, List.foldl_append]
    simp only [List.foldl_cons, List.foldl_nil]
    refine ⟨by rw [List.length_set]; exact ih.1, ?_⟩
    intro c hc
    by_cases hcn : c = n
    · subst hcn
      by_cases hl : c < ((List.range c).foldl (fun a i => a.set i MAGSQ_EMPTYPOS) arr).length
      · rw [List.getD_eq_getElem _ _ (by rw [List.length_set]; exact hl)]
        simp [MAGSQ_EMPTYPOS]
      · rw [List.getD_eq_default _ _ (by rw [List.length_set]; omega)]
    · rw [getD_set_eq, if_neg (by omega)]
      exact ih.2 c (by omega)



/-- The state before the first iteration of the outer loop holds no placement, and the
two pools are complete. -/
theorem start_rep (mem : magicsquare_mem) (N : Nat) (hN1 : 1 ≤ N) (hN : N * N ≤ 255) :
    ∃ ord, SearchCtx N (magicsquare_start mem N).pl.elems
        (sortednlist_init mem.nlmem (N * N)).elems ord ∧
      Rep N (magicsquare_start mem N).pl.elems (sortednlist_init mem.nlmem (N * N)).elems []
        (magicsquare_start mem N) ∧
      (magicsquare_start mem N).pos = sortednlist_first (magicsquare_start mem N).pl ∧
      (magicsquare_start mem N).emitted = [] := by
  have h16 := lt16_of_sq N hN
  have h256 : N % 256 = N := Nat.mod_eq_of_lt (by omega)
  have hK : (N * N) % 256 = N * N := Nat.mod_eq_of_lt (by omega)
  have hK1 : 1 ≤ N * N := Nat.mul_le_mul hN1 hN1
  obtain ⟨ord, hch, hperm, hnr, hsz, hst⟩ := PoolReady_initpositionsorder mem.plmem N hN1 hN
  have hinv := sumsquare_init_inv mem.sqmem N hN
  have hnt := initnumtypes_spec (N * N)
    ((List.range (N * N)).map (fun i => mem.numtypes.getD i 0))
  simp only [magicsquare_start, h256, hK]
  refine ⟨ord, ⟨hN1, hN, hch, hperm, sortednlist_init_chain mem.nlmem (N * N) hK1 hN⟩,
    ⟨PoolRep_init mem.nlmem (N * N), ⟨hsz, hnr, hst, ?_, ?_⟩, hinv.1, ?_, ?_, ?_, ?_, ?_, ?_⟩,
    ?_, ?_⟩
  · intro i hi; simp at hi
  · rfl
  · intro c _
    rw [hinv.2 c]; rfl
  · rw [hnt.1]; simp
  · intro c hc
    rw [hnt.2 c hc]; rfl
  · rfl
  · simp [sortednlistsums_init]
  · simp [sortednlistsums_init]
  · trivial
  · trivial

theorem Sol_nil (N L : Nat) (g : List Nat) :
    Sol N L [] g ↔ IsMagicSquare N g ∧ Accepted N L g := by
  unfold Sol Extends
  constructor
  · intro h; exact ⟨h.1, h.2.1⟩
  · intro h; exact ⟨h.1, h.2, fun f hf => by simp at hf⟩

/-- The run of `magicsquare_generate`: with enough fuel it returns, and the squares it has
emitted are, without repetition, the magic squares of order `N` accepted by
`magicsquare_checkequiv` at the filter level. -/
theorem generate_spec (mem : magicsquare_mem) (N L : Nat) (fd : Bool) (hN1 : 1 ≤ N)
    (hN : N * N ≤ 255) :
    ∃ (fuel0 : Nat) (E : List (List Nat)),
      (∀ fuel, fuel0 ≤ fuel → magicsquare_generate mem N L fd fuel = some E) ∧
      E.Nodup ∧ ∀ g, g ∈ E ↔ IsMagicSquare N g ∧ Accepted N L g := by
  obtain ⟨ord, ctx, hrep, hpos, hem⟩ := start_rep mem N hN1 hN
  have hok : FramesOk (N * N) [] := ⟨List.nodup_nil, List.nodup_nil, fun f hf => by simp at hf⟩
  have hK1 : 1 ≤ N * N := Nat.mul_le_mul hN1 hN1
  obtain ⟨hf1, hf2⟩ := Rep_first_pl N _ _ ord ctx [] _ hrep hok
  have hol := openOf_length N _ _ ord ctx [] hok
  have hne : sortednlist_first (magicsquare_start mem N).pl ≠ 0 := by
    intro h0
    rw [hf1.mp h0] at hol
    simp at hol
    omega
  obtain ⟨restp, hopen⟩ := hf2 hne
  obtain ⟨k, E, st2, c1, c2, c3, c4, c5⟩ :=
    fresh_lemma N L fd _ _ ord ctx (N * N - 1) (node_all N L fd _ _ ord ctx _) []
      (sortednlist_first (magicsquare_start mem N).pl) restp (magicsquare_start mem N)
      (by simp; omega) hok hrep hopen hpos
  refine ⟨N * N + 1 + k + 1, E, ?_, c3, fun g => by rw [c4 g, Sol_nil]⟩
  intro fuel hfuel
  obtain ⟨fo, rfl, hfo⟩ : ∃ fo, fuel = fo + k + 1 ∧ N * N + 1 ≤ fo :=
    ⟨fuel - k - 1, by omega, by omega⟩
  unfold magicsquare_generate
  have hm : (((N * (N * N + 1)) / 2 : Nat) : Int) = magicSum N := rfl
  simp only [hm]
  rw [c5 fo hfo]
  unfold magicsquare_generate_back
  have hz : sortednlist_nremoved st2.pl = 0 := c1.2.1.2.1
  rw [if_pos hz, Option.map_some', c2, hem, List.nil_append]

/-! ## The enumeration: claims about `magicsquare_generate` -/

theorem Accepted_zero (N : Nat) (g : List Nat) : Accepted N 0 g := by
  unfold Accepted magicsquare_checkequiv
  simp

theorem Accepted_level_mono (N L : Nat) (g : List Nat) (h : Accepted N (L + 1) g) :
    Accepted N L g :=
  checkequiv_level_mono _ L h

theorem count_one_of_nodup (E : List (List Nat)) (hE : E.Nodup) (g : List Nat)
    (hg : g ∈ E) : E.count g = 1 := by
  induction E with
  | nil => simp at hg
  | cons a t ih =>
    rw [List.nodup_cons] at hE
    rw [List.count_cons]
    by_cases e : a = g
    · subst e
      rw [List.count_eq_zero_of_not_mem hE.1]
      simp
    · have hgt : g ∈ t := by
        rcases List.mem_cons.mp hg with h | h
        · exact absurd h.symm e
        · exact h
      rw [ih hE.2 hgt]
      simp [e]

theorem length_eq_of_same_members {α : Type} [DecidableEq α] (E1 E2 : List α)
    (h1 : E1.Nodup) (h2 : E2.Nodup) (h : ∀ g, g ∈ E1 ↔ g ∈ E2) : E1.Perm E2 :=
  (List.perm_ext_iff_of_nodup h1 h2).mpr h

theorem length_le_of_members {α : Type} [DecidableEq α] (E1 E2 : List α)
    (h1 : E1.Nodup) (h : ∀ g, g ∈ E1 → g ∈ E2) : E1.length ≤ E2.length :=
  (List.subperm_of_subset h1 h).length_le

/-- A magic square has `N*N` cells, none of them empty, and holds each of `1..N*N` once. -/
theorem magic_cells (N : Nat) (g : List Nat) (h : IsMagicSquare N g) :
    g.length = N * N ∧ (∀ c, c < N * N → g.getD c 0 ≠ 0) ∧
    ∀ v, 1 ≤ v → v ≤ N * N → g.count v = 1 := by
  have hp := h.1
  have hlen : g.length = N * N := by rw [hp.length_eq, List.length_range']
  refine ⟨hlen, ?_, ?_⟩
  · intro c hc h0
    have hm : g.getD c 0 ∈ g := by
      rw [List.getD_eq_getElem _ _ (by omega)]
      exact List.getElem_mem _
    rw [h0] at hm
    have := (hp.mem_iff).mp hm
    rw [List.mem_range'_1] at this
    omega
  · intro v hv1 hv2
    rw [hp.count_eq]
    exact List.count_eq_one_of_mem (List.nodup_range' 1 _) (by rw [List.mem_range'_1]; omega)

/-- C1: for every order `N >= 1` with `N*N <= 255`, every filter level `L` in `0..4` and
either forced-fill setting, `magicsquare_generate` returns, and the squares it has emitted
are exactly the magic squares of order `N` that `magicsquare_checkequiv` accepts at level
`L`, each emitted exactly once; at level 0 every magic square is emitted exactly once. -/
theorem C1_generate_exact (mem : magicsquare_mem) (N L : Nat) (fd : Bool) (hN1 : 1 ≤ N)
    (hN : N * N ≤ 255) (_hL : L ≤ 4) :
    ∃ (fuel0 : Nat) (E : List (List Nat)),
      (∀ fuel, fuel0 ≤ fuel → magicsquare_generate mem N L fd fuel = some E) ∧
      E.Nodup ∧
      (∀ g, g ∈ E → IsMagicSquare N g ∧ Accepted N L g) ∧
      (∀ g, IsMagicSquare N g → Accepted N L g → E.count g = 1) ∧
      (L = 0 → ∀ g, IsMagicSquare N g → E.count g = 1) := by
  obtain ⟨fuel0, E, h1, h2, h3⟩ := generate_spec mem N L fd hN1 hN
  refine ⟨fuel0, E, h1, h2, fun g hg => (h3 g).mp hg,
    fun g hm ha => count_one_of_nodup E h2 g ((h3 g).mpr ⟨hm, ha⟩), ?_⟩
  intro hL0 g hm
  subst hL0
  exact count_one_of_nodup E h2 g ((h3 g).mpr ⟨hm, Accepted_zero N g⟩)

theorem C1_generate_exact_witness :
    (1 ≤ 3 ∧ 3 * 3 ≤ 255 ∧ 0 ≤ 4) ∧
    ∃ (fuel0 : Nat) (E : List (List Nat)),
      (∀ fuel, fuel0 ≤ fuel → magicsquare_generate mem0 3 0 true fuel = some E) ∧
      E.Nodup ∧
      (∀ g, g ∈ E → IsMagicSquare 3 g ∧ Accepted 3 0 g) ∧
      (∀ g, IsMagicSquare 3 g → Accepted 3 0 g → E.count g = 1) ∧
      (0 = 0 → ∀ g, IsMagicSquare 3 g → E.count g = 1) :=
  ⟨by decide, C1_generate_exact mem0 3 0 true (by decide) (by decide) (by decide)⟩

/-- C2: for every order `N` within the capacity of the 8-bit pools (`1 <= N`,
`N*N <= 255`), every filter level and forced-fill setting, `magicsquare_generate` returns
and every square it has emitted has each of its `2N+2` lines (the rows, the columns and the
two main diagonals) summing to `N(N*N+1)/2`. -/
theorem C2_emitted_sums (mem : magicsquare_mem) (N L : Nat) (fd : Bool) (hN1 : 1 ≤ N)
    (hN : N * N ≤ 255) :
    ∃ (fuel0 : Nat) (E : List (List Nat)),
      (∀ fuel, fuel0 ≤ fuel → magicsquare_generate mem N L fd fuel = some E) ∧
      ∀ g, g ∈ E → ∀ l, l < N + N + 2 →
        gridSum g N l = ((N * (N * N + 1) / 2 : Nat) : Int) := by
  obtain ⟨fuel0, E, h1, _, h3⟩ := generate_spec mem N L fd hN1 hN
  exact ⟨fuel0, E, h1, fun g hg l hl => ((h3 g).mp hg).1.2 l hl⟩

theorem C2_emitted_sums_witness :
    (1 ≤ 4 ∧ 4 * 4 ≤ 255) ∧
    ∃ (fuel0 : Nat) (E : List (List Nat)),
      (∀ fuel, fuel0 ≤ fuel → magicsquare_generate mem0 4 2 false fuel = some E) ∧
      ∀ g, g ∈ E → ∀ l, l < 4 + 4 + 2 →
        gridSum g 4 l = ((4 * (4 * 4 + 1) / 2 : Nat) : Int) :=
  ⟨by decide, C2_emitted_sums mem0 4 2 false (by decide) (by decide)⟩

/-- C3: for every order `N` within the capacity of the 8-bit pools (`1 <= N`,
`N*N <= 255`), every filter level and forced-fill setting, `magicsquare_generate` returns
and every square it has emitted has `N*N` cells, none of them empty, and contains each of
the integers `1..N*N` exactly once. -/
theorem C3_emitted_permutation (mem : magicsquare_mem) (N L : Nat) (fd : Bool) (hN1 : 1 ≤ N)
    (hN : N * N ≤ 255) :
    ∃ (fuel0 : Nat) (E : List (List Nat)),
      (∀ fuel, fuel0 ≤ fuel → magicsquare_generate mem N L fd fuel = some E) ∧
      ∀ g, g ∈ E → g.length = N * N ∧ (∀ c, c < N * N → g.getD c 0 ≠ 0) ∧
        ∀ v, 1 ≤ v → v ≤ N * N → g.count v = 1 := by
  obtain ⟨fuel0, E, h1, _, h3⟩ := generate_spec mem N L fd hN1 hN
  exact ⟨fuel0, E, h1, fun g hg => magic_cells N g ((h3 g).mp hg).1⟩

theorem C3_emitted_permutation_witness :
    (1 ≤ 5 ∧ 5 * 5 ≤ 255) ∧
    ∃ (fuel0 : Nat) (E : List (List Nat)),
      (∀ fuel, fuel0 ≤ fuel → magicsquare_generate mem0 5 4 true fuel = some E) ∧
      ∀ g, g ∈ E → g.length = 5 * 5 ∧ (∀ c, c < 5 * 5 → g.getD c 0 ≠ 0) ∧
        ∀ v, 1 ≤ v → v ≤ 5 * 5 → g.count v = 1 :=
  ⟨by decide, C3_emitted_permutation mem0 5 4 true (by decide) (by decide)⟩

/-- C7: for every order `N` within the capacity of the 8-bit pools (`1 <= N`,
`N*N <= 255`) and every filter level `L` in `0..4`, the runs of `magicsquare_generate`
with `fillderived = 1` and with `fillderived = 0` both return, and they emit the same
number of squares (indeed the same squares, possibly in another order). -/
theorem C7_fillderived_same_count (mem : magicsquare_mem) (N L : Nat) (hN1 : 1 ≤ N)
    (hN : N * N ≤ 255) (_hL : L ≤ 4) :
    ∃ (fuel0 : Nat) (E1 E0 : List (List Nat)),
      (∀ fuel, fuel0 ≤ fuel →
        magicsquare_generate mem N L true fuel = some E1 ∧
        magicsquare_generate mem N L false fuel = some E0) ∧
      E1.length = E0.length ∧ E1.Perm E0 := by
  obtain ⟨f1, E1, a1, a2, a3⟩ := generate_spec mem N L true hN1 hN
  obtain ⟨f0, E0, b1, b2, b3⟩ := generate_spec mem N L false hN1 hN
  have hp : E1.Perm E0 :=
    length_eq_of_same_members E1 E0 a2 b2 (fun g => by rw [a3 g, b3 g])
  exact ⟨max f1 f0, E1, E0,
    fun fuel hf => ⟨a1 fuel (le_trans (le_max_left _ _) hf),
      b1 fuel (le_trans (le_max_right _ _) hf)⟩,
    hp.length_eq, hp⟩

theorem C7_fillderived_same_count_witness :
    (1 ≤ 4 ∧ 4 * 4 ≤ 255 ∧ 3 ≤ 4) ∧
    ∃ (fuel0 : Nat) (E1 E0 : List (List Nat)),
      (∀ fuel, fuel0 ≤ fuel →
        magicsquare_generate mem0 4 3 true fuel = some E1 ∧
        magicsquare_generate mem0 4 3 false fuel = some E0) ∧
      E1.length = E0.length ∧ E1.Perm E0 :=
  ⟨by decide, C7_fillderived_same_count mem0 4 3 (by decide) (by decide) (by decide)⟩

/-- C8: for every order `N` within the capacity of the 8-bit pools (`1 <= N`,
`N*N <= 255`), either forced-fill setting and every `L` in `0..3`, the runs of
`magicsquare_generate` at the filter levels `L+1` and `L` both return, and the number of
squares emitted at level `L+1` is at most the number emitted at level `L`. -/
theorem C8_level_count_antitone (mem : magicsquare_mem) (N L : Nat) (fd : Bool)
    (hN1 : 1 ≤ N) (hN : N * N ≤ 255) (_hL : L ≤ 3) :
    ∃ (fuel0 : Nat) (Ea Eb : List (List Nat)),
      (∀ fuel, fuel0 ≤ fuel →
        magicsquare_generate mem N (L + 1) fd fuel = some Ea ∧
        magicsquare_generate mem N L fd fuel = some Eb) ∧
      Ea.length ≤ Eb.length := by
  obtain ⟨f1, Ea, a1, a2, a3⟩ := generate_spec mem N (L + 1) fd hN1 hN
  obtain ⟨f0, Eb, b1, _, b3⟩ := generate_spec mem N L fd hN1 hN
  refine ⟨max f1 f0, Ea, Eb,
    fun fuel hf => ⟨a1 fuel (le_trans (le_max_left _ _) hf),
      b1 fuel (le_trans (le_max_right _ _) hf)⟩, ?_⟩
  apply length_le_of_members Ea Eb a2
  intro g hg
  have := (a3 g).mp hg
  exact (b3 g).mpr ⟨this.1, Accepted_level_mono N L g this.2⟩

theorem C8_level_count_antitone_witness :
    (1 ≤ 4 ∧ 4 * 4 ≤ 255 ∧ 3 ≤ 3) ∧
    ∃ (fuel0 : Nat) (Ea Eb : List (List Nat)),
      (∀ fuel, fuel0 ≤ fuel →
        magicsquare_generate mem0 4 (3 + 1) true fuel = some Ea ∧
        magicsquare_generate mem0 4 3 true fuel = some Eb) ∧
      Ea.length ≤ Eb.length :=
  ⟨by decide, C8_level_count_antitone mem0 4 3 true (by decide) (by decide) (by decide)⟩

/-! ## Order 3 -/

theorem symmetries_loShu : symmetriesOf 3 loShu =
    [[4, 9, 2, 3, 5, 7, 8, 1, 6], [8, 3, 4, 1, 5, 9, 6, 7, 2], [6, 1, 8, 7, 5, 3, 2, 9, 4],
     [2, 7, 6, 9, 5, 1, 4, 3, 8], [4, 3, 8, 9, 5, 1, 2, 7, 6], [2, 9, 4, 7, 5, 3, 6, 1, 8],
     [6, 7, 2, 1, 5, 9, 8, 3, 4], [8, 1, 6, 3, 5, 7, 4, 9, 2]] := by
  decide

theorem list_of_length_nine (g : List Nat) (h : g.length = 9) :
    ∃ a b c d e f x y z, g = [a, b, c, d, e, f, x, y, z] := by
  match g, h with
  | [a, b, c, d, e, f, x, y, z], _ => exact ⟨a, b, c, d, e, f, x, y, z, rfl⟩

theorem lineCells_three :
    lineCells 3 0 = [0, 1, 2] ∧ lineCells 3 1 = [3, 4, 5] ∧ lineCells 3 2 = [6, 7, 8] ∧
    lineCells 3 3 = [0, 3, 6] ∧ lineCells 3 4 = [1, 4, 7] ∧ lineCells 3 5 = [2, 5, 8] ∧
    lineCells 3 6 = [0, 4, 8] ∧ lineCells 3 7 = [2, 4, 6] := by
  decide

theorem order3_table : ∀ a, a < 10 → ∀ b, b < 10 →
    (¬ ([a, b, 15 - a - b, 20 - 2 * a - b, 5, 2 * a + b - 10, a + b - 5, 10 - b, 10 - a].Nodup ∧
      ∀ v ∈ [a, b, 15 - a - b, 20 - 2 * a - b, 5, 2 * a + b - 10, a + b - 5, 10 - b, 10 - a],
        1 ≤ v ∧ v ≤ 9)) ∨
    [a, b, 15 - a - b, 20 - 2 * a - b, 5, 2 * a + b - 10, a + b - 5, 10 - b, 10 - a] ∈
      symmetriesOf 3 loShu := by
  decide

theorem order3_arith (a b c d e f x y z : Nat)
    (s0 : (a : Int) + (b + c) = 15) (s1 : (d : Int) + (e + f) = 15)
    (s2 : (x : Int) + (y + z) = 15) (s3 : (a : Int) + (d + x) = 15)
    (s4 : (b : Int) + (e + y) = 15) (_s5 : (c : Int) + (f + z) = 15)
    (s6 : (a : Int) + (e + z) = 15) (s7 : (c : Int) + (e + x) = 15)
    (hy1 : 1 ≤ y) (hz1 : 1 ≤ z) :
    a < 10 ∧ b < 10 ∧
    [a, b, c, d, e, f, x, y, z] =
      [a, b, 15 - a - b, 20 - 2 * a - b, 5, 2 * a + b - 10, a + b - 5, 10 - b, 10 - a] := by
  have hc : c = 15 - a - b := by omega
  have hd : d = 20 - 2 * a - b := by omega
  have he : e = 5 := by omega
  have hf : f = 2 * a + b - 10 := by omega
  have hx : x = a + b - 5 := by omega
  have hy : y = 10 - b := by omega
  have hz : z = 10 - a := by omega
  refine ⟨by omega, by omega, ?_⟩
  rw [hc, hd, he, hf, hx, hy, hz]

/-- The magic squares of order 3 are the rotations and reflections of the Lo Shu square. -/
theorem magic_order3 (g : List Nat) (h : IsMagicSquare 3 g) : g ∈ symmetriesOf 3 loShu := by
  obtain ⟨hp, hs⟩ := h
  have hlen : g.length = 9 := by rw [hp.length_eq]; rfl
  obtain ⟨a, b, c, d, e, f, x, y, z, rfl⟩ := list_of_length_nine g hlen
  have hnd : [a, b, c, d, e, f, x, y, z].Nodup := hp.nodup_iff.mpr (List.nodup_range' 1 9)
  have hb : ∀ v, v ∈ [a, b, c, d, e, f, x, y, z] → 1 ≤ v ∧ v ≤ 9 := by
    intro v hv
    have := hp.mem_iff.mp hv
    rw [List.mem_range'_1] at this
    omega
  obtain ⟨l0, l1, l2, l3, l4, l5, l6, l7⟩ := lineCells_three
  have s0 := hs 0 (by decide)
  have s1 := hs 1 (by decide)
  have s2 := hs 2 (by decide)
  have s3 := hs 3 (by decide)
  have s4 := hs 4 (by decide)
  have s5 := hs 5 (by decide)
  have s6 := hs 6 (by decide)
  have s7 := hs 7 (by decide)
  have hM : magicSum 3 = 15 := rfl
  simp only [gridSum, l0, l1, l2, l3, l4, l5, l6, l7, hM, List.map_cons, List.map_nil,
    List.sum_cons, List.sum_nil, List.getD_cons_zero, List.getD_cons_succ, add_zero]
    at s0 s1 s2 s3 s4 s5 s6 s7
  obtain ⟨ha, hbb, e1⟩ := order3_arith a b c d e f x y z s0 s1 s2 s3 s4 s5 s6 s7
    (hb y (by simp)).1 (hb z (by simp)).1
  rw [e1] at hnd hb ⊢
  rcases order3_table a ha b hbb with h | h
  · exact absurd ⟨hnd, hb⟩ h
  · exact h

/-- The magic squares of order 3, with and without the symmetry filter. -/
theorem order3_accepted (g : List Nat) :
    (IsMagicSquare 3 g ∧ Accepted 3 0 g ↔ g ∈ symmetriesOf 3 loShu) ∧
    (IsMagicSquare 3 g ∧ Accepted 3 4 g ↔ g = [2, 9, 4, 7, 5, 3, 6, 1, 8]) := by
  have hmag : ∀ k ∈ symmetriesOf 3 loShu, IsMagicSquare 3 k := by
    rw [symmetries_loShu]
    intro k hk
    simp only [List.mem_cons, List.mem_singleton, List.not_mem_nil, or_false] at hk
    rcases hk with rfl | rfl | rfl | rfl | rfl | rfl | rfl | rfl <;>
      exact ⟨by decide, by decide⟩
  have hacc : ∀ k ∈ symmetriesOf 3 loShu, Accepted 3 4 k → k = [2, 9, 4, 7, 5, 3, 6, 1, 8] := by
    rw [symmetries_loShu]
    unfold Accepted
    decide
  refine ⟨⟨fun h => magic_order3 g h.1, fun h => ⟨hmag g h, Accepted_zero 3 g⟩⟩, ?_, ?_⟩
  · intro h
    exact hacc g (magic_order3 g h.1) h.2
  · intro h
    subst h
    exact ⟨hmag _ (by rw [symmetries_loShu]; decide), by unfold Accepted; decide⟩

/-- C4: for `N = 3` and filter level 0, with forced fill enabled and with it disabled (and
whatever the arrays held before), `magicsquare_generate` returns having emitted exactly 8
squares, and they are the 8 rotations and reflections of the Lo Shu square. -/
theorem C4_order3_level0 (mem : magicsquare_mem) (fd : Bool) :
    ∃ (fuel0 : Nat) (E : List (List Nat)),
      (∀ fuel, fuel0 ≤ fuel → magicsquare_generate mem 3 0 fd fuel = some E) ∧
      E.length = 8 ∧ E.Perm (symmetriesOf 3 loShu) := by
  obtain ⟨fuel0, E, h1, h2, h3⟩ := generate_spec mem 3 0 fd (by decide) (by decide)
  have hp : E.Perm (symmetriesOf 3 loShu) :=
    length_eq_of_same_members E _ h2 (by rw [symmetries_loShu]; decide)
      (fun g => by rw [h3 g]; exact (order3_accepted g).1)
  exact ⟨fuel0, E, h1, by rw [hp.length_eq]; rfl, hp⟩

/-- C5: for `N = 3` and filter level 4 (either forced-fill setting, whatever the arrays
held before), `magicsquare_generate` returns having emitted exactly 1 square, and that
square has the number 2 in its top-left corner. -/
theorem C5_order3_level4 (mem : magicsquare_mem) (fd : Bool) :
    ∃ (fuel0 : Nat) (g : List Nat),
      (∀ fuel, fuel0 ≤ fuel → magicsquare_generate mem 3 4 fd fuel = some [g]) ∧
      g.getD 0 0 = 2 ∧ g = [2, 9, 4, 7, 5, 3, 6, 1, 8] := by
  obtain ⟨fuel0, E, h1, h2, h3⟩ := generate_spec mem 3 4 fd (by decide) (by decide)
  have hp : E.Perm [[2, 9, 4, 7, 5, 3, 6, 1, 8]] :=
    length_eq_of_same_members E _ h2 (by decide)
      (fun g => by rw [h3 g, List.mem_singleton]; exact (order3_accepted g).2)
  have e : E = [[2, 9, 4, 7, 5, 3, 6, 1, 8]] := List.perm_singleton.mp hp
  subst e
  exact ⟨fuel0, _, h1, rfl, rfl⟩

/-! ## The list `sortednlist`: traversal, order, prefix sums -/

theorem traverse_from_path (nl : sortednlist) :
    ∀ (xs : List Nat) (a k : Nat), Path nl.elems a xs 0 → (∀ x ∈ xs, x ≠ 0) →
      xs.length ≤ k → sortednlist_traverse_from nl k (getelem nl.elems a).next = xs := by
  intro xs
  induction xs with
  | nil =>
    intro a k hP _ _
    have h0 : (getelem nl.elems a).next = 0 := hP.1
    rw [h0]
    cases k with
    | zero => rfl
    | succ k => simp [sortednlist_traverse_from]
  | cons x xs ih =>
    intro a k hP hne hk
    obtain ⟨h1, _, h3⟩ := hP
    obtain ⟨k', rfl⟩ : ∃ k', k = k' + 1 := ⟨k - 1, by simp at hk; omega⟩
    rw [h1]
    have hx : x ≠ 0 := hne x (List.mem_cons_self _ _)
    rw [sortednlist_traverse_from, if_neg hx]
    congr 1
    exact ih x k' h3 (fun y hy => hne y (List.mem_cons_of_mem _ hy)) (by simp at hk; omega)

/-- The traversal of a list whose element array is a chain through `live`. -/
theorem traversal_of_chain (nl : sortednlist) (K : Nat) (live : List Nat)
    (hC : Chain nl.elems K live) (hsize : nl.size = K) : sortednlist_traversal nl = live := by
  unfold sortednlist_traversal sortednlist_first
  rw [hsize]
  exact traverse_from_path nl live 0 K hC.2.1
    (fun x hx e => Chain_zero_not_mem _ _ _ hC (e ▸ hx)) (Chain_length_le _ _ _ hC)

/-- In a sorted list the entries related to the entry `j` are those behind it. -/
theorem filter_after (r : Nat → Nat → Prop) [DecidableRel r] (hirr : ∀ a, ¬ r a a)
    (hasym : ∀ a b, r a b → ¬ r b a) (B : List Nat) (hB : B.Pairwise r) (j : Nat)
    (hj : j < B.length) :
    B.filter (fun x => decide (r (B.getD j 0) x)) = B.drop (j + 1) := by
  have hs := split_at B j hj
  have hB2 := hB
  rw [hs] at hB2
  rw [List.pairwise_append] at hB2
  obtain ⟨_, h2, h3⟩ := hB2
  rw [List.pairwise_cons] at h2
  have hs2 : B.filter (fun x => decide (r (B.getD j 0) x)) =
      (B.take j ++ B.getD j 0 :: B.drop (j + 1)).filter
        (fun x => decide (r (B.getD j 0) x)) := by rw [← hs]
  rw [hs2, List.filter_append, List.filter_cons]
  have e1 : (B.take j).filter (fun x => decide (r (B.getD j 0) x)) = [] := by
    rw [List.filter_eq_nil_iff]
    intro a ha
    have := h3 a ha (B.getD j 0) (List.mem_cons_self _ _)
    simpa using hasym _ _ this
  have e2 : (B.drop (j + 1)).filter (fun x => decide (r (B.getD j 0) x)) = B.drop (j + 1) := by
    rw [List.filter_eq_self]
    intro a ha
    simpa using h2.1 a ha
  rw [e1, e2, if_neg (by simpa using hirr _)]
  rfl

/-- A reachable list is the initial chain with the numbers of its undo stack taken out. -/
theorem reachable_chain (K : Nat) (hK1 : 1 ≤ K) (hK : K ≤ 255) (nl : sortednlist)
    (hr : Reachable K nl) :
    Chain nl.elems K (availableOf nl K) ∧ nl.size = K ∧ nl.stack.length = K ∧
    nl.nremoved ≤ K ∧ (nl.stack.take nl.nremoved).Nodup ∧
    (∀ e, e ∈ nl.stack.take nl.nremoved → 1 ≤ e ∧ e ≤ K) ∧
    ∀ e, 1 ≤ e → e ≤ K →
      (sortednlist_isremoved nl e = true ↔ e ∈ nl.stack.take nl.nremoved) := by
  obtain ⟨mem, ns, hrep, hnd, hsub⟩ := Reachable_rep K hK1 hK nl hr
  have h0 := sortednlist_init_chain mem K hK1 hK
  have hch := Chain_elemsAfter _ K _ h0 ns hnd hsub
  obtain ⟨p1, p2, p3, p4, p5⟩ := hrep
  rw [← p5] at hch
  have hflag := fun x hx => PoolRep_isremoved _ K _ h0 ns nl ⟨p1, p2, p3, p4, p5⟩ hnd hsub x hx
  have hav : availableOf nl K = liveOf (List.range' 1 K) ns := by
    unfold availableOf liveOf
    apply List.filter_congr
    intro x hx
    rw [List.mem_range'_1] at hx
    have := hflag x (by omega)
    rw [mem_liveOf] at this
    have hx2 : x ∈ List.range' 1 K := by rw [List.mem_range'_1]; omega
    by_cases hm : x ∈ ns
    · have : sortednlist_isremoved nl x ≠ false := fun e => (this.mp e).2 hm
      simp [hm, this]
    · have : sortednlist_isremoved nl x = false := this.mpr ⟨hx2, hm⟩
      simp [hm, this]
  have hlen : ns.length ≤ K := by
    have := liveOf_length (List.range' 1 K) ns (List.nodup_range' 1 K) hnd hsub
    simp at this
    omega
  have htake : nl.stack.take nl.nremoved = ns := by
    apply List.ext_getElem
    · rw [List.length_take, p2, p3]; omega
    · intro i h1 h2
      have := p4 i h2
      rw [List.getElem_take]
      rw [List.getD_eq_getElem _ _ (by rw [p3]; omega), List.getD_eq_getElem _ _ h2] at this
      exact this
  rw [hav, htake]
  refine ⟨hch, p1, p3, by rw [p2]; exact hlen, hnd, ?_, ?_⟩
  · intro e he
    have := hsub e he
    rw [List.mem_range'_1] at this
    omega
  · intro e he1 he2
    have := hflag e he2
    rw [mem_liveOf, List.mem_range'_1] at this
    constructor
    · intro h
      by_contra hn
      have := this.mpr ⟨by omega, hn⟩
      rw [h] at this
      exact Bool.noConfusion this
    · intro h
      by_contra hn
      have hf : sortednlist_isremoved nl e = false := by simpa using hn
      exact (this.mp hf).2 h

theorem availableOf_sorted (nl : sortednlist) (K : Nat) :
    (availableOf nl K).Pairwise (· < ·) :=
  List.Pairwise.filter _ (List.pairwise_lt_range' 1 K)



theorem headD_eq_getD (l : List Nat) : l.headD 0 = l.getD 0 0 := by
  cases l <;> rfl

theorem getLastD_eq_reverse_getD (l : List Nat) : l.getLastD 0 = l.reverse.getD 0 0 := by
  rw [← headD_eq_getD, ← getLastD_reverse, List.reverse_reverse]

theorem mem_getD (l : List Nat) (e : Nat) (h : e ∈ l) : ∃ i, i < l.length ∧ l.getD i 0 = e := by
  obtain ⟨i, hi, he⟩ := List.mem_iff_getElem.mp h
  exact ⟨i, hi, by rw [getD_eq_getElem' l i hi]; exact he⟩

theorem sorted_bounds (A : List Nat) (hA : A.Pairwise (· < ·)) (x : Nat) (hx : x ∈ A) :
    A.headD 0 ≤ x ∧ x ≤ A.getLastD 0 := by
  constructor
  · cases A with
    | nil => simp at hx
    | cons a t =>
      rw [List.pairwise_cons] at hA
      rcases List.mem_cons.mp hx with e | e
      · rw [e]; exact Nat.le_refl _
      · exact Nat.le_of_lt (hA.1 x e)
  · rw [getLastD_eq_reverse_getD, ← headD_eq_getD]
    have hr : A.reverse.Pairwise (· > ·) := by rw [List.pairwise_reverse]; exact hA
    have hxr : x ∈ A.reverse := List.mem_reverse.mpr hx
    cases hA2 : A.reverse with
    | nil => rw [hA2] at hxr; simp at hxr
    | cons a t =>
      rw [hA2] at hr hxr
      rw [List.pairwise_cons] at hr
      rcases List.mem_cons.mp hxr with e | e
      · rw [e]; exact Nat.le_refl _
      · exact Nat.le_of_lt (hr.1 x e)

/-- C16 (counterexample): a list of size 0 is reachable (it is what `sortednlist_init`
returns), none of its numbers is present, and yet `sortednlist_first` is 1, not 0. -/
theorem C16_counterexample :
    Reachable 0 (sortednlist_init mem0.plmem 0) ∧
    availableOf (sortednlist_init mem0.plmem 0) 0 = [] ∧
    sortednlist_first (sortednlist_init mem0.plmem 0) = 1 :=
  ⟨Reachable.init _, by decide, by decide⟩

/-- C16: in every state of a list of size `K >= 1` reachable from `sortednlist_init` by
`sortednlist_remove` and `sortednlist_restore`, `first` is the smallest and `last` the
largest number that is not removed (0 when all are removed); for every number `e` that is
not removed, `next(e)` is the smallest such number above `e` and `prev(e)` the largest
below `e` (0 when there is none); and `isremoved(e)` holds exactly for the numbers on the
undo stack, which has `nremoved` entries. -/
theorem C16_order_invariant (K : Nat) (hK1 : 1 ≤ K) (hK : K ≤ 255) (nl : sortednlist)
    (hr : Reachable K nl) :
    sortednlist_first nl = (availableOf nl K).headD 0 ∧
    sortednlist_last nl = (availableOf nl K).getLastD 0 ∧
    (∀ x ∈ availableOf nl K, sortednlist_first nl ≤ x ∧ x ≤ sortednlist_last nl) ∧
    (∀ e ∈ availableOf nl K,
      sortednlist_next nl e =
        ((availableOf nl K).filter (fun x => decide (e < x))).headD 0 ∧
      sortednlist_prev nl e =
        ((availableOf nl K).filter (fun x => decide (x < e))).getLastD 0) ∧
    (∀ e, 1 ≤ e → e ≤ K →
      (sortednlist_isremoved nl e = true ↔ e ∈ nl.stack.take nl.nremoved)) ∧
    (nl.stack.take nl.nremoved).length = nl.nremoved := by
  obtain ⟨hC, _, hst, hnr, _, _, hflag⟩ := reachable_chain K hK1 hK nl hr
  have hA := availableOf_sorted nl K
  have hfirst : sortednlist_first nl = (availableOf nl K).headD 0 := by
    rw [headD_eq_getD]; exact Chain_first _ _ _ hC
  have hlast : sortednlist_last nl = (availableOf nl K).getLastD 0 := by
    rw [getLastD_eq_reverse_getD]; exact Chain_last _ _ _ hC
  refine ⟨hfirst, hlast, ?_, ?_, hflag, by rw [List.length_take, hst]; omega⟩
  · intro x hx
    rw [hfirst, hlast]
    exact sorted_bounds _ hA x hx
  · intro e he
    constructor
    · obtain ⟨i, hi, rfl⟩ := mem_getD _ e he
      have := filter_after (· < ·) (fun a => Nat.lt_irrefl a) (fun a b h => Nat.lt_asymm h)
        (availableOf nl K) hA i hi
      rw [this, headD_drop]
      exact Chain_next_getD _ _ _ hC i hi
    · have her : e ∈ (availableOf nl K).reverse := List.mem_reverse.mpr he
      obtain ⟨j, hj, hje⟩ := mem_getD _ e her
      have hr2 : (availableOf nl K).reverse.Pairwise (fun a b => b < a) := by
        rw [List.pairwise_reverse]; exact hA
      have := filter_after (fun a b => b < a) (fun a => Nat.lt_irrefl a)
        (fun a b h => Nat.lt_asymm h) (availableOf nl K).reverse hr2 j hj
      rw [hje] at this
      have e2 : ((availableOf nl K).filter (fun x => decide (x < e))).getLastD 0 =
          ((availableOf nl K).reverse.filter (fun x => decide (x < e))).headD 0 := by
        rw [List.filter_reverse, ← getLastD_reverse, List.reverse_reverse]
      rw [e2, this, headD_drop, ← hje]
      rw [List.length_reverse] at hj
      exact Chain_prev_getD _ _ _ hC j hj

theorem C16_order_invariant_witness :
    sortednlist_first (sortednlist_remove (sortednlist_init mem0.plmem 4) 1).2 =
      (availableOf (sortednlist_remove (sortednlist_init mem0.plmem 4) 1).2 4).headD 0 ∧
    sortednlist_last (sortednlist_remove (sortednlist_init mem0.plmem 4) 1).2 =
      (availableOf (sortednlist_remove (sortednlist_init mem0.plmem 4) 1).2 4).getLastD 0 ∧
    (∀ x ∈ availableOf (sortednlist_remove (sortednlist_init mem0.plmem 4) 1).2 4,
      sortednlist_first (sortednlist_remove (sortednlist_init mem0.plmem 4) 1).2 ≤ x ∧
      x ≤ sortednlist_last (sortednlist_remove (sortednlist_init mem0.plmem 4) 1).2) ∧
    (∀ e ∈ availableOf (sortednlist_remove (sortednlist_init mem0.plmem 4) 1).2 4,
      sortednlist_next (sortednlist_remove (sortednlist_init mem0.plmem 4) 1).2 e =
        ((availableOf (sortednlist_remove (sortednlist_init mem0.plmem 4) 1).2 4).filter
          (fun x => decide (e < x))).headD 0 ∧
      sortednlist_prev (sortednlist_remove (sortednlist_init mem0.plmem 4) 1).2 e =
        ((availableOf (sortednlist_remove (sortednlist_init mem0.plmem 4) 1).2 4).filter
          (fun x => decide (x < e))).getLastD 0) ∧
    (∀ e, 1 ≤ e → e ≤ 4 →
      (sortednlist_isremoved (sortednlist_remove (sortednlist_init mem0.plmem 4) 1).2 e = true ↔
        e ∈ (sortednlist_remove (sortednlist_init mem0.plmem 4) 1).2.stack.take
          (sortednlist_remove (sortednlist_init mem0.plmem 4) 1).2.nremoved)) ∧
    ((sortednlist_remove (sortednlist_init mem0.plmem 4) 1).2.stack.take
      (sortednlist_remove (sortednlist_init mem0.plmem 4) 1).2.nremoved).length =
      (sortednlist_remove (sortednlist_init mem0.plmem 4) 1).2.nremoved :=
  C16_order_invariant 4 (by decide) (by decide) _
    (Reachable.remove _ 1 (Reachable.init _) (by decide))

/-- C17: for a list of size `K` with nothing removed whose traversal is `live` (a
permutation of `1..K`), `n` in `1..K` and `p` in `0..K` with `n != p`,
`sortednlist_moveafter(nl, n, p)` returns 1 and the traversal by `next` from the sentinel
becomes `live` with `n` taken out and put back immediately after `p` (at the front when
`p = 0`), `prev` giving the reverse traversal; the result is a permutation of `1..K`. When
at least one number is removed, the call returns 0 and changes nothing. -/
theorem C17_moveafter_exact (nl : sortednlist) (K : Nat) (live : List Nat) (n p : Nat)
    (hC : Chain nl.elems K live) (hsize : nl.size = K)
    (hperm : live.Perm (List.range' 1 K)) (hrem : nl.nremoved = 0)
    (hn1 : 1 ≤ n) (hn : n ≤ K) (hp : p ≤ K) (hnp : n ≠ p) :
    (sortednlist_moveafter nl n p).1 = 1 ∧
    Chain (sortednlist_moveafter nl n p).2.elems K (movedAfter live n p) ∧
    sortednlist_traversal (sortednlist_moveafter nl n p).2 = movedAfter live n p ∧
    (movedAfter live n p).Perm (List.range' 1 K) ∧
    (sortednlist_moveafter nl n p).2.nremoved = 0 ∧
    ∀ nl2 : sortednlist, nl2.nremoved ≠ 0 → sortednlist_moveafter nl2 n p = (0, nl2) := by
  have hmem : ∀ x, 1 ≤ x → x ≤ K → x ∈ live := by
    intro x h1 h2
    rw [List.Perm.mem_iff hperm, List.mem_range'_1]; omega
  have hp2 : p = 0 ∨ p ∈ live := by
    rcases Nat.eq_zero_or_pos p with e | e
    · left; exact e
    · right; exact hmem p e hp
  obtain ⟨live2, c1, c2, c3, c4, _, c6, c7⟩ :=
    moveafter_chain nl K live n p hC hrem (hmem n hn1 hn) hp2
  have e := c7 hnp
  subst e
  refine ⟨c6, c1, traversal_of_chain _ K _ c1 (by rw [c4, hsize]), c2.trans hperm, c3, ?_⟩
  intro nl2 h2
  rw [sortednlist_moveafter_eq, if_pos h2]

theorem C17_moveafter_exact_witness :
    (sortednlist_moveafter (sortednlist_init mem0.plmem 4) 3 1).1 = 1 ∧
    Chain (sortednlist_moveafter (sortednlist_init mem0.plmem 4) 3 1).2.elems 4
      (movedAfter (List.range' 1 4) 3 1) ∧
    sortednlist_traversal (sortednlist_moveafter (sortednlist_init mem0.plmem 4) 3 1).2 =
      movedAfter (List.range' 1 4) 3 1 ∧
    (movedAfter (List.range' 1 4) 3 1).Perm (List.range' 1 4) ∧
    (sortednlist_moveafter (sortednlist_init mem0.plmem 4) 3 1).2.nremoved = 0 ∧
    ∀ nl2 : sortednlist, nl2.nremoved ≠ 0 → sortednlist_moveafter nl2 3 1 = (0, nl2) :=
  C17_moveafter_exact (sortednlist_init mem0.plmem 4) 4 (List.range' 1 4) 3 1
    (sortednlist_init_chain mem0.plmem 4 (by decide) (by decide)) rfl (List.Perm.refl _) rfl
    (by decide) (by decide) (by decide) (by decide)

/-- C18: for a pool of size `K >= 1` in its default ascending order (a state reachable from
`sortednlist_init` by remove and restore) with available numbers `A`, and a
`sortednlistsums` of size `S`, after `sortednlistsums_get` the field `len` is
`min(S, |A|)` and, for every `k` with `1 <= k <= len`, `minsums[k-1]` is the sum of the `k`
smallest available numbers and `maxsums[k-1]` the sum of the `k` largest. -/
theorem C18_prefix_sums (K : Nat) (hK1 : 1 ≤ K) (hK : K ≤ 255) (nl : sortednlist)
    (hr : Reachable K nl) (sm : sortednlistsums) (h1 : sm.minsums.length = sm.size)
    (h2 : sm.maxsums.length = sm.size) :
    (sortednlistsums_get sm nl).len = min sm.size (availableOf nl K).length ∧
    ∀ k, 1 ≤ k → k ≤ (sortednlistsums_get sm nl).len →
      (sortednlistsums_get sm nl).minsums.getD (k - 1) 0 =
        ((((availableOf nl K).take k).sum : Nat) : Int) ∧
      (sortednlistsums_get sm nl).maxsums.getD (k - 1) 0 =
        ((((availableOf nl K).reverse.take k).sum : Nat) : Int) := by
  obtain ⟨hC, _⟩ := reachable_chain K hK1 hK nl hr
  obtain ⟨_, g2, _, _, g5⟩ :=
    sortednlistsums_get_spec sm nl K (availableOf nl K) hC sm.size rfl h1 h2
  refine ⟨g2, ?_⟩
  intro k hk1 hk2
  rw [g2] at hk2
  exact g5 k hk1 hk2

theorem C18_prefix_sums_witness :
    (sortednlistsums_get (sortednlistsums_init mem0.smmem 3)
      (sortednlist_remove (sortednlist_init mem0.nlmem 5) 2).2).len =
      min (sortednlistsums_init mem0.smmem 3).size
        (availableOf (sortednlist_remove (sortednlist_init mem0.nlmem 5) 2).2 5).length ∧
    ∀ k, 1 ≤ k → k ≤ (sortednlistsums_get (sortednlistsums_init mem0.smmem 3)
        (sortednlist_remove (sortednlist_init mem0.nlmem 5) 2).2).len →
      (sortednlistsums_get (sortednlistsums_init mem0.smmem 3)
        (sortednlist_remove (sortednlist_init mem0.nlmem 5) 2).2).minsums.getD (k - 1) 0 =
        ((((availableOf (sortednlist_remove (sortednlist_init mem0.nlmem 5) 2).2 5).take
          k).sum : Nat) : Int) ∧
      (sortednlistsums_get (sortednlistsums_init mem0.smmem 3)
        (sortednlist_remove (sortednlist_init mem0.nlmem 5) 2).2).maxsums.getD (k - 1) 0 =
        ((((availableOf (sortednlist_remove (sortednlist_init mem0.nlmem 5) 2).2
          5).reverse.take k).sum : Nat) : Int) :=
  C18_prefix_sums 5 (by decide) (by decide) _
    (Reachable.remove _ 2 (Reachable.init _) (by decide)) _ (by decide) (by decide)

/-! ## The visiting order installed by `magicsquare_initpositionsorder` -/

theorem mem_restOf (K : Nat) (pre : List Nat) (x : Nat) :
    x ∈ restOf K pre ↔ (1 ≤ x ∧ x ≤ K) ∧ x ∉ pre := by
  unfold restOf
  rw [List.mem_filter, List.mem_range'_1]
  simp only [decide_eq_true_eq]
  constructor
  · intro h; exact ⟨⟨h.1.1, by omega⟩, h.2⟩
  · intro h; exact ⟨⟨h.1.1, by omega⟩, h.2⟩

theorem restOf_nodup (K : Nat) (pre : List Nat) : (restOf K pre).Nodup :=
  List.Nodup.filter _ (List.nodup_range' 1 K)

theorem restOf_erase (K : Nat) (pre : List Nat) (n : Nat) (hn : n ∈ restOf K pre) :
    (restOf K pre).erase n = restOf K (pre ++ [n]) := by
  obtain ⟨a, b, hab⟩ := List.append_of_mem hn
  have hnd := restOf_nodup K pre
  rw [hab] at hnd
  have hna : n ∉ a := fun e => (List.nodup_append.mp hnd).2.2 e (List.mem_cons_self _ _)
  have h1 : (restOf K pre).erase n = a ++ b := by rw [hab]; exact erase_mid a b n hna
  have h2 := filter_ne_split a b n hnd
  rw [← hab] at h2
  rw [h1, ← h2]
  unfold restOf
  rw [List.filter_filter]
  apply List.filter_congr
  intro x _
  simp only [List.mem_append, List.mem_singleton, not_or, Bool.decide_and, ne_eq,
    Bool.and_comm]

theorem pushCorner_extends (ms : List Nat) :
    ∀ pre : List Nat, pre <+: ms.foldl pushCorner pre := by
  induction ms with
  | nil => intro pre; exact List.prefix_refl _
  | cons n t ih =>
    intro pre
    rw [List.foldl_cons]
    refine List.IsPrefix.trans ?_ (ih _)
    unfold pushCorner
    split_ifs
    · exact List.prefix_refl _
    · exact List.prefix_append _ _

/-- One move keeps the invariant. -/
theorem OrderInv_move (K : Nat) (hK : K ≤ 255) (pre : List Nat) (st : sortednlist × Nat)
    (n : Nat) (h : OrderInv K pre st) (hn1 : 1 ≤ n) (hnK : n ≤ K)
    (hnd : (pushCorner pre n).Nodup) : OrderInv K (pushCorner pre n) (positionsMove st n) := by
  obtain ⟨hC, hrem, hsize, hstack, hlast, hpnd, hprange⟩ := h
  have hm1 : n % 256 = n := Nat.mod_eq_of_lt (by omega)
  have hlastle : pre.getLastD 0 ≤ K := by
    rcases List.eq_nil_or_concat pre with e | ⟨t, m, e⟩
    · rw [e]; simp
    · rw [List.concat_eq_append] at e
      rw [e]
      have : (t ++ [m]).getLastD 0 = m := by simp
      rw [this]
      exact (hprange m (by rw [e]; simp)).2
  have hm2 : st.2 % 256 = st.2 := Nat.mod_eq_of_lt (by rw [hlast]; omega)
  unfold positionsMove
  rw [hm1, hm2]
  by_cases hsame : pre.getLastD 0 = n
  · have hpc : pushCorner pre n = pre := by unfold pushCorner; rw [if_pos hsame]
    have hmv : sortednlist_moveafter st.1 n st.2 = (1, st.1) := by
      rw [sortednlist_moveafter_eq, if_neg (by simp [hrem]),
        if_pos (Or.inl (by rw [hlast, hsame]))]
    rw [hpc, hmv]
    exact ⟨hC, hrem, hsize, hstack, hsame.symm, hpnd, hprange⟩
  · have hpc : pushCorner pre n = pre ++ [n] := by unfold pushCorner; rw [if_neg hsame]
    rw [hpc] at hnd ⊢
    have hnpre : n ∉ pre := fun e =>
      (List.nodup_append.mp hnd).2.2 e (List.mem_singleton_self n)
    have hnrest : n ∈ restOf K pre := (mem_restOf K pre n).mpr ⟨⟨hn1, hnK⟩, hnpre⟩
    have hnlive : n ∈ pre ++ restOf K pre := List.mem_append_right _ hnrest
    have hp : st.2 = 0 ∨ st.2 ∈ pre ++ restOf K pre := by
      rcases List.eq_nil_or_concat pre with e | ⟨t, m, e⟩
      · left; rw [hlast, e]; rfl
      · right
        rw [List.concat_eq_append] at e
        have : (t ++ [m]).getLastD 0 = m := by simp
        rw [hlast, e, this]
        simp
    have hnp : n ≠ st.2 := by rw [hlast]; exact fun e => hsame e.symm
    obtain ⟨live2, c1, _, c3, c4, c5, _, c7⟩ :=
      moveafter_chain st.1 K _ n st.2 hC hrem hnlive hp
    have e := c7 hnp
    subst e
    have hexact : movedAfter (pre ++ restOf K pre) n st.2 =
        (pre ++ [n]) ++ restOf K (pre ++ [n]) := by
      unfold movedAfter
      rw [List.erase_append_right _ hnpre, restOf_erase K pre n hnrest]
      rcases List.eq_nil_or_concat pre with e | ⟨t, m, e⟩
      · subst e
        have h0 : st.2 = 0 := by rw [hlast]; rfl
        rw [if_pos h0]; rfl
      · rw [List.concat_eq_append] at e
        subst e
        have hl : (t ++ [m]).getLastD 0 = m := by simp
        rw [hl] at hlast
        have hm0 : st.2 ≠ 0 := by
          rw [hlast]
          have := (hprange m (by simp)).1
          omega
        have hmt : m ∉ t := fun e =>
          (List.nodup_append.mp hpnd).2.2 e (List.mem_singleton_self m)
        rw [if_neg hm0, hlast, List.append_assoc, List.singleton_append,
          insertAfter_mid t _ m n hmt]
        simp
    rw [hexact] at c1
    refine ⟨c1, c3, by rw [c4, hsize], by rw [c5, hstack], by simp, hnd, ?_⟩
    intro x hx
    rcases List.mem_append.mp hx with e | e
    · exact hprange x e
    · rw [List.mem_singleton] at e; rw [e]; exact ⟨hn1, hnK⟩

theorem OrderInv_moves (K : Nat) (hK : K ≤ 255) (ms : List Nat) :
    ∀ (pre : List Nat) (st : sortednlist × Nat), OrderInv K pre st →
      (∀ n ∈ ms, 1 ≤ n ∧ n ≤ K) → (ms.foldl pushCorner pre).Nodup →
      OrderInv K (ms.foldl pushCorner pre) (ms.foldl positionsMove st) := by
  induction ms with
  | nil => intro pre st h _ _; exact h
  | cons n t ih =>
    intro pre st h hr hnd
    rw [List.foldl_cons] at hnd ⊢
    rw [List.foldl_cons]
    have hb := hr n (List.mem_cons_self _ _)
    have hnd1 : (pushCorner pre n).Nodup :=
      List.Nodup.sublist (pushCorner_extends t _).sublist hnd
    exact ih _ _ (OrderInv_move K hK pre st n h hb.1 hb.2 hnd1)
      (fun x hx => hr x (List.mem_cons_of_mem _ hx)) hnd

theorem ring_eq_moves (N r : Nat) (st : sortednlist × Nat) :
    magicsquare_initpositionsorder_ring N r st = (ringCorners N r).foldl positionsMove st :=
  rfl

theorem rings_eq_moves (N : Nat) (rs : List Nat) :
    ∀ st : sortednlist × Nat,
      rs.foldl (fun st r => magicsquare_initpositionsorder_ring N r st) st =
        ((rs.map (ringCorners N)).flatten).foldl positionsMove st := by
  induction rs with
  | nil => intro st; rfl
  | cons r t ih =>
    intro st
    rw [List.foldl_cons, List.map_cons, List.flatten_cons, List.foldl_append, ring_eq_moves]
    exact ih _

theorem initpositionsorder_eq_moves (pl : sortednlist) (N : Nat) :
    magicsquare_initpositionsorder pl N = ((cornerMoves N).foldl positionsMove (pl, 0)).1 := by
  show ((List.range (N / 2 + N % 2)).foldl
    (fun st r => magicsquare_initpositionsorder_ring N r st) (pl, 0)).1 = _
  rw [rings_eq_moves]
  rfl

theorem cornerMoves_range (N : Nat) (n : Nat) (hn : n ∈ cornerMoves N) :
    1 ≤ n ∧ n ≤ N * N := by
  unfold cornerMoves at hn
  rw [List.mem_flatten] at hn
  obtain ⟨l, hl, hnl⟩ := hn
  rw [List.mem_map] at hl
  obtain ⟨r, hr, rfl⟩ := hl
  rw [List.mem_range] at hr
  have hrN : r < N := by omega
  have hlr : N - 1 - r < N := by omega
  unfold ringCorners at hnl
  simp only [List.mem_cons, List.mem_singleton, List.not_mem_nil, or_false] at hnl
  rcases hnl with e | e | e | e <;> rw [e]
  · exact cellidx_bound N r r hrN hrN
  · exact cellidx_bound N r (N - 1 - r) hrN hlr
  · exact cellidx_bound N (N - 1 - r) r hlr hrN
  · exact cellidx_bound N (N - 1 - r) (N - 1 - r) hlr hlr

theorem cornerPositions_nodup : ∀ N, N < 16 → (cornerPositions N).Nodup := by
  decide



theorem OrderInv_init (mem : sortednlist) (K : Nat) (hK1 : 1 ≤ K) (hK : K ≤ 255) :
    OrderInv K [] (sortednlist_init mem K, 0) := by
  have hr : restOf K [] = List.range' 1 K := by
    unfold restOf
    rw [List.filter_eq_self]
    intro a _
    simp
  refine ⟨?_, rfl, rfl, by simp [sortednlist_init], rfl, List.nodup_nil,
    fun x hx => by simp at hx⟩
  rw [List.nil_append, hr]
  exact sortednlist_init_chain mem K hK1 hK

/-- The traversal after `magicsquare_initpositionsorder`. -/
theorem initpositionsorder_chain (mem : sortednlist) (N : Nat) (hN1 : 1 ≤ N)
    (hN : N * N ≤ 255) :
    Chain (magicsquare_initpositionsorder (sortednlist_init mem (N * N)) N).elems (N * N)
      (positionsOrder N) ∧
    (magicsquare_initpositionsorder (sortednlist_init mem (N * N)) N).size = N * N := by
  have h16 := lt16_of_sq N hN
  have hinv := OrderInv_moves (N * N) hN (cornerMoves N) [] (sortednlist_init mem (N * N), 0)
    (OrderInv_init mem (N * N) (Nat.mul_pos hN1 hN1) hN) (cornerMoves_range N)
    (cornerPositions_nodup N h16)
  rw [initpositionsorder_eq_moves]
  exact ⟨hinv.1, hinv.2.2.1⟩

/-- C15 (counterexample): for `N = 3` the traversal after `magicsquare_initpositionsorder`
visits the centre (position 5, the corner of ring 1) right after the four corners of ring
0 and before the other cells of ring 0, whereas the ring-by-ring order has it last. -/
theorem C15_counterexample :
    sortednlist_traversal
      (magicsquare_initpositionsorder (sortednlist_init mem0.plmem (3 * 3)) 3) =
      [1, 3, 7, 9, 5, 2, 4, 6, 8] ∧
    ringByRingOrder 3 = [1, 3, 7, 9, 2, 4, 6, 8, 5] := by
  decide

/-- C15: for every `N >= 1` (with `N*N <= 255`), after `magicsquare_initpositionsorder`
the traversal of the positions pool (first, then next repeatedly) visits the four corners
`(r,r)`, `(r,N-1-r)`, `(N-1-r,r)`, `(N-1-r,N-1-r)` of every ring `r = 0..ceil(N/2)-1`, ring
after ring from the outside in, and after the corners of all the rings every other cell
in ascending index order; `prev` gives the reverse traversal. -/
theorem C15_positions_order (mem : sortednlist) (N : Nat) (hN1 : 1 ≤ N) (hN : N * N ≤ 255) :
    sortednlist_traversal (magicsquare_initpositionsorder (sortednlist_init mem (N * N)) N) =
      positionsOrder N ∧
    Chain (magicsquare_initpositionsorder (sortednlist_init mem (N * N)) N).elems (N * N)
      (positionsOrder N) := by
  obtain ⟨h1, h2⟩ := initpositionsorder_chain mem N hN1 hN
  exact ⟨traversal_of_chain _ _ _ h1 h2, h1⟩

theorem C15_positions_order_witness :
    (1 ≤ 5 ∧ 5 * 5 ≤ 255) ∧
    positionsOrder 5 = [1, 5, 21, 25, 7, 9, 17, 19, 13, 2, 3, 4, 6, 8, 10, 11, 12, 14, 15, 16,
      18, 20, 22, 23, 24] ∧
    sortednlist_traversal
      (magicsquare_initpositionsorder (sortednlist_init mem0.plmem (5 * 5)) 5) =
      positionsOrder 5 ∧
    Chain (magicsquare_initpositionsorder (sortednlist_init mem0.plmem (5 * 5)) 5).elems
      (5 * 5) (positionsOrder 5) :=
  ⟨by decide, by decide, C15_positions_order mem0.plmem 5 (by decide) (by decide)⟩

/-! ## `sumsquare_emptycell` -/

theorem emptycell_loop_find (sq : sumsquare) (line : sumsquare_linerelation) :
    ∀ (k c : Nat), c + k = line.linecells.length →
      sumsquare_emptycell_loop sq line k c =
        ((line.linecells.drop c).find? (fun x => decide (sumsquare_getnum sq x = 0))).getD 0 := by
  intro k
  induction k with
  | zero =>
    intro c hc
    rw [List.drop_of_length_le (by omega)]
    rfl
  | succ k ih =>
    intro c hc
    have hlt : c < line.linecells.length := by omega
    rw [List.drop_eq_getElem_cons hlt, List.find?_cons, sumsquare_emptycell_loop,
      getD_eq_getElem' _ c hlt]
    by_cases h0 : sumsquare_getnum sq line.linecells[c] = 0
    · rw [if_pos h0]; simp [h0]
    · rw [if_neg h0, ih (c + 1) (by omega)]; simp [h0]

theorem lineCells_sorted (N l : Nat) : (lineCells N l).Pairwise (· < ·) :=
  List.Pairwise.filter _ (List.pairwise_lt_range _)

/-- What `sumsquare_emptycell` returns on a square with its tables intact. -/
theorem emptycell_first (N : Nat) (sq : sumsquare) (l : Nat) (hN : N * N ≤ 255)
    (hsq : SqInv sq N) (hl : l < N + N + 2) :
    ((∃ c ∈ lineCells N l, sumsquare_getnum sq c = 0) →
      sumsquare_emptycell sq l ∈ lineCells N l ∧
      sumsquare_getnum sq (sumsquare_emptycell sq l) = 0 ∧
      ∀ c ∈ lineCells N l, sumsquare_getnum sq c = 0 → sumsquare_emptycell sq l ≤ c) ∧
    ((∀ c ∈ lineCells N l, sumsquare_getnum sq c ≠ 0) → sumsquare_emptycell sq l = 0) := by
  have hline : sumsquare_getlinerelation sq l = ⟨N, lineCells N l⟩ := by
    unfold sumsquare_getlinerelation
    rw [hsq.2.2.2.2.2.2.1]
    exact linerelationsOf_getD N l hN hl
  have hlenN := lineCells_length N hN l hl
  have hfind : sumsquare_emptycell sq l =
      ((lineCells N l).find? (fun x => decide (sumsquare_getnum sq x = 0))).getD 0 := by
    unfold sumsquare_emptycell
    rw [hline]
    have := emptycell_loop_find sq ⟨N, lineCells N l⟩ N 0 (by simp [hlenN])
    simpa using this
  constructor
  · intro hex
    cases hf : (lineCells N l).find? (fun x => decide (sumsquare_getnum sq x = 0)) with
    | none =>
      rw [List.find?_eq_none] at hf
      obtain ⟨c, hc, h0⟩ := hex
      exact absurd (by simpa using h0) (hf c hc)
    | some x =>
      rw [hfind, hf]
      have hx := List.find?_eq_some.mp hf
      obtain ⟨hp, as, bs, hsplit, _⟩ := hx
      have hs := lineCells_sorted N l
      rw [hsplit, List.pairwise_append] at hs
      refine ⟨List.mem_of_find?_eq_some hf, by simpa using hp, ?_⟩
      intro c hc h0
      have hfirst := List.find?_eq_some.mp hf
      obtain ⟨_, as2, bs2, hsplit2, hno⟩ := hfirst
      have hs2 := lineCells_sorted N l
      rw [hsplit2, List.pairwise_append, List.pairwise_cons] at hs2
      rw [hsplit2, List.mem_append, List.mem_cons] at hc
      rcases hc with e | e | e
      · have := hno c e
        simp [h0] at this
      · show x ≤ c
        rw [e]
      · exact Nat.le_of_lt (hs2.2.1.1 c e)
  · intro hall
    have : (lineCells N l).find? (fun x => decide (sumsquare_getnum sq x = 0)) = none := by
      rw [List.find?_eq_none]
      intro x hx
      simpa using hall x hx
    rw [hfind, this]
    rfl

/-- C19 (counterexample): on a square of side 2, `sumsquare_emptycell` gives 0 for row 0
when the row is full (cells 0 and 1 hold 1 and 2), and it gives the same 0 when the row's
first empty cell is cell 0; it returns no value that means "none". -/
theorem C19_counterexample :
    (∀ c ∈ lineCells 2 0,
      sumsquare_getnum (sumsquare_setnums (sumsquare_init mem0.sqmem 2) [(0, 1), (1, 2)]) c
        ≠ 0) ∧
    sumsquare_emptycell (sumsquare_setnums (sumsquare_init mem0.sqmem 2) [(0, 1), (1, 2)]) 0
      = 0 ∧
    sumsquare_getnum (sumsquare_init mem0.sqmem 2) 0 = 0 ∧
    sumsquare_emptycell (sumsquare_init mem0.sqmem 2) 0 = 0 := by
  decide

/-- C19: for every grid state of a square of side `N` (with `N*N <= 255`) and every line
index, `sumsquare_emptycell` returns the lowest-index empty cell of the line when the line
has an empty cell, and returns 0 when the line has none (the value it also returns when
the first empty cell is cell 0). -/
theorem C19_emptycell (N : Nat) (sq : sumsquare) (l : Nat) (hN : N * N ≤ 255)
    (hsq : SqInv sq N) (hl : l < N + N + 2) :
    ((∃ c ∈ lineCells N l, sumsquare_getnum sq c = 0) →
      sumsquare_emptycell sq l ∈ lineCells N l ∧
      sumsquare_getnum sq (sumsquare_emptycell sq l) = 0 ∧
      ∀ c ∈ lineCells N l, sumsquare_getnum sq c = 0 → sumsquare_emptycell sq l ≤ c) ∧
    ((∀ c ∈ lineCells N l, sumsquare_getnum sq c ≠ 0) → sumsquare_emptycell sq l = 0) :=
  emptycell_first N sq l hN hsq hl

theorem C19_emptycell_witness :
    ((∃ c ∈ lineCells 3 4,
        sumsquare_getnum (sumsquare_setnums (sumsquare_init mem0.sqmem 3) [(1, 7), (7, 2)]) c
          = 0) →
      sumsquare_emptycell (sumsquare_setnums (sumsquare_init mem0.sqmem 3) [(1, 7), (7, 2)]) 4
        ∈ lineCells 3 4 ∧
      sumsquare_getnum (sumsquare_setnums (sumsquare_init mem0.sqmem 3) [(1, 7), (7, 2)])
        (sumsquare_emptycell
          (sumsquare_setnums (sumsquare_init mem0.sqmem 3) [(1, 7), (7, 2)]) 4) = 0 ∧
      ∀ c ∈ lineCells 3 4,
        sumsquare_getnum (sumsquare_setnums (sumsquare_init mem0.sqmem 3) [(1, 7), (7, 2)]) c
          = 0 →
        sumsquare_emptycell (sumsquare_setnums (sumsquare_init mem0.sqmem 3) [(1, 7), (7, 2)])
          4 ≤ c) ∧
    ((∀ c ∈ lineCells 3 4,
        sumsquare_getnum (sumsquare_setnums (sumsquare_init mem0.sqmem 3) [(1, 7), (7, 2)]) c
          ≠ 0) →
      sumsquare_emptycell (sumsquare_setnums (sumsquare_init mem0.sqmem 3) [(1, 7), (7, 2)]) 4
        = 0) :=
  C19_emptycell 3 _ 4 (by decide)
    (sumsquare_setnums_inv 3 (by decide) [(1, 7), (7, 2)] _
      (sumsquare_init_inv mem0.sqmem 3 (by decide)).1 (by decide)) (by decide)

/-! ## `magicsquare_checksums` -/

/-- One iteration of the loop of `magicsquare_checksums` that does not fail. -/
theorem checksums_loop_step (sq : sumsquare) (nl : sortednlist) (sm : sortednlistsums)
    (msum : Int) (k l : Nat) (ln : Int)
    (h : (magicsquare_checksums_loop sq nl sm msum (k + 1) l ln).1 = true) :
    (magicsquare_checksums_loop sq nl sm msum (k + 1) l ln =
        magicsquare_checksums_loop sq nl sm msum k (l + 1) ln ∧
      ((sumsquare_getlinecount sq l).holes ≠ 1 ∨ 0 ≤ ln)) ∨
    ((sumsquare_getlinecount sq l).holes = 1 ∧ ln < 0 ∧
      magicsquare_checksums_loop sq nl sm msum (k + 1) l ln =
        magicsquare_checksums_loop sq nl sm msum k (l + 1) (l : Int)) := by
  simp only [magicsquare_checksums_loop] at h ⊢
  by_cases hz : (sumsquare_getlinecount sq l).holes ≠ 0
  · rw [if_pos hz] at h ⊢
    by_cases c1 : (sumsquare_getlinecount sq l).sum +
        sm.minsums.getD ((sumsquare_getlinecount sq l).holes - 1) 0 > msum
    · rw [if_pos c1] at h; exact absurd h (by simp)
    rw [if_neg c1] at h ⊢
    by_cases c2 : (sumsquare_getlinecount sq l).sum +
        sm.maxsums.getD ((sumsquare_getlinecount sq l).holes - 1) 0 < msum
    · rw [if_pos c2] at h; exact absurd h (by simp)
    rw [if_neg c2] at h ⊢
    by_cases c3 : (sumsquare_getlinecount sq l).holes = 1
    · rw [if_pos c3] at h ⊢
      by_cases c4 : sortednlist_isremoved nl (msum - (sumsquare_getlinecount sq l).sum).toNat
          = true
      · rw [if_pos c4] at h; exact absurd h (by simp)
      rw [if_neg c4] at h ⊢
      by_cases c5 : ln < 0
      · rw [if_pos c5]
        exact Or.inr ⟨c3, c5, rfl⟩
      · rw [if_neg c5]
        exact Or.inl ⟨rfl, Or.inr (by omega)⟩
    · rw [if_neg c3]
      exact Or.inl ⟨rfl, Or.inl c3⟩
  · rw [if_neg hz] at h ⊢
    by_cases c1 : (sumsquare_getlinecount sq l).sum ≠ msum
    · rw [if_pos c1] at h; exact absurd h (by simp)
    rw [if_neg c1]
    exact Or.inl ⟨rfl, Or.inl (by omega)⟩

/-- The line that the loop of `magicsquare_checksums` records when it does not fail: the
first line with one hole from `l` on, unless a line was recorded before. -/
theorem checksums_loop_ln (sq : sumsquare) (nl : sortednlist) (sm : sortednlistsums)
    (msum : Int) :
    ∀ (k l : Nat) (ln : Int),
      (magicsquare_checksums_loop sq nl sm msum k l ln).1 = true →
      (0 ≤ ln → (magicsquare_checksums_loop sq nl sm msum k l ln).2 = ln) ∧
      (ln < 0 →
        ((∀ l2, l ≤ l2 → l2 < l + k → (sumsquare_getlinecount sq l2).holes ≠ 1) ∧
          (magicsquare_checksums_loop sq nl sm msum k l ln).2 = ln) ∨
        (∃ l2, l ≤ l2 ∧ l2 < l + k ∧ (sumsquare_getlinecount sq l2).holes = 1 ∧
          (∀ l3, l ≤ l3 → l3 < l2 → (sumsquare_getlinecount sq l3).holes ≠ 1) ∧
          (magicsquare_checksums_loop sq nl sm msum k l ln).2 = (l2 : Int))) := by
  intro k
  induction k with
  | zero =>
    intro l ln _
    exact ⟨fun _ => rfl, fun _ => Or.inl ⟨fun l2 a b => by omega, rfl⟩⟩
  | succ k ih =>
    intro l ln h
    rcases checksums_loop_step sq nl sm msum k l ln h with ⟨e, hc⟩ | ⟨h1, hneg, e⟩
    · rw [e] at h ⊢
      obtain ⟨i1, i2⟩ := ih (l + 1) ln h
      refine ⟨i1, ?_⟩
      intro hneg
      have hne : (sumsquare_getlinecount sq l).holes ≠ 1 := by
        rcases hc with a | a
        · exact a
        · omega
      rcases i2 hneg with ⟨a, b⟩ | ⟨l2, a, b, c, d, f⟩
      · left
        refine ⟨?_, b⟩
        intro l2 h1 h2
        rcases Nat.eq_or_lt_of_le h1 with e2 | e2
        · rw [← e2]; exact hne
        · exact a l2 e2 (by omega)
      · right
        refine ⟨l2, by omega, by omega, c, ?_, f⟩
        intro l3 h1 h2
        rcases Nat.eq_or_lt_of_le h1 with e2 | e2
        · rw [← e2]; exact hne
        · exact d l3 e2 h2
    · rw [e] at h ⊢
      obtain ⟨i1, _⟩ := ih (l + 1) (l : Int) h
      refine ⟨fun h0 => by omega, fun _ => Or.inr ⟨l, le_refl _, by omega, h1, ?_, i1 (by omega)⟩⟩
      intro l3 a b
      omega

theorem lineOk_iff_feasible (N : Nat) (M : Int) (sq : sumsquare) (A : List Nat) (l : Nat)
    (hsq : SqInv sq N) (hl : l < N + N + 2) (hA : ∀ x ∈ A, 1 ≤ x) :
    lineOk N M sq.nums A l ↔ lineFeasible M A (sumsquare_getlinecount sq l) := by
  obtain ⟨hsum, hhol⟩ := hsq.2.2.2.2.2.2.2.2 l hl
  rw [storedSum_eq] at hsum
  rw [storedHoles_eq] at hhol
  unfold lineOk lineFeasible
  rw [hsum, hhol]
  have hav : (M - gridSum sq.nums N l).toNat ∈ A ↔ ∃ v ∈ A, (v : Int) = M - gridSum sq.nums N l := by
    constructor
    · intro h
      refine ⟨_, h, ?_⟩
      have := hA _ h
      omega
    · rintro ⟨v, hv, e⟩
      have : (M - gridSum sq.nums N l).toNat = v := by omega
      rw [this]; exact hv
  by_cases hz : gridHoles sq.nums N l = 0
  · rw [if_neg (by simpa using hz)]
    constructor
    · intro h
      exact ⟨fun _ => h, fun h0 => by omega, fun h1 => by omega⟩
    · intro h; exact h.1 hz
  · rw [if_pos hz]
    constructor
    · intro h
      exact ⟨fun h0 => absurd h0 hz, fun _ => ⟨h.1, h.2.1⟩, fun h1 => hav.mp (h.2.2 h1)⟩
    · intro h
      have h2 := h.2.1 (by omega)
      exact ⟨h2.1, h2.2, fun h1 => hav.mpr (h.2.2 h1)⟩

/-- C11: for every grid of side `N` with exact line counters, every numbers pool in its
default order with available numbers `A` and every sums table of size `N`, if no line has
more holes than there are available numbers, `magicsquare_checksums` returns pass exactly
when every line is feasible: `holes = 0` implies `sum = M`; `holes > 0` implies
`sum + (sum of the holes smallest of A) <= M <= sum + (sum of the holes largest of A)`; and
`holes = 1` implies that `M - sum` is in `A`. On pass the reported line is the lowest-index
line with exactly one hole, or -1 if no line has exactly one hole; on failure it is -1. -/
theorem C11_checksums (N K : Nat) (M : Int) (sq : sumsquare) (nl : sortednlist)
    (sm : sortednlistsums) (hsq : SqInv sq N) (hN : N * N ≤ 255) (hK1 : 1 ≤ K) (hK : K ≤ 255)
    (hr : Reachable K nl) (hS : sm.size = N) (h1 : sm.minsums.length = N)
    (h2 : sm.maxsums.length = N)
    (hholes : ∀ l, l < N + N + 2 →
      (sumsquare_getlinecount sq l).holes ≤ (availableOf nl K).length) :
    ((magicsquare_checksums sq nl sm M).1 = true ↔
      ∀ l, l < N + N + 2 → lineFeasible M (availableOf nl K) (sumsquare_getlinecount sq l)) ∧
    ((magicsquare_checksums sq nl sm M).1 = true →
      ((∀ l, l < N + N + 2 → (sumsquare_getlinecount sq l).holes ≠ 1) ∧
        (magicsquare_checksums sq nl sm M).2.1 = -1) ∨
      (∃ l, l < N + N + 2 ∧ (sumsquare_getlinecount sq l).holes = 1 ∧
        (∀ l2, l2 < l → (sumsquare_getlinecount sq l2).holes ≠ 1) ∧
        (magicsquare_checksums sq nl sm M).2.1 = (l : Int))) ∧
    ((magicsquare_checksums sq nl sm M).1 = false →
      (magicsquare_checksums sq nl sm M).2.1 = -1) := by
  obtain ⟨hC, _⟩ := reachable_chain K hK1 hK nl hr
  have hA1 : ∀ x ∈ availableOf nl K, 1 ≤ x := fun x hx => (hC.2.2.2.1 x hx).1
  obtain ⟨_, _, _, _, g5⟩ := sortednlistsums_get_spec sm nl K (availableOf nl K) hC N hS h1 h2
  have hgh : ∀ l, l < N + N + 2 →
      gridHoles sq.nums N l ≤ min N (availableOf nl K).length := by
    intro l hl
    have e := (hsq.2.2.2.2.2.2.2.2 l hl).2
    rw [storedHoles_eq] at e
    have := hholes l hl
    rw [e] at this
    exact Nat.le_min.mpr ⟨gridHoles_le_N N _ l hN hl, this⟩
  have key := checksums_loop_spec sq nl (sortednlistsums_get sm nl) M N K (availableOf nl K)
    hsq hC g5 hgh (N + N + 2) 0 (-1) (by omega)
  have hnl : sumsquare_nlines sq = N + N + 2 := hsq.2.1
  have hln := checksums_loop_ln sq nl (sortednlistsums_get sm nl) M (N + N + 2) 0 (-1)
  unfold magicsquare_checksums
  rw [hnl]
  refine ⟨?_, ?_, ?_⟩
  · rw [key.1]
    constructor
    · intro h l hl
      exact (lineOk_iff_feasible N M sq _ l hsq hl hA1).mp (h l (Nat.zero_le _) hl)
    · intro h l _ hl
      exact (lineOk_iff_feasible N M sq _ l hsq hl hA1).mpr (h l hl)
  · intro ht
    dsimp only at ht ⊢
    rcases (hln ht).2 (by omega) with ⟨a, b⟩ | ⟨l, _, b, c, d, e⟩
    · left
      refine ⟨fun l hl => a l (Nat.zero_le _) (by omega), ?_⟩
      rw [b]; simp
    · right
      refine ⟨l, by omega, c, fun l2 hl2 => d l2 (Nat.zero_le _) hl2, ?_⟩
      rw [e, ht]
      have : ((l : Int) > -1) := by omega
      simp [this]
  · intro hf
    dsimp only at hf ⊢
    rw [hf]
    simp

theorem C11_checksums_witness :
    ((magicsquare_checksums (sumsquare_setnums (sumsquare_init mem0.sqmem 3) [(0, 2), (1, 9)])
        (sortednlist_remove (sortednlist_remove (sortednlist_init mem0.nlmem 9) 2).2 9).2
        (sortednlistsums_init mem0.smmem 3) 15).1 = true ↔
      ∀ l, l < 3 + 3 + 2 →
        lineFeasible 15
          (availableOf
            (sortednlist_remove (sortednlist_remove (sortednlist_init mem0.nlmem 9) 2).2 9).2 9)
          (sumsquare_getlinecount
            (sumsquare_setnums (sumsquare_init mem0.sqmem 3) [(0, 2), (1, 9)]) l)) ∧
    ((magicsquare_checksums (sumsquare_setnums (sumsquare_init mem0.sqmem 3) [(0, 2), (1, 9)])
        (sortednlist_remove (sortednlist_remove (sortednlist_init mem0.nlmem 9) 2).2 9).2
        (sortednlistsums_init mem0.smmem 3) 15).1 = true →
      ((∀ l, l < 3 + 3 + 2 →
          (sumsquare_getlinecount
            (sumsquare_setnums (sumsquare_init mem0.sqmem 3) [(0, 2), (1, 9)]) l).holes ≠ 1) ∧
        (magicsquare_checksums
          (sumsquare_setnums (sumsquare_init mem0.sqmem 3) [(0, 2), (1, 9)])
          (sortednlist_remove (sortednlist_remove (sortednlist_init mem0.nlmem 9) 2).2 9).2
          (sortednlistsums_init mem0.smmem 3) 15).2.1 = -1) ∨
      (∃ l, l < 3 + 3 + 2 ∧
        (sumsquare_getlinecount
          (sumsquare_setnums (sumsquare_init mem0.sqmem 3) [(0, 2), (1, 9)]) l).holes = 1 ∧
        (∀ l2, l2 < l →
          (sumsquare_getlinecount
            (sumsquare_setnums (sumsquare_init mem0.sqmem 3) [(0, 2), (1, 9)]) l2).holes ≠ 1) ∧
        (magicsquare_checksums
          (sumsquare_setnums (sumsquare_init mem0.sqmem 3) [(0, 2), (1, 9)])
          (sortednlist_remove (sortednlist_remove (sortednlist_init mem0.nlmem 9) 2).2 9).2
          (sortednlistsums_init mem0.smmem 3) 15).2.1 = (l : Int))) ∧
    ((magicsquare_checksums (sumsquare_setnums (sumsquare_init mem0.sqmem 3) [(0, 2), (1, 9)])
        (sortednlist_remove (sortednlist_remove (sortednlist_init mem0.nlmem 9) 2).2 9).2
        (sortednlistsums_init mem0.smmem 3) 15).1 = false →
      (magicsquare_checksums (sumsquare_setnums (sumsquare_init mem0.sqmem 3) [(0, 2), (1, 9)])
        (sortednlist_remove (sortednlist_remove (sortednlist_init mem0.nlmem 9) 2).2 9).2
        (sortednlistsums_init mem0.smmem 3) 15).2.1 = -1) :=
  C11_checksums 3 9 15 _ _ _
    (sumsquare_setnums_inv 3 (by decide) [(0, 2), (1, 9)] _
      (sumsquare_init_inv mem0.sqmem 3 (by decide)).1 (by decide))
    (by decide) (by decide) (by decide)
    (Reachable.remove _ 9 (Reachable.remove _ 2 (Reachable.init _) (by decide)) (by decide))
    (by decide) (by decide) (by decide) (by decide)

/-! ## `magicsquare_checkequiv` -/

/-- C13 (counterexample): a grid of side 4 accepted at level 3 whose top-left corner (5) is
below the cells (1,2), (2,1) and (2,2) (7, 8 and 9) and which level 4 rejects, because the
top-left corner is above the cell (1,1), which holds 3. -/
theorem C13_counterexample :
    magicsquare_checkequiv
      (squareOfGrid 4 [5, 1, 2, 10, 4, 3, 7, 6, 13, 8, 9, 14, 11, 15, 16, 12]) 3 = true ∧
    ([5, 1, 2, 10, 4, 3, 7, 6, 13, 8, 9, 14, 11, 15, 16, 12].getD (CELLIDXFROMIJ 0 0 4) 0 ≤
      [5, 1, 2, 10, 4, 3, 7, 6, 13, 8, 9, 14, 11, 15, 16, 12].getD
        (CELLIDXFROMIJ 1 (4 - 2) 4) 0) ∧
    ([5, 1, 2, 10, 4, 3, 7, 6, 13, 8, 9, 14, 11, 15, 16, 12].getD (CELLIDXFROMIJ 0 0 4) 0 ≤
      [5, 1, 2, 10, 4, 3, 7, 6, 13, 8, 9, 14, 11, 15, 16, 12].getD
        (CELLIDXFROMIJ (4 - 2) 1 4) 0) ∧
    ([5, 1, 2, 10, 4, 3, 7, 6, 13, 8, 9, 14, 11, 15, 16, 12].getD (CELLIDXFROMIJ 0 0 4) 0 ≤
      [5, 1, 2, 10, 4, 3, 7, 6, 13, 8, 9, 14, 11, 15, 16, 12].getD
        (CELLIDXFROMIJ (4 - 2) (4 - 2) 4) 0) ∧
    magicsquare_checkequiv
      (squareOfGrid 4 [5, 1, 2, 10, 4, 3, 7, 6, 13, 8, 9, 14, 11, 15, 16, 12]) 4 = false := by
  decide

/-- C13: for every `N >= 4` and every grid that `magicsquare_checkequiv` accepts at filter
level 3, the grid is accepted at level 4 if and only if the top-left corner is empty or is
`<=` each filled one of the interior corners `(1,1)`, `(1,N-2)` and `(N-2,1)`. -/
theorem C13_level4 (sq : sumsquare) (N : Nat) (hside : sq.side = N) (hN : 4 ≤ N)
    (h3 : magicsquare_checkequiv sq 3 = true) :
    magicsquare_checkequiv sq 4 = true ↔
      (sumsquare_getnum sq (CELLIDXFROMIJ 0 0 N) = 0 ∨
        ((sumsquare_getnum sq (CELLIDXFROMIJ 1 1 N) ≠ 0 →
            sumsquare_getnum sq (CELLIDXFROMIJ 0 0 N)
              ≤ sumsquare_getnum sq (CELLIDXFROMIJ 1 1 N)) ∧
          (sumsquare_getnum sq (CELLIDXFROMIJ 1 (N - 2) N) ≠ 0 →
            sumsquare_getnum sq (CELLIDXFROMIJ 0 0 N)
              ≤ sumsquare_getnum sq (CELLIDXFROMIJ 1 (N - 2) N)) ∧
          (sumsquare_getnum sq (CELLIDXFROMIJ (N - 2) 1 N) ≠ 0 →
            sumsquare_getnum sq (CELLIDXFROMIJ 0 0 N)
              ≤ sumsquare_getnum sq (CELLIDXFROMIJ (N - 2) 1 N)))) := by
  subst hside
  have e : sq.side - 1 - 1 = sq.side - 2 := by omega
  rw [checkequiv_iff] at h3 ⊢
  rw [e] at h3 ⊢
  generalize sumsquare_getnum sq (CELLIDXFROMIJ 0 0 sq.side) = a at h3 ⊢
  generalize sumsquare_getnum sq (CELLIDXFROMIJ 0 (sq.side - 1) sq.side) = b at h3 ⊢
  generalize sumsquare_getnum sq (CELLIDXFROMIJ (sq.side - 1) 0 sq.side) = c at h3 ⊢
  generalize sumsquare_getnum sq (CELLIDXFROMIJ (sq.side - 1) (sq.side - 1) sq.side) = d
    at h3 ⊢
  generalize sumsquare_getnum sq (CELLIDXFROMIJ 1 1 sq.side) = a2 at h3 ⊢
  generalize sumsquare_getnum sq (CELLIDXFROMIJ (sq.side - 2) (sq.side - 2) sq.side) = d2
    at h3 ⊢
  generalize sumsquare_getnum sq (CELLIDXFROMIJ 1 (sq.side - 2) sq.side) = b2 at h3 ⊢
  generalize sumsquare_getnum sq (CELLIDXFROMIJ (sq.side - 2) 1 sq.side) = c2 at h3 ⊢
  omega

theorem C13_level4_witness :
    magicsquare_checkequiv
      (squareOfGrid 4 [1, 2, 3, 4, 5, 6, 7, 8, 9, 10, 11, 12, 13, 14, 15, 16]) 4 = true ↔
      (sumsquare_getnum
          (squareOfGrid 4 [1, 2, 3, 4, 5, 6, 7, 8, 9, 10, 11, 12, 13, 14, 15, 16])
          (CELLIDXFROMIJ 0 0 4) = 0 ∨
        ((sumsquare_getnum
              (squareOfGrid 4 [1, 2, 3, 4, 5, 6, 7, 8, 9, 10, 11, 12, 13, 14, 15, 16])
              (CELLIDXFROMIJ 1 1 4) ≠ 0 →
            sumsquare_getnum
              (squareOfGrid 4 [1, 2, 3, 4, 5, 6, 7, 8, 9, 10, 11, 12, 13, 14, 15, 16])
              (CELLIDXFROMIJ 0 0 4)
              ≤ sumsquare_getnum
                (squareOfGrid 4 [1, 2, 3, 4, 5, 6, 7, 8, 9, 10, 11, 12, 13, 14, 15, 16])
                (CELLIDXFROMIJ 1 1 4)) ∧
          (sumsquare_getnum
              (squareOfGrid 4 [1, 2, 3, 4, 5, 6, 7, 8, 9, 10, 11, 12, 13, 14, 15, 16])
              (CELLIDXFROMIJ 1 (4 - 2) 4) ≠ 0 →
            sumsquare_getnum
              (squareOfGrid 4 [1, 2, 3, 4, 5, 6, 7, 8, 9, 10, 11, 12, 13, 14, 15, 16])
              (CELLIDXFROMIJ 0 0 4)
              ≤ sumsquare_getnum
                (squareOfGrid 4 [1, 2, 3, 4, 5, 6, 7, 8, 9, 10, 11, 12, 13, 14, 15, 16])
                (CELLIDXFROMIJ 1 (4 - 2) 4)) ∧
          (sumsquare_getnum
              (squareOfGrid 4 [1, 2, 3, 4, 5, 6, 7, 8, 9, 10, 11, 12, 13, 14, 15, 16])
              (CELLIDXFROMIJ (4 - 2) 1 4) ≠ 0 →
            sumsquare_getnum
              (squareOfGrid 4 [1, 2, 3, 4, 5, 6, 7, 8, 9, 10, 11, 12, 13, 14, 15, 16])
              (CELLIDXFROMIJ 0 0 4)
              ≤ sumsquare_getnum
                (squareOfGrid 4 [1, 2, 3, 4, 5, 6, 7, 8, 9, 10, 11, 12, 13, 14, 15, 16])
                (CELLIDXFROMIJ (4 - 2) 1 4)))) :=
  C13_level4 _ 4 rfl (by decide) (by decide)



theorem getD_ne_zero_lt (g : List Nat) (c : Nat) (h : g.getD c 0 ≠ 0) : c < g.length := by
  by_contra hlt
  exact h (getD_of_le g c (by omega))

theorem clearCells_getD (cells g : List Nat) (c : Nat) :
    (clearCells cells g).getD c 0 = 0 ∨ (clearCells cells g).getD c 0 = g.getD c 0 := by
  unfold clearCells
  rw [getD_map_range]
  split_ifs
  · left; rfl
  · right; rfl
  · left; rfl

theorem keepCells_getD (cells g : List Nat) (c : Nat) (hc : c ∈ cells) :
    (keepCells cells g).getD c 0 = g.getD c 0 := by
  unfold keepCells
  rw [getD_map_range]
  by_cases hlt : c < g.length
  · rw [if_pos hlt, if_pos hc]
  · rw [if_neg hlt, getD_of_le g c (by omega)]

/-- A rejection by `magicsquare_checkequiv` is due to two filled cells: every square of
the same side that holds the same numbers in these two cells is rejected as well. -/
theorem rejected_pair (sq : sumsquare) (L : Nat) (h : ¬ magicsquare_checkequiv sq L = true) :
    ∃ c1 c2, c1 ≠ c2 ∧ sumsquare_getnum sq c1 ≠ 0 ∧ sumsquare_getnum sq c2 ≠ 0 ∧
      ∀ sq2 : sumsquare, sq2.side = sq.side →
        sumsquare_getnum sq2 c1 = sumsquare_getnum sq c1 →
        sumsquare_getnum sq2 c2 = sumsquare_getnum sq c2 →
        ¬ magicsquare_checkequiv sq2 L = true := by
  rw [checkequiv_iff] at h
  have hs2 : ¬ sq.side < 2 := fun e => h (Or.inl (Or.inr e))
  have hL1 : ¬ L < 1 := fun e => h (Or.inl (Or.inl e))
  have hidx : CELLIDXFROMIJ 0 (sq.side - 1) sq.side ≠ CELLIDXFROMIJ (sq.side - 1) 0 sq.side := by
    unfold CELLIDXFROMIJ
    have : (sq.side - 1) * 2 ≤ (sq.side - 1) * sq.side := Nat.mul_le_mul_left _ (by omega)
    omega
  have key : ∀ (c1 c2 : Nat), c1 ≠ c2 → sumsquare_getnum sq c1 ≠ 0 →
      sumsquare_getnum sq c2 ≠ 0 →
      (∀ sq2 : sumsquare, sq2.side = sq.side →
        sumsquare_getnum sq2 c1 = sumsquare_getnum sq c1 →
        sumsquare_getnum sq2 c2 = sumsquare_getnum sq c2 →
        ¬ magicsquare_checkequiv sq2 L = true) →
      ∃ c1 c2, c1 ≠ c2 ∧ sumsquare_getnum sq c1 ≠ 0 ∧ sumsquare_getnum sq c2 ≠ 0 ∧
        ∀ sq2 : sumsquare, sq2.side = sq.side →
          sumsquare_getnum sq2 c1 = sumsquare_getnum sq c1 →
          sumsquare_getnum sq2 c2 = sumsquare_getnum sq c2 →
          ¬ magicsquare_checkequiv sq2 L = true :=
    fun c1 c2 a b c d => ⟨c1, c2, a, b, c, d⟩
  have hne : ∀ c1 c2 : Nat, sumsquare_getnum sq c1 > sumsquare_getnum sq c2 → c1 ≠ c2 := by
    intro c1 c2 hgt e
    rw [e] at hgt
    exact Nat.lt_irrefl _ hgt
  by_cases p1a : sumsquare_getnum sq (CELLIDXFROMIJ 0 0 sq.side) ≠ 0 ∧
      sumsquare_getnum sq (CELLIDXFROMIJ 0 (sq.side - 1) sq.side) ≠ 0 ∧
      sumsquare_getnum sq (CELLIDXFROMIJ 0 0 sq.side)
        > sumsquare_getnum sq (CELLIDXFROMIJ 0 (sq.side - 1) sq.side)
  · refine key _ _ (hne _ _ p1a.2.2) p1a.1 p1a.2.1 ?_
    intro sq2 e0 e1 e2
    rw [checkequiv_iff, e0, e1, e2]
    intro hacc
    rcases hacc with hacc | hacc
    · omega
    · exact hacc.1 ⟨p1a.1, Or.inl p1a.2⟩
  by_cases p1b : sumsquare_getnum sq (CELLIDXFROMIJ 0 0 sq.side) ≠ 0 ∧
      sumsquare_getnum sq (CELLIDXFROMIJ (sq.side - 1) 0 sq.side) ≠ 0 ∧
      sumsquare_getnum sq (CELLIDXFROMIJ 0 0 sq.side)
        > sumsquare_getnum sq (CELLIDXFROMIJ (sq.side - 1) 0 sq.side)
  · refine key _ _ (hne _ _ p1b.2.2) p1b.1 p1b.2.1 ?_
    intro sq2 e0 e1 e2
    rw [checkequiv_iff, e0, e1, e2]
    intro hacc
    rcases hacc with hacc | hacc
    · omega
    · exact hacc.1 ⟨p1b.1, Or.inr (Or.inl p1b.2)⟩
  by_cases p1c : sumsquare_getnum sq (CELLIDXFROMIJ 0 0 sq.side) ≠ 0 ∧
      sumsquare_getnum sq (CELLIDXFROMIJ (sq.side - 1) (sq.side - 1) sq.side) ≠ 0 ∧
      sumsquare_getnum sq (CELLIDXFROMIJ 0 0 sq.side)
        > sumsquare_getnum sq (CELLIDXFROMIJ (sq.side - 1) (sq.side - 1) sq.side)
  · refine key _ _ (hne _ _ p1c.2.2) p1c.1 p1c.2.1 ?_
    intro sq2 e0 e1 e2
    rw [checkequiv_iff, e0, e1, e2]
    intro hacc
    rcases hacc with hacc | hacc
    · omega
    · exact hacc.1 ⟨p1c.1, Or.inr (Or.inr p1c.2)⟩
  have hL2 : ¬ L < 2 := by
    intro e
    apply h
    right
    exact ⟨fun hp => by
      rcases hp.2 with q | q | q
      · exact p1a ⟨hp.1, q⟩
      · exact p1b ⟨hp.1, q⟩
      · exact p1c ⟨hp.1, q⟩, Or.inl e⟩
  have hp1 : ¬ (sumsquare_getnum sq (CELLIDXFROMIJ 0 0 sq.side) ≠ 0 ∧
      ((sumsquare_getnum sq (CELLIDXFROMIJ 0 (sq.side - 1) sq.side) ≠ 0 ∧
          sumsquare_getnum sq (CELLIDXFROMIJ 0 0 sq.side)
            > sumsquare_getnum sq (CELLIDXFROMIJ 0 (sq.side - 1) sq.side)) ∨
        (sumsquare_getnum sq (CELLIDXFROMIJ (sq.side - 1) 0 sq.side) ≠ 0 ∧
          sumsquare_getnum sq (CELLIDXFROMIJ 0 0 sq.side)
            > sumsquare_getnum sq (CELLIDXFROMIJ (sq.side - 1) 0 sq.side)) ∨
        (sumsquare_getnum sq (CELLIDXFROMIJ (sq.side - 1) (sq.side - 1) sq.side) ≠ 0 ∧
          sumsquare_getnum sq (CELLIDXFROMIJ 0 0 sq.side)
            > sumsquare_getnum sq (CELLIDXFROMIJ (sq.side - 1) (sq.side - 1) sq.side)))) := by
    intro hp
    rcases hp.2 with q | q | q
    · exact p1a ⟨hp.1, q⟩
    · exact p1b ⟨hp.1, q⟩
    · exact p1c ⟨hp.1, q⟩
  by_cases p2 : sumsquare_getnum sq (CELLIDXFROMIJ 0 (sq.side - 1) sq.side) ≠ 0 ∧
      sumsquare_getnum sq (CELLIDXFROMIJ (sq.side - 1) 0 sq.side) ≠ 0 ∧
      sumsquare_getnum sq (CELLIDXFROMIJ 0 (sq.side - 1) sq.side) + 1
        > sumsquare_getnum sq (CELLIDXFROMIJ (sq.side - 1) 0 sq.side)
  · refine key _ _ hidx p2.1 p2.2.1 ?_
    intro sq2 e0 e1 e2
    rw [checkequiv_iff, e0, e1, e2]
    intro hacc
    rcases hacc with hacc | hacc
    · omega
    · rcases hacc.2 with q | q
      · omega
      · exact q.1 p2
  have hrest := h
  have h34 : ¬ (L < 3 ∨ sq.side < 4) := by
    intro e
    apply h
    right
    exact ⟨hp1, Or.inr ⟨p2, Or.inl e⟩⟩
  by_cases p3 : sumsquare_getnum sq (CELLIDXFROMIJ 1 1 sq.side) ≠ 0 ∧
      sumsquare_getnum sq (CELLIDXFROMIJ (sq.side - 1 - 1) (sq.side - 1 - 1) sq.side) ≠ 0 ∧
      sumsquare_getnum sq (CELLIDXFROMIJ 1 1 sq.side)
        > sumsquare_getnum sq (CELLIDXFROMIJ (sq.side - 1 - 1) (sq.side - 1 - 1) sq.side)
  · refine key _ _ (hne _ _ p3.2.2) p3.1 p3.2.1 ?_
    intro sq2 e0 e1 e2
    rw [checkequiv_iff, e0, e1, e2]
    intro hacc
    rcases hacc with hacc | hacc
    · omega
    · rcases hacc.2 with q | q
      · omega
      · rcases q.2 with q2 | q2
        · exact h34 q2
        · exact q2.1 p3
  have hL4 : ¬ L < 4 := by
    intro e
    apply h
    right
    exact ⟨hp1, Or.inr ⟨p2, Or.inr ⟨p3, Or.inl e⟩⟩⟩
  have hp4 : sumsquare_getnum sq (CELLIDXFROMIJ 0 0 sq.side) ≠ 0 ∧
      ((sumsquare_getnum sq (CELLIDXFROMIJ 1 1 sq.side) ≠ 0 ∧
          sumsquare_getnum sq (CELLIDXFROMIJ 0 0 sq.side)
            > sumsquare_getnum sq (CELLIDXFROMIJ 1 1 sq.side)) ∨
        (sumsquare_getnum sq (CELLIDXFROMIJ 1 (sq.side - 1 - 1) sq.side) ≠ 0 ∧
          sumsquare_getnum sq (CELLIDXFROMIJ 0 0 sq.side)
            > sumsquare_getnum sq (CELLIDXFROMIJ 1 (sq.side - 1 - 1) sq.side)) ∨
        (sumsquare_getnum sq (CELLIDXFROMIJ (sq.side - 1 - 1) 1 sq.side) ≠ 0 ∧
          sumsquare_getnum sq (CELLIDXFROMIJ 0 0 sq.side)
            > sumsquare_getnum sq (CELLIDXFROMIJ (sq.side - 1 - 1) 1 sq.side))) := by
    by_contra hn
    apply h
    right
    exact ⟨hp1, Or.inr ⟨p2, Or.inr ⟨p3, Or.inr hn⟩⟩⟩
  obtain ⟨hp40, hp4d⟩ := hp4
  rcases hp4d with q | q | q
  · refine key _ _ (hne _ _ q.2) hp40 q.1 ?_
    intro sq2 e0 e1 e2
    rw [checkequiv_iff, e0, e1, e2]
    intro hacc
    rcases hacc with hacc | hacc
    · omega
    · rcases hacc.2 with q1 | q1
      · omega
      · rcases q1.2 with q2 | q2
        · exact h34 q2
        · rcases q2.2 with q3 | q3
          · omega
          · exact q3 ⟨hp40, Or.inl q⟩
  · refine key _ _ (hne _ _ q.2) hp40 q.1 ?_
    intro sq2 e0 e1 e2
    rw [checkequiv_iff, e0, e1, e2]
    intro hacc
    rcases hacc with hacc | hacc
    · omega
    · rcases hacc.2 with q1 | q1
      · omega
      · rcases q1.2 with q2 | q2
        · exact h34 q2
        · rcases q2.2 with q3 | q3
          · omega
          · exact q3 ⟨hp40, Or.inr (Or.inl q)⟩
  · refine key _ _ (hne _ _ q.2) hp40 q.1 ?_
    intro sq2 e0 e1 e2
    rw [checkequiv_iff, e0, e1, e2]
    intro hacc
    rcases hacc with hacc | hacc
    · omega
    · rcases hacc.2 with q1 | q1
      · omega
      · rcases q1.2 with q2 | q2
        · exact h34 q2
        · rcases q2.2 with q3 | q3
          · omega
          · exact q3 ⟨hp40, Or.inr (Or.inr q)⟩



theorem Accepted_empty (N L : Nat) : Accepted N L (List.replicate (N * N) 0) := by
  unfold Accepted
  rw [checkequiv_iff]
  have h0 : ∀ c, sumsquare_getnum (squareOfGrid N (List.replicate (N * N) 0)) c = 0 := by
    intro c
    show (List.replicate (N * N) 0).getD c 0 = 0
    by_cases hc : c < (List.replicate (N * N) 0).length
    · rw [List.getD_eq_getElem _ _ hc]; simp
    · rw [List.getD_eq_default _ _ (by omega)]
  simp only [h0]
  simp

/-- C14: for every `N`, every filter level `L` in `0..4` and every grid `G` that
`magicsquare_checkequiv` accepts at level `L`, every grid obtained from `G` by clearing a
set of cells is accepted at level `L`; the empty grid is accepted at every level; and a
grid that is rejected holds two filled cells that by themselves cause the rejection. -/
theorem C14_clearing (N L : Nat) (g : List Nat) (_hL : L ≤ 4) :
    (Accepted N L g → ∀ cells, Accepted N L (clearCells cells g)) ∧
    Accepted N L (List.replicate (N * N) 0) ∧
    (¬ Accepted N L g →
      ∃ c1 c2, c1 ≠ c2 ∧ g.getD c1 0 ≠ 0 ∧ g.getD c2 0 ≠ 0 ∧
        ¬ Accepted N L (keepCells [c1, c2] g)) := by
  refine ⟨?_, Accepted_empty N L, ?_⟩
  · intro h cells
    exact checkequiv_mono N L _ g (clearCells_getD cells g) h
  · intro h
    obtain ⟨c1, c2, hne, h1, h2, hall⟩ := rejected_pair (squareOfGrid N g) L h
    refine ⟨c1, c2, hne, h1, h2, ?_⟩
    exact hall (squareOfGrid N (keepCells [c1, c2] g)) rfl
      (keepCells_getD [c1, c2] g c1 (by simp)) (keepCells_getD [c1, c2] g c2 (by simp))

theorem C14_clearing_witness :
    (4 ≤ 4) ∧
    (Accepted 4 4 [1, 2, 3, 4, 5, 6, 7, 8, 9, 10, 11, 12, 13, 14, 15, 16] →
      ∀ cells, Accepted 4 4
        (clearCells cells [1, 2, 3, 4, 5, 6, 7, 8, 9, 10, 11, 12, 13, 14, 15, 16])) ∧
    Accepted 4 4 (List.replicate (4 * 4) 0) ∧
    (¬ Accepted 4 4 [1, 2, 3, 4, 5, 6, 7, 8, 9, 10, 11, 12, 13, 14, 15, 16] →
      ∃ c1 c2, c1 ≠ c2 ∧
        [1, 2, 3, 4, 5, 6, 7, 8, 9, 10, 11, 12, 13, 14, 15, 16].getD c1 0 ≠ 0 ∧
        [1, 2, 3, 4, 5, 6, 7, 8, 9, 10, 11, 12, 13, 14, 15, 16].getD c2 0 ≠ 0 ∧
        ¬ Accepted 4 4
          (keepCells [c1, c2] [1, 2, 3, 4, 5, 6, 7, 8, 9, 10, 11, 12, 13, 14, 15, 16])) :=
  ⟨by decide, C14_clearing 4 4 [1, 2, 3, 4, 5, 6, 7, 8, 9, 10, 11, 12, 13, 14, 15, 16]
    (by decide)⟩

/-! ## The eight images of a grid and the levels 1 and 2 of the filter -/

theorem divmod_cell (N i j : Nat) (hj : j < N) : (i * N + j) % N = j ∧ (i * N + j) / N = i := by
  constructor
  · rw [Nat.add_comm, Nat.add_mul_mod_self_right, Nat.mod_eq_of_lt hj]
  · rw [Nat.add_comm, Nat.add_mul_div_right _ _ (by omega), Nat.div_eq_of_lt hj, Nat.zero_add]

theorem cell_lt (N i j : Nat) (hi : i < N) (hj : j < N) : i * N + j < N * N := by
  have := (cellidx_bound N i j hi hj).2
  unfold CELLIDXFROMIJ at this
  omega

theorem rotateGrid_cell (N : Nat) (g : List Nat) (i j : Nat) (hi : i < N) (hj : j < N) :
    (rotateGrid N g).getD (i * N + j) 0 = g.getD ((N - 1 - j) * N + i) 0 := by
  unfold rotateGrid
  rw [getD_map_range, if_pos (cell_lt N i j hi hj), (divmod_cell N i j hj).1,
    (divmod_cell N i j hj).2]

theorem transposeGrid_cell (N : Nat) (g : List Nat) (i j : Nat) (hi : i < N) (hj : j < N) :
    (transposeGrid N g).getD (i * N + j) 0 = g.getD (j * N + i) 0 := by
  unfold transposeGrid
  rw [getD_map_range, if_pos (cell_lt N i j hi hj), (divmod_cell N i j hj).1,
    (divmod_cell N i j hj).2]

/-- The corners of a rotated grid. -/
theorem rotateGrid_corners (N : Nat) (hN : 2 ≤ N) (g : List Nat) :
    (rotateGrid N g).getD (0 * N + 0) 0 = g.getD ((N - 1) * N + 0) 0 ∧
    (rotateGrid N g).getD (0 * N + (N - 1)) 0 = g.getD (0 * N + 0) 0 ∧
    (rotateGrid N g).getD ((N - 1) * N + 0) 0 = g.getD ((N - 1) * N + (N - 1)) 0 ∧
    (rotateGrid N g).getD ((N - 1) * N + (N - 1)) 0 = g.getD (0 * N + (N - 1)) 0 := by
  have e0 : N - 1 - 0 = N - 1 := by omega
  have e1 : N - 1 - (N - 1) = 0 := by omega
  refine ⟨?_, ?_, ?_, ?_⟩
  · rw [rotateGrid_cell N g 0 0 (by omega) (by omega), e0]
  · rw [rotateGrid_cell N g 0 (N - 1) (by omega) (by omega), e1]
  · rw [rotateGrid_cell N g (N - 1) 0 (by omega) (by omega), e0]
  · rw [rotateGrid_cell N g (N - 1) (N - 1) (by omega) (by omega), e1]

/-- The corners of a transposed grid. -/
theorem transposeGrid_corners (N : Nat) (hN : 2 ≤ N) (g : List Nat) :
    (transposeGrid N g).getD (0 * N + 0) 0 = g.getD (0 * N + 0) 0 ∧
    (transposeGrid N g).getD (0 * N + (N - 1)) 0 = g.getD ((N - 1) * N + 0) 0 ∧
    (transposeGrid N g).getD ((N - 1) * N + 0) 0 = g.getD (0 * N + (N - 1)) 0 ∧
    (transposeGrid N g).getD ((N - 1) * N + (N - 1)) 0 = g.getD ((N - 1) * N + (N - 1)) 0 := by
  refine ⟨?_, ?_, ?_, ?_⟩
  · rw [transposeGrid_cell N g 0 0 (by omega) (by omega)]
  · rw [transposeGrid_cell N g 0 (N - 1) (by omega) (by omega)]
  · rw [transposeGrid_cell N g (N - 1) 0 (by omega) (by omega)]
  · rw [transposeGrid_cell N g (N - 1) (N - 1) (by omega) (by omega)]

/-- At the levels 1 and 2 `magicsquare_checkequiv` looks at the four corners only. -/
theorem checkequiv_corners (N L : Nat) (hN : 2 ≤ N) (hL1 : 1 ≤ L) (hL2 : L ≤ 2)
    (h : List Nat) :
    magicsquare_checkequiv (squareOfGrid N h) L =
      cornerTest L (h.getD (0 * N + 0) 0) (h.getD (0 * N + (N - 1)) 0)
        (h.getD ((N - 1) * N + 0) 0) (h.getD ((N - 1) * N + (N - 1)) 0) := by
  unfold magicsquare_checkequiv cornerTest
  show (if L < 1 ∨ N < 2 then true else _) = _
  rw [if_neg (by omega)]
  show (if h.getD (0 * N + 0) 0 ≠ 0 ∧ _ then false else
    if L < 2 then true else
    if h.getD (0 * N + (N - 1)) 0 ≠ 0 ∧ h.getD ((N - 1) * N + 0) 0 ≠ 0 ∧ _ then false else
    if L < 3 ∨ N < 4 then true else _) = _
  rw [if_pos (Or.inl (by omega) : L < 3 ∨ N < 4)]
  rfl

theorem cornerTest2_iff (a b c d : Nat) (hb : b ≠ 0) (hc : c ≠ 0) (hd : d ≠ 0) :
    cornerTest 2 a b c d = true ↔ a ≤ b ∧ a ≤ c ∧ a ≤ d ∧ b < c := by
  unfold cornerTest
  split_ifs <;> simp <;> omega

theorem cornerTest1_iff (a b c d : Nat) (hb : b ≠ 0) (hc : c ≠ 0) (hd : d ≠ 0) :
    cornerTest 1 a b c d = true ↔ a ≤ b ∧ a ≤ c ∧ a ≤ d := by
  unfold cornerTest
  split_ifs <;> simp <;> omega



theorem nodup_getD_ne (g : List Nat) (hnd : g.Nodup) (i j : Nat) (hi : i < g.length)
    (hj : j < g.length) (hij : i ≠ j) : g.getD i 0 ≠ g.getD j 0 := by
  rw [getD_eq_getElem' g i hi, getD_eq_getElem' g j hj]
  intro e
  exact hij ((List.Nodup.getElem_inj_iff hnd).mp e)

theorem getD_mem_ne_zero (g : List Nat) (hfull : ∀ x ∈ g, x ≠ 0) (i : Nat)
    (hi : i < g.length) : g.getD i 0 ≠ 0 := by
  rw [getD_eq_getElem' g i hi]
  exact hfull _ (List.getElem_mem hi)

theorem corner_count (a b c d : Nat) (hab : a ≠ b) (hac : a ≠ c) (had : a ≠ d)
    (hbc : b ≠ c) (hbd : b ≠ d) (hcd : c ≠ d) :
    ((((((((0 + if c ≤ d ∧ c ≤ a ∧ c ≤ b ∧ d < a then 1 else 0) +
        if d ≤ b ∧ d ≤ c ∧ d ≤ a ∧ b < c then 1 else 0) +
        if b ≤ a ∧ b ≤ d ∧ b ≤ c ∧ a < d then 1 else 0) +
        if a ≤ c ∧ a ≤ b ∧ a ≤ d ∧ c < b then 1 else 0) +
        if b ≤ d ∧ b ≤ a ∧ b ≤ c ∧ d < a then 1 else 0) +
        if d ≤ c ∧ d ≤ b ∧ d ≤ a ∧ c < b then 1 else 0) +
        if c ≤ a ∧ c ≤ d ∧ c ≤ b ∧ a < d then 1 else 0) +
        if a ≤ b ∧ a ≤ c ∧ a ≤ d ∧ b < c then 1 else 0) = 1 ∧
    ((((((((0 + if c ≤ d ∧ c ≤ a ∧ c ≤ b then 1 else 0) +
        if d ≤ b ∧ d ≤ c ∧ d ≤ a then 1 else 0) +
        if b ≤ a ∧ b ≤ d ∧ b ≤ c then 1 else 0) +
        if a ≤ c ∧ a ≤ b ∧ a ≤ d then 1 else 0) +
        if b ≤ d ∧ b ≤ a ∧ b ≤ c then 1 else 0) +
        if d ≤ c ∧ d ≤ b ∧ d ≤ a then 1 else 0) +
        if c ≤ a ∧ c ≤ d ∧ c ≤ b then 1 else 0) +
        if a ≤ b ∧ a ≤ c ∧ a ≤ d then 1 else 0) = 2 := by
  have f1 : a ≤ b ↔ ¬ b ≤ a := by omega
  have f2 : a ≤ c ↔ ¬ c ≤ a := by omega
  have f3 : a ≤ d ↔ ¬ d ≤ a := by omega
  have f4 : b ≤ c ↔ ¬ c ≤ b := by omega
  have f5 : b ≤ d ↔ ¬ d ≤ b := by omega
  have f6 : c ≤ d ↔ ¬ d ≤ c := by omega
  have g1 : a < b ↔ ¬ b ≤ a := by omega
  have g2 : a < c ↔ ¬ c ≤ a := by omega
  have g3 : a < d ↔ ¬ d ≤ a := by omega
  have g4 : b < c ↔ ¬ c ≤ b := by omega
  have g5 : b < d ↔ ¬ d ≤ b := by omega
  have g6 : c < d ↔ ¬ d ≤ c := by omega
  have k1 : b < a ↔ b ≤ a := by omega
  have k2 : c < a ↔ c ≤ a := by omega
  have k3 : d < a ↔ d ≤ a := by omega
  have k4 : c < b ↔ c ≤ b := by omega
  have k5 : d < b ↔ d ≤ b := by omega
  have k6 : d < c ↔ d ≤ c := by omega
  simp only [f1, f2, f3, f4, f5, f6, g1, g2, g3, g4, g5, g6, k1, k2, k3, k4, k5, k6]
  have hmin : (¬ b ≤ a ∧ ¬ c ≤ a ∧ ¬ d ≤ a) ∨ (b ≤ a ∧ ¬ c ≤ b ∧ ¬ d ≤ b) ∨
      (c ≤ a ∧ c ≤ b ∧ ¬ d ≤ c) ∨ (d ≤ a ∧ d ≤ b ∧ d ≤ c) := by omega
  by_cases x1 : c ≤ b <;> by_cases x2 : d ≤ a <;>
    rcases hmin with ⟨h1, h2, h3⟩ | ⟨h1, h2, h3⟩ | ⟨h1, h2, h3⟩ | ⟨h1, h2, h3⟩ <;>
    first
    | (exfalso; omega)
    | simp [x1, x2, h1, h2, h3]

/-- C12: for every `N >= 2` and every completely filled `N x N` grid with pairwise
distinct entries, exactly one of its 8 images under the rotations and reflections of the
square is accepted by `magicsquare_checkequiv` at filter level 2, and exactly 2 of the 8
are accepted at filter level 1. -/
theorem C12_one_of_eight (N : Nat) (g : List Nat) (hN : 2 ≤ N) (hlen : g.length = N * N)
    (hnd : g.Nodup) (hfull : ∀ x ∈ g, x ≠ 0) :
    ((symmetriesOf N g).filter
      (fun h => magicsquare_checkequiv (squareOfGrid N h) 2)).length = 1 ∧
    ((symmetriesOf N g).filter
      (fun h => magicsquare_checkequiv (squareOfGrid N h) 1)).length = 2 := by
  have hmul : (N - 1) * 2 ≤ (N - 1) * N := Nat.mul_le_mul_left _ hN
  have hsq : (N - 1) * N + N = N * N := by
    have := Nat.succ_mul (N - 1) N
    rw [Nat.succ_eq_add_one, Nat.sub_add_cancel (by omega)] at this
    omega
  have i0 : 0 * N + 0 < g.length := by rw [hlen]; omega
  have i1 : 0 * N + (N - 1) < g.length := by rw [hlen]; omega
  have i2 : (N - 1) * N + 0 < g.length := by rw [hlen]; omega
  have i3 : (N - 1) * N + (N - 1) < g.length := by rw [hlen]; omega
  have ha := getD_mem_ne_zero g hfull _ i0
  have hb := getD_mem_ne_zero g hfull _ i1
  have hc := getD_mem_ne_zero g hfull _ i2
  have hd := getD_mem_ne_zero g hfull _ i3
  have hab := nodup_getD_ne g hnd _ _ i0 i1 (by omega)
  have hac := nodup_getD_ne g hnd _ _ i0 i2 (by omega)
  have had := nodup_getD_ne g hnd _ _ i0 i3 (by omega)
  have hbc := nodup_getD_ne g hnd _ _ i1 i2 (by omega)
  have hbd := nodup_getD_ne g hnd _ _ i1 i3 (by omega)
  have hcd := nodup_getD_ne g hnd _ _ i2 i3 (by omega)
  have R := rotateGrid_corners N hN
  have T := transposeGrid_corners N hN
  have C2 := checkequiv_corners N 2 hN (by omega) (by omega)
  have C1 := checkequiv_corners N 1 hN (by omega) (by omega)
  unfold symmetriesOf
  simp only [← List.countP_eq_length_filter, List.countP_cons, List.countP_nil, C2, C1,
    (R _).1, (R _).2.1, (R _).2.2.1, (R _).2.2.2, (T _).1, (T _).2.1, (T _).2.2.1, (T _).2.2.2]
  generalize g.getD (0 * N + 0) 0 = a at *
  generalize g.getD (0 * N + (N - 1)) 0 = b at *
  generalize g.getD ((N - 1) * N + 0) 0 = c at *
  generalize g.getD ((N - 1) * N + (N - 1)) 0 = d at *
  simp only [cornerTest2_iff _ _ _ _ hb hc hd, cornerTest2_iff _ _ _ _ ha hd hb,
    cornerTest2_iff _ _ _ _ hc hb ha, cornerTest2_iff _ _ _ _ hd ha hc,
    cornerTest2_iff _ _ _ _ hc hb hd, cornerTest2_iff _ _ _ _ ha hd hc,
    cornerTest2_iff _ _ _ _ hb hc ha, cornerTest2_iff _ _ _ _ hd ha hb,
    cornerTest1_iff _ _ _ _ hb hc hd, cornerTest1_iff _ _ _ _ ha hd hb,
    cornerTest1_iff _ _ _ _ hc hb ha, cornerTest1_iff _ _ _ _ hd ha hc,
    cornerTest1_iff _ _ _ _ hc hb hd, cornerTest1_iff _ _ _ _ ha hd hc,
    cornerTest1_iff _ _ _ _ hb hc ha, cornerTest1_iff _ _ _ _ hd ha hb]
  exact corner_count a b c d hab hac had hbc hbd hcd



theorem C12_one_of_eight_witness :
    (2 ≤ 3 ∧ [4, 9, 2, 3, 5, 7, 8, 1, 6].length = 3 * 3 ∧ [4, 9, 2, 3, 5, 7, 8, 1, 6].Nodup ∧
      ∀ x ∈ [4, 9, 2, 3, 5, 7, 8, 1, 6], x ≠ 0) ∧
    ((symmetriesOf 3 [4, 9, 2, 3, 5, 7, 8, 1, 6]).filter
      (fun h => magicsquare_checkequiv (squareOfGrid 3 h) 2)).length = 1 ∧
    ((symmetriesOf 3 [4, 9, 2, 3, 5, 7, 8, 1, 6]).filter
      (fun h => magicsquare_checkequiv (squareOfGrid 3 h) 1)).length = 2 :=
  ⟨by decide, C12_one_of_eight 3 [4, 9, 2, 3, 5, 7, 8, 1, 6] (by decide) (by decide)
    (by decide) (by decide)⟩

/-! ## Termination of the main loop -/

/-- Whatever the outer loop returns is the state left by a call of `magicsquare_setnext`
that found no candidate, with nothing removed from the positions pool. -/
theorem loop_result_terminal (L : Nat) (fd : Bool) (M : Int) :
    ∀ (fuel : Nat) (st r : magicsquare_state),
      magicsquare_generate_loop L fd M fuel st = some r →
      ∃ st1, (magicsquare_setnext st1 st1.pos).1 = 0 ∧
        (magicsquare_setnext st1 st1.pos).2 = r ∧ sortednlist_nremoved r.pl = 0 := by
  intro fuel
  induction fuel with
  | zero => intro st r h; simp [magicsquare_generate_loop] at h
  | succ f ih =>
    intro st r h
    rw [loop_succ] at h
    by_cases hn : (magicsquare_setnext st st.pos).1 ≠ 0
    · rw [if_pos hn] at h
      unfold magicsquare_generate_rest at h
      cases hi : magicsquare_generate_inner L fd M f (magicsquare_setnext st st.pos).2 with
      | none => rw [hi] at h; simp at h
      | some s2 =>
        rw [hi] at h
        exact ih _ _ h
    · rw [if_neg hn] at h
      unfold magicsquare_generate_back at h
      by_cases hz : sortednlist_nremoved (magicsquare_setnext st st.pos).2.pl = 0
      · rw [if_pos hz] at h
        have e := Option.some.inj h
        exact ⟨st, by simpa using hn, e, by rw [← e]; exact hz⟩
      · rw [if_neg hz] at h
        exact ih _ _ h

/-- C20: for every `N >= 1` with `N*N <= 255`, every filter level in `0..4` and either
forced-fill setting, the main loop of `magicsquare_generate` terminates: a number of
iterations (each one call of `magicsquare_setnext`) suffices for it to return, and it
returns from the state in which `magicsquare_setnext` found no candidate at the cursor and
the positions pool has nothing removed. -/
theorem C20_terminates (mem : magicsquare_mem) (N L : Nat) (fd : Bool) (hN1 : 1 ≤ N)
    (hN : N * N ≤ 255) (_hL : L ≤ 4) :
    ∃ (fuel0 : Nat) (st : magicsquare_state),
      (∀ fuel, fuel0 ≤ fuel →
        magicsquare_generate_loop L fd ((N * (N * N + 1) / 2 : Nat) : Int) fuel
          (magicsquare_start mem N) = some st) ∧
      (∃ st1, (magicsquare_setnext st1 st1.pos).1 = 0 ∧
        (magicsquare_setnext st1 st1.pos).2 = st) ∧
      sortednlist_nremoved st.pl = 0 := by
  obtain ⟨fuel0, E, h1, _, _⟩ := generate_spec mem N L fd hN1 hN
  have h0 := h1 fuel0 (Nat.le_refl _)
  unfold magicsquare_generate at h0
  simp only [Option.map_eq_some'] at h0
  obtain ⟨st, hst, _⟩ := h0
  obtain ⟨st1, t1, t2, t3⟩ := loop_result_terminal L fd _ fuel0 _ st hst
  refine ⟨fuel0, st, ?_, ⟨st1, t1, t2⟩, t3⟩
  intro fuel hf
  obtain ⟨n, rfl⟩ : ∃ n, fuel = fuel0 + n := ⟨fuel - fuel0, by omega⟩
  exact loop_mono_add L fd _ fuel0 _ st hst n

theorem C20_terminates_witness :
    (1 ≤ 4 ∧ 4 * 4 ≤ 255 ∧ 4 ≤ 4) ∧
    ∃ (fuel0 : Nat) (st : magicsquare_state),
      (∀ fuel, fuel0 ≤ fuel →
        magicsquare_generate_loop 4 true ((4 * (4 * 4 + 1) / 2 : Nat) : Int) fuel
          (magicsquare_start mem0 4) = some st) ∧
      (∃ st1, (magicsquare_setnext st1 st1.pos).1 = 0 ∧
        (magicsquare_setnext st1 st1.pos).2 = st) ∧
      sortednlist_nremoved st.pl = 0 :=
  ⟨by decide, C20_terminates mem0 4 4 true (by decide) (by decide) (by decide)⟩

/-! ## Order 4: the 32 images of a square and the level-4 test -/

/-- The level-4 test of `magicsquare_checkequiv` on an image of the grid `g` of side 4 reads
the corners and the four interior cells of the image. -/
theorem accepted_perm16 (i0 i1 i2 i3 i4 i5 i6 i7 i8 i9 i10 i11 i12 i13 i14 i15 : Nat)
    (g : List Nat) :
    magicsquare_checkequiv (squareOfGrid 4
      (applyPerm [i0, i1, i2, i3, i4, i5, i6, i7, i8, i9, i10, i11, i12, i13, i14, i15] g)) 4 =
      diagTest (g.getD i0 0) (g.getD i3 0) (g.getD i12 0) (g.getD i15 0) (g.getD i5 0)
        (g.getD i10 0) (g.getD i6 0) (g.getD i9 0) := rfl

/-- The 32 index lists, written out. -/
theorem group32_eq : group32 =
    [[0, 1, 2, 3, 4, 5, 6, 7, 8, 9, 10, 11, 12, 13, 14, 15],
     [0, 2, 1, 3, 8, 10, 9, 11, 4, 6, 5, 7, 12, 14, 13, 15],
     [5, 4, 7, 6, 1, 0, 3, 2, 13, 12, 15, 14, 9, 8, 11, 10],
     [5, 7, 4, 6, 13, 15, 12, 14, 1, 3, 0, 2, 9, 11, 8, 10],
     [12, 8, 4, 0, 13, 9, 5, 1, 14, 10, 6, 2, 15, 11, 7, 3],
     [12, 4, 8, 0, 14, 6, 10, 2, 13, 5, 9, 1, 15, 7, 11, 3],
     [9, 13, 1, 5, 8, 12, 0, 4, 11, 15, 3, 7, 10, 14, 2, 6],
     [9, 1, 13, 5, 11, 3, 15, 7, 8, 0, 12, 4, 10, 2, 14, 6],
     [15, 14, 13, 12, 11, 10, 9, 8, 7, 6, 5, 4, 3, 2, 1, 0],
     [15, 13, 14, 12, 7, 5, 6, 4, 11, 9, 10, 8, 3, 1, 2, 0],
     [10, 11, 8, 9, 14, 15, 12, 13, 2, 3, 0, 1, 6, 7, 4, 5],
     [10, 8, 11, 9, 2, 0, 3, 1, 14, 12, 15, 13, 6, 4, 7, 5],
     [3, 7, 11, 15, 2, 6, 10, 14, 1, 5, 9, 13, 0, 4, 8, 12],
     [3, 11, 7, 15, 1, 9, 5, 13, 2, 10, 6, 14, 0, 8, 4, 12],
     [6, 2, 14, 10, 7, 3, 15, 11, 4, 0, 12, 8, 5, 1, 13, 9],
     [6, 14, 2, 10, 4, 12, 0, 8, 7, 15, 3, 11, 5, 13, 1, 9],
     [0, 4, 8, 12, 1, 5, 9, 13, 2, 6, 10, 14, 3, 7, 11, 15],
     [0, 8, 4, 12, 2, 10, 6, 14, 1, 9, 5, 13, 3, 11, 7, 15],
     [5, 1, 13, 9, 4, 0, 12, 8, 7, 3, 15, 11, 6, 2, 14, 10],
     [5, 13, 1, 9, 7, 15, 3, 11, 4, 12, 0, 8, 6, 14, 2, 10],
     [3, 2, 1, 0, 7, 6, 5, 4, 11, 10, 9, 8, 15, 14, 13, 12],
     [3, 1, 2, 0, 11, 9, 10, 8, 7, 5, 6, 4, 15, 13, 14, 12],
     [6, 7, 4, 5, 2, 3, 0, 1, 14, 15, 12, 13, 10, 11, 8, 9],
     [6, 4, 7, 5, 14, 12, 15, 13, 2, 0, 3, 1, 10, 8, 11, 9],
     [15, 11, 7, 3, 14, 10, 6, 2, 13, 9, 5, 1, 12, 8, 4, 0],
     [15, 7, 11, 3, 13, 5, 9, 1, 14, 6, 10, 2, 12, 4, 8, 0],
     [10, 14, 2, 6, 11, 15, 3, 7, 8, 12, 0, 4, 9, 13, 1, 5],
     [10, 2, 14, 6, 8, 0, 12, 4, 11, 3, 15, 7, 9, 1, 13, 5],
     [12, 13, 14, 15, 8, 9, 10, 11, 4, 5, 6, 7, 0, 1, 2, 3],
     [12, 14, 13, 15, 4, 6, 5, 7, 8, 10, 9, 11, 0, 2, 1, 3],
     [9, 8, 11, 10, 13, 12, 15, 14, 1, 0, 3, 2, 5, 4, 7, 6],
     [9, 11, 8, 10, 1, 3, 0, 2, 13, 15, 12, 14, 5, 7, 4, 6]] := by
  decide

theorem group32_nodup : group32.Nodup := by
  rw [group32_eq]; decide

theorem group32_id : List.range 16 ∈ group32 := by
  rw [group32_eq]; decide

/-- The image of an image is an image. -/
theorem group32_closed : ∀ p ∈ group32, ∀ q ∈ group32, applyPerm q p ∈ group32 := by
  rw [group32_eq]; decide

/-- Every image can be undone by an image. -/
theorem group32_inv : ∀ p ∈ group32, ∃ q ∈ group32, applyPerm q p = List.range 16 := by
  rw [group32_eq]; decide

theorem group32_perm : ∀ p ∈ group32, p.Perm (List.range 16) := by
  rw [group32_eq]; decide

/-- An image carries each of the ten lines of the square onto one of the ten lines. -/
theorem group32_lines : ∀ p ∈ group32, ∀ l ∈ List.range 10, ∃ l2 ∈ List.range 10,
    ((lineCells 4 l).map (fun c => p.getD c 0)).Perm (lineCells 4 l2) := by
  rw [group32_eq]; decide


/-- The level-4 test on eight filled cells: the top-left corner is the least of the corners
and of the cells (1,1), (1,2), (2,1), the top-right corner is below the bottom-left one and
(1,1) is not above (2,2). -/
theorem diagTest_iff (a b c d e f x y : Nat) (ha : a ≠ 0) (hb : b ≠ 0) (hc : c ≠ 0)
    (hd : d ≠ 0) (he : e ≠ 0) (hf : f ≠ 0) (hx : x ≠ 0) (hy : y ≠ 0) :
    diagTest a b c d e f x y = true ↔
      a ≤ b ∧ a ≤ c ∧ a ≤ d ∧ b < c ∧ e ≤ f ∧ a ≤ e ∧ a ≤ x ∧ a ≤ y := by
  unfold diagTest
  simp only [ne_eq, ha, hb, hc, hd, he, hf, hx, hy, not_false_eq_true, true_and]
  split_ifs <;> simp <;> omega

/-- One of eight numbers is the least. -/
theorem min_of_eight (a b c d e f x y : Nat) :
    ∃ m, (m = a ∨ m = b ∨ m = c ∨ m = d ∨ m = e ∨ m = f ∨ m = x ∨ m = y) ∧
      m ≤ a ∧ m ≤ b ∧ m ≤ c ∧ m ≤ d ∧ m ≤ e ∧ m ≤ f ∧ m ≤ x ∧ m ≤ y := by
  have h2 : ∀ u v : Nat, ∃ m, (m = u ∨ m = v) ∧ m ≤ u ∧ m ≤ v := by
    intro u v
    rcases Nat.le_total u v with h | h
    · exact ⟨u, Or.inl rfl, le_refl _, h⟩
    · exact ⟨v, Or.inr rfl, h, le_refl _⟩
  obtain ⟨m1, e1, l1, l2⟩ := h2 a b
  obtain ⟨m2, e2, l3, l4⟩ := h2 c d
  obtain ⟨m3, e3, l5, l6⟩ := h2 e f
  obtain ⟨m4, e4, l7, l8⟩ := h2 x y
  obtain ⟨m5, e5, l9, l10⟩ := h2 m1 m2
  obtain ⟨m6, e6, l11, l12⟩ := h2 m3 m4
  obtain ⟨m, e7, l13, l14⟩ := h2 m5 m6
  refine ⟨m, ?_, by omega, by omega, by omega, by omega, by omega, by omega, by omega, by omega⟩
  omega

/-- Eight distinct nonzero numbers on the corners and the interior cells: exactly one of
the 32 arrangements that the images produce passes the level-4 test. -/
theorem diag_count (a b c d e f x y : Nat)
    (ha : a ≠ 0) (hb : b ≠ 0) (hc : c ≠ 0) (hd : d ≠ 0) (he : e ≠ 0) (hf : f ≠ 0)
    (hx : x ≠ 0) (hy : y ≠ 0)
    (nab : a ≠ b) (nac : a ≠ c) (nad : a ≠ d) (nae : a ≠ e)
    (naf : a ≠ f) (nax : a ≠ x) (nay : a ≠ y) (nbc : b ≠ c)
    (nbd : b ≠ d) (nbe : b ≠ e) (nbf : b ≠ f) (nbx : b ≠ x)
    (nby : b ≠ y) (ncd : c ≠ d) (nce : c ≠ e) (ncf : c ≠ f)
    (ncx : c ≠ x) (ncy : c ≠ y) (nde : d ≠ e) (ndf : d ≠ f)
    (ndx : d ≠ x) (ndy : d ≠ y) (nef : e ≠ f) (nex : e ≠ x)
    (ney : e ≠ y) (nfx : f ≠ x) (nfy : f ≠ y) (nxy : x ≠ y) :
    List.countP id
      [diagTest a b c d e f x y, diagTest a b c d f e y x, diagTest e x y f a d b c,
       diagTest e x y f d a c b, diagTest c a d b y x e f, diagTest c a d b x y f e,
       diagTest y e f x c b a d, diagTest y e f x b c d a, diagTest d c b a f e y x,
       diagTest d c b a e f x y, diagTest f y x e d a c b, diagTest f y x e a d b c,
       diagTest b d a c x y f e, diagTest b d a c y x e f, diagTest x f e y b c d a,
       diagTest x f e y c b a d, diagTest a c b d e f y x, diagTest a c b d f e x y,
       diagTest e y x f a d c b, diagTest e y x f d a b c, diagTest b a d c x y e f,
       diagTest b a d c y x f e, diagTest x e f y b c a d, diagTest x e f y c b d a,
       diagTest d b c a f e x y, diagTest d b c a e f y x, diagTest f x y e d a b c,
       diagTest f x y e a d c b, diagTest c d a b y x f e, diagTest c d a b x y e f,
       diagTest y f e x c b d a, diagTest y f e x b c a d] = 1 := by
  simp only [List.countP_cons, List.countP_nil, id, diagTest_iff, ha, hb, hc, hd, he, hf, hx,
    hy, ne_eq, not_false_eq_true]
  obtain ⟨m, hm, la, lb, lc, ld, le, lf, lx, ly⟩ := min_of_eight a b c d e f x y
  rcases hm with h | h | h | h | h | h | h | h
  · -- the least of the eight is a
    have kb1 : a ≤ b := h ▸ lb
    have kb2 : ¬ b ≤ a := fun hh => nab (Nat.le_antisymm kb1 hh)
    have kc1 : a ≤ c := h ▸ lc
    have kc2 : ¬ c ≤ a := fun hh => nac (Nat.le_antisymm kc1 hh)
    have kd1 : a ≤ d := h ▸ ld
    have kd2 : ¬ d ≤ a := fun hh => nad (Nat.le_antisymm kd1 hh)
    have ke1 : a ≤ e := h ▸ le
    have ke2 : ¬ e ≤ a := fun hh => nae (Nat.le_antisymm ke1 hh)
    have kf1 : a ≤ f := h ▸ lf
    have kf2 : ¬ f ≤ a := fun hh => naf (Nat.le_antisymm kf1 hh)
    have kx1 : a ≤ x := h ▸ lx
    have kx2 : ¬ x ≤ a := fun hh => nax (Nat.le_antisymm kx1 hh)
    have ky1 : a ≤ y := h ▸ ly
    have ky2 : ¬ y ≤ a := fun hh => nay (Nat.le_antisymm ky1 hh)
    rcases Nat.lt_or_gt_of_ne nbc with h1 | h1 <;>
      rcases Nat.lt_or_gt_of_ne nef with h2 | h2 <;>
      simp [kb1, kb2, kc1, kc2, kd1, kd2, ke1, ke2, kf1, kf2, kx1, kx2, ky1, ky2, h1, h2, Nat.le_of_lt h1, Nat.le_of_lt h2,
        Nat.lt_asymm h1, Nat.lt_asymm h2, Nat.not_le_of_gt h1, Nat.not_le_of_gt h2]
  · -- the least of the eight is b
    have ka1 : b ≤ a := h ▸ la
    have ka2 : ¬ a ≤ b := fun hh => nab (Nat.le_antisymm hh ka1)
    have kc1 : b ≤ c := h ▸ lc
    have kc2 : ¬ c ≤ b := fun hh => nbc (Nat.le_antisymm kc1 hh)
    have kd1 : b ≤ d := h ▸ ld
    have kd2 : ¬ d ≤ b := fun hh => nbd (Nat.le_antisymm kd1 hh)
    have ke1 : b ≤ e := h ▸ le
    have ke2 : ¬ e ≤ b := fun hh => nbe (Nat.le_antisymm ke1 hh)
    have kf1 : b ≤ f := h ▸ lf
    have kf2 : ¬ f ≤ b := fun hh => nbf (Nat.le_antisymm kf1 hh)
    have kx1 : b ≤ x := h ▸ lx
    have kx2 : ¬ x ≤ b := fun hh => nbx (Nat.le_antisymm kx1 hh)
    have ky1 : b ≤ y := h ▸ ly
    have ky2 : ¬ y ≤ b := fun hh => nby (Nat.le_antisymm ky1 hh)
    rcases Nat.lt_or_gt_of_ne nad with h1 | h1 <;>
      rcases Nat.lt_or_gt_of_ne nxy with h2 | h2 <;>
      simp [ka1, ka2, kc1, kc2, kd1, kd2, ke1, ke2, kf1, kf2, kx1, kx2, ky1, ky2, h1, h2, Nat.le_of_lt h1, Nat.le_of_lt h2,
        Nat.lt_asymm h1, Nat.lt_asymm h2, Nat.not_le_of_gt h1, Nat.not_le_of_gt h2]
  · -- the least of the eight is c
    have ka1 : c ≤ a := h ▸ la
    have ka2 : ¬ a ≤ c := fun hh => nac (Nat.le_antisymm hh ka1)
    have kb1 : c ≤ b := h ▸ lb
    have kb2 : ¬ b ≤ c := fun hh => nbc (Nat.le_antisymm hh kb1)
    have kd1 : c ≤ d := h ▸ ld
    have kd2 : ¬ d ≤ c := fun hh => ncd (Nat.le_antisymm kd1 hh)
    have ke1 : c ≤ e := h ▸ le
    have ke2 : ¬ e ≤ c := fun hh => nce (Nat.le_antisymm ke1 hh)
    have kf1 : c ≤ f := h ▸ lf
    have kf2 : ¬ f ≤ c := fun hh => ncf (Nat.le_antisymm kf1 hh)
    have kx1 : c ≤ x := h ▸ lx
    have kx2 : ¬ x ≤ c := fun hh => ncx (Nat.le_antisymm kx1 hh)
    have ky1 : c ≤ y := h ▸ ly
    have ky2 : ¬ y ≤ c := fun hh => ncy (Nat.le_antisymm ky1 hh)
    rcases Nat.lt_or_gt_of_ne nad with h1 | h1 <;>
      rcases Nat.lt_or_gt_of_ne nxy with h2 | h2 <;>
      simp [ka1, ka2, kb1, kb2, kd1, kd2, ke1, ke2, kf1, kf2, kx1, kx2, ky1, ky2, h1, h2, Nat.le_of_lt h1, Nat.le_of_lt h2,
        Nat.lt_asymm h1, Nat.lt_asymm h2, Nat.not_le_of_gt h1, Nat.not_le_of_gt h2]
  · -- the least of the eight is d
    have ka1 : d ≤ a := h ▸ la
    have ka2 : ¬ a ≤ d := fun hh => nad (Nat.le_antisymm hh ka1)
    have kb1 : d ≤ b := h ▸ lb
    have kb2 : ¬ b ≤ d := fun hh => nbd (Nat.le_antisymm hh kb1)
    have kc1 : d ≤ c := h ▸ lc
    have kc2 : ¬ c ≤ d := fun hh => ncd (Nat.le_antisymm hh kc1)
    have ke1 : d ≤ e := h ▸ le
    have ke2 : ¬ e ≤ d := fun hh => nde (Nat.le_antisymm ke1 hh)
    have kf1 : d ≤ f := h ▸ lf
    have kf2 : ¬ f ≤ d := fun hh => ndf (Nat.le_antisymm kf1 hh)
    have kx1 : d ≤ x := h ▸ lx
    have kx2 : ¬ x ≤ d := fun hh => ndx (Nat.le_antisymm kx1 hh)
    have ky1 : d ≤ y := h ▸ ly
    have ky2 : ¬ y ≤ d := fun hh => ndy (Nat.le_antisymm ky1 hh)
    rcases Nat.lt_or_gt_of_ne nbc with h1 | h1 <;>
      rcases Nat.lt_or_gt_of_ne nef with h2 | h2 <;>
      simp [ka1, ka2, kb1, kb2, kc1, kc2, ke1, ke2, kf1, kf2, kx1, kx2, ky1, ky2, h1, h2, Nat.le_of_lt h1, Nat.le_of_lt h2,
        Nat.lt_asymm h1, Nat.lt_asymm h2, Nat.not_le_of_gt h1, Nat.not_le_of_gt h2]
  · -- the least of the eight is e
    have ka1 : e ≤ a := h ▸ la
    have ka2 : ¬ a ≤ e := fun hh => nae (Nat.le_antisymm hh ka1)
    have kb1 : e ≤ b := h ▸ lb
    have kb2 : ¬ b ≤ e := fun hh => nbe (Nat.le_antisymm hh kb1)
    have kc1 : e ≤ c := h ▸ lc
    have kc2 : ¬ c ≤ e := fun hh => nce (Nat.le_antisymm hh kc1)
    have kd1 : e ≤ d := h ▸ ld
    have kd2 : ¬ d ≤ e := fun hh => nde (Nat.le_antisymm hh kd1)
    have kf1 : e ≤ f := h ▸ lf
    have kf2 : ¬ f ≤ e := fun hh => nef (Nat.le_antisymm kf1 hh)
    have kx1 : e ≤ x := h ▸ lx
    have kx2 : ¬ x ≤ e := fun hh => nex (Nat.le_antisymm kx1 hh)
    have ky1 : e ≤ y := h ▸ ly
    have ky2 : ¬ y ≤ e := fun hh => ney (Nat.le_antisymm ky1 hh)
    rcases Nat.lt_or_gt_of_ne nxy with h1 | h1 <;>
      rcases Nat.lt_or_gt_of_ne nad with h2 | h2 <;>
      simp [ka1, ka2, kb1, kb2, kc1, kc2, kd1, kd2, kf1, kf2, kx1, kx2, ky1, ky2, h1, h2, Nat.le_of_lt h1, Nat.le_of_lt h2,
        Nat.lt_asymm h1, Nat.lt_asymm h2, Nat.not_le_of_gt h1, Nat.not_le_of_gt h2]
  · -- the least of the eight is f
    have ka1 : f ≤ a := h ▸ la
    have ka2 : ¬ a ≤ f := fun hh => naf (Nat.le_antisymm hh ka1)
    have kb1 : f ≤ b := h ▸ lb
    have kb2 : ¬ b ≤ f := fun hh => nbf (Nat.le_antisymm hh kb1)
    have kc1 : f ≤ c := h ▸ lc
    have kc2 : ¬ c ≤ f := fun hh => ncf (Nat.le_antisymm hh kc1)
    have kd1 : f ≤ d := h ▸ ld
    have kd2 : ¬ d ≤ f := fun hh => ndf (Nat.le_antisymm hh kd1)
    have ke1 : f ≤ e := h ▸ le
    have ke2 : ¬ e ≤ f := fun hh => nef (Nat.le_antisymm hh ke1)
    have kx1 : f ≤ x := h ▸ lx
    have kx2 : ¬ x ≤ f := fun hh => nfx (Nat.le_antisymm kx1 hh)
    have ky1 : f ≤ y := h ▸ ly
    have ky2 : ¬ y ≤ f := fun hh => nfy (Nat.le_antisymm ky1 hh)
    rcases Nat.lt_or_gt_of_ne nxy with h1 | h1 <;>
      rcases Nat.lt_or_gt_of_ne nad with h2 | h2 <;>
      simp [ka1, ka2, kb1, kb2, kc1, kc2, kd1, kd2, ke1, ke2, kx1, kx2, ky1, ky2, h1, h2, Nat.le_of_lt h1, Nat.le_of_lt h2,
        Nat.lt_asymm h1, Nat.lt_asymm h2, Nat.not_le_of_gt h1, Nat.not_le_of_gt h2]
  · -- the least of the eight is x
    have ka1 : x ≤ a := h ▸ la
    have ka2 : ¬ a ≤ x := fun hh => nax (Nat.le_antisymm hh ka1)
    have kb1 : x ≤ b := h ▸ lb
    have kb2 : ¬ b ≤ x := fun hh => nbx (Nat.le_antisymm hh kb1)
    have kc1 : x ≤ c := h ▸ lc
    have kc2 : ¬ c ≤ x := fun hh => ncx (Nat.le_antisymm hh kc1)
    have kd1 : x ≤ d := h ▸ ld
    have kd2 : ¬ d ≤ x := fun hh => ndx (Nat.le_antisymm hh kd1)
    have ke1 : x ≤ e := h ▸ le
    have ke2 : ¬ e ≤ x := fun hh => nex (Nat.le_antisymm hh ke1)
    have kf1 : x ≤ f := h ▸ lf
    have kf2 : ¬ f ≤ x := fun hh => nfx (Nat.le_antisymm hh kf1)
    have ky1 : x ≤ y := h ▸ ly
    have ky2 : ¬ y ≤ x := fun hh => nxy (Nat.le_antisymm ky1 hh)
    rcases Nat.lt_or_gt_of_ne nef with h1 | h1 <;>
      rcases Nat.lt_or_gt_of_ne nbc with h2 | h2 <;>
      simp [ka1, ka2, kb1, kb2, kc1, kc2, kd1, kd2, ke1, ke2, kf1, kf2, ky1, ky2, h1, h2, Nat.le_of_lt h1, Nat.le_of_lt h2,
        Nat.lt_asymm h1, Nat.lt_asymm h2, Nat.not_le_of_gt h1, Nat.not_le_of_gt h2]
  · -- the least of the eight is y
    have ka1 : y ≤ a := h ▸ la
    have ka2 : ¬ a ≤ y := fun hh => nay (Nat.le_antisymm hh ka1)
    have kb1 : y ≤ b := h ▸ lb
    have kb2 : ¬ b ≤ y := fun hh => nby (Nat.le_antisymm hh kb1)
    have kc1 : y ≤ c := h ▸ lc
    have kc2 : ¬ c ≤ y := fun hh => ncy (Nat.le_antisymm hh kc1)
    have kd1 : y ≤ d := h ▸ ld
    have kd2 : ¬ d ≤ y := fun hh => ndy (Nat.le_antisymm hh kd1)
    have ke1 : y ≤ e := h ▸ le
    have ke2 : ¬ e ≤ y := fun hh => ney (Nat.le_antisymm hh ke1)
    have kf1 : y ≤ f := h ▸ lf
    have kf2 : ¬ f ≤ y := fun hh => nfy (Nat.le_antisymm hh kf1)
    have kx1 : y ≤ x := h ▸ lx
    have kx2 : ¬ x ≤ y := fun hh => nxy (Nat.le_antisymm hh kx1)
    rcases Nat.lt_or_gt_of_ne nef with h1 | h1 <;>
      rcases Nat.lt_or_gt_of_ne nbc with h2 | h2 <;>
      simp [ka1, ka2, kb1, kb2, kc1, kc2, kd1, kd2, ke1, ke2, kf1, kf2, kx1, kx2, h1, h2, Nat.le_of_lt h1, Nat.le_of_lt h2,
        Nat.lt_asymm h1, Nat.lt_asymm h2, Nat.not_le_of_gt h1, Nat.not_le_of_gt h2]

/-- Of the 32 images of a full square of side 4 with distinct numbers, exactly one passes
`magicsquare_checkequiv` at level 4. -/
theorem accepted_count (g : List Nat) (hlen : g.length = 16) (hnd : g.Nodup)
    (hfull : ∀ v ∈ g, v ≠ 0) :
    (group32.filter
      (fun p => magicsquare_checkequiv (squareOfGrid 4 (applyPerm p g)) 4)).length = 1 := by
  have nz : ∀ i, i < 16 → g.getD i 0 ≠ 0 := fun i hi => getD_mem_ne_zero g hfull i (by omega)
  have ne : ∀ i j, i < 16 → j < 16 → i ≠ j → g.getD i 0 ≠ g.getD j 0 :=
    fun i j hi hj hij => nodup_getD_ne g hnd i j (by omega) (by omega) hij
  have key : ∀ L : List (List Nat),
      (L.filter (fun p => magicsquare_checkequiv (squareOfGrid 4 (applyPerm p g)) 4)).length =
        List.countP id
          (L.map (fun p => magicsquare_checkequiv (squareOfGrid 4 (applyPerm p g)) 4)) := by
    intro L
    rw [← List.countP_eq_length_filter, List.countP_map]
    rfl
  rw [key, group32_eq]
  simp only [List.map_cons, List.map_nil, accepted_perm16]
  exact diag_count _ _ _ _ _ _ _ _ (nz 0 (by decide)) (nz 3 (by decide)) (nz 12 (by decide))
    (nz 15 (by decide)) (nz 5 (by decide)) (nz 10 (by decide)) (nz 6 (by decide))
    (nz 9 (by decide))
    (ne 0 3 (by decide) (by decide) (by decide)) (ne 0 12 (by decide) (by decide) (by decide))
    (ne 0 15 (by decide) (by decide) (by decide)) (ne 0 5 (by decide) (by decide) (by decide))
    (ne 0 10 (by decide) (by decide) (by decide)) (ne 0 6 (by decide) (by decide) (by decide))
    (ne 0 9 (by decide) (by decide) (by decide)) (ne 3 12 (by decide) (by decide) (by decide))
    (ne 3 15 (by decide) (by decide) (by decide)) (ne 3 5 (by decide) (by decide) (by decide))
    (ne 3 10 (by decide) (by decide) (by decide)) (ne 3 6 (by decide) (by decide) (by decide))
    (ne 3 9 (by decide) (by decide) (by decide)) (ne 12 15 (by decide) (by decide) (by decide))
    (ne 12 5 (by decide) (by decide) (by decide)) (ne 12 10 (by decide) (by decide) (by decide))
    (ne 12 6 (by decide) (by decide) (by decide)) (ne 12 9 (by decide) (by decide) (by decide))
    (ne 15 5 (by decide) (by decide) (by decide)) (ne 15 10 (by decide) (by decide) (by decide))
    (ne 15 6 (by decide) (by decide) (by decide)) (ne 15 9 (by decide) (by decide) (by decide))
    (ne 5 10 (by decide) (by decide) (by decide)) (ne 5 6 (by decide) (by decide) (by decide))
    (ne 5 9 (by decide) (by decide) (by decide)) (ne 10 6 (by decide) (by decide) (by decide))
    (ne 10 9 (by decide) (by decide) (by decide)) (ne 6 9 (by decide) (by decide) (by decide))

theorem applyPerm_getD (p g : List Nat) (c : Nat) (hc : c < p.length) :
    (applyPerm p g).getD c 0 = g.getD (p.getD c 0) 0 := by
  unfold applyPerm
  rw [List.getD_eq_getElem _ _ (by simpa using hc), List.getElem_map,
    List.getD_eq_getElem _ _ hc]

theorem applyPerm_comp (p q g : List Nat) (hq : ∀ i ∈ q, i < p.length) :
    applyPerm q (applyPerm p g) = applyPerm (applyPerm q p) g := by
  unfold applyPerm
  rw [List.map_map]
  apply List.map_congr_left
  intro i hi
  exact applyPerm_getD p g i (hq i hi)

theorem applyPerm_id (g : List Nat) (h : g.length = 16) : applyPerm (List.range 16) g = g := by
  unfold applyPerm
  apply List.ext_getElem
  · simp [h]
  · intro i h1 h2
    rw [List.getElem_map, List.getElem_range, List.getD_eq_getElem _ _ h2]

theorem group32_bounds (p : List Nat) (hp : p ∈ group32) :
    p.length = 16 ∧ p.Nodup ∧ ∀ i ∈ p, i < 16 := by
  have h := group32_perm p hp
  refine ⟨by rw [h.length_eq, List.length_range], h.nodup_iff.mpr (List.nodup_range 16), ?_⟩
  intro i hi
  exact List.mem_range.mp (h.mem_iff.mp hi)

theorem applyPerm_perm (p g : List Nat) (hp : p ∈ group32) (hg : g.length = 16) :
    (applyPerm p g).Perm g := by
  have h := (group32_perm p hp).map (fun i => g.getD i 0)
  have e := applyPerm_id g hg
  unfold applyPerm at e ⊢
  rw [e] at h
  exact h

/-- Each of the 32 images of a magic square of order 4 is a magic square. -/
theorem magic_applyPerm (p g : List Nat) (hp : p ∈ group32) (hm : IsMagicSquare 4 g) :
    IsMagicSquare 4 (applyPerm p g) := by
  have hlen : g.length = 16 := (magic_cells 4 g hm).1
  obtain ⟨hpl, -, -⟩ := group32_bounds p hp
  refine ⟨(applyPerm_perm p g hp hlen).trans hm.1, ?_⟩
  intro l hl
  obtain ⟨l2, hl2, hperm⟩ := group32_lines p hp l (List.mem_range.mpr (by omega))
  rw [← hm.2 l2 (by have := List.mem_range.mp hl2; omega)]
  unfold gridSum
  have e1 : (lineCells 4 l).map (fun c => ((applyPerm p g).getD c 0 : Int)) =
      ((lineCells 4 l).map (fun c => p.getD c 0)).map (fun i => (g.getD i 0 : Int)) := by
    rw [List.map_map]
    apply List.map_congr_left
    intro c hc
    have hc2 : c < 16 := by
      have := (List.mem_filter.mp hc).1
      simpa using this
    show ((applyPerm p g).getD c 0 : Int) = _
    rw [applyPerm_getD p g c (by omega)]
    rfl
  rw [e1]
  exact (hperm.map _).sum_eq

theorem applyPerm_inj (p q g : List Nat) (hp : p ∈ group32) (hq : q ∈ group32)
    (hlen : g.length = 16) (hnd : g.Nodup) (h : applyPerm p g = applyPerm q g) : p = q := by
  obtain ⟨hpl, -, hpb⟩ := group32_bounds p hp
  obtain ⟨hql, -, hqb⟩ := group32_bounds q hq
  apply List.ext_getElem (by omega)
  intro i h1 h2
  have e := congrArg (fun l => l.getD i 0) h
  simp only at e
  rw [applyPerm_getD p g i h1, applyPerm_getD q g i h2, List.getD_eq_getElem _ _ h1,
    List.getD_eq_getElem _ _ h2] at e
  by_contra hne
  exact nodup_getD_ne g hnd _ _ (by have := hpb _ (List.getElem_mem h1); omega)
    (by have := hqb _ (List.getElem_mem h2); omega) hne e

theorem magic_full (g : List Nat) (hm : IsMagicSquare 4 g) :
    g.length = 16 ∧ g.Nodup ∧ ∀ v ∈ g, v ≠ 0 := by
  refine ⟨(magic_cells 4 g hm).1, hm.1.nodup_iff.mpr (List.nodup_range' 1 _), ?_⟩
  intro v hv
  have := List.mem_range'_1.mp (hm.1.mem_iff.mp hv)
  omega

/-- Two accepted magic squares of order 4 of which one is an image of the other are the
same square. -/
theorem accepted_unique (g : List Nat) (hm : IsMagicSquare 4 g) (ha : Accepted 4 4 g)
    (r : List Nat) (hr : r ∈ group32) (har : Accepted 4 4 (applyPerm r g)) :
    applyPerm r g = g := by
  obtain ⟨hlen, hnd, hfull⟩ := magic_full g hm
  obtain ⟨c, hc⟩ := List.length_eq_one.mp (accepted_count g hlen hnd hfull)
  have h1 : r ∈ group32.filter
      (fun p => magicsquare_checkequiv (squareOfGrid 4 (applyPerm p g)) 4) :=
    List.mem_filter.mpr ⟨hr, har⟩
  have h2 : List.range 16 ∈ group32.filter
      (fun p => magicsquare_checkequiv (squareOfGrid 4 (applyPerm p g)) 4) :=
    List.mem_filter.mpr ⟨group32_id, by rw [applyPerm_id g hlen]; exact ha⟩
  rw [hc, List.mem_singleton] at h1 h2
  rw [h1, ← h2, applyPerm_id g hlen]

/-- Every magic square of order 4 is an image of an accepted magic square. -/
theorem accepted_exists (h : List Nat) (hm : IsMagicSquare 4 h) :
    ∃ g, IsMagicSquare 4 g ∧ Accepted 4 4 g ∧ ∃ q ∈ group32, applyPerm q g = h := by
  obtain ⟨hlen, hnd, hfull⟩ := magic_full h hm
  obtain ⟨p, hp⟩ := List.length_eq_one.mp (accepted_count h hlen hnd hfull)
  have hmem : p ∈ group32.filter
      (fun p => magicsquare_checkequiv (squareOfGrid 4 (applyPerm p h)) 4) := by
    rw [hp]; exact List.mem_singleton.mpr rfl
  obtain ⟨hpg, hacc⟩ := List.mem_filter.mp hmem
  obtain ⟨q, hq, hqp⟩ := group32_inv p hpg
  obtain ⟨hpl, -, -⟩ := group32_bounds p hpg
  refine ⟨applyPerm p h, magic_applyPerm p h hpg hm, hacc, q, hq, ?_⟩
  rw [applyPerm_comp p q h (fun i hi => by
    have := (group32_bounds q hq).2.2 i hi; omega), hqp, applyPerm_id h hlen]

/-- The magic squares of order 4 are 32 times as many as the accepted ones: if `E0` lists
the magic squares and `E4` the accepted magic squares, both without repetition, then `E0`
has 32 times the length of `E4`. -/
theorem order4_ratio_lists (E0 E4 : List (List Nat)) (h0 : E0.Nodup) (h4 : E4.Nodup)
    (m0 : ∀ g, g ∈ E0 ↔ IsMagicSquare 4 g)
    (m4 : ∀ g, g ∈ E4 ↔ IsMagicSquare 4 g ∧ Accepted 4 4 g) :
    E0.length = 32 * E4.length := by
  have hF : (E4.flatMap (fun g => group32.map (fun p => applyPerm p g))).Nodup := by
    rw [List.nodup_flatMap]
    refine ⟨?_, ?_⟩
    · intro g hg
      obtain ⟨hlen, hnd, -⟩ := magic_full g ((m4 g).mp hg).1
      exact List.Nodup.map_on (fun p hp q hq e => applyPerm_inj p q g hp hq hlen hnd e)
        group32_nodup
    · refine (List.pairwise_iff_forall_sublist.mpr ?_)
      intro g g2 hsub
      have hne : g ≠ g2 := (List.pairwise_iff_forall_sublist.mp h4) hsub
      have hg : g ∈ E4 := hsub.subset (by simp)
      have hg2 : g2 ∈ E4 := hsub.subset (by simp)
      intro x hx hx2
      obtain ⟨p, hp, rfl⟩ := List.mem_map.mp hx
      obtain ⟨p2, hp2, e⟩ := List.mem_map.mp hx2
      obtain ⟨mg, ag⟩ := (m4 g).mp hg
      obtain ⟨mg2, ag2⟩ := (m4 g2).mp hg2
      obtain ⟨q, hq, hqp⟩ := group32_inv p hp
      have hqb := (group32_bounds q hq).2.2
      have hpl := (group32_bounds p hp).1
      have hp2l := (group32_bounds p2 hp2).1
      have e2 : applyPerm (applyPerm q p2) g2 = g := by
        rw [← applyPerm_comp p2 q g2 (fun i hi => by have := hqb i hi; omega), e,
          applyPerm_comp p q g (fun i hi => by have := hqb i hi; omega), hqp,
          applyPerm_id g (magic_full g mg).1]
      have e3 := accepted_unique g2 mg2 ag2 (applyPerm q p2) (group32_closed p2 hp2 q hq)
        (by rw [e2]; exact ag)
      exact hne (by rw [← e2, e3])
  have hp : E0.Perm (E4.flatMap (fun g => group32.map (fun p => applyPerm p g))) := by
    refine length_eq_of_same_members _ _ h0 hF ?_
    intro h
    rw [m0 h, List.mem_flatMap]
    constructor
    · intro hm
      obtain ⟨g, mg, ag, q, hq, e⟩ := accepted_exists h hm
      exact ⟨g, (m4 g).mpr ⟨mg, ag⟩, List.mem_map.mpr ⟨q, hq, e⟩⟩
    · rintro ⟨g, hg, hx⟩
      obtain ⟨p, hp, rfl⟩ := List.mem_map.mp hx
      exact magic_applyPerm p g hp ((m4 g).mp hg).1
  rw [hp.length_eq, List.length_flatMap]
  have hc : ∀ L : List (List Nat),
      (L.map (fun g => (group32.map (fun p => applyPerm p g)).length)).sum = 32 * L.length := by
    intro L
    induction L with
    | nil => rfl
    | cons g t ih =>
      rw [List.map_cons, List.sum_cons, ih, List.length_map, List.length_cons]
      have : group32.length = 32 := by rw [group32_eq]; rfl
      omega
  exact hc E4

/-- The runs of `magicsquare_generate` for order 4 at the levels 0 and 4: whatever the
fuel, if both return, the first has emitted 32 times as many squares as the second. -/
theorem order4_ratio (mem mem2 : magicsquare_mem) (fd fd2 : Bool) (f0 f4 : Nat)
    (E0 E4 : List (List Nat)) (r0 : magicsquare_generate mem 4 0 fd f0 = some E0)
    (r4 : magicsquare_generate mem2 4 4 fd2 f4 = some E4) : E0.length = 32 * E4.length := by
  obtain ⟨k0, F0, a1, a2, a3⟩ := generate_spec mem 4 0 fd (by decide) (by decide)
  obtain ⟨k4, F4, b1, b2, b3⟩ := generate_spec mem2 4 4 fd2 (by decide) (by decide)
  have e0 : E0 = F0 := by
    have h1 := generate_mono mem 4 0 fd f0 (max f0 k0) E0 (le_max_left _ _) r0
    rw [a1 _ (le_max_right _ _)] at h1
    exact (Option.some.inj h1).symm
  have e4 : E4 = F4 := by
    have h1 := generate_mono mem2 4 4 fd2 f4 (max f4 k4) E4 (le_max_left _ _) r4
    rw [b1 _ (le_max_right _ _)] at h1
    exact (Option.some.inj h1).symm
  subst e0 e4
  exact order4_ratio_lists E0 E4 a2 b2
    (fun g => by rw [a3 g]; exact ⟨fun h => h.1, fun h => ⟨h, Accepted_zero 4 g⟩⟩) b3

/-! ## Printing: the fixed-width format -/

/-- The format on every number of a byte: with width 1 for the numbers below the base and
with width 2 for all of them, `sumsquare_printfixedwidth` writes as many bytes as the
width, and these, read as digits, give the number back. -/
theorem printfixedwidth_table : ∀ n, n < 256 → ∀ w, w < 3 →
    ¬ (1 ≤ w ∧ (n < 66 ∨ w = 2)) ∨
    (sumsquare_printfixedwidth n FIXEDWIDTH_BASE w).map
      (fun ch => (ch.length, readDigits FIXEDWIDTH_BASE ch)) = some (w, n) := by
  set_option maxRecDepth 100000 in decide

/-- The width that `sumsquare_fixedwidth` computes for the squares whose cell count fits a
byte. -/
theorem fixedwidth_table (N : Nat) (hN : N < 16) (g : List Nat) :
    sumsquare_fixedwidth (squareOfGrid N g) FIXEDWIDTH_BASE
      = some (if N * N < 66 then 1 else 2) := by
  have h : ∀ N, N < 16 → sumsquare_fixedwidth_loop (N * N + 1) FIXEDWIDTH_BASE
      (N * N / FIXEDWIDTH_BASE) 1 = some (if N * N < 66 then 1 else 2) := by decide
  exact h N hN

/-- The long format visits every cell, in ascending order. -/
theorem printreduced_cells_full : ∀ N, N < 16 →
    sumsquare_printreduced_cells N false = List.range (N * N) := by
  set_option maxRecDepth 100000 in decide

theorem printfixedwidth_cell (N x : Nat) (hN : N * N ≤ 255) (_h1 : 1 ≤ x) (h2 : x ≤ N * N) :
    ∃ ch, sumsquare_printfixedwidth x FIXEDWIDTH_BASE (if N * N < 66 then 1 else 2) = some ch ∧
      ch.length = (if N * N < 66 then 1 else 2) ∧ readDigits FIXEDWIDTH_BASE ch = x := by
  have hw : (if N * N < 66 then 1 else 2) < 3 := by split_ifs <;> omega
  rcases printfixedwidth_table x (by omega) _ hw with h | h
  · exfalso
    apply h
    split_ifs with hc
    · exact ⟨le_refl _, Or.inl (by omega)⟩
    · exact ⟨by omega, Or.inr rfl⟩
  · obtain ⟨ch, hch, e⟩ := Option.map_eq_some'.mp h
    have e1 := congrArg Prod.fst e
    have e2 := congrArg Prod.snd e
    exact ⟨ch, hch, e1, e2⟩

theorem printreduced_loop_chunks (sq : sumsquare) (base w : Nat) (P : List Nat → Nat → Prop) :
    ∀ cs : List Nat,
      (∀ c ∈ cs, ∃ ch, sumsquare_printfixedwidth (sumsquare_getnum sq c) base w = some ch ∧
        P ch c) →
      ∃ chunks : List (List Nat),
        sumsquare_printreduced_loop sq base w cs = some chunks.flatten ∧
        chunks.length = cs.length ∧
        ∀ i, i < cs.length → P (chunks.getD i []) (cs.getD i 0) := by
  intro cs
  induction cs with
  | nil => intro _; exact ⟨[], rfl, rfl, fun i hi => by simp at hi⟩
  | cons c cs ih =>
    intro h
    obtain ⟨ch, hch, hP⟩ := h c (List.mem_cons_self _ _)
    obtain ⟨chunks, e1, e2, e3⟩ := ih (fun d hd => h d (List.mem_cons_of_mem _ hd))
    refine ⟨ch :: chunks, ?_, by simp [e2], ?_⟩
    · simp only [sumsquare_printreduced_loop, hch, e1, List.flatten_cons]
    · intro i hi
      cases i with
      | zero => simpa using hP
      | succ i =>
        have := e3 i (by simpa using hi)
        simpa using this

theorem flatten_uniform_inj {α : Type} (w : Nat) :
    ∀ (L1 L2 : List (List α)), (∀ x ∈ L1, x.length = w) → (∀ x ∈ L2, x.length = w) →
      L1.length = L2.length → L1.flatten = L2.flatten → L1 = L2 := by
  intro L1
  induction L1 with
  | nil =>
    intro L2 _ _ hl _
    cases L2 with
    | nil => rfl
    | cons b t => simp at hl
  | cons a s ih =>
    intro L2 h1 h2 hl he
    cases L2 with
    | nil => simp at hl
    | cons b t =>
      rw [List.flatten_cons, List.flatten_cons] at he
      have hab : a.length = b.length := by
        rw [h1 a (List.mem_cons_self _ _), h2 b (List.mem_cons_self _ _)]
      obtain ⟨e1, e2⟩ := List.append_inj he hab
      rw [e1, ih t (fun x hx => h1 x (List.mem_cons_of_mem _ hx))
        (fun x hx => h2 x (List.mem_cons_of_mem _ hx)) (by simpa using hl) e2]

/-- The long format on a grid of side `N` with entries in `1..N*N`: the line is the
chunks of the cells one after the other and the newline; every chunk has the width of
`sumsquare_fixedwidth` and reads as the number of its cell. -/
theorem printreduced_chunks (N : Nat) (hN : N * N ≤ 255) (g : List Nat)
    (hlen : g.length = N * N) (hg : ∀ x ∈ g, 1 ≤ x ∧ x ≤ N * N) :
    ∃ chunks : List (List Nat),
      sumsquare_printreduced (squareOfGrid N g) false FIXEDWIDTH_BASE
        (if N * N < 66 then 1 else 2) = some (chunks.flatten ++ [10]) ∧
      chunks.length = N * N ∧
      ∀ c, c < N * N → (chunks.getD c []).length = (if N * N < 66 then 1 else 2) ∧
        readDigits FIXEDWIDTH_BASE (chunks.getD c []) = g.getD c 0 := by
  have h16 := lt16_of_sq N hN
  obtain ⟨chunks, e1, e2, e3⟩ := printreduced_loop_chunks (squareOfGrid N g) FIXEDWIDTH_BASE
    (if N * N < 66 then 1 else 2)
    (fun ch c => ch.length = (if N * N < 66 then 1 else 2) ∧
      readDigits FIXEDWIDTH_BASE ch = g.getD c 0) (List.range (N * N)) (by
      intro c hc
      have hc2 : c < g.length := by rw [hlen]; exact List.mem_range.mp hc
      have hx := hg (g.getD c 0) (by
        rw [List.getD_eq_getElem _ _ hc2]; exact List.getElem_mem _)
      obtain ⟨ch, a1, a2, a3⟩ := printfixedwidth_cell N (g.getD c 0) hN hx.1 hx.2
      exact ⟨ch, a1, a2, a3⟩)
  refine ⟨chunks, ?_, by simpa using e2, ?_⟩
  · unfold sumsquare_printreduced
    show Option.map _ (sumsquare_printreduced_loop (squareOfGrid N g) FIXEDWIDTH_BASE _
      (sumsquare_printreduced_cells N false)) = _
    rw [printreduced_cells_full N h16, e1]
    rfl
  · intro c hc
    have := e3 c (by simpa using hc)
    rw [show (List.range (N * N)).getD c 0 = c from by
      rw [List.getD_eq_getElem _ _ (by simpa using hc), List.getElem_range]] at this
    exact this

/-- C21: for every `N` with `N*N <= 255` and every grid `g` of side `N` with entries in
`1..N*N`, `sumsquare_fixedwidth` returns a width `w` and `sumsquare_printreduced` in the
long format (print style 2: `shortformat = 0`, base `FIXEDWIDTH_BASE`, that width) writes
one chunk per cell and the newline; every chunk has exactly `w` bytes and, read as digits
in base `FIXEDWIDTH_BASE`, gives the number of its cell; and a grid of the same kind with
the same output line is the same grid. -/
theorem C21_fixedwidth_roundtrip (N : Nat) (hN : N * N ≤ 255) (g : List Nat)
    (hlen : g.length = N * N) (hg : ∀ x ∈ g, 1 ≤ x ∧ x ≤ N * N) :
    ∃ (w : Nat) (chunks : List (List Nat)),
      sumsquare_fixedwidth (squareOfGrid N g) FIXEDWIDTH_BASE = some w ∧
      sumsquare_printreduced (squareOfGrid N g) false FIXEDWIDTH_BASE w
        = some (chunks.flatten ++ [10]) ∧
      chunks.length = N * N ∧
      (∀ c, c < N * N → (chunks.getD c []).length = w ∧
        readDigits FIXEDWIDTH_BASE (chunks.getD c []) = g.getD c 0) ∧
      ∀ g2 : List Nat, g2.length = N * N → (∀ x ∈ g2, 1 ≤ x ∧ x ≤ N * N) →
        sumsquare_printreduced (squareOfGrid N g2) false FIXEDWIDTH_BASE w
          = sumsquare_printreduced (squareOfGrid N g) false FIXEDWIDTH_BASE w →
        g2 = g := by
  have h16 := lt16_of_sq N hN
  obtain ⟨chunks, e1, e2, e3⟩ := printreduced_chunks N hN g hlen hg
  refine ⟨_, chunks, fixedwidth_table N h16 g, e1, e2, e3, ?_⟩
  intro g2 hlen2 hg2 heq
  obtain ⟨chunks2, f1, f2, f3⟩ := printreduced_chunks N hN g2 hlen2 hg2
  rw [e1, f1] at heq
  have hfl : chunks2.flatten = chunks.flatten :=
    List.append_cancel_right (Option.some.inj heq)
  have hch : chunks2 = chunks := by
    apply flatten_uniform_inj (if N * N < 66 then 1 else 2) _ _ _ _ (by rw [e2, f2]) hfl
    · intro x hx
      obtain ⟨i, hi, rfl⟩ := List.getElem_of_mem hx
      have := (f3 i (by rw [← f2]; exact hi)).1
      rwa [List.getD_eq_getElem _ _ hi] at this
    · intro x hx
      obtain ⟨i, hi, rfl⟩ := List.getElem_of_mem hx
      have := (e3 i (by rw [← e2]; exact hi)).1
      rwa [List.getD_eq_getElem _ _ hi] at this
  apply List.ext_getElem (by rw [hlen, hlen2])
  intro i h1 h2
  have a := (f3 i (by omega)).2
  have b := (e3 i (by omega)).2
  rw [hch, b, List.getD_eq_getElem _ _ h1, List.getD_eq_getElem _ _ h2] at a
  exact a.symm

theorem C21_fixedwidth_roundtrip_witness :
    (3 * 3 ≤ 255 ∧ loShu.length = 3 * 3 ∧ ∀ x ∈ loShu, 1 ≤ x ∧ x ≤ 3 * 3) ∧
    ∃ (w : Nat) (chunks : List (List Nat)),
      sumsquare_fixedwidth (squareOfGrid 3 loShu) FIXEDWIDTH_BASE = some w ∧
      sumsquare_printreduced (squareOfGrid 3 loShu) false FIXEDWIDTH_BASE w
        = some (chunks.flatten ++ [10]) ∧
      chunks.length = 3 * 3 ∧
      (∀ c, c < 3 * 3 → (chunks.getD c []).length = w ∧
        readDigits FIXEDWIDTH_BASE (chunks.getD c []) = loShu.getD c 0) ∧
      ∀ g2 : List Nat, g2.length = 3 * 3 → (∀ x ∈ g2, 1 ≤ x ∧ x ≤ 3 * 3) →
        sumsquare_printreduced (squareOfGrid 3 g2) false FIXEDWIDTH_BASE w
          = sumsquare_printreduced (squareOfGrid 3 loShu) false FIXEDWIDTH_BASE w →
        g2 = loShu :=
  ⟨⟨by decide, by decide, by decide⟩,
    C21_fixedwidth_roundtrip 3 (by decide) loShu (by decide) (by decide)⟩

/-- C27: `FIXEDWIDTH_BASE` is `sizeof(DIGITS)` = 66, one more than the 65 characters of the
alphabet, and for `n = 65` (with the width 2 of a square of order 9 or more)
`sumsquare_printfixedwidth` writes `DIGITS[0]` and then `DIGITS[65]`, the terminating NUL
of the string. -/
theorem C27_nul_written :
    FIXEDWIDTH_BASE = 66 ∧
    "0123456789ABCDEFGHIJKLMNOPQRSTUVWXYZ_abcdefghijklmnopqrstuvwxyz\x7b\x7d".length = 65 ∧
    DIGITS.getD 65 1 = 0 ∧
    sumsquare_fixedwidth (squareOfGrid 9 []) FIXEDWIDTH_BASE = some 2 ∧
    sumsquare_printfixedwidth 65 FIXEDWIDTH_BASE 2 = some [48, 0] := by
  decide

/-! ## Printing: the cells left out by the short format -/

theorem sum_agree_except (cs : List Nat) (f k : Nat → Int) (c : Nat) (hnd : cs.Nodup)
    (hc : c ∈ cs) (hag : ∀ x ∈ cs, x ≠ c → f x = k x)
    (hs : (cs.map f).sum = (cs.map k).sum) : f c = k c := by
  induction cs with
  | nil => simp at hc
  | cons a t ih =>
    rw [List.nodup_cons] at hnd
    simp only [List.map_cons, List.sum_cons] at hs
    by_cases hac : a = c
    · subst hac
      have ht : (t.map f).sum = (t.map k).sum := by
        congr 1
        apply List.map_congr_left
        intro x hx
        exact hag x (List.mem_cons_of_mem _ hx) (fun e => hnd.1 (e ▸ hx))
      rw [ht] at hs
      exact add_right_cancel hs
    · have hct : c ∈ t := by
        rcases List.mem_cons.mp hc with e | e
        · exact absurd e.symm hac
        · exact e
      have hfa : f a = k a := hag a (List.mem_cons_self _ _) hac
      rw [hfa] at hs
      exact ih hnd.2 hct (fun x hx hne => hag x (List.mem_cons_of_mem _ hx) hne)
        (add_left_cancel hs)

/-- Two grids with the same sum on line `l` that agree on all the cells of the line but
one agree on that cell too. -/
theorem line_agree (N l c0 : Nat) (g h : List Nat) (hc0 : c0 ∈ lineCells N l)
    (hs : gridSum g N l = gridSum h N l)
    (hag : ∀ c ∈ lineCells N l, c ≠ c0 → g.getD c 0 = h.getD c 0) :
    g.getD c0 0 = h.getD c0 0 := by
  have e : ((g.getD c0 0 : Nat) : Int) = ((h.getD c0 0 : Nat) : Int) :=
    sum_agree_except (lineCells N l) (fun c => (g.getD c 0 : Int))
      (fun c => (h.getD c 0 : Int)) c0 (lineCells_nodup N l) hc0
      (fun x hx hne => by simp only; rw [hag x hx hne]) hs
  exact Int.ofNat.inj e

theorem mem_row (N i c : Nat) (hi : i < N) :
    c ∈ lineCells N i ↔ c < N * N ∧ c / N = i := by
  rw [mem_lineCells]
  unfold lineHasCell
  simp [hi]

theorem mem_col (N j c : Nat) (hj : j < N) :
    c ∈ lineCells N (N + j) ↔ c < N * N ∧ c % N = j := by
  rw [mem_lineCells]
  unfold lineHasCell
  have h1 : ¬ N + j < N := by omega
  have h2 : N + j < N + N := by omega
  simp only [h1, h2, if_false, if_true, beq_iff_eq]
  constructor
  · rintro ⟨a, b⟩; exact ⟨a, by omega⟩
  · rintro ⟨a, b⟩; exact ⟨a, by omega⟩

theorem mem_anti (N c : Nat) :
    c ∈ lineCells N (N + N + 1) ↔ c < N * N ∧ c / N + c % N + 1 = N := by
  rw [mem_lineCells]
  unfold lineHasCell
  have h1 : ¬ N + N + 1 < N := by omega
  have h2 : ¬ N + N + 1 < N + N := by omega
  have h3 : ¬ N + N + 1 = N + N := by omega
  simp [h1, h2, h3]

theorem cell_eq_of_div_mod (N x c : Nat) (h1 : x / N = c / N) (h2 : x % N = c % N) : x = c := by
  rw [← Nat.div_add_mod x N, ← Nat.div_add_mod c N, h1, h2]

/-- The cells that the short format prints: all but the last row, the last column and the
second cell of the row before the last. -/
theorem mem_printreduced_cells_short (N : Nat) (hN : 1 ≤ N) (c : Nat) :
    c ∈ sumsquare_printreduced_cells N true ↔
      c < N * N ∧ c / N + 2 ≤ N ∧ c % N + 2 ≤ N ∧ ¬ (c / N + 2 = N ∧ c % N = 1) := by
  unfold sumsquare_printreduced_cells
  simp only [if_true, List.mem_flatMap, List.mem_map, List.mem_filter, List.mem_range,
    decide_eq_true_eq]
  have hm : ((N : Int) - 1).toNat = N - 1 := by omega
  rw [hm]
  constructor
  · rintro ⟨i, hi, j, ⟨hj, hne⟩, rfl⟩
    have hjN : j < N := by omega
    have hd : (i * N + j) / N = i := by
      rw [Nat.add_comm, Nat.add_mul_div_right _ _ (by omega : 0 < N), Nat.div_eq_of_lt hjN]
      omega
    have hmod : (i * N + j) % N = j := by
      rw [Nat.add_comm, Nat.add_mul_mod_self_right, Nat.mod_eq_of_lt hjN]
    rw [hd, hmod]
    refine ⟨?_, by omega, by omega, by omega⟩
    calc i * N + j < i * N + N := by omega
      _ = (i + 1) * N := by ring
      _ ≤ N * N := Nat.mul_le_mul_right _ (by omega)
  · rintro ⟨hc, h1, h2, h3⟩
    refine ⟨c / N, by omega, c % N, ⟨by omega, by omega⟩, ?_⟩
    rw [Nat.mul_comm]
    exact Nat.div_add_mod c N

/-- The cells left out by the short format are determined by the others: two grids of
side `N >= 3` with the same sum on every line that agree on the printed cells agree on
every cell. -/
theorem short_format_determines (N : Nat) (hN : 3 ≤ N) (g h : List Nat)
    (hs : ∀ l, l < N + N + 2 → gridSum g N l = gridSum h N l)
    (hag : ∀ c, c < N * N → c / N + 2 ≤ N → c % N + 2 ≤ N → ¬ (c / N + 2 = N ∧ c % N = 1) →
      g.getD c 0 = h.getD c 0) :
    ∀ c, c < N * N → g.getD c 0 = h.getD c 0 := by
  have hdiv : ∀ c, c < N * N → c / N < N := fun c hc =>
    (Nat.div_lt_iff_lt_mul (by omega)).mpr hc
  have hmod : ∀ c, c % N < N := fun c => Nat.mod_lt _ (by omega)
  -- the last column, above the row before the last
  have s1 : ∀ c, c < N * N → c / N + 3 ≤ N → c % N + 1 = N → g.getD c 0 = h.getD c 0 := by
    intro c hc h1 h2
    apply line_agree N (c / N) c g h ((mem_row N _ c (hdiv c hc)).mpr ⟨hc, rfl⟩)
      (hs _ (by have := hdiv c hc; omega))
    intro x hx hne
    obtain ⟨xi, hxi⟩ : ∃ xi : Nat, x / N = xi := ⟨_, rfl⟩
    obtain ⟨xj, hxj⟩ : ∃ xj : Nat, x % N = xj := ⟨_, rfl⟩
    obtain ⟨ci, hci⟩ : ∃ ci : Nat, c / N = ci := ⟨_, rfl⟩
    obtain ⟨cj, hcj⟩ : ∃ cj : Nat, c % N = cj := ⟨_, rfl⟩
    obtain ⟨hx1, hx2⟩ := (mem_row N _ x (hdiv c hc)).mp hx
    have : x % N ≠ c % N := fun e => hne (cell_eq_of_div_mod N x c hx2 e)
    have := hmod x
    exact hag x hx1 (by omega) (by omega) (by omega)
  -- the last row, outside the columns 1 and N-1
  have s2 : ∀ c, c < N * N → c / N + 1 = N → c % N + 2 ≤ N → c % N ≠ 1 →
      g.getD c 0 = h.getD c 0 := by
    intro c hc h1 h2 h3
    apply line_agree N (N + c % N) c g h ((mem_col N _ c (hmod c)).mpr ⟨hc, rfl⟩)
      (hs _ (by have := hmod c; omega))
    intro x hx hne
    obtain ⟨xi, hxi⟩ : ∃ xi : Nat, x / N = xi := ⟨_, rfl⟩
    obtain ⟨xj, hxj⟩ : ∃ xj : Nat, x % N = xj := ⟨_, rfl⟩
    obtain ⟨ci, hci⟩ : ∃ ci : Nat, c / N = ci := ⟨_, rfl⟩
    obtain ⟨cj, hcj⟩ : ∃ cj : Nat, c % N = cj := ⟨_, rfl⟩
    obtain ⟨hx1, hx2⟩ := (mem_col N _ x (hmod c)).mp hx
    have : x / N ≠ c / N := fun e => hne (cell_eq_of_div_mod N x c e hx2)
    have := hdiv x hx1
    exact hag x hx1 (by omega) (by omega) (by omega)
  -- the second cell of the row before the last, on the anti-diagonal
  have s3 : ∀ c, c < N * N → c / N + 2 = N → c % N = 1 → g.getD c 0 = h.getD c 0 := by
    intro c hc h1 h2
    apply line_agree N (N + N + 1) c g h ((mem_anti N c).mpr ⟨hc, by omega⟩)
      (hs _ (by omega))
    intro x hx hne
    obtain ⟨xi, hxi⟩ : ∃ xi : Nat, x / N = xi := ⟨_, rfl⟩
    obtain ⟨xj, hxj⟩ : ∃ xj : Nat, x % N = xj := ⟨_, rfl⟩
    obtain ⟨ci, hci⟩ : ∃ ci : Nat, c / N = ci := ⟨_, rfl⟩
    obtain ⟨cj, hcj⟩ : ∃ cj : Nat, c % N = cj := ⟨_, rfl⟩
    obtain ⟨hx1, hx2⟩ := (mem_anti N x).mp hx
    by_cases ha : x / N + 3 ≤ N
    · by_cases hb : x / N = 0
      · exact s1 x hx1 ha (by omega)
      · exact hag x hx1 (by omega) (by omega) (by omega)
    · by_cases hb : x / N + 1 = N
      · exact s2 x hx1 hb (by omega) (by omega)
      · exfalso
        exact hne (cell_eq_of_div_mod N x c (by omega) (by omega))
  -- the last cell of the row before the last
  have s4 : ∀ c, c < N * N → c / N + 2 = N → c % N + 1 = N → g.getD c 0 = h.getD c 0 := by
    intro c hc h1 h2
    apply line_agree N (c / N) c g h ((mem_row N _ c (hdiv c hc)).mpr ⟨hc, rfl⟩)
      (hs _ (by have := hdiv c hc; omega))
    intro x hx hne
    obtain ⟨xi, hxi⟩ : ∃ xi : Nat, x / N = xi := ⟨_, rfl⟩
    obtain ⟨xj, hxj⟩ : ∃ xj : Nat, x % N = xj := ⟨_, rfl⟩
    obtain ⟨ci, hci⟩ : ∃ ci : Nat, c / N = ci := ⟨_, rfl⟩
    obtain ⟨cj, hcj⟩ : ∃ cj : Nat, c % N = cj := ⟨_, rfl⟩
    obtain ⟨hx1, hx2⟩ := (mem_row N _ x (hdiv c hc)).mp hx
    have : x % N ≠ c % N := fun e => hne (cell_eq_of_div_mod N x c hx2 e)
    have := hmod x
    by_cases hb : x % N = 1
    · exact s3 x hx1 (by omega) hb
    · exact hag x hx1 (by omega) (by omega) (by omega)
  -- the second cell of the last row
  have s5 : ∀ c, c < N * N → c / N + 1 = N → c % N = 1 → g.getD c 0 = h.getD c 0 := by
    intro c hc h1 h2
    apply line_agree N (N + c % N) c g h ((mem_col N _ c (hmod c)).mpr ⟨hc, rfl⟩)
      (hs _ (by have := hmod c; omega))
    intro x hx hne
    obtain ⟨xi, hxi⟩ : ∃ xi : Nat, x / N = xi := ⟨_, rfl⟩
    obtain ⟨xj, hxj⟩ : ∃ xj : Nat, x % N = xj := ⟨_, rfl⟩
    obtain ⟨ci, hci⟩ : ∃ ci : Nat, c / N = ci := ⟨_, rfl⟩
    obtain ⟨cj, hcj⟩ : ∃ cj : Nat, c % N = cj := ⟨_, rfl⟩
    obtain ⟨hx1, hx2⟩ := (mem_col N _ x (hmod c)).mp hx
    have : x / N ≠ c / N := fun e => hne (cell_eq_of_div_mod N x c e hx2)
    have := hdiv x hx1
    by_cases hb : x / N + 2 = N
    · exact s3 x hx1 hb (by omega)
    · exact hag x hx1 (by omega) (by omega) (by omega)
  -- the last cell of the last row
  have s6 : ∀ c, c < N * N → c / N + 1 = N → c % N + 1 = N → g.getD c 0 = h.getD c 0 := by
    intro c hc h1 h2
    apply line_agree N (N + c % N) c g h ((mem_col N _ c (hmod c)).mpr ⟨hc, rfl⟩)
      (hs _ (by have := hmod c; omega))
    intro x hx hne
    obtain ⟨xi, hxi⟩ : ∃ xi : Nat, x / N = xi := ⟨_, rfl⟩
    obtain ⟨xj, hxj⟩ : ∃ xj : Nat, x % N = xj := ⟨_, rfl⟩
    obtain ⟨ci, hci⟩ : ∃ ci : Nat, c / N = ci := ⟨_, rfl⟩
    obtain ⟨cj, hcj⟩ : ∃ cj : Nat, c % N = cj := ⟨_, rfl⟩
    obtain ⟨hx1, hx2⟩ := (mem_col N _ x (hmod c)).mp hx
    have : x / N ≠ c / N := fun e => hne (cell_eq_of_div_mod N x c e hx2)
    have := hdiv x hx1
    by_cases hb : x / N + 2 = N
    · exact s4 x hx1 hb (by omega)
    · exact s1 x hx1 (by omega) (by omega)
  intro c hc
  obtain ⟨ci, hci⟩ : ∃ ci : Nat, c / N = ci := ⟨_, rfl⟩
  obtain ⟨cj, hcj⟩ : ∃ cj : Nat, c % N = cj := ⟨_, rfl⟩
  have hd := hdiv c hc
  have hm := hmod c
  by_cases r1 : c / N + 1 = N
  · by_cases c1 : c % N + 1 = N
    · exact s6 c hc r1 c1
    · by_cases c2 : c % N = 1
      · exact s5 c hc r1 c2
      · exact s2 c hc r1 (by omega) c2
  · by_cases c1 : c % N + 1 = N
    · by_cases r2 : c / N + 2 = N
      · exact s4 c hc r2 c1
      · exact s1 c hc (by omega) c1
    · by_cases r2 : c / N + 2 = N ∧ c % N = 1
      · exact s3 c hc r2.1 r2.2
      · exact hag c hc (by omega) (by omega) r2

/-- C22: for every `N >= 3`, the cells that `sumsquare_printreduced` leaves out in the
short format are the last column, the last row and the cell `(N-2,1)`, and in a magic
square they are determined by the printed ones: two magic squares of order `N` that agree
on every cell `(i,j)` with `i,j <= N-2` other than `(N-2,1)` are equal. -/
theorem C22_short_format_determined (N : Nat) (hN : 3 ≤ N) :
    (∀ c, c ∈ sumsquare_printreduced_cells N true ↔
      c < N * N ∧ c / N ≤ N - 2 ∧ c % N ≤ N - 2 ∧ ¬ (c / N = N - 2 ∧ c % N = 1)) ∧
    ∀ g h : List Nat, IsMagicSquare N g → IsMagicSquare N h →
      (∀ i j, i ≤ N - 2 → j ≤ N - 2 → ¬ (i = N - 2 ∧ j = 1) →
        g.getD (i * N + j) 0 = h.getD (i * N + j) 0) →
      g = h := by
  constructor
  · intro c
    rw [mem_printreduced_cells_short N (by omega) c]
    constructor
    · rintro ⟨a, b, d, e⟩
      exact ⟨a, by omega, by omega, by omega⟩
    · rintro ⟨a, b, d, e⟩
      exact ⟨a, by omega, by omega, by omega⟩
  · intro g h hg hh hag
    have hlg := (magic_cells N g hg).1
    have hlh := (magic_cells N h hh).1
    have key := short_format_determines N hN g h
      (fun l hl => by rw [hg.2 l hl, hh.2 l hl])
      (fun c hc h1 h2 h3 => by
        have := hag (c / N) (c % N) (by omega) (by omega) (by omega)
        rwa [Nat.mul_comm, Nat.div_add_mod] at this)
    apply List.ext_getElem (by rw [hlg, hlh])
    intro i h1 h2
    have := key i (by omega)
    rwa [List.getD_eq_getElem _ _ h1, List.getD_eq_getElem _ _ h2] at this

theorem C22_short_format_determined_witness :
    3 ≤ 3 ∧
    (∀ c, c ∈ sumsquare_printreduced_cells 3 true ↔
      c < 3 * 3 ∧ c / 3 ≤ 3 - 2 ∧ c % 3 ≤ 3 - 2 ∧ ¬ (c / 3 = 3 - 2 ∧ c % 3 = 1)) ∧
    ∀ g h : List Nat, IsMagicSquare 3 g → IsMagicSquare 3 h →
      (∀ i j, i ≤ 3 - 2 → j ≤ 3 - 2 → ¬ (i = 3 - 2 ∧ j = 1) →
        g.getD (i * 3 + j) 0 = h.getD (i * 3 + j) 0) →
      g = h :=
  ⟨by decide, C22_short_format_determined 3 (by decide)⟩

/-! ## The visiting order is a permutation of the positions -/

/-- The corners of the rings written out: the four corners of each of the `N/2` rings
that have four of them and, for odd `N`, the centre. -/
theorem cornerPositions_explicit : ∀ N, N < 16 →
    cornerPositions N =
      ((List.range (N / 2)).map (ringCorners N)).flatten ++
        (if N % 2 = 1 then [CELLIDXFROMIJ (N / 2) (N / 2) N + 1] else []) := by
  decide

theorem positionsOrder_perm (N : Nat) (hN1 : 1 ≤ N) (hN : N * N ≤ 255)
    (mem : sortednlist) : (positionsOrder N).Perm (List.range' 1 (N * N)) := by
  obtain ⟨hc, -⟩ := initpositionsorder_chain mem N hN1 hN
  obtain ⟨-, -, hnd, hb, -⟩ := hc
  refine (List.perm_ext_iff_of_nodup hnd (List.nodup_range' 1 _)).mpr ?_
  intro x
  rw [List.mem_range'_1]
  constructor
  · intro hx
    have := hb x hx
    omega
  · intro hx
    unfold positionsOrder
    rw [List.mem_append]
    by_cases hp : x ∈ cornerPositions N
    · exact Or.inl hp
    · exact Or.inr ((mem_restOf _ _ x).mpr ⟨⟨hx.1, by omega⟩, hp⟩)

/-- C23 (counterexample): for `N = 16` the size handed to `sortednlist_init` is `16*16`
cut to a byte, which is 0: the pool has size 0, the assertion `n < nl->size + 1` of the
first call `sortednlist_moveafter(pl, 1, 0)` fails, and the traversal of the pool, which
has no element, is not a permutation of `1..256`. -/
theorem C23_counterexample :
    (sortednlist_init mem0.plmem (16 * 16 % 256)).size = 0 ∧
    ¬ (CELLIDXFROMIJ 0 0 16 + 1 < (sortednlist_init mem0.plmem (16 * 16 % 256)).size + 1) ∧
    sortednlist_traversal
      (magicsquare_initpositionsorder (sortednlist_init mem0.plmem (16 * 16 % 256)) 16) = [] ∧
    ¬ (sortednlist_traversal
      (magicsquare_initpositionsorder (sortednlist_init mem0.plmem (16 * 16 % 256)) 16)).Perm
        (List.range' 1 (16 * 16)) := by
  have h3 : sortednlist_traversal
      (magicsquare_initpositionsorder (sortednlist_init mem0.plmem (16 * 16 % 256)) 16) = [] := by
    set_option maxRecDepth 100000 in decide
  refine ⟨by decide, by decide, h3, ?_⟩
  rw [h3]
  intro h
  have := h.length_eq
  simp at this

/-- C23 (amended): for every `N >= 1` with `N*N <= 255`, after `sortednlist_init(N*N)` and
`magicsquare_initpositionsorder` the traversal of the positions pool is a permutation of
`1..N*N`; it lists first the corners `(r,r)`, `(r,N-1-r)`, `(N-1-r,r)`, `(N-1-r,N-1-r)` of
the rings, ring after ring from `r = 0`, with the centre once for odd `N`, and then every
other position in ascending order. -/
theorem C23_positions_permutation (mem : sortednlist) (N : Nat) (hN1 : 1 ≤ N)
    (hN : N * N ≤ 255) :
    (sortednlist_traversal
      (magicsquare_initpositionsorder (sortednlist_init mem (N * N)) N)).Perm
        (List.range' 1 (N * N)) ∧
    sortednlist_traversal (magicsquare_initpositionsorder (sortednlist_init mem (N * N)) N) =
      (((List.range (N / 2)).map (ringCorners N)).flatten ++
        (if N % 2 = 1 then [CELLIDXFROMIJ (N / 2) (N / 2) N + 1] else [])) ++
      restOf (N * N) (((List.range (N / 2)).map (ringCorners N)).flatten ++
        (if N % 2 = 1 then [CELLIDXFROMIJ (N / 2) (N / 2) N + 1] else [])) := by
  obtain ⟨h1, h2⟩ := initpositionsorder_chain mem N hN1 hN
  have ht := traversal_of_chain _ _ _ h1 h2
  rw [ht]
  refine ⟨positionsOrder_perm N hN1 hN mem, ?_⟩
  rw [← cornerPositions_explicit N (lt16_of_sq N hN)]
  rfl

theorem C23_positions_permutation_witness :
    (1 ≤ 5 ∧ 5 * 5 ≤ 255) ∧
    ((sortednlist_traversal
      (magicsquare_initpositionsorder (sortednlist_init mem0.plmem (5 * 5)) 5)).Perm
        (List.range' 1 (5 * 5)) ∧
    sortednlist_traversal (magicsquare_initpositionsorder (sortednlist_init mem0.plmem (5 * 5)) 5)
      = (((List.range (5 / 2)).map (ringCorners 5)).flatten ++
        (if 5 % 2 = 1 then [CELLIDXFROMIJ (5 / 2) (5 / 2) 5 + 1] else [])) ++
      restOf (5 * 5) (((List.range (5 / 2)).map (ringCorners 5)).flatten ++
        (if 5 % 2 = 1 then [CELLIDXFROMIJ (5 / 2) (5 / 2) 5 + 1] else []))) ∧
    (((List.range (5 / 2)).map (ringCorners 5)).flatten ++
        (if 5 % 2 = 1 then [CELLIDXFROMIJ (5 / 2) (5 / 2) 5 + 1] else [])) ++
      restOf (5 * 5) (((List.range (5 / 2)).map (ringCorners 5)).flatten ++
        (if 5 % 2 = 1 then [CELLIDXFROMIJ (5 / 2) (5 / 2) 5 + 1] else [])) =
      [1, 5, 21, 25, 7, 9, 17, 19, 13, 2, 3, 4, 6, 8, 10, 11, 12, 14, 15, 16, 18, 20, 22, 23,
        24] :=
  ⟨by decide, C23_positions_permutation mem0.plmem 5 (by decide) (by decide), by decide⟩

/-! ## The sum bounds never discard a branch that can be completed -/

/-- The bounds tested by `magicsquare_checksums` hold on line `l` of the partial grid `P`
when a grid `g` completes it: `g` keeps the filled cells of `P`, puts distinct numbers of
the ascending list `A` in the empty ones, and its line `l` sums to `M`. -/
theorem pruning_sound_grid (N : Nat) (M : Int) (P g A : List Nat) (l : Nat)
    (hA : A.Pairwise (· < ·))
    (hfilled : ∀ c, c < N * N → P.getD c 0 ≠ 0 → g.getD c 0 = P.getD c 0)
    (havail : ∀ c, c < N * N → P.getD c 0 = 0 → g.getD c 0 ∈ A)
    (hinj : ∀ c d, c < N * N → d < N * N → P.getD c 0 = 0 → P.getD d 0 = 0 →
      g.getD c 0 = g.getD d 0 → c = d)
    (hsum : gridSum g N l = M) :
    lineOk N M P A l ∧ gridHoles P N l ≤ A.length := by
  have hcK : ∀ c ∈ lineCells N l, c < N * N := fun c hc => ((mem_lineCells N l c).mp hc).1
  have h1 : gridSum g N l = gridSum P N l +
      ((((lineCells N l).filter (fun c => P.getD c 0 == 0)).map
        (fun c => g.getD c 0)).sum : Nat) := by
    rw [gridSum_cast, gridSum_cast, ← Nat.cast_add]
    congr 1
    apply sum_split_zero
    intro c hc hne
    exact hfilled c (hcK c hc) hne
  have h2 : (((lineCells N l).filter (fun c => P.getD c 0 == 0)).map
      (fun c => g.getD c 0)).Nodup := by
    apply List.Nodup.map_on
    · intro c hc d hd e
      have hc2 : P.getD c 0 = 0 := by simpa using (List.mem_filter.mp hc).2
      have hd2 : P.getD d 0 = 0 := by simpa using (List.mem_filter.mp hd).2
      exact hinj c d (hcK c (List.mem_of_mem_filter hc)) (hcK d (List.mem_of_mem_filter hd))
        hc2 hd2 e
    · exact List.Nodup.filter _ (lineCells_nodup N l)
  have h3 : ∀ x ∈ ((lineCells N l).filter (fun c => P.getD c 0 == 0)).map
      (fun c => g.getD c 0), x ∈ A := by
    intro x hx
    obtain ⟨c, hc, e⟩ := List.mem_map.mp hx
    have hc2 : P.getD c 0 = 0 := by simpa using (List.mem_filter.mp hc).2
    rw [← e]
    exact havail c (hcK c (List.mem_of_mem_filter hc)) hc2
  have h4 : (((lineCells N l).filter (fun c => P.getD c 0 == 0)).map
      (fun c => g.getD c 0)).length = gridHoles P N l := by
    rw [List.length_map]; rfl
  have hlen : gridHoles P N l ≤ A.length := by
    rw [← h4]
    exact length_le_of_nodup_sub _ A h2 h3
  refine ⟨?_, hlen⟩
  rw [h1] at hsum
  unfold lineOk
  by_cases hz : gridHoles P N l = 0
  · rw [if_neg (by simpa using hz)]
    rw [hz] at h4
    have : ((lineCells N l).filter (fun c => P.getD c 0 == 0)).map (fun c => g.getD c 0) = [] :=
      List.length_eq_zero.mp h4
    rw [this] at hsum
    simpa using hsum
  · rw [if_pos (by simpa using hz)]
    have lo := sum_take_le_of_sub A _ hA h2 h3
    have hi := sum_le_take_of_sub A.reverse _ (List.pairwise_reverse.mpr hA) h2
      (fun x hx => List.mem_reverse.mpr (h3 x hx))
    rw [h4] at lo hi
    refine ⟨by omega, by omega, ?_⟩
    intro hone
    rw [hone] at h4
    have hs := single_of_length_one _ h4
    have hmem := h3 _ (by rw [hs]; exact List.mem_singleton_self _)
    have : (M - gridSum P N l).toNat
        = (((lineCells N l).filter (fun c => P.getD c 0 == 0)).map (fun c => g.getD c 0)).sum := by
      omega
    rw [this]
    exact hmem

/-- C25: the sum bounds never discard a branch that can be completed. For every square of
side `N` with exact line counters, every state of the numbers pool and every sums table of
size `N`: if some grid `g` keeps the filled cells, puts in the empty cells numbers that are
available in the pool, no number twice, and has every line summing to `M`, then
`magicsquare_checksums` returns pass. (That the placed numbers are the ones removed from
the pool is not needed.) -/
theorem C25_pruning_complete (N K : Nat) (M : Int) (sq : sumsquare) (nl : sortednlist)
    (sm : sortednlistsums) (hsq : SqInv sq N) (hN : N * N ≤ 255) (hK1 : 1 ≤ K) (hK : K ≤ 255)
    (hr : Reachable K nl) (hS : sm.size = N) (h1 : sm.minsums.length = N)
    (h2 : sm.maxsums.length = N) (g : List Nat)
    (hfilled : ∀ c, c < N * N → sumsquare_getnum sq c ≠ 0 →
      g.getD c 0 = sumsquare_getnum sq c)
    (havail : ∀ c, c < N * N → sumsquare_getnum sq c = 0 → g.getD c 0 ∈ availableOf nl K)
    (hinj : ∀ c d, c < N * N → d < N * N → sumsquare_getnum sq c = 0 →
      sumsquare_getnum sq d = 0 → g.getD c 0 = g.getD d 0 → c = d)
    (hsum : ∀ l, l < N + N + 2 → gridSum g N l = M) :
    (magicsquare_checksums sq nl sm M).1 = true := by
  obtain ⟨hC, _⟩ := reachable_chain K hK1 hK nl hr
  obtain ⟨_, _, _, _, g5⟩ := sortednlistsums_get_spec sm nl K (availableOf nl K) hC N hS h1 h2
  have hline : ∀ l, l < N + N + 2 →
      lineOk N M sq.nums (availableOf nl K) l ∧
        gridHoles sq.nums N l ≤ (availableOf nl K).length :=
    fun l hl => pruning_sound_grid N M sq.nums g (availableOf nl K) l
      (availableOf_sorted nl K) hfilled havail hinj (hsum l hl)
  have hgh : ∀ l, l < N + N + 2 →
      gridHoles sq.nums N l ≤ min N (availableOf nl K).length :=
    fun l hl => Nat.le_min.mpr ⟨gridHoles_le_N N _ l hN hl, (hline l hl).2⟩
  have key := checksums_loop_spec sq nl (sortednlistsums_get sm nl) M N K (availableOf nl K)
    hsq hC g5 hgh (N + N + 2) 0 (-1) (by omega)
  have hnl : sumsquare_nlines sq = N + N + 2 := hsq.2.1
  unfold magicsquare_checksums
  rw [hnl]
  exact key.1.mpr (fun l _ hl => (hline l hl).1)

theorem C25_pruning_complete_witness :
    (magicsquare_checksums (sumsquare_setnums (sumsquare_init mem0.sqmem 3) [(0, 2), (1, 9)])
      (sortednlist_remove (sortednlist_remove (sortednlist_init mem0.nlmem 9) 2).2 9).2
      (sortednlistsums_init mem0.smmem 3) 15).1 = true :=
  C25_pruning_complete 3 9 15 _ _ _
    (sumsquare_setnums_inv 3 (by decide) [(0, 2), (1, 9)] _
      (sumsquare_init_inv mem0.sqmem 3 (by decide)).1 (by decide))
    (by decide) (by decide) (by decide)
    (Reachable.remove _ 9 (Reachable.remove _ 2 (Reachable.init _) (by decide)) (by decide))
    (by decide) (by decide) (by decide) [2, 9, 4, 7, 5, 3, 6, 1, 8]
    (by decide) (by decide)
    (fun c d hc hd _ _ e => Classical.byContradiction (fun hne =>
      nodup_getD_ne [2, 9, 4, 7, 5, 3, 6, 1, 8] (by decide) c d hc hd hne e))
    (by decide)

/-! ## The array accesses of `magicsquare_checksums` are in range -/

theorem checksums_loop_checked_eq (sq : sumsquare) (nl : sortednlist) (sm : sortednlistsums)
    (msum : Int) (n : Nat) (hlc : sq.linecounts.length = n)
    (hidx : ∀ l, l < n → (sumsquare_getlinecount sq l).holes ≠ 0 →
      (sumsquare_getlinecount sq l).holes - 1 < sm.len ∧
      (sumsquare_getlinecount sq l).holes - 1 < sm.minsums.length ∧
      (sumsquare_getlinecount sq l).holes - 1 < sm.maxsums.length)
    (hnum : ∀ l, l < n → (sumsquare_getlinecount sq l).holes = 1 →
      ¬ (sumsquare_getlinecount sq l).sum + sm.minsums.getD 0 0 > msum →
      ¬ (sumsquare_getlinecount sq l).sum + sm.maxsums.getD 0 0 < msum →
      (sortednlist_first nl : Int) ≤ msum - (sumsquare_getlinecount sq l).sum ∧
      msum - (sumsquare_getlinecount sq l).sum ≤ (sortednlist_last nl : Int) ∧
      1 ≤ msum - (sumsquare_getlinecount sq l).sum ∧
      msum - (sumsquare_getlinecount sq l).sum ≤ (nl.size : Int)) :
    ∀ (k l : Nat) (ln : Int), l + k = n →
      magicsquare_checksums_loop_checked sq nl sm msum k l ln =
        some (magicsquare_checksums_loop sq nl sm msum k l ln) := by
  intro k
  induction k with
  | zero => intro l ln _; rfl
  | succ k ih =>
    intro l ln hl
    have hln : l < n := by omega
    have hl2 : l < sq.linecounts.length := by omega
    unfold magicsquare_checksums_loop_checked magicsquare_checksums_loop
    simp only [hl2, not_true_eq_false, if_false]
    by_cases hz : (sumsquare_getlinecount sq l).holes = 0
    · simp only [hz, ne_eq, not_true_eq_false, if_false]
      split_ifs <;> first | rfl | exact ih (l + 1) _ (by omega)
    · have hi := hidx l hln hz
      simp only [ne_eq, hz, not_false_eq_true, if_true, hi, and_self, not_true_eq_false,
        if_false]
      by_cases c1 : (sumsquare_getlinecount sq l).sum +
          sm.minsums.getD ((sumsquare_getlinecount sq l).holes - 1) 0 > msum
      · simp only [c1, if_true]
      · simp only [c1, if_false]
        by_cases c2 : (sumsquare_getlinecount sq l).sum +
            sm.maxsums.getD ((sumsquare_getlinecount sq l).holes - 1) 0 < msum
        · simp only [c2, if_true]
        · simp only [c2, if_false]
          by_cases h1 : (sumsquare_getlinecount sq l).holes = 1
          · have hn := hnum l hln h1 (by rw [h1] at c1; exact c1) (by rw [h1] at c2; exact c2)
            simp only [h1, if_true, hn, and_self, not_true_eq_false, if_false]
            split_ifs <;> first | rfl | exact ih (l + 1) _ (by omega)
          · simp only [h1, if_false]
            exact ih (l + 1) ln (by omega)

/-- C26: in `magicsquare_checksums`, on a square of side `N` with exact line counters, a
state of the numbers pool and a sums table of size `N`, whenever no line has more holes
than there are available numbers, every array access is in range: the run with checked
accesses gives the result of the function, so each line index is inside `linecounts`, each
index `holes - 1` into `minsums` and `maxsums` is below `len`, and whenever
`sortednlist_isremoved(nl, M - sum)` is evaluated, `M - sum` lies between the smallest and
the largest available number and in `1..size`. -/
theorem C26_checksums_in_range (N K : Nat) (M : Int) (sq : sumsquare) (nl : sortednlist)
    (sm : sortednlistsums) (hsq : SqInv sq N) (hN : N * N ≤ 255) (hK1 : 1 ≤ K) (hK : K ≤ 255)
    (hr : Reachable K nl) (hS : sm.size = N) (h1 : sm.minsums.length = N)
    (h2 : sm.maxsums.length = N)
    (hholes : ∀ l, l < N + N + 2 →
      (sumsquare_getlinecount sq l).holes ≤ (availableOf nl K).length) :
    magicsquare_checksums_checked sq nl sm M = some (magicsquare_checksums sq nl sm M) ∧
    (∀ x ∈ availableOf nl K, sortednlist_first nl ≤ x ∧ x ≤ sortednlist_last nl) ∧
    (availableOf nl K ≠ [] → 1 ≤ sortednlist_first nl ∧ sortednlist_last nl ≤ K) := by
  obtain ⟨hC, hsz, _⟩ := reachable_chain K hK1 hK nl hr
  obtain ⟨_, g2, g3, g4, g5⟩ :=
    sortednlistsums_get_spec sm nl K (availableOf nl K) hC N hS h1 h2
  have hfirst : sortednlist_first nl = (availableOf nl K).getD 0 0 := Chain_first _ K _ hC
  have hlast : sortednlist_last nl = (availableOf nl K).reverse.getD 0 0 := Chain_last _ K _ hC
  have hb : ∀ x ∈ availableOf nl K, sortednlist_first nl ≤ x ∧ x ≤ sortednlist_last nl := by
    intro x hx
    have := sorted_bounds _ (availableOf_sorted nl K) x hx
    rw [headD_eq_getD, getLastD_eq_reverse_getD] at this
    rw [hfirst, hlast]
    exact this
  have hne : availableOf nl K ≠ [] → 1 ≤ sortednlist_first nl ∧ sortednlist_last nl ≤ K := by
    intro hA
    obtain ⟨a, t, e⟩ := List.exists_cons_of_ne_nil hA
    have ha : a ∈ availableOf nl K := by rw [e]; exact List.mem_cons_self _ _
    have hf : sortednlist_first nl ∈ availableOf nl K := by
      rw [hfirst, e]; simp
    have hl : sortednlist_last nl ∈ availableOf nl K := by
      rw [hlast, ← headD_eq_getD]
      have : (availableOf nl K).reverse ≠ [] := by simpa using hA
      obtain ⟨b, u, e2⟩ := List.exists_cons_of_ne_nil this
      rw [e2]
      have : b ∈ (availableOf nl K).reverse := by rw [e2]; exact List.mem_cons_self _ _
      exact List.mem_reverse.mp this
    exact ⟨(hC.2.2.2.1 _ hf).1, (hC.2.2.2.1 _ hl).2⟩
  refine ⟨?_, hb, hne⟩
  have hhN : ∀ l, l < N + N + 2 → (sumsquare_getlinecount sq l).holes ≤ N := by
    intro l hl
    rw [(hsq.2.2.2.2.2.2.2.2 l hl).2]
    exact storedHoles_le sq N l hN hl
  have key := checksums_loop_checked_eq sq nl (sortednlistsums_get sm nl) M (N + N + 2)
    hsq.2.2.2.2.2.2.2.1
    (by
      intro l hl hz
      have a := hhN l hl
      have b := hholes l hl
      rw [g2, g3, g4]
      refine ⟨?_, by omega, by omega⟩
      have : (sumsquare_getlinecount sq l).holes ≤ min N (availableOf nl K).length :=
        Nat.le_min.mpr ⟨a, b⟩
      omega)
    (by
      intro l hl hone c1 c2
      have a := hhN l hl
      have b := hholes l hl
      rw [hone] at a b
      have hA : availableOf nl K ≠ [] := by
        intro e; rw [e] at b; simp at b
      obtain ⟨m1, m2⟩ := g5 1 (le_refl _) (Nat.le_min.mpr ⟨a, b⟩)
      rw [take_one_sum] at m1 m2
      simp only [Nat.sub_self] at m1 m2
      rw [m1, ← hfirst] at c1
      rw [m2, ← hlast] at c2
      obtain ⟨n1, n2⟩ := hne hA
      rw [hsz]
      omega)
    (N + N + 2) 0 (-1) (by omega)
  have hnl : sumsquare_nlines sq = N + N + 2 := hsq.2.1
  unfold magicsquare_checksums_checked magicsquare_checksums
  rw [hnl]
  simp only [key, Option.map_some']

theorem C26_checksums_in_range_witness :
    magicsquare_checksums_checked
        (sumsquare_setnums (sumsquare_init mem0.sqmem 3) [(0, 2), (1, 9)])
        (sortednlist_remove (sortednlist_remove (sortednlist_init mem0.nlmem 9) 2).2 9).2
        (sortednlistsums_init mem0.smmem 3) 15 =
      some (magicsquare_checksums
        (sumsquare_setnums (sumsquare_init mem0.sqmem 3) [(0, 2), (1, 9)])
        (sortednlist_remove (sortednlist_remove (sortednlist_init mem0.nlmem 9) 2).2 9).2
        (sortednlistsums_init mem0.smmem 3) 15) ∧
    (∀ x ∈ availableOf
        (sortednlist_remove (sortednlist_remove (sortednlist_init mem0.nlmem 9) 2).2 9).2 9,
      sortednlist_first
        (sortednlist_remove (sortednlist_remove (sortednlist_init mem0.nlmem 9) 2).2 9).2 ≤ x ∧
      x ≤ sortednlist_last
        (sortednlist_remove (sortednlist_remove (sortednlist_init mem0.nlmem 9) 2).2 9).2) ∧
    (availableOf
        (sortednlist_remove (sortednlist_remove (sortednlist_init mem0.nlmem 9) 2).2 9).2 9
        ≠ [] →
      1 ≤ sortednlist_first
        (sortednlist_remove (sortednlist_remove (sortednlist_init mem0.nlmem 9) 2).2 9).2 ∧
      sortednlist_last
        (sortednlist_remove (sortednlist_remove (sortednlist_init mem0.nlmem 9) 2).2 9).2
        ≤ 9) :=
  C26_checksums_in_range 3 9 15 _ _ _
    (sumsquare_setnums_inv 3 (by decide) [(0, 2), (1, 9)] _
      (sumsquare_init_inv mem0.sqmem 3 (by decide)).1 (by decide))
    (by decide) (by decide) (by decide)
    (Reachable.remove _ 9 (Reachable.remove _ 2 (Reachable.init _) (by decide)) (by decide))
    (by decide) (by decide) (by decide) (by decide)

/-! ## The assertions of the search hold in every state -/

theorem reach_placed (N : Nat) (plE nlE : List sortednlist_elem) (ord : List Nat)
    (ctx : SearchCtx N plE nlE ord) (st : magicsquare_state)
    (ih : ReachInv N plE nlE ord false st) (hnz : (magicsquare_setnext st st.pos).1 ≠ 0) :
    ReachInv N plE nlE ord true (magicsquare_setnext st st.pos).2 := by
  obtain ⟨fs, hrep, hok, hm⟩ := ih
  rcases hm with ⟨_, rest, hopen⟩ | ⟨fs0, f, rfl, hpos⟩
  · have hp : st.pos ∈ openOf ord fs := by rw [hopen]; simp
    have h1 := availOf_length N fs hok
    have h2 := openOf_length N plE nlE ord ctx fs hok
    rw [hopen, List.length_cons] at h2
    obtain ⟨v, rest2, hav⟩ : ∃ v rest2, availOf N fs = v :: rest2 := by
      cases h : availOf N fs with
      | nil => rw [h] at h1; simp at h1; omega
      | cons v rest2 => exact ⟨v, rest2, rfl⟩
    obtain ⟨s1, s2, s3, s4, s5, s6⟩ :=
      setnext_fresh N plE nlE ord ctx fs st hrep hok st.pos v rest2 hp hav
    exact ⟨_, s3, s4, Or.inr ⟨fs, _, rfl, s5⟩⟩
  · obtain ⟨p, v, d⟩ := f
    dsimp only at hpos
    rw [hpos] at hnz ⊢
    cases d with
    | true =>
      obtain ⟨s1, _⟩ := setnext_derived N plE nlE ord ctx fs0 st p v hrep hok
      exact absurd s1 hnz
    | false =>
      obtain ⟨hok0, _, hvn, _, _, hv1, hv2⟩ := FramesOk_snoc _ fs0 _ hok
      have hv : v ∈ availOf N fs0 := (mem_availOf N fs0 v).mpr ⟨⟨hv1, hv2⟩, hvn⟩
      obtain ⟨done, tail, hav⟩ := List.append_of_mem hv
      cases tail with
      | nil =>
        obtain ⟨s1, _⟩ := setnext_tried_last N plE nlE ord ctx fs0 st p v done hrep hok hav
        exact absurd s1 hnz
      | cons v2 rest =>
        obtain ⟨s1, s2, s3, s4, s5, s6⟩ :=
          setnext_tried_next N plE nlE ord ctx fs0 st p v v2 done rest hrep hok hav
        exact ⟨_, s3, s4, Or.inr ⟨fs0, _, rfl, by rw [s5, hpos]⟩⟩

theorem reach_back_rep (N : Nat) (plE nlE : List sortednlist_elem) (fs : List Frame)
    (st : magicsquare_state) (hrep : Rep N plE nlE fs st) (hok : FramesOk (N * N) fs)
    (hnr : sortednlist_nremoved st.pl ≠ 0) (ord : List Nat) :
    ReachInv N plE nlE ord false { st with pos := sortednlist_lastremoved st.pl } := by
  have hlen : st.pl.nremoved = fs.length := by
    have := hrep.2.1.2.1
    rwa [List.length_map] at this
  rcases List.eq_nil_or_concat fs with rfl | ⟨fs1, f1, rfl⟩
  · exact absurd hlen hnr
  · rw [List.concat_eq_append] at hrep hok
    obtain ⟨_, q2⟩ := Rep_lastremoved N plE nlE fs1 f1 st hrep
    exact ⟨_, Rep_with_pos N plE nlE _ st _ hrep, hok, Or.inr ⟨fs1, f1, rfl, q2⟩⟩

theorem reach_back (N : Nat) (plE nlE : List sortednlist_elem) (ord : List Nat)
    (ctx : SearchCtx N plE nlE ord) (st : magicsquare_state)
    (ih : ReachInv N plE nlE ord false st) (hz : (magicsquare_setnext st st.pos).1 = 0)
    (hnr : sortednlist_nremoved (magicsquare_setnext st st.pos).2.pl ≠ 0) :
    ReachInv N plE nlE ord false
      { (magicsquare_setnext st st.pos).2 with
        pos := sortednlist_lastremoved (magicsquare_setnext st st.pos).2.pl } := by
  obtain ⟨fs, hrep, hok, hm⟩ := ih
  rcases hm with ⟨_, rest, hopen⟩ | ⟨fs0, f, rfl, hpos⟩
  · have hp : st.pos ∈ openOf ord fs := by rw [hopen]; simp
    have h1 := availOf_length N fs hok
    have h2 := openOf_length N plE nlE ord ctx fs hok
    rw [hopen, List.length_cons] at h2
    obtain ⟨v, rest2, hav⟩ : ∃ v rest2, availOf N fs = v :: rest2 := by
      cases h : availOf N fs with
      | nil => rw [h] at h1; simp at h1; omega
      | cons v rest2 => exact ⟨v, rest2, rfl⟩
    obtain ⟨s1, s2, _⟩ :=
      setnext_fresh N plE nlE ord ctx fs st hrep hok st.pos v rest2 hp hav
    rw [s1] at hz
    exact absurd hz s2
  · obtain ⟨p, v, d⟩ := f
    dsimp only at hpos
    rw [hpos] at hz hnr ⊢
    obtain ⟨hok0, _, hvn, _, _, hv1, hv2⟩ := FramesOk_snoc _ fs0 _ hok
    cases d with
    | true =>
      obtain ⟨s1, s2, _⟩ := setnext_derived N plE nlE ord ctx fs0 st p v hrep hok
      exact reach_back_rep N plE nlE fs0 _ s2 hok0 hnr ord
    | false =>
      have hv : v ∈ availOf N fs0 := (mem_availOf N fs0 v).mpr ⟨⟨hv1, hv2⟩, hvn⟩
      obtain ⟨done, tail, hav⟩ := List.append_of_mem hv
      cases tail with
      | nil =>
        obtain ⟨s1, s2, _⟩ := setnext_tried_last N plE nlE ord ctx fs0 st p v done hrep hok hav
        exact reach_back_rep N plE nlE fs0 _ s2 hok0 hnr ord
      | cons v2 rest =>
        obtain ⟨s1, s2, _⟩ :=
          setnext_tried_next N plE nlE ord ctx fs0 st p v v2 done rest hrep hok hav
        rw [s1] at hz
        exact absurd hz s2

theorem reach_inner_frames (N : Nat) (plE nlE : List sortednlist_elem) (ord : List Nat)
    (st : magicsquare_state) (ih : ReachInv N plE nlE ord true st) :
    ∃ fs f, Rep N plE nlE (fs ++ [f]) st ∧ FramesOk (N * N) (fs ++ [f]) ∧ st.pos = f.pos := by
  obtain ⟨fs, hrep, hok, hm⟩ := ih
  rcases hm with ⟨hb, _⟩ | ⟨fs0, f, rfl, hpos⟩
  · exact absurd hb (by decide)
  · exact ⟨fs0, f, hrep, hok, hpos⟩

theorem reach_derived (N L : Nat) (fd : Bool) (plE nlE : List sortednlist_elem)
    (ord : List Nat) (ctx : SearchCtx N plE nlE ord) (st : magicsquare_state)
    (ih : ReachInv N plE nlE ord true st)
    (hpass : (magicsquare_checksums st.sq st.nl st.sm (magicSum N)).1 = true ∧
      magicsquare_checkequiv st.sq L = true)
    (h1 : fd = true ∧ (magicsquare_checksums st.sq st.nl st.sm (magicSum N)).2.1 > -1) :
    ∃ fs l, l < N + N + 2 ∧
      (magicsquare_checksums st.sq st.nl st.sm (magicSum N)).2.1.toNat = l ∧
      ((magicSum N - (sumsquare_getlinecount st.sq l).sum) % 256).toNat =
        (magicSum N - (sumsquare_getlinecount st.sq l).sum).toNat ∧
      Rep N plE nlE fs
        { st with sm := (magicsquare_checksums st.sq st.nl st.sm (magicSum N)).2.2,
                  pos := sumsquare_emptycell st.sq l + 1 } ∧
      FramesOk (N * N) (fs ++ [⟨sumsquare_emptycell st.sq l + 1,
        (magicSum N - (sumsquare_getlinecount st.sq l).sum).toNat, true⟩]) ∧
      Rep N plE nlE (fs ++ [⟨sumsquare_emptycell st.sq l + 1,
          (magicSum N - (sumsquare_getlinecount st.sq l).sum).toNat, true⟩])
        (magicsquare_insertderivednum
          { st with sm := (magicsquare_checksums st.sq st.nl st.sm (magicSum N)).2.2,
                    pos := sumsquare_emptycell st.sq l + 1 }
          (sumsquare_emptycell st.sq l + 1)
          (magicSum N - (sumsquare_getlinecount st.sq l).sum).toNat) := by
  obtain ⟨fs, f, hrep, hok, hpos⟩ := reach_inner_frames N plE nlE ord st ih
  obtain ⟨hc1, hc2, hc3⟩ := checksums_rep N plE nlE ord ctx (fs ++ [f]) st hrep hok
  have hlines := hc1.mp hpass.1
  obtain ⟨l, hl, hln, hh⟩ := hc2 hpass.1 h1.2
  have hlt : (magicsquare_checksums st.sq st.nl st.sm (magicSum N)).2.1.toNat = l := by
    rw [hln]; exact Int.toNat_natCast l
  obtain ⟨hokd, _⟩ :=
    derived_case N plE nlE ord ctx (fs ++ [f]) st hrep hok l hl hh (hlines l hl)
  obtain ⟨r1, r2, r3⟩ := insertderived_rep N plE nlE ord ctx (fs ++ [f])
    { st with sm := (magicsquare_checksums st.sq st.nl st.sm (magicSum N)).2.2,
              pos := sumsquare_emptycell st.sq l + 1 }
    (sumsquare_emptycell st.sq l + 1)
    ((magicSum N - (sumsquare_getlinecount st.sq l).sum).toNat)
    (Rep_with_pos N plE nlE (fs ++ [f]) _ _ hc3) hokd
  have hv : ((magicSum N - (sumsquare_getlinecount st.sq l).sum) % 256).toNat =
      (magicSum N - (sumsquare_getlinecount st.sq l).sum).toNat := by
    have hb := hokd.2.2 ⟨sumsquare_emptycell st.sq l + 1,
      (magicSum N - (sumsquare_getlinecount st.sq l).sum).toNat, true⟩ (by simp)
    have h255 := ctx.hN
    dsimp only at hb
    omega
  exact ⟨fs ++ [f], l, hl, hlt, hv, Rep_with_pos N plE nlE (fs ++ [f]) _ _ hc3, hokd, r1⟩

/-- Every state that the search goes through holds a list of placements. -/
theorem reach_inv (N L : Nat) (fd : Bool) (plE nlE : List sortednlist_elem) (ord : List Nat)
    (ctx : SearchCtx N plE nlE ord) (st0 : magicsquare_state)
    (h0 : ReachInv N plE nlE ord false st0) :
    ∀ (b : Bool) (st : magicsquare_state),
      magicsquare_reach L fd (magicSum N) st0 b st → ReachInv N plE nlE ord b st := by
  intro b st h
  induction h with
  | start => exact h0
  | placed st _ hnz ih => exact reach_placed N plE nlE ord ctx st ih hnz
  | back st _ hz hnr ih => exact reach_back N plE nlE ord ctx st ih hz hnr
  | failed st _ _ ih =>
    obtain ⟨fs, f, hrep, hok, hpos⟩ := reach_inner_frames N plE nlE ord st ih
    obtain ⟨_, _, hc3⟩ := checksums_rep N plE nlE ord ctx (fs ++ [f]) st hrep hok
    exact ⟨_, hc3, hok, Or.inr ⟨fs, f, rfl, hpos⟩⟩
  | emitted st _ _ _ ih =>
    obtain ⟨fs, f, hrep, hok, hpos⟩ := reach_inner_frames N plE nlE ord st ih
    obtain ⟨_, _, hc3⟩ := checksums_rep N plE nlE ord ctx (fs ++ [f]) st hrep hok
    exact ⟨_, Rep_with_emitted N plE nlE (fs ++ [f]) _ (st.emitted ++ [st.sq.nums]) hc3, hok,
      Or.inr ⟨fs, f, rfl, hpos⟩⟩
  | derived st _ hpass _ h1 ih =>
    obtain ⟨fs, l, _, hlt, hv, _, hokd, r1⟩ :=
      reach_derived N L fd plE nlE ord ctx st ih hpass h1
    rw [hlt, hv]
    exact ⟨_, r1, hokd, Or.inr ⟨fs, _, rfl, rfl⟩⟩
  | advanced st _ _ h0 _ ih =>
    obtain ⟨fs, f, hrep, hok, hpos⟩ := reach_inner_frames N plE nlE ord st ih
    obtain ⟨_, _, hc3⟩ := checksums_rep N plE nlE ord ctx (fs ++ [f]) st hrep hok
    obtain ⟨_, hf2⟩ := Rep_first_pl N plE nlE ord ctx (fs ++ [f]) st hrep hok
    obtain ⟨restp, hopen⟩ := hf2 h0
    exact ⟨_, Rep_with_pos N plE nlE (fs ++ [f]) _ _ hc3, hok, Or.inl ⟨rfl, restp, hopen⟩⟩

/-! ## From the placements to the assertions -/

theorem tag_consts : MAGSQ_EMPTYPOS ≠ MAGSQ_DERIVEDNUM ∧ MAGSQ_TRIEDNUM ≠ MAGSQ_DERIVEDNUM ∧
    MAGSQ_TRIEDNUM ≠ MAGSQ_EMPTYPOS ∧ MAGSQ_DERIVEDNUM ≠ MAGSQ_EMPTYPOS := by decide

/-- An open position: its tag and its cell are empty and the positions pool holds it. -/
theorem rep_open_facts (N : Nat) (plE nlE : List sortednlist_elem) (ord : List Nat)
    (ctx : SearchCtx N plE nlE ord) (fs : List Frame) (st : magicsquare_state)
    (hrep : Rep N plE nlE fs st) (hok : FramesOk (N * N) fs) (p : Nat) (hp1 : 1 ≤ p)
    (hp2 : p ≤ N * N) (hp : p ∉ fs.map Frame.pos) :
    st.numtypes.getD (p - 1) 0 = MAGSQ_EMPTYPOS ∧ sumsquare_getnum st.sq (p - 1) = 0 ∧
    sortednlist_isremoved st.pl p = false ∧ p < st.pl.size + 1 := by
  have hp3 : p - 1 + 1 ∉ fs.map Frame.pos := by rw [Nat.sub_add_cancel hp1]; exact hp
  refine ⟨?_, ?_, ?_, ?_⟩
  · rw [hrep.2.2.2.2.2.1 (p - 1) (by omega)]
    exact tagOf_none fs _ hp3
  · rw [hrep.2.2.2.1 (p - 1) (by omega)]
    exact cellOf_none fs _ hp3
  · rw [PoolRep_isremoved plE (N * N) ord ctx.hpl _ st.pl hrep.2.1 hok.1
      (ctx_pos_sub N plE nlE ord ctx fs hok) p hp2]
    exact (mem_openOf N plE nlE ord ctx fs p).mpr ⟨⟨hp1, hp2⟩, hp⟩
  · rw [hrep.2.1.1]; omega

/-- An available number: the numbers pool holds it. -/
theorem rep_avail_facts (N : Nat) (plE nlE : List sortednlist_elem) (ord : List Nat)
    (ctx : SearchCtx N plE nlE ord) (fs : List Frame) (st : magicsquare_state)
    (hrep : Rep N plE nlE fs st) (hok : FramesOk (N * N) fs) (v : Nat) (hv1 : 1 ≤ v)
    (hv2 : v ≤ N * N) (hv : v ∉ fs.map Frame.num) :
    sortednlist_isremoved st.nl v = false ∧ v < st.nl.size + 1 := by
  refine ⟨?_, ?_⟩
  · rw [PoolRep_isremoved nlE (N * N) _ ctx.hnl _ st.nl hrep.1 hok.2.1
      (ctx_num_sub N fs hok) v hv2]
    exact (mem_availOf N fs v).mpr ⟨⟨hv1, hv2⟩, hv⟩
  · rw [hrep.1.1]; omega

/-- The newest placement is on top of both undo stacks. -/
theorem rep_last_facts (N : Nat) (plE nlE : List sortednlist_elem) (ord : List Nat)
    (ctx : SearchCtx N plE nlE ord) (fs : List Frame) (f : Frame) (st : magicsquare_state)
    (hrep : Rep N plE nlE (fs ++ [f]) st) (hok : FramesOk (N * N) (fs ++ [f])) :
    st.numtypes.getD (f.pos - 1) 0 = (if f.derived then MAGSQ_DERIVEDNUM else MAGSQ_TRIEDNUM) ∧
    sumsquare_getnum st.sq (f.pos - 1) = f.num ∧ f.num ≠ 0 ∧
    sortednlist_nremoved st.nl ≠ 0 ∧ sortednlist_lastremoved st.nl = f.num ∧
    sortednlist_nremoved st.pl ≠ 0 ∧ sortednlist_lastremoved st.pl = f.pos := by
  obtain ⟨t1, t2⟩ := tried_reads N plE nlE ord ctx fs f st hrep hok
  obtain ⟨q1, q2⟩ := Rep_lastremoved N plE nlE fs f st hrep
  obtain ⟨_, _, _, _, _, hv1, _⟩ := FramesOk_snoc _ fs f hok
  obtain ⟨_, h3, _, h5, _⟩ := hrep.1
  rw [List.map_append, List.map_singleton, List.length_append, List.length_singleton,
    List.length_map] at h3 h5
  refine ⟨t1, t2, by omega, ?_, ?_, q1, q2⟩
  · unfold sortednlist_nremoved; omega
  · unfold sortednlist_lastremoved
    rw [h3]
    have := h5 fs.length (by omega)
    rw [Nat.add_sub_cancel, this]
    have e : (List.map Frame.num fs).length = fs.length := List.length_map _ _
    rw [← e, getD_append_length]

/-- A state that holds a list of placements is consistent. -/
theorem rep_invariant (N : Nat) (plE nlE : List sortednlist_elem) (ord : List Nat)
    (ctx : SearchCtx N plE nlE ord) (fs : List Frame) (st : magicsquare_state)
    (hrep : Rep N plE nlE fs st) (hok : FramesOk (N * N) fs) : magicsquare_invariant N st := by
  have hcell : ∀ c, c < N * N → sumsquare_getnum st.sq c = cellOf fs c := hrep.2.2.2.1
  have htag : ∀ c, c < N * N → st.numtypes.getD c 0 = tagOf fs c := hrep.2.2.2.2.2.1
  have hnlen : st.nl.nremoved = fs.length := by
    have := hrep.1.2.1; rwa [List.length_map] at this
  have hplen : st.pl.nremoved = fs.length := by
    have := hrep.2.1.2.1; rwa [List.length_map] at this
  refine ⟨?_, ?_, ?_, ?_, ?_⟩
  · intro c hc
    rw [hcell c hc, htag c hc]
    have hz := cellOf_zero_iff N fs hok c
    constructor
    · rcases cellOf_cases fs c with ⟨h1, h2⟩ | ⟨f, hf, hfp, hfc⟩
      · exact ⟨fun _ => h2, fun _ => tagOf_none fs c h1⟩
      · have ht := tagOf_mem fs f hf hok.1 c hfp.symm
        have hn := (hok.2.2 f hf).2.2.1
        constructor
        · intro h
          rw [ht] at h
          split_ifs at h
          · exact absurd h tag_consts.2.2.2
          · exact absurd h tag_consts.2.2.1
        · intro h
          rw [hfc] at h
          omega
    · rw [hz, PoolRep_isremoved plE (N * N) ord ctx.hpl _ st.pl hrep.2.1 hok.1
        (ctx_pos_sub N plE nlE ord ctx fs hok) (c + 1) (by omega)]
      show _ ↔ c + 1 ∈ openOf ord fs
      rw [mem_openOf N plE nlE ord ctx fs (c + 1)]
      constructor
      · intro h; exact ⟨⟨by omega, by omega⟩, h⟩
      · intro h; exact h.2
  · intro v hv1 hv2
    have hr := PoolRep_isremoved nlE (N * N) _ ctx.hnl _ st.nl hrep.1 hok.2.1
      (ctx_num_sub N fs hok) v hv2
    have hav := mem_availOf N fs v
    constructor
    · intro h
      have hin : v ∈ fs.map Frame.num := by
        by_contra hn
        have := hr.mpr (hav.mpr ⟨⟨hv1, hv2⟩, hn⟩)
        rw [h] at this
        exact absurd this (by decide)
      obtain ⟨f, hf, rfl⟩ := List.mem_map.mp hin
      have hb := hok.2.2 f hf
      refine ⟨f.pos - 1, by omega, ?_⟩
      rw [hcell _ (by omega)]
      exact cellOf_mem fs f hf hok.1 _ (by omega)
    · rintro ⟨c, hc, e⟩
      rw [hcell c hc] at e
      rcases cellOf_cases fs c with ⟨_, h2⟩ | ⟨f, hf, _, hfc⟩
      · omega
      · have hin : v ∈ fs.map Frame.num := List.mem_map.mpr ⟨f, hf, by rw [← e, hfc]⟩
        cases hb : sortednlist_isremoved st.nl v with
        | true => rfl
        | false => exact absurd (hav.mp (hr.mp hb)).2 (fun h => h hin)
  · unfold sortednlist_nremoved
    rw [hnlen, hplen]
  · intro i hi
    unfold sortednlist_nremoved at hi
    rw [hplen] at hi
    have e1 := hrep.2.1.2.2.2.1 i (by rw [List.length_map]; exact hi)
    have e2 := hrep.1.2.2.2.1 i (by rw [List.length_map]; exact hi)
    have hp : (fs.map Frame.pos).getD i 0 = (fs.get ⟨i, hi⟩).pos := by
      rw [List.getD_eq_getElem _ _ (by rw [List.length_map]; exact hi), List.getElem_map]
      rfl
    have hn : (fs.map Frame.num).getD i 0 = (fs.get ⟨i, hi⟩).num := by
      rw [List.getD_eq_getElem _ _ (by rw [List.length_map]; exact hi), List.getElem_map]
      rfl
    have hf : fs.get ⟨i, hi⟩ ∈ fs := List.get_mem _ _ _
    have hb := hok.2.2 _ hf
    rw [e1, e2, hp, hn]
    refine ⟨hb.1, hb.2.1, ?_⟩
    rw [hcell _ (by omega)]
    exact cellOf_mem fs _ hf hok.1 _ (by omega)
  · intro l hl
    have hC := Rep_nl_chain N plE nlE ord ctx fs st hrep hok
    obtain ⟨_, g2, _⟩ := sortednlistsums_get_spec st.sm st.nl (N * N) (availOf N fs) hC N
      hrep.2.2.2.2.2.2.1 hrep.2.2.2.2.2.2.2.1 hrep.2.2.2.2.2.2.2.2
    rw [g2, (hrep.2.2.1.2.2.2.2.2.2.2.2 l hl).2, storedHoles_eq]
    exact Nat.le_min.mpr ⟨gridHoles_le_N N _ l ctx.hN hl,
      gridHoles_le_avail N plE nlE ord ctx fs hok _ hcell l⟩

/-! ## The assertions at the top of the two loops -/

/-- At the top of the outer loop the assertions of the call of `magicsquare_setnext` hold,
and the cursor is a position of the square. -/
theorem reach_setnext_asserts (N : Nat) (plE nlE : List sortednlist_elem) (ord : List Nat)
    (ctx : SearchCtx N plE nlE ord) (st : magicsquare_state)
    (ih : ReachInv N plE nlE ord false st) :
    magicsquare_setnext_asserts st st.pos ∧ 1 ≤ st.pos ∧ st.pos ≤ N * N := by
  obtain ⟨fs, hrep, hok, hm⟩ := ih
  rcases hm with ⟨_, rest, hopen⟩ | ⟨fs0, f, rfl, hpos⟩
  · have hp : st.pos ∈ openOf ord fs := by rw [hopen]; simp
    obtain ⟨⟨hp1, hp2⟩, hp3⟩ := (mem_openOf N plE nlE ord ctx fs st.pos).mp hp
    obtain ⟨o1, o2, o3, o4⟩ := rep_open_facts N plE nlE ord ctx fs st hrep hok st.pos hp1 hp2 hp3
    refine ⟨?_, hp1, hp2⟩
    unfold magicsquare_setnext_asserts
    rw [if_neg (by rw [o1]; exact tag_consts.1)]
    refine ⟨fun h => absurd o2 h, ?_, fun _ h => absurd o2 h⟩
    intro _
    have h1 := availOf_length N fs hok
    have h2 := openOf_length N plE nlE ord ctx fs hok
    rw [hopen, List.length_cons] at h2
    obtain ⟨v, rest2, hav⟩ : ∃ v rest2, availOf N fs = v :: rest2 := by
      cases h : availOf N fs with
      | nil => rw [h] at h1; simp at h1; omega
      | cons v rest2 => exact ⟨v, rest2, rfl⟩
    obtain ⟨s1, _⟩ := setnext_fresh N plE nlE ord ctx fs st hrep hok st.pos v rest2 hp hav
    have hv := (mem_availOf N fs v).mp (by rw [hav]; simp)
    refine ⟨?_, fun _ => ⟨o1, o3, o4⟩⟩
    rw [s1, hrep.1.1]
    omega
  · obtain ⟨l1, l2, l3, l4, l5, l6, l7⟩ := rep_last_facts N plE nlE ord ctx fs0 f st hrep hok
    obtain ⟨hok0, _, hvn, hp1, hp2, hv1, hv2⟩ := FramesOk_snoc _ fs0 f hok
    rw [hpos]
    refine ⟨?_, hp1, hp2⟩
    obtain ⟨p, v, d⟩ := f
    dsimp only at l1 l2 l3 l5 l7 hvn hp1 hp2 hv1 hv2 hpos ⊢
    unfold magicsquare_setnext_asserts
    cases d with
    | true =>
      simp only [if_true] at l1
      rw [if_pos l1]
      exact ⟨l1, by rw [l2]; exact l3, l4, by rw [l5, l2], l6, l7.symm⟩
    | false =>
      simp only [Bool.false_eq_true, if_false] at l1
      rw [if_neg (by rw [l1]; exact tag_consts.2.1)]
      refine ⟨fun _ => by rw [l2, l5], ?_, fun _ _ => ⟨l1, l7.symm⟩⟩
      intro hnz
      refine ⟨?_, fun h0 => absurd (l2 ▸ h0) l3⟩
      have hv : v ∈ availOf N fs0 := (mem_availOf N fs0 v).mpr ⟨⟨hv1, hv2⟩, hvn⟩
      obtain ⟨done, tail, hav⟩ := List.append_of_mem hv
      cases tail with
      | nil =>
        obtain ⟨s1, _⟩ := setnext_tried_last N plE nlE ord ctx fs0 st p v done hrep hok hav
        exact absurd s1 hnz
      | cons v2 rest =>
        obtain ⟨s1, _⟩ :=
          setnext_tried_next N plE nlE ord ctx fs0 st p v v2 done rest hrep hok hav
        have hv2m := (mem_availOf N fs0 v2).mp (by rw [hav]; simp)
        rw [s1, hrep.1.1]
        omega

/-- At the top of the inner loop the assertion of `magicsquare_checksums` holds, and so do
those of `magicsquare_insertderivednum` when the turn inserts a derived number. -/
theorem reach_inner_asserts (N L : Nat) (fd : Bool) (plE nlE : List sortednlist_elem)
    (ord : List Nat) (ctx : SearchCtx N plE nlE ord) (st : magicsquare_state)
    (ih : ReachInv N plE nlE ord true st) :
    magicsquare_inner_asserts L fd (magicSum N) st := by
  obtain ⟨fs, f, hrep, hok, hpos⟩ := reach_inner_frames N plE nlE ord st ih
  refine ⟨?_, ?_⟩
  · intro l hl _
    have hnl : sumsquare_nlines st.sq = N + N + 2 := hrep.2.2.1.2.1
    rw [hnl] at hl
    exact (rep_invariant N plE nlE ord ctx _ st hrep hok).2.2.2.2 l hl
  · intro hpass _ h1
    obtain ⟨fs2, l, _, hlt, hv, r0, hokd, _⟩ :=
      reach_derived N L fd plE nlE ord ctx st ih hpass h1
    rw [hlt, hv]
    obtain ⟨hok2, hpn, hvn, hp1, hp2, hv1, hv2⟩ := FramesOk_snoc _ fs2 _ hokd
    dsimp only at hpn hvn hp1 hp2 hv1 hv2
    obtain ⟨o1, o2, o3, o4⟩ := rep_open_facts N plE nlE ord ctx fs2 _ r0 hok2 _ hp1 hp2 hpn
    obtain ⟨a1, a2⟩ := rep_avail_facts N plE nlE ord ctx fs2 _ r0 hok2 _ hv1 hv2 hvn
    exact ⟨o1, o2, a1, o3, a2, o4⟩

/-- The start state of `magicsquare_generate` holds no placement, and its cursor is the
first open position. -/
theorem start_inv (mem : magicsquare_mem) (N : Nat) (hN1 : 1 ≤ N) (hN : N * N ≤ 255) :
    ∃ ord, SearchCtx N (magicsquare_start mem N).pl.elems
        (sortednlist_init mem.nlmem (N * N)).elems ord ∧
      ReachInv N (magicsquare_start mem N).pl.elems (sortednlist_init mem.nlmem (N * N)).elems
        ord false (magicsquare_start mem N) := by
  obtain ⟨ord, ctx, hrep, hpos, _⟩ := start_rep mem N hN1 hN
  have hok : FramesOk (N * N) [] := ⟨List.nodup_nil, List.nodup_nil, fun f hf => by simp at hf⟩
  have hK1 : 1 ≤ N * N := Nat.mul_le_mul hN1 hN1
  obtain ⟨hf1, hf2⟩ := Rep_first_pl N _ _ ord ctx [] _ hrep hok
  have hol := openOf_length N _ _ ord ctx [] hok
  have hne : sortednlist_first (magicsquare_start mem N).pl ≠ 0 := by
    intro h0
    rw [hf1.mp h0] at hol
    simp at hol
    omega
  obtain ⟨restp, hopen⟩ := hf2 hne
  exact ⟨ord, ctx, [], hrep, hok, Or.inl ⟨rfl, restp, by rw [hpos]; exact hopen⟩⟩

/-- The inner `while` stays inside the states of `magicsquare_reach`. -/
theorem inner_reach (L : Nat) (fd : Bool) (M : Int) (st0 : magicsquare_state) :
    ∀ (fi : Nat) (st st2 : magicsquare_state), magicsquare_reach L fd M st0 true st →
      magicsquare_generate_inner L fd M fi st = some st2 →
      magicsquare_reach L fd M st0 false st2 := by
  intro fi
  induction fi with
  | zero => intro st st2 _ h; simp [magicsquare_generate_inner] at h
  | succ fi ih =>
    intro st st2 hr h
    by_cases hpass : ((magicsquare_checksums st.sq st.nl st.sm M).1 = true ∧
        magicsquare_checkequiv st.sq L = true)
    · by_cases h0 : sortednlist_first st.pl = 0
      · rw [inner_emit L fd M fi st hpass h0] at h
        rw [← Option.some.inj h]
        exact magicsquare_reach.emitted st hr hpass h0
      · by_cases h1 : (fd = true ∧ (magicsquare_checksums st.sq st.nl st.sm M).2.1 > -1)
        · rw [inner_derive L fd M fi st hpass h0 h1] at h
          exact ih _ st2 (magicsquare_reach.derived st hr hpass h0 h1) h
        · rw [inner_advance L fd M fi st hpass h0 h1] at h
          rw [← Option.some.inj h]
          exact magicsquare_reach.advanced st hr hpass h0 h1
    · rw [inner_fail L fd M fi st hpass] at h
      rw [← Option.some.inj h]
      exact magicsquare_reach.failed st hr hpass

/-- The outer `while (1)` stays inside the states of `magicsquare_reach`: a run that
returns has left the loop from such a state, by a call of `magicsquare_setnext` that
returned 0 with no position removed. -/
theorem loop_reach (L : Nat) (fd : Bool) (M : Int) (st0 : magicsquare_state) :
    ∀ (fo : Nat) (st st2 : magicsquare_state), magicsquare_reach L fd M st0 false st →
      magicsquare_generate_loop L fd M fo st = some st2 →
      ∃ s, magicsquare_reach L fd M st0 false s ∧ (magicsquare_setnext s s.pos).1 = 0 ∧
        sortednlist_nremoved (magicsquare_setnext s s.pos).2.pl = 0 ∧
        st2 = (magicsquare_setnext s s.pos).2 := by
  intro fo
  induction fo with
  | zero => intro st st2 _ h; simp [magicsquare_generate_loop] at h
  | succ fo ih =>
    intro st st2 hr h
    rw [loop_succ] at h
    by_cases hnz : (magicsquare_setnext st st.pos).1 ≠ 0
    · rw [if_pos hnz] at h
      unfold magicsquare_generate_rest at h
      cases hi : magicsquare_generate_inner L fd M fo (magicsquare_setnext st st.pos).2 with
      | none => rw [hi] at h; simp at h
      | some st3 =>
        rw [hi] at h
        exact ih st3 st2
          (inner_reach L fd M st0 fo _ st3 (magicsquare_reach.placed st hr hnz) hi) h
    · rw [if_neg hnz] at h
      have hz : (magicsquare_setnext st st.pos).1 = 0 := by
        by_contra hc; exact hnz hc
      unfold magicsquare_generate_back at h
      by_cases hn : sortednlist_nremoved (magicsquare_setnext st st.pos).2.pl = 0
      · rw [if_pos hn] at h
        exact ⟨st, hr, hz, hn, (Option.some.inj h).symm⟩
      · rw [if_neg hn] at h
        exact ih _ st2 (magicsquare_reach.back st hr hz hn) h

/-- C24: in every state that `magicsquare_generate` goes through, for every `N >= 1` with
`N*N <= 255`, every filter level and either forced-fill setting, the assertions of the
search hold. The state satisfies `magicsquare_invariant`: a position's tag is empty exactly
when its cell is empty and exactly when the position is not removed from the positions
pool; a number is removed from the numbers pool exactly when a cell holds it; both undo
stacks have the same length and the `i`-th removed position holds the `i`-th removed
number; every line's holes is at most the length `len` of the sums. At the top of the
outer loop every assertion met by the call of `magicsquare_setnext` holds (with those of
`magicsquare_removederivednum`), and at the top of the inner loop the assertion of
`magicsquare_checksums` and those of `magicsquare_insertderivednum`. -/
theorem C24_search_assertions (mem : magicsquare_mem) (N L : Nat) (fd : Bool) (hN1 : 1 ≤ N)
    (hN : N * N ≤ 255) (b : Bool) (st : magicsquare_state)
    (hr : magicsquare_reach L fd (magicSum N) (magicsquare_start mem N) b st) :
    magicsquare_invariant N st ∧
    (b = false → magicsquare_setnext_asserts st st.pos ∧ 1 ≤ st.pos ∧ st.pos ≤ N * N) ∧
    (b = true → magicsquare_inner_asserts L fd (magicSum N) st) := by
  obtain ⟨ord, ctx, h0⟩ := start_inv mem N hN1 hN
  have hinv := reach_inv N L fd _ _ ord ctx _ h0 b st hr
  refine ⟨?_, ?_, ?_⟩
  · obtain ⟨fs, hrep, hok, _⟩ := hinv
    exact rep_invariant N _ _ ord ctx fs st hrep hok
  · intro hb
    subst hb
    exact reach_setnext_asserts N _ _ ord ctx st hinv
  · intro hb
    subst hb
    exact reach_inner_asserts N L fd _ _ ord ctx st hinv

theorem C24_search_assertions_witness :
    (1 ≤ 3 ∧ 3 * 3 ≤ 255) ∧
    magicsquare_reach 4 true (magicSum 3) (magicsquare_start mem0 3) true
      (magicsquare_setnext (magicsquare_start mem0 3) (magicsquare_start mem0 3).pos).2 ∧
    magicsquare_invariant 3
      (magicsquare_setnext (magicsquare_start mem0 3) (magicsquare_start mem0 3).pos).2 ∧
    (true = false →
      magicsquare_setnext_asserts
        (magicsquare_setnext (magicsquare_start mem0 3) (magicsquare_start mem0 3).pos).2
        (magicsquare_setnext (magicsquare_start mem0 3) (magicsquare_start mem0 3).pos).2.pos ∧
      1 ≤ (magicsquare_setnext (magicsquare_start mem0 3)
        (magicsquare_start mem0 3).pos).2.pos ∧
      (magicsquare_setnext (magicsquare_start mem0 3) (magicsquare_start mem0 3).pos).2.pos
        ≤ 3 * 3) ∧
    (true = true →
      magicsquare_inner_asserts 4 true (magicSum 3)
        (magicsquare_setnext (magicsquare_start mem0 3) (magicsquare_start mem0 3).pos).2) :=
  ⟨by decide,
    magicsquare_reach.placed _ magicsquare_reach.start (by decide),
    C24_search_assertions mem0 3 4 true (by decide) (by decide) true _
      (magicsquare_reach.placed _ magicsquare_reach.start (by decide))⟩

/-! ## Order 4: the accepted magic squares are the 220 of `order4Squares` -/

theorem all16_apply (f : Nat → Bool) (h : all16 f = true) (v : Nat) (h1 : 1 ≤ v)
    (h16 : v ≤ 16) : f v = true := by
  unfold all16 at h
  simp only [Bool.and_eq_true] at h
  obtain ⟨a1, a2, a3, a4, a5, a6, a7, a8, a9, a10, a11, a12, a13, a14, a15, a16⟩ := h
  interval_cases v <;> assumption

theorem all16_intro (f : Nat → Bool)
    (h1 : f 1 = true) (h2 : f 2 = true) (h3 : f 3 = true) (h4 : f 4 = true) (h5 : f 5 = true) (h6
      : f 6 = true) (h7 : f 7 = true) (h8 : f 8 = true) (h9 : f 9 = true) (h10 : f 10 = true) (h11
      : f 11 = true) (h12 : f 12 = true) (h13 : f 13 = true) (h14 : f 14 = true) (h15 : f 15 =
      true) (h16 : f 16 = true) :
    all16 f = true := by
  unfold all16
  rw [h1, h2, h3, h4, h5, h6, h7, h8, h9, h10, h11, h12, h13, h14, h15, h16]
  rfl

theorem step_next (g r : Bool) (h : (!g || r) = true) (hg : g = true) : r = true := by
  rw [hg] at h
  exact h

theorem band_intro (x y : Bool) (hx : x = true) (hy : y = true) : (x && y) = true := by
  rw [hx, hy]
  rfl

theorem ble_intro (a b : Nat) (h : a ≤ b) : Nat.ble a b = true :=
  Nat.ble_eq_true_of_le h

theorem nbeq_intro (a b : Nat) (h : a ≠ b) : (!Nat.beq a b) = true := by
  cases hb : Nat.beq a b
  · rfl
  · exact absurd (Nat.eq_of_beq_eq_true hb) h

theorem order4Step2_at1_1 : order4Step2 1 1 = true := by
  decide!

theorem order4Step2_at1_2 : order4Step2 1 2 = true := by
  decide!

theorem order4Step2_at1_3 : order4Step2 1 3 = true := by
  decide!

theorem order4Step2_at1_4 : order4Step2 1 4 = true := by
  decide!

theorem order4Step2_at1_5 : order4Step2 1 5 = true := by
  decide!

theorem order4Step2_at1_6 : order4Step2 1 6 = true := by
  decide!

theorem order4Step2_at1_7 : order4Step2 1 7 = true := by
  decide!

theorem order4Step2_at1_8 : order4Step2 1 8 = true := by
  decide!

theorem order4Step2_at1_9 : order4Step2 1 9 = true := by
  decide!

theorem order4Step2_at1_10 : order4Step2 1 10 = true := by
  decide!

theorem order4Step2_at1_11 : order4Step2 1 11 = true := by
  decide!

theorem order4Step2_at1_12 : order4Step2 1 12 = true := by
  decide!

theorem order4Step2_at1_13 : order4Step2 1 13 = true := by
  decide!

theorem order4Step2_at1_14 : order4Step2 1 14 = true := by
  decide!

theorem order4Step2_at1_15 : order4Step2 1 15 = true := by
  decide!

theorem order4Step2_at1_16 : order4Step2 1 16 = true := by
  decide!

theorem order4Step1_at1 : order4Step1 1 = true :=
  all16_intro (order4Step2 1) order4Step2_at1_1 order4Step2_at1_2 order4Step2_at1_3
    order4Step2_at1_4 order4Step2_at1_5 order4Step2_at1_6 order4Step2_at1_7 order4Step2_at1_8
    order4Step2_at1_9 order4Step2_at1_10 order4Step2_at1_11 order4Step2_at1_12 order4Step2_at1_13
    order4Step2_at1_14 order4Step2_at1_15 order4Step2_at1_16

theorem order4Step2_at2_1 : order4Step2 2 1 = true := by
  decide!

theorem order4Step2_at2_2 : order4Step2 2 2 = true := by
  decide!

theorem order4Step2_at2_3 : order4Step2 2 3 = true := by
  decide!

theorem order4Step2_at2_4 : order4Step2 2 4 = true := by
  decide!

theorem order4Step2_at2_5 : order4Step2 2 5 = true := by
  decide!

theorem order4Step2_at2_6 : order4Step2 2 6 = true := by
  decide!

theorem order4Step2_at2_7 : order4Step2 2 7 = true := by
  decide!

theorem order4Step2_at2_8 : order4Step2 2 8 = true := by
  decide!

theorem order4Step2_at2_9 : order4Step2 2 9 = true := by
  decide!

theorem order4Step2_at2_10 : order4Step2 2 10 = true := by
  decide!

theorem order4Step2_at2_11 : order4Step2 2 11 = true := by
  decide!

theorem order4Step2_at2_12 : order4Step2 2 12 = true := by
  decide!

theorem order4Step2_at2_13 : order4Step2 2 13 = true := by
  decide!

theorem order4Step2_at2_14 : order4Step2 2 14 = true := by
  decide!

theorem order4Step2_at2_15 : order4Step2 2 15 = true := by
  decide!

theorem order4Step2_at2_16 : order4Step2 2 16 = true := by
  decide!

theorem order4Step1_at2 : order4Step1 2 = true :=
  all16_intro (order4Step2 2) order4Step2_at2_1 order4Step2_at2_2 order4Step2_at2_3
    order4Step2_at2_4 order4Step2_at2_5 order4Step2_at2_6 order4Step2_at2_7 order4Step2_at2_8
    order4Step2_at2_9 order4Step2_at2_10 order4Step2_at2_11 order4Step2_at2_12 order4Step2_at2_13
    order4Step2_at2_14 order4Step2_at2_15 order4Step2_at2_16

theorem order4Step2_at3_1 : order4Step2 3 1 = true := by
  decide!

theorem order4Step2_at3_2 : order4Step2 3 2 = true := by
  decide!

theorem order4Step2_at3_3 : order4Step2 3 3 = true := by
  decide!

theorem order4Step2_at3_4 : order4Step2 3 4 = true := by
  decide!

theorem order4Step2_at3_5 : order4Step2 3 5 = true := by
  decide!

theorem order4Step2_at3_6 : order4Step2 3 6 = true := by
  decide!

theorem order4Step2_at3_7 : order4Step2 3 7 = true := by
  decide!

theorem order4Step2_at3_8 : order4Step2 3 8 = true := by
  decide!

theorem order4Step2_at3_9 : order4Step2 3 9 = true := by
  decide!

theorem order4Step2_at3_10 : order4Step2 3 10 = true := by
  decide!

theorem order4Step2_at3_11 : order4Step2 3 11 = true := by
  decide!

theorem order4Step2_at3_12 : order4Step2 3 12 = true := by
  decide!

theorem order4Step2_at3_13 : order4Step2 3 13 = true := by
  decide!

theorem order4Step2_at3_14 : order4Step2 3 14 = true := by
  decide!

theorem order4Step2_at3_15 : order4Step2 3 15 = true := by
  decide!

theorem order4Step2_at3_16 : order4Step2 3 16 = true := by
  decide!

theorem order4Step1_at3 : order4Step1 3 = true :=
  all16_intro (order4Step2 3) order4Step2_at3_1 order4Step2_at3_2 order4Step2_at3_3
    order4Step2_at3_4 order4Step2_at3_5 order4Step2_at3_6 order4Step2_at3_7 order4Step2_at3_8
    order4Step2_at3_9 order4Step2_at3_10 order4Step2_at3_11 order4Step2_at3_12 order4Step2_at3_13
    order4Step2_at3_14 order4Step2_at3_15 order4Step2_at3_16

theorem order4Step1_at4 : order4Step1 4 = true := by
  decide!

theorem order4Step1_at5 : order4Step1 5 = true := by
  decide!

theorem order4Step1_at6 : order4Step1 6 = true := by
  decide!

theorem order4Step1_at7 : order4Step1 7 = true := by
  decide!

theorem order4Step1_at8 : order4Step1 8 = true := by
  decide!

theorem order4Step1_at9 : order4Step1 9 = true := by
  decide!

theorem order4Step1_at10 : order4Step1 10 = true := by
  decide!

theorem order4Step1_at11 : order4Step1 11 = true := by
  decide!

theorem order4Step1_at12 : order4Step1 12 = true := by
  decide!

theorem order4Step1_at13 : order4Step1 13 = true := by
  decide!

theorem order4Step1_at14 : order4Step1 14 = true := by
  decide!

theorem order4Step1_at15 : order4Step1 15 = true := by
  decide!

theorem order4Step1_at16 : order4Step1 16 = true := by
  decide!

/-- The search check succeeds: the kernel evaluates it in parts, one for each value of the
top-left corner (and, for the corners 1, 2 and 3, of the cell (1,1)). -/
theorem order4Search_true : order4Search = true :=
  all16_intro order4Step1 order4Step1_at1 order4Step1_at2 order4Step1_at3 order4Step1_at4
    order4Step1_at5 order4Step1_at6 order4Step1_at7 order4Step1_at8 order4Step1_at9
    order4Step1_at10 order4Step1_at11 order4Step1_at12 order4Step1_at13 order4Step1_at14
    order4Step1_at15 order4Step1_at16

theorem order4Step1_next (k0 k5 : Nat)
    (h : order4Step1 k0 = true) (r5 : 1 ≤ k5) (s5 : k5 ≤ 16) :
    order4Step2 k0 k5 = true := by
  unfold order4Step1 at h
  exact all16_apply _ (h) k5 r5 s5

theorem order4Step2_next (k0 k5 k10 : Nat)
    (h : order4Step2 k0 k5 = true) (l0_5 : k0 ≤ k5) (n0_5 : k0 ≠ k5) (r10 : 1 ≤ k10) (s10 : k10 ≤
      16) :
    order4Step3 k0 k5 k10 = true := by
  unfold order4Step2 at h
  exact all16_apply _ (step_next _ _ h (band_intro _ _ (ble_intro _ _ l0_5) (nbeq_intro _ _
    n0_5))) k10 r10 s10

theorem order4Step3_next (k0 k5 k10 k15 : Nat)
    (h : order4Step3 k0 k5 k10 = true) (l5_10 : k5 ≤ k10) (n0_10 : k0 ≠ k10) (n5_10 : k5 ≠ k10) (e
      : Nat.sub (Nat.sub (Nat.sub 34 k0) k5) k10 = k15) :
    order4Step4 k0 k5 k10 k15 = true := by
  subst e
  unfold order4Step3 at h
  exact step_next _ _ h (band_intro _ _ (ble_intro _ _ l5_10) (band_intro _ _ (nbeq_intro _ _
    n0_10) (nbeq_intro _ _ n5_10)))

theorem order4Step4_next (k0 k5 k10 k15 k3 : Nat)
    (h : order4Step4 k0 k5 k10 k15 = true) (r15 : 1 ≤ k15) (s15 : k15 ≤ 16) (l0_15 : k0 ≤ k15)
      (n0_15 : k0 ≠ k15) (n5_15 : k5 ≠ k15) (n10_15 : k10 ≠ k15) (r3 : 1 ≤ k3) (s3 : k3 ≤ 16) :
    order4Step5 k0 k5 k10 k15 k3 = true := by
  unfold order4Step4 at h
  exact all16_apply _ (step_next _ _ h (band_intro _ _ (ble_intro _ _ r15) (band_intro _ _
    (ble_intro _ _ s15) (band_intro _ _ (ble_intro _ _ l0_15) (band_intro _ _ (nbeq_intro _ _
    n0_15) (band_intro _ _ (nbeq_intro _ _ n5_15) (nbeq_intro _ _ n10_15))))))) k3 r3 s3

theorem order4Step5_next (k0 k5 k10 k15 k3 k12 : Nat)
    (h : order4Step5 k0 k5 k10 k15 k3 = true) (l0_3 : k0 ≤ k3) (n0_3 : k0 ≠ k3) (n5_3 : k5 ≠ k3)
      (n10_3 : k10 ≠ k3) (n15_3 : k15 ≠ k3) (e : Nat.sub (Nat.add k5 k10) k3 = k12) :
    order4Step6 k0 k5 k10 k15 k3 k12 = true := by
  subst e
  unfold order4Step5 at h
  exact step_next _ _ h (band_intro _ _ (ble_intro _ _ l0_3) (band_intro _ _ (nbeq_intro _ _ n0_3)
    (band_intro _ _ (nbeq_intro _ _ n5_3) (band_intro _ _ (nbeq_intro _ _ n10_3) (nbeq_intro _ _
    n15_3)))))

theorem order4Step6_next (k0 k5 k10 k15 k3 k12 k6 : Nat)
    (h : order4Step6 k0 k5 k10 k15 k3 k12 = true) (r12 : 1 ≤ k12) (s12 : k12 ≤ 16) (l3_12 : k3 ≤
      k12) (n0_12 : k0 ≠ k12) (n5_12 : k5 ≠ k12) (n10_12 : k10 ≠ k12) (n15_12 : k15 ≠ k12) (n3_12
      : k3 ≠ k12) (r6 : 1 ≤ k6) (s6 : k6 ≤ 16) :
    order4Step7 k0 k5 k10 k15 k3 k12 k6 = true := by
  unfold order4Step6 at h
  exact all16_apply _ (step_next _ _ h (band_intro _ _ (ble_intro _ _ r12) (band_intro _ _
    (ble_intro _ _ s12) (band_intro _ _ (ble_intro _ _ l3_12) (band_intro _ _ (nbeq_intro _ _
    n0_12) (band_intro _ _ (nbeq_intro _ _ n5_12) (band_intro _ _ (nbeq_intro _ _ n10_12)
    (band_intro _ _ (nbeq_intro _ _ n15_12) (nbeq_intro _ _ n3_12))))))))) k6 r6 s6

theorem order4Step7_next (k0 k5 k10 k15 k3 k12 k6 k9 : Nat)
    (h : order4Step7 k0 k5 k10 k15 k3 k12 k6 = true) (l0_6 : k0 ≤ k6) (n0_6 : k0 ≠ k6) (n5_6 : k5
      ≠ k6) (n10_6 : k10 ≠ k6) (n15_6 : k15 ≠ k6) (n3_6 : k3 ≠ k6) (n12_6 : k12 ≠ k6) (e : Nat.sub
      (Nat.sub (Nat.sub 34 k3) k6) k12 = k9) :
    order4Step8 k0 k5 k10 k15 k3 k12 k6 k9 = true := by
  subst e
  unfold order4Step7 at h
  exact step_next _ _ h (band_intro _ _ (ble_intro _ _ l0_6) (band_intro _ _ (nbeq_intro _ _ n0_6)
    (band_intro _ _ (nbeq_intro _ _ n5_6) (band_intro _ _ (nbeq_intro _ _ n10_6) (band_intro _ _
    (nbeq_intro _ _ n15_6) (band_intro _ _ (nbeq_intro _ _ n3_6) (nbeq_intro _ _ n12_6)))))))

theorem order4Step8_next (k0 k5 k10 k15 k3 k12 k6 k9 k1 : Nat)
    (h : order4Step8 k0 k5 k10 k15 k3 k12 k6 k9 = true) (r9 : 1 ≤ k9) (s9 : k9 ≤ 16) (l0_9 : k0 ≤
      k9) (n0_9 : k0 ≠ k9) (n5_9 : k5 ≠ k9) (n10_9 : k10 ≠ k9) (n15_9 : k15 ≠ k9) (n3_9 : k3 ≠ k9)
      (n12_9 : k12 ≠ k9) (n6_9 : k6 ≠ k9) (r1 : 1 ≤ k1) (s1 : k1 ≤ 16) :
    order4Step9 k0 k5 k10 k15 k3 k12 k6 k9 k1 = true := by
  unfold order4Step8 at h
  exact all16_apply _ (step_next _ _ h (band_intro _ _ (ble_intro _ _ r9) (band_intro _ _
    (ble_intro _ _ s9) (band_intro _ _ (ble_intro _ _ l0_9) (band_intro _ _ (nbeq_intro _ _ n0_9)
    (band_intro _ _ (nbeq_intro _ _ n5_9) (band_intro _ _ (nbeq_intro _ _ n10_9) (band_intro _ _
    (nbeq_intro _ _ n15_9) (band_intro _ _ (nbeq_intro _ _ n3_9) (band_intro _ _ (nbeq_intro _ _
    n12_9) (nbeq_intro _ _ n6_9))))))))))) k1 r1 s1

theorem order4Step9_next (k0 k5 k10 k15 k3 k12 k6 k9 k1 k2 : Nat)
    (h : order4Step9 k0 k5 k10 k15 k3 k12 k6 k9 k1 = true) (n0_1 : k0 ≠ k1) (n5_1 : k5 ≠ k1)
      (n10_1 : k10 ≠ k1) (n15_1 : k15 ≠ k1) (n3_1 : k3 ≠ k1) (n12_1 : k12 ≠ k1) (n6_1 : k6 ≠ k1)
      (n9_1 : k9 ≠ k1) (e : Nat.sub (Nat.sub (Nat.sub 34 k0) k1) k3 = k2) :
    order4Step10 k0 k5 k10 k15 k3 k12 k6 k9 k1 k2 = true := by
  subst e
  unfold order4Step9 at h
  exact step_next _ _ h (band_intro _ _ (nbeq_intro _ _ n0_1) (band_intro _ _ (nbeq_intro _ _
    n5_1) (band_intro _ _ (nbeq_intro _ _ n10_1) (band_intro _ _ (nbeq_intro _ _ n15_1)
    (band_intro _ _ (nbeq_intro _ _ n3_1) (band_intro _ _ (nbeq_intro _ _ n12_1) (band_intro _ _
    (nbeq_intro _ _ n6_1) (nbeq_intro _ _ n9_1))))))))

theorem order4Step10_next (k0 k5 k10 k15 k3 k12 k6 k9 k1 k2 k13 : Nat)
    (h : order4Step10 k0 k5 k10 k15 k3 k12 k6 k9 k1 k2 = true) (r2 : 1 ≤ k2) (s2 : k2 ≤ 16) (n0_2
      : k0 ≠ k2) (n5_2 : k5 ≠ k2) (n10_2 : k10 ≠ k2) (n15_2 : k15 ≠ k2) (n3_2 : k3 ≠ k2) (n12_2 :
      k12 ≠ k2) (n6_2 : k6 ≠ k2) (n9_2 : k9 ≠ k2) (n1_2 : k1 ≠ k2) (e : Nat.sub (Nat.sub (Nat.sub
      34 k1) k5) k9 = k13) :
    order4Step11 k0 k5 k10 k15 k3 k12 k6 k9 k1 k2 k13 = true := by
  subst e
  unfold order4Step10 at h
  exact step_next _ _ h (band_intro _ _ (ble_intro _ _ r2) (band_intro _ _ (ble_intro _ _ s2)
    (band_intro _ _ (nbeq_intro _ _ n0_2) (band_intro _ _ (nbeq_intro _ _ n5_2) (band_intro _ _
    (nbeq_intro _ _ n10_2) (band_intro _ _ (nbeq_intro _ _ n15_2) (band_intro _ _ (nbeq_intro _ _
    n3_2) (band_intro _ _ (nbeq_intro _ _ n12_2) (band_intro _ _ (nbeq_intro _ _ n6_2) (band_intro
    _ _ (nbeq_intro _ _ n9_2) (nbeq_intro _ _ n1_2)))))))))))

theorem order4Step11_next (k0 k5 k10 k15 k3 k12 k6 k9 k1 k2 k13 k14 : Nat)
    (h : order4Step11 k0 k5 k10 k15 k3 k12 k6 k9 k1 k2 k13 = true) (r13 : 1 ≤ k13) (s13 : k13 ≤
      16) (n0_13 : k0 ≠ k13) (n5_13 : k5 ≠ k13) (n10_13 : k10 ≠ k13) (n15_13 : k15 ≠ k13) (n3_13 :
      k3 ≠ k13) (n12_13 : k12 ≠ k13) (n6_13 : k6 ≠ k13) (n9_13 : k9 ≠ k13) (n1_13 : k1 ≠ k13)
      (n2_13 : k2 ≠ k13) (e : Nat.sub (Nat.sub (Nat.sub 34 k12) k13) k15 = k14) :
    order4Step12 k0 k5 k10 k15 k3 k12 k6 k9 k1 k2 k13 k14 = true := by
  subst e
  unfold order4Step11 at h
  exact step_next _ _ h (band_intro _ _ (ble_intro _ _ r13) (band_intro _ _ (ble_intro _ _ s13)
    (band_intro _ _ (nbeq_intro _ _ n0_13) (band_intro _ _ (nbeq_intro _ _ n5_13) (band_intro _ _
    (nbeq_intro _ _ n10_13) (band_intro _ _ (nbeq_intro _ _ n15_13) (band_intro _ _ (nbeq_intro _
    _ n3_13) (band_intro _ _ (nbeq_intro _ _ n12_13) (band_intro _ _ (nbeq_intro _ _ n6_13)
    (band_intro _ _ (nbeq_intro _ _ n9_13) (band_intro _ _ (nbeq_intro _ _ n1_13) (nbeq_intro _ _
    n2_13))))))))))))

theorem order4Step12_next (k0 k5 k10 k15 k3 k12 k6 k9 k1 k2 k13 k14 k4 : Nat)
    (h : order4Step12 k0 k5 k10 k15 k3 k12 k6 k9 k1 k2 k13 k14 = true) (r14 : 1 ≤ k14) (s14 : k14
      ≤ 16) (n0_14 : k0 ≠ k14) (n5_14 : k5 ≠ k14) (n10_14 : k10 ≠ k14) (n15_14 : k15 ≠ k14) (n3_14
      : k3 ≠ k14) (n12_14 : k12 ≠ k14) (n6_14 : k6 ≠ k14) (n9_14 : k9 ≠ k14) (n1_14 : k1 ≠ k14)
      (n2_14 : k2 ≠ k14) (n13_14 : k13 ≠ k14) (r4 : 1 ≤ k4) (s4 : k4 ≤ 16) :
    order4Step13 k0 k5 k10 k15 k3 k12 k6 k9 k1 k2 k13 k14 k4 = true := by
  unfold order4Step12 at h
  exact all16_apply _ (step_next _ _ h (band_intro _ _ (ble_intro _ _ r14) (band_intro _ _
    (ble_intro _ _ s14) (band_intro _ _ (nbeq_intro _ _ n0_14) (band_intro _ _ (nbeq_intro _ _
    n5_14) (band_intro _ _ (nbeq_intro _ _ n10_14) (band_intro _ _ (nbeq_intro _ _ n15_14)
    (band_intro _ _ (nbeq_intro _ _ n3_14) (band_intro _ _ (nbeq_intro _ _ n12_14) (band_intro _ _
    (nbeq_intro _ _ n6_14) (band_intro _ _ (nbeq_intro _ _ n9_14) (band_intro _ _ (nbeq_intro _ _
    n1_14) (band_intro _ _ (nbeq_intro _ _ n2_14) (nbeq_intro _ _ n13_14)))))))))))))) k4 r4 s4

theorem order4Step13_next (k0 k5 k10 k15 k3 k12 k6 k9 k1 k2 k13 k14 k4 k8 : Nat)
    (h : order4Step13 k0 k5 k10 k15 k3 k12 k6 k9 k1 k2 k13 k14 k4 = true) (n0_4 : k0 ≠ k4) (n5_4 :
      k5 ≠ k4) (n10_4 : k10 ≠ k4) (n15_4 : k15 ≠ k4) (n3_4 : k3 ≠ k4) (n12_4 : k12 ≠ k4) (n6_4 :
      k6 ≠ k4) (n9_4 : k9 ≠ k4) (n1_4 : k1 ≠ k4) (n2_4 : k2 ≠ k4) (n13_4 : k13 ≠ k4) (n14_4 : k14
      ≠ k4) (e : Nat.sub (Nat.sub (Nat.sub 34 k0) k4) k12 = k8) :
    order4Step14 k0 k5 k10 k15 k3 k12 k6 k9 k1 k2 k13 k14 k4 k8 = true := by
  subst e
  unfold order4Step13 at h
  exact step_next _ _ h (band_intro _ _ (nbeq_intro _ _ n0_4) (band_intro _ _ (nbeq_intro _ _
    n5_4) (band_intro _ _ (nbeq_intro _ _ n10_4) (band_intro _ _ (nbeq_intro _ _ n15_4)
    (band_intro _ _ (nbeq_intro _ _ n3_4) (band_intro _ _ (nbeq_intro _ _ n12_4) (band_intro _ _
    (nbeq_intro _ _ n6_4) (band_intro _ _ (nbeq_intro _ _ n9_4) (band_intro _ _ (nbeq_intro _ _
    n1_4) (band_intro _ _ (nbeq_intro _ _ n2_4) (band_intro _ _ (nbeq_intro _ _ n13_4) (nbeq_intro
    _ _ n14_4))))))))))))

theorem order4Step14_next (k0 k5 k10 k15 k3 k12 k6 k9 k1 k2 k13 k14 k4 k8 k7 : Nat)
    (h : order4Step14 k0 k5 k10 k15 k3 k12 k6 k9 k1 k2 k13 k14 k4 k8 = true) (r8 : 1 ≤ k8) (s8 :
      k8 ≤ 16) (n0_8 : k0 ≠ k8) (n5_8 : k5 ≠ k8) (n10_8 : k10 ≠ k8) (n15_8 : k15 ≠ k8) (n3_8 : k3
      ≠ k8) (n12_8 : k12 ≠ k8) (n6_8 : k6 ≠ k8) (n9_8 : k9 ≠ k8) (n1_8 : k1 ≠ k8) (n2_8 : k2 ≠ k8)
      (n13_8 : k13 ≠ k8) (n14_8 : k14 ≠ k8) (n4_8 : k4 ≠ k8) (e : Nat.sub (Nat.sub (Nat.sub 34 k4)
      k5) k6 = k7) :
    order4Step15 k0 k5 k10 k15 k3 k12 k6 k9 k1 k2 k13 k14 k4 k8 k7 = true := by
  subst e
  unfold order4Step14 at h
  exact step_next _ _ h (band_intro _ _ (ble_intro _ _ r8) (band_intro _ _ (ble_intro _ _ s8)
    (band_intro _ _ (nbeq_intro _ _ n0_8) (band_intro _ _ (nbeq_intro _ _ n5_8) (band_intro _ _
    (nbeq_intro _ _ n10_8) (band_intro _ _ (nbeq_intro _ _ n15_8) (band_intro _ _ (nbeq_intro _ _
    n3_8) (band_intro _ _ (nbeq_intro _ _ n12_8) (band_intro _ _ (nbeq_intro _ _ n6_8) (band_intro
    _ _ (nbeq_intro _ _ n9_8) (band_intro _ _ (nbeq_intro _ _ n1_8) (band_intro _ _ (nbeq_intro _
    _ n2_8) (band_intro _ _ (nbeq_intro _ _ n13_8) (band_intro _ _ (nbeq_intro _ _ n14_8)
    (nbeq_intro _ _ n4_8)))))))))))))))

theorem order4Step15_next (k0 k5 k10 k15 k3 k12 k6 k9 k1 k2 k13 k14 k4 k8 k7 k11 : Nat)
    (h : order4Step15 k0 k5 k10 k15 k3 k12 k6 k9 k1 k2 k13 k14 k4 k8 k7 = true) (r7 : 1 ≤ k7) (s7
      : k7 ≤ 16) (n0_7 : k0 ≠ k7) (n5_7 : k5 ≠ k7) (n10_7 : k10 ≠ k7) (n15_7 : k15 ≠ k7) (n3_7 :
      k3 ≠ k7) (n12_7 : k12 ≠ k7) (n6_7 : k6 ≠ k7) (n9_7 : k9 ≠ k7) (n1_7 : k1 ≠ k7) (n2_7 : k2 ≠
      k7) (n13_7 : k13 ≠ k7) (n14_7 : k14 ≠ k7) (n4_7 : k4 ≠ k7) (n8_7 : k8 ≠ k7) (e : Nat.sub
      (Nat.sub (Nat.sub 34 k8) k9) k10 = k11) :
    order4Step16 k0 k5 k10 k15 k3 k12 k6 k9 k1 k2 k13 k14 k4 k8 k7 k11 = true := by
  subst e
  unfold order4Step15 at h
  exact step_next _ _ h (band_intro _ _ (ble_intro _ _ r7) (band_intro _ _ (ble_intro _ _ s7)
    (band_intro _ _ (nbeq_intro _ _ n0_7) (band_intro _ _ (nbeq_intro _ _ n5_7) (band_intro _ _
    (nbeq_intro _ _ n10_7) (band_intro _ _ (nbeq_intro _ _ n15_7) (band_intro _ _ (nbeq_intro _ _
    n3_7) (band_intro _ _ (nbeq_intro _ _ n12_7) (band_intro _ _ (nbeq_intro _ _ n6_7) (band_intro
    _ _ (nbeq_intro _ _ n9_7) (band_intro _ _ (nbeq_intro _ _ n1_7) (band_intro _ _ (nbeq_intro _
    _ n2_7) (band_intro _ _ (nbeq_intro _ _ n13_7) (band_intro _ _ (nbeq_intro _ _ n14_7)
    (band_intro _ _ (nbeq_intro _ _ n4_7) (nbeq_intro _ _ n8_7))))))))))))))))

theorem order4Step16_next (k0 k5 k10 k15 k3 k12 k6 k9 k1 k2 k13 k14 k4 k8 k7 k11 : Nat)
    (h : order4Step16 k0 k5 k10 k15 k3 k12 k6 k9 k1 k2 k13 k14 k4 k8 k7 k11 = true) (r11 : 1 ≤
      k11) (s11 : k11 ≤ 16) (n0_11 : k0 ≠ k11) (n5_11 : k5 ≠ k11) (n10_11 : k10 ≠ k11) (n15_11 :
      k15 ≠ k11) (n3_11 : k3 ≠ k11) (n12_11 : k12 ≠ k11) (n6_11 : k6 ≠ k11) (n9_11 : k9 ≠ k11)
      (n1_11 : k1 ≠ k11) (n2_11 : k2 ≠ k11) (n13_11 : k13 ≠ k11) (n14_11 : k14 ≠ k11) (n4_11 : k4
      ≠ k11) (n8_11 : k8 ≠ k11) (n7_11 : k7 ≠ k11) :
    [k0, k1, k2, k3, k4, k5, k6, k7, k8, k9, k10, k11, k12, k13, k14, k15] ∈ order4Squares := by
  unfold order4Step16 at h
  exact List.mem_of_elem_eq_true (step_next _ _ h (band_intro _ _ (ble_intro _ _ r11) (band_intro
    _ _ (ble_intro _ _ s11) (band_intro _ _ (nbeq_intro _ _ n0_11) (band_intro _ _ (nbeq_intro _ _
    n5_11) (band_intro _ _ (nbeq_intro _ _ n10_11) (band_intro _ _ (nbeq_intro _ _ n15_11)
    (band_intro _ _ (nbeq_intro _ _ n3_11) (band_intro _ _ (nbeq_intro _ _ n12_11) (band_intro _ _
    (nbeq_intro _ _ n6_11) (band_intro _ _ (nbeq_intro _ _ n9_11) (band_intro _ _ (nbeq_intro _ _
    n1_11) (band_intro _ _ (nbeq_intro _ _ n2_11) (band_intro _ _ (nbeq_intro _ _ n13_11)
    (band_intro _ _ (nbeq_intro _ _ n14_11) (band_intro _ _ (nbeq_intro _ _ n4_11) (band_intro _ _
    (nbeq_intro _ _ n8_11) (nbeq_intro _ _ n7_11))))))))))))))))))

theorem list_of_length_sixteen (g : List Nat) (h : g.length = 16) :
    ∃ k0 k1 k2 k3 k4 k5 k6 k7 k8 k9 k10 k11 k12 k13 k14 k15,
      g = [k0, k1, k2, k3, k4, k5, k6, k7, k8, k9, k10, k11, k12, k13, k14, k15] := by
  match g, h with
  | [k0, k1, k2, k3, k4, k5, k6, k7, k8, k9, k10, k11, k12, k13, k14, k15], _ =>
    exact ⟨k0, k1, k2, k3, k4, k5, k6, k7, k8, k9, k10, k11, k12, k13, k14, k15, rfl⟩

theorem lineCells_four :
    lineCells 4 0 = [0, 1, 2, 3] ∧ lineCells 4 1 = [4, 5, 6, 7] ∧ lineCells 4 2 = [8, 9, 10, 11] ∧
      lineCells 4 3 = [12, 13, 14, 15] ∧ lineCells 4 4 = [0, 4, 8, 12] ∧ lineCells 4 5 = [1, 5, 9,
      13] ∧ lineCells 4 6 = [2, 6, 10, 14] ∧ lineCells 4 7 = [3, 7, 11, 15] ∧ lineCells 4 8 = [0,
      5, 10, 15] ∧ lineCells 4 9 = [3, 6, 9, 12] := by
  decide

/-- The line sums of a square of order 4 give nine of its cells from the seven others. -/
theorem order4_arith (k0 k1 k2 k3 k4 k5 k6 k7 k8 k9 k10 k11 k12 k13 k14 k15 : Nat)
    (s0 : (k0 : Int) + (k1 + (k2 + k3)) = 34) (s1 : (k4 : Int) + (k5 + (k6 + k7)) = 34) (s2 : (k8
      : Int) + (k9 + (k10 + k11)) = 34) (s3 : (k12 : Int) + (k13 + (k14 + k15)) = 34) (s4 : (k0 :
      Int) + (k4 + (k8 + k12)) = 34) (s5 : (k1 : Int) + (k5 + (k9 + k13)) = 34) (s6 : (k2 : Int) +
      (k6 + (k10 + k14)) = 34) (_s7 : (k3 : Int) + (k7 + (k11 + k15)) = 34) (s8 : (k0 : Int) + (k5
      + (k10 + k15)) = 34) (s9 : (k3 : Int) + (k6 + (k9 + k12)) = 34) :
    34 - k0 - k5 - k10 = k15 ∧ k5 + k10 - k3 = k12 ∧ 34 - k3 - k6 - k12 = k9 ∧ 34 - k0 - k1 - k3 =
      k2 ∧ 34 - k1 - k5 - k9 = k13 ∧ 34 - k12 - k13 - k15 = k14 ∧ 34 - k0 - k4 - k12 = k8 ∧ 34 -
      k4 - k5 - k6 = k7 ∧ 34 - k8 - k9 - k10 = k11 := by
  refine ⟨?_, ?_, ?_, ?_, ?_, ?_, ?_, ?_, ?_⟩ <;> omega

/-- The level-4 test of `magicsquare_checkequiv` on a grid of side 4 reads its corners and its
four inner cells. -/
theorem checkequiv_four (g : List Nat) :
    magicsquare_checkequiv (squareOfGrid 4 g) 4 =
      diagTest (g.getD 0 0) (g.getD 3 0) (g.getD 12 0) (g.getD 15 0) (g.getD 5 0) (g.getD 10 0)
        (g.getD 6 0) (g.getD 9 0) := rfl

/-- Every magic square of order 4 that passes the level-4 test is one of `order4Squares`. -/
theorem magic_order4 (g : List Nat) (h : IsMagicSquare 4 g) (ha : Accepted 4 4 g) :
    g ∈ order4Squares := by
  obtain ⟨hp, hs⟩ := h
  have hlen : g.length = 16 := by rw [hp.length_eq]; rfl
  obtain ⟨k0, k1, k2, k3, k4, k5, k6, k7, k8, k9, k10, k11, k12, k13, k14, k15, rfl⟩ :=
    list_of_length_sixteen g hlen
  have hnd : [k0, k1, k2, k3, k4, k5, k6, k7, k8, k9, k10, k11, k12, k13, k14, k15].Nodup :=
    hp.nodup_iff.mpr (List.nodup_range' 1 16)
  have hb : ∀ v, v ∈ [k0, k1, k2, k3, k4, k5, k6, k7, k8, k9, k10, k11, k12, k13, k14, k15] → 1 ≤
    v ∧ v ≤ 16 := by
    intro v hv
    have := hp.mem_iff.mp hv
    rw [List.mem_range'_1] at this
    omega
  have b0 := hb k0 (by simp)
  have b1 := hb k1 (by simp)
  have b2 := hb k2 (by simp)
  have b3 := hb k3 (by simp)
  have b4 := hb k4 (by simp)
  have b5 := hb k5 (by simp)
  have b6 := hb k6 (by simp)
  have b7 := hb k7 (by simp)
  have b8 := hb k8 (by simp)
  have b9 := hb k9 (by simp)
  have b10 := hb k10 (by simp)
  have b11 := hb k11 (by simp)
  have b12 := hb k12 (by simp)
  have b13 := hb k13 (by simp)
  have b14 := hb k14 (by simp)
  have b15 := hb k15 (by simp)
  obtain ⟨r0, s0⟩ := b0
  obtain ⟨r1, s1⟩ := b1
  obtain ⟨r2, s2⟩ := b2
  obtain ⟨r3, s3⟩ := b3
  obtain ⟨r4, s4⟩ := b4
  obtain ⟨r5, s5⟩ := b5
  obtain ⟨r6, s6⟩ := b6
  obtain ⟨r7, s7⟩ := b7
  obtain ⟨r8, s8⟩ := b8
  obtain ⟨r9, s9⟩ := b9
  obtain ⟨r10, s10⟩ := b10
  obtain ⟨r11, s11⟩ := b11
  obtain ⟨r12, s12⟩ := b12
  obtain ⟨r13, s13⟩ := b13
  obtain ⟨r14, s14⟩ := b14
  obtain ⟨r15, s15⟩ := b15
  obtain ⟨c0, c1, c2, c3, c4, c5, c6, c7, c8, c9⟩ := lineCells_four
  have t0 := hs 0 (by decide)
  have t1 := hs 1 (by decide)
  have t2 := hs 2 (by decide)
  have t3 := hs 3 (by decide)
  have t4 := hs 4 (by decide)
  have t5 := hs 5 (by decide)
  have t6 := hs 6 (by decide)
  have t7 := hs 7 (by decide)
  have t8 := hs 8 (by decide)
  have t9 := hs 9 (by decide)
  have hM : magicSum 4 = 34 := rfl
  simp only [gridSum, c0, c1, c2, c3, c4, c5, c6, c7, c8, c9, hM, List.map_cons, List.map_nil,
    List.sum_cons, List.sum_nil, List.getD_cons_zero, List.getD_cons_succ, add_zero]
    at t0 t1 t2 t3 t4 t5 t6 t7 t8 t9
  obtain ⟨e15, e12, e9, e2, e13, e14, e8, e7, e11⟩ :=
    order4_arith k0 k1 k2 k3 k4 k5 k6 k7 k8 k9 k10 k11 k12 k13 k14 k15 t0 t1 t2 t3 t4 t5 t6 t7 t8
      t9
  have hd : diagTest k0 k3 k12 k15 k5 k10 k6 k9 = true := ha
  obtain ⟨l0_3, -, l0_15, l3_12x, l5_10, l0_5, l0_6, l0_9⟩ :=
    (diagTest_iff k0 k3 k12 k15 k5 k10 k6 k9 (by omega) (by omega) (by omega) (by omega)
      (by omega) (by omega) (by omega) (by omega)).mp hd
  have l3_12 : k3 ≤ k12 := Nat.le_of_lt l3_12x
  have ne : ∀ i j : Nat, i < 16 → j < 16 → i ≠ j → [k0, k1, k2, k3, k4, k5, k6, k7, k8, k9, k10,
    k11, k12, k13, k14, k15].getD i 0 ≠ [k0, k1, k2, k3, k4, k5, k6, k7, k8, k9, k10, k11, k12,
    k13, k14, k15].getD j 0 :=
    fun i j hi hj hij => nodup_getD_ne _ hnd i j hi hj hij
  have n0_5 : k0 ≠ k5 := ne 0 5 (by decide) (by decide) (by decide)
  have n0_10 : k0 ≠ k10 := ne 0 10 (by decide) (by decide) (by decide)
  have n5_10 : k5 ≠ k10 := ne 5 10 (by decide) (by decide) (by decide)
  have n0_15 : k0 ≠ k15 := ne 0 15 (by decide) (by decide) (by decide)
  have n5_15 : k5 ≠ k15 := ne 5 15 (by decide) (by decide) (by decide)
  have n10_15 : k10 ≠ k15 := ne 10 15 (by decide) (by decide) (by decide)
  have n0_3 : k0 ≠ k3 := ne 0 3 (by decide) (by decide) (by decide)
  have n5_3 : k5 ≠ k3 := ne 5 3 (by decide) (by decide) (by decide)
  have n10_3 : k10 ≠ k3 := ne 10 3 (by decide) (by decide) (by decide)
  have n15_3 : k15 ≠ k3 := ne 15 3 (by decide) (by decide) (by decide)
  have n0_12 : k0 ≠ k12 := ne 0 12 (by decide) (by decide) (by decide)
  have n5_12 : k5 ≠ k12 := ne 5 12 (by decide) (by decide) (by decide)
  have n10_12 : k10 ≠ k12 := ne 10 12 (by decide) (by decide) (by decide)
  have n15_12 : k15 ≠ k12 := ne 15 12 (by decide) (by decide) (by decide)
  have n3_12 : k3 ≠ k12 := ne 3 12 (by decide) (by decide) (by decide)
  have n0_6 : k0 ≠ k6 := ne 0 6 (by decide) (by decide) (by decide)
  have n5_6 : k5 ≠ k6 := ne 5 6 (by decide) (by decide) (by decide)
  have n10_6 : k10 ≠ k6 := ne 10 6 (by decide) (by decide) (by decide)
  have n15_6 : k15 ≠ k6 := ne 15 6 (by decide) (by decide) (by decide)
  have n3_6 : k3 ≠ k6 := ne 3 6 (by decide) (by decide) (by decide)
  have n12_6 : k12 ≠ k6 := ne 12 6 (by decide) (by decide) (by decide)
  have n0_9 : k0 ≠ k9 := ne 0 9 (by decide) (by decide) (by decide)
  have n5_9 : k5 ≠ k9 := ne 5 9 (by decide) (by decide) (by decide)
  have n10_9 : k10 ≠ k9 := ne 10 9 (by decide) (by decide) (by decide)
  have n15_9 : k15 ≠ k9 := ne 15 9 (by decide) (by decide) (by decide)
  have n3_9 : k3 ≠ k9 := ne 3 9 (by decide) (by decide) (by decide)
  have n12_9 : k12 ≠ k9 := ne 12 9 (by decide) (by decide) (by decide)
  have n6_9 : k6 ≠ k9 := ne 6 9 (by decide) (by decide) (by decide)
  have n0_1 : k0 ≠ k1 := ne 0 1 (by decide) (by decide) (by decide)
  have n5_1 : k5 ≠ k1 := ne 5 1 (by decide) (by decide) (by decide)
  have n10_1 : k10 ≠ k1 := ne 10 1 (by decide) (by decide) (by decide)
  have n15_1 : k15 ≠ k1 := ne 15 1 (by decide) (by decide) (by decide)
  have n3_1 : k3 ≠ k1 := ne 3 1 (by decide) (by decide) (by decide)
  have n12_1 : k12 ≠ k1 := ne 12 1 (by decide) (by decide) (by decide)
  have n6_1 : k6 ≠ k1 := ne 6 1 (by decide) (by decide) (by decide)
  have n9_1 : k9 ≠ k1 := ne 9 1 (by decide) (by decide) (by decide)
  have n0_2 : k0 ≠ k2 := ne 0 2 (by decide) (by decide) (by decide)
  have n5_2 : k5 ≠ k2 := ne 5 2 (by decide) (by decide) (by decide)
  have n10_2 : k10 ≠ k2 := ne 10 2 (by decide) (by decide) (by decide)
  have n15_2 : k15 ≠ k2 := ne 15 2 (by decide) (by decide) (by decide)
  have n3_2 : k3 ≠ k2 := ne 3 2 (by decide) (by decide) (by decide)
  have n12_2 : k12 ≠ k2 := ne 12 2 (by decide) (by decide) (by decide)
  have n6_2 : k6 ≠ k2 := ne 6 2 (by decide) (by decide) (by decide)
  have n9_2 : k9 ≠ k2 := ne 9 2 (by decide) (by decide) (by decide)
  have n1_2 : k1 ≠ k2 := ne 1 2 (by decide) (by decide) (by decide)
  have n0_13 : k0 ≠ k13 := ne 0 13 (by decide) (by decide) (by decide)
  have n5_13 : k5 ≠ k13 := ne 5 13 (by decide) (by decide) (by decide)
  have n10_13 : k10 ≠ k13 := ne 10 13 (by decide) (by decide) (by decide)
  have n15_13 : k15 ≠ k13 := ne 15 13 (by decide) (by decide) (by decide)
  have n3_13 : k3 ≠ k13 := ne 3 13 (by decide) (by decide) (by decide)
  have n12_13 : k12 ≠ k13 := ne 12 13 (by decide) (by decide) (by decide)
  have n6_13 : k6 ≠ k13 := ne 6 13 (by decide) (by decide) (by decide)
  have n9_13 : k9 ≠ k13 := ne 9 13 (by decide) (by decide) (by decide)
  have n1_13 : k1 ≠ k13 := ne 1 13 (by decide) (by decide) (by decide)
  have n2_13 : k2 ≠ k13 := ne 2 13 (by decide) (by decide) (by decide)
  have n0_14 : k0 ≠ k14 := ne 0 14 (by decide) (by decide) (by decide)
  have n5_14 : k5 ≠ k14 := ne 5 14 (by decide) (by decide) (by decide)
  have n10_14 : k10 ≠ k14 := ne 10 14 (by decide) (by decide) (by decide)
  have n15_14 : k15 ≠ k14 := ne 15 14 (by decide) (by decide) (by decide)
  have n3_14 : k3 ≠ k14 := ne 3 14 (by decide) (by decide) (by decide)
  have n12_14 : k12 ≠ k14 := ne 12 14 (by decide) (by decide) (by decide)
  have n6_14 : k6 ≠ k14 := ne 6 14 (by decide) (by decide) (by decide)
  have n9_14 : k9 ≠ k14 := ne 9 14 (by decide) (by decide) (by decide)
  have n1_14 : k1 ≠ k14 := ne 1 14 (by decide) (by decide) (by decide)
  have n2_14 : k2 ≠ k14 := ne 2 14 (by decide) (by decide) (by decide)
  have n13_14 : k13 ≠ k14 := ne 13 14 (by decide) (by decide) (by decide)
  have n0_4 : k0 ≠ k4 := ne 0 4 (by decide) (by decide) (by decide)
  have n5_4 : k5 ≠ k4 := ne 5 4 (by decide) (by decide) (by decide)
  have n10_4 : k10 ≠ k4 := ne 10 4 (by decide) (by decide) (by decide)
  have n15_4 : k15 ≠ k4 := ne 15 4 (by decide) (by decide) (by decide)
  have n3_4 : k3 ≠ k4 := ne 3 4 (by decide) (by decide) (by decide)
  have n12_4 : k12 ≠ k4 := ne 12 4 (by decide) (by decide) (by decide)
  have n6_4 : k6 ≠ k4 := ne 6 4 (by decide) (by decide) (by decide)
  have n9_4 : k9 ≠ k4 := ne 9 4 (by decide) (by decide) (by decide)
  have n1_4 : k1 ≠ k4 := ne 1 4 (by decide) (by decide) (by decide)
  have n2_4 : k2 ≠ k4 := ne 2 4 (by decide) (by decide) (by decide)
  have n13_4 : k13 ≠ k4 := ne 13 4 (by decide) (by decide) (by decide)
  have n14_4 : k14 ≠ k4 := ne 14 4 (by decide) (by decide) (by decide)
  have n0_8 : k0 ≠ k8 := ne 0 8 (by decide) (by decide) (by decide)
  have n5_8 : k5 ≠ k8 := ne 5 8 (by decide) (by decide) (by decide)
  have n10_8 : k10 ≠ k8 := ne 10 8 (by decide) (by decide) (by decide)
  have n15_8 : k15 ≠ k8 := ne 15 8 (by decide) (by decide) (by decide)
  have n3_8 : k3 ≠ k8 := ne 3 8 (by decide) (by decide) (by decide)
  have n12_8 : k12 ≠ k8 := ne 12 8 (by decide) (by decide) (by decide)
  have n6_8 : k6 ≠ k8 := ne 6 8 (by decide) (by decide) (by decide)
  have n9_8 : k9 ≠ k8 := ne 9 8 (by decide) (by decide) (by decide)
  have n1_8 : k1 ≠ k8 := ne 1 8 (by decide) (by decide) (by decide)
  have n2_8 : k2 ≠ k8 := ne 2 8 (by decide) (by decide) (by decide)
  have n13_8 : k13 ≠ k8 := ne 13 8 (by decide) (by decide) (by decide)
  have n14_8 : k14 ≠ k8 := ne 14 8 (by decide) (by decide) (by decide)
  have n4_8 : k4 ≠ k8 := ne 4 8 (by decide) (by decide) (by decide)
  have n0_7 : k0 ≠ k7 := ne 0 7 (by decide) (by decide) (by decide)
  have n5_7 : k5 ≠ k7 := ne 5 7 (by decide) (by decide) (by decide)
  have n10_7 : k10 ≠ k7 := ne 10 7 (by decide) (by decide) (by decide)
  have n15_7 : k15 ≠ k7 := ne 15 7 (by decide) (by decide) (by decide)
  have n3_7 : k3 ≠ k7 := ne 3 7 (by decide) (by decide) (by decide)
  have n12_7 : k12 ≠ k7 := ne 12 7 (by decide) (by decide) (by decide)
  have n6_7 : k6 ≠ k7 := ne 6 7 (by decide) (by decide) (by decide)
  have n9_7 : k9 ≠ k7 := ne 9 7 (by decide) (by decide) (by decide)
  have n1_7 : k1 ≠ k7 := ne 1 7 (by decide) (by decide) (by decide)
  have n2_7 : k2 ≠ k7 := ne 2 7 (by decide) (by decide) (by decide)
  have n13_7 : k13 ≠ k7 := ne 13 7 (by decide) (by decide) (by decide)
  have n14_7 : k14 ≠ k7 := ne 14 7 (by decide) (by decide) (by decide)
  have n4_7 : k4 ≠ k7 := ne 4 7 (by decide) (by decide) (by decide)
  have n8_7 : k8 ≠ k7 := ne 8 7 (by decide) (by decide) (by decide)
  have n0_11 : k0 ≠ k11 := ne 0 11 (by decide) (by decide) (by decide)
  have n5_11 : k5 ≠ k11 := ne 5 11 (by decide) (by decide) (by decide)
  have n10_11 : k10 ≠ k11 := ne 10 11 (by decide) (by decide) (by decide)
  have n15_11 : k15 ≠ k11 := ne 15 11 (by decide) (by decide) (by decide)
  have n3_11 : k3 ≠ k11 := ne 3 11 (by decide) (by decide) (by decide)
  have n12_11 : k12 ≠ k11 := ne 12 11 (by decide) (by decide) (by decide)
  have n6_11 : k6 ≠ k11 := ne 6 11 (by decide) (by decide) (by decide)
  have n9_11 : k9 ≠ k11 := ne 9 11 (by decide) (by decide) (by decide)
  have n1_11 : k1 ≠ k11 := ne 1 11 (by decide) (by decide) (by decide)
  have n2_11 : k2 ≠ k11 := ne 2 11 (by decide) (by decide) (by decide)
  have n13_11 : k13 ≠ k11 := ne 13 11 (by decide) (by decide) (by decide)
  have n14_11 : k14 ≠ k11 := ne 14 11 (by decide) (by decide) (by decide)
  have n4_11 : k4 ≠ k11 := ne 4 11 (by decide) (by decide) (by decide)
  have n8_11 : k8 ≠ k11 := ne 8 11 (by decide) (by decide) (by decide)
  have n7_11 : k7 ≠ k11 := ne 7 11 (by decide) (by decide) (by decide)
  have q1 : order4Step1 k0 = true := all16_apply _ order4Search_true k0 r0 s0
  have q2 := order4Step1_next k0 k5 q1 r5 s5
  have q3 := order4Step2_next k0 k5 k10 q2 l0_5 n0_5 r10 s10
  have q4 := order4Step3_next k0 k5 k10 k15 q3 l5_10 n0_10 n5_10 e15
  have q5 := order4Step4_next k0 k5 k10 k15 k3 q4 r15 s15 l0_15 n0_15 n5_15 n10_15 r3 s3
  have q6 := order4Step5_next k0 k5 k10 k15 k3 k12 q5 l0_3 n0_3 n5_3 n10_3 n15_3 e12
  have q7 := order4Step6_next k0 k5 k10 k15 k3 k12 k6 q6 r12 s12 l3_12 n0_12 n5_12 n10_12 n15_12
    n3_12 r6 s6
  have q8 := order4Step7_next k0 k5 k10 k15 k3 k12 k6 k9 q7 l0_6 n0_6 n5_6 n10_6 n15_6 n3_6 n12_6
    e9
  have q9 := order4Step8_next k0 k5 k10 k15 k3 k12 k6 k9 k1 q8 r9 s9 l0_9 n0_9 n5_9 n10_9 n15_9
    n3_9 n12_9 n6_9 r1 s1
  have q10 := order4Step9_next k0 k5 k10 k15 k3 k12 k6 k9 k1 k2 q9 n0_1 n5_1 n10_1 n15_1 n3_1
    n12_1 n6_1 n9_1 e2
  have q11 := order4Step10_next k0 k5 k10 k15 k3 k12 k6 k9 k1 k2 k13 q10 r2 s2 n0_2 n5_2 n10_2
    n15_2 n3_2 n12_2 n6_2 n9_2 n1_2 e13
  have q12 := order4Step11_next k0 k5 k10 k15 k3 k12 k6 k9 k1 k2 k13 k14 q11 r13 s13 n0_13 n5_13
    n10_13 n15_13 n3_13 n12_13 n6_13 n9_13 n1_13 n2_13 e14
  have q13 := order4Step12_next k0 k5 k10 k15 k3 k12 k6 k9 k1 k2 k13 k14 k4 q12 r14 s14 n0_14
    n5_14 n10_14 n15_14 n3_14 n12_14 n6_14 n9_14 n1_14 n2_14 n13_14 r4 s4
  have q14 := order4Step13_next k0 k5 k10 k15 k3 k12 k6 k9 k1 k2 k13 k14 k4 k8 q13 n0_4 n5_4 n10_4
    n15_4 n3_4 n12_4 n6_4 n9_4 n1_4 n2_4 n13_4 n14_4 e8
  have q15 := order4Step14_next k0 k5 k10 k15 k3 k12 k6 k9 k1 k2 k13 k14 k4 k8 k7 q14 r8 s8 n0_8
    n5_8 n10_8 n15_8 n3_8 n12_8 n6_8 n9_8 n1_8 n2_8 n13_8 n14_8 n4_8 e7
  have q16 := order4Step15_next k0 k5 k10 k15 k3 k12 k6 k9 k1 k2 k13 k14 k4 k8 k7 k11 q15 r7 s7
    n0_7 n5_7 n10_7 n15_7 n3_7 n12_7 n6_7 n9_7 n1_7 n2_7 n13_7 n14_7 n4_7 n8_7 e11
  exact order4Step16_next k0 k5 k10 k15 k3 k12 k6 k9 k1 k2 k13 k14 k4 k8 k7 k11 q16 r11 s11 n0_11
    n5_11 n10_11 n15_11 n3_11 n12_11 n6_11 n9_11 n1_11 n2_11 n13_11 n14_11 n4_11 n8_11 n7_11

theorem order4Squares_length : order4Squares.length = 220 := rfl

/-- A list of numbers in which each entry is below the next one is a chain for `<`. -/
theorem chain_of_zipWith : ∀ l : List Nat,
    (List.zipWith (fun a b => decide (a < b)) l l.tail).all id = true →
      l.Chain' (fun a b => a < b)
  | [], _ => List.chain'_nil
  | [a], _ => List.chain'_singleton a
  | a :: b :: t, h => by
    simp only [List.tail_cons, List.zipWith_cons_cons, List.all_cons, Bool.and_eq_true, id,
      decide_eq_true_eq] at h
    exact List.chain'_cons.mpr ⟨h.1, chain_of_zipWith (b :: t) h.2⟩

/-- The listed squares, read as numbers in base 17, are in increasing order. -/
theorem order4Squares_increasing :
    (List.zipWith (fun a b => decide (a < b))
      (order4Squares.map (fun g => g.foldl (fun n c => 17 * n + c) 0))
      (order4Squares.map (fun g => g.foldl (fun n c => 17 * n + c) 0)).tail).all id = true := by
  decide!

theorem order4Squares_nodup : order4Squares.Nodup :=
  List.Nodup.of_map _ ((List.chain'_iff_pairwise.mp
    (chain_of_zipWith _ order4Squares_increasing)).imp (fun hab => Nat.ne_of_lt hab))

theorem order4Squares_perm : ∀ g ∈ order4Squares, g.Perm (List.range' 1 (4 * 4)) := by
  decide!

theorem order4Squares_sums_rows :
    ∀ g ∈ order4Squares, ∀ l ∈ [0, 1, 2, 3, 8], gridSum g 4 l = magicSum 4 := by
  decide!

theorem order4Squares_sums_cols :
    ∀ g ∈ order4Squares, ∀ l ∈ [4, 5, 6, 7, 9], gridSum g 4 l = magicSum 4 := by
  decide!

theorem order4Squares_accepted : ∀ g ∈ order4Squares, Accepted 4 4 g := by
  unfold Accepted
  decide!

/-- Each of the listed squares is a magic square of order 4 and passes the level-4 test. -/
theorem order4Squares_magic (g : List Nat) (h : g ∈ order4Squares) :
    IsMagicSquare 4 g ∧ Accepted 4 4 g := by
  refine ⟨⟨order4Squares_perm g h, fun l hl => ?_⟩, order4Squares_accepted g h⟩
  have hr := order4Squares_sums_rows g h
  have hc := order4Squares_sums_cols g h
  interval_cases l
  · exact hr 0 (by decide)
  · exact hr 1 (by decide)
  · exact hr 2 (by decide)
  · exact hr 3 (by decide)
  · exact hc 4 (by decide)
  · exact hc 5 (by decide)
  · exact hc 6 (by decide)
  · exact hc 7 (by decide)
  · exact hr 8 (by decide)
  · exact hc 9 (by decide)

/-- The magic squares of order 4 that pass the level-4 test of `magicsquare_checkequiv` are
the 220 squares of `order4Squares`. -/
theorem order4_accepted (g : List Nat) :
    IsMagicSquare 4 g ∧ Accepted 4 4 g ↔ g ∈ order4Squares :=
  ⟨fun h => magic_order4 g h.1 h.2, fun h => order4Squares_magic g h⟩

/-- The runs of `magicsquare_generate` for order 4: at level 4 the squares emitted are those of
`order4Squares`, and at level 0 there are 32 times as many. -/
theorem order4_runs (mem : magicsquare_mem) (fd : Bool) :
    ∃ (fuel0 : Nat) (E0 E4 : List (List Nat)),
      (∀ fuel, fuel0 ≤ fuel →
        magicsquare_generate mem 4 0 fd fuel = some E0 ∧
        magicsquare_generate mem 4 4 fd fuel = some E4) ∧
      E0.length = 7040 ∧ E4.Perm order4Squares := by
  obtain ⟨k0, F0, a1, -, -⟩ := generate_spec mem 4 0 fd (by decide) (by decide)
  obtain ⟨k4, F4, b1, b2, b3⟩ := generate_spec mem 4 4 fd (by decide) (by decide)
  have hp : F4.Perm order4Squares :=
    length_eq_of_same_members F4 _ b2 order4Squares_nodup
      (fun g => by rw [b3 g]; exact order4_accepted g)
  have hr := order4_ratio mem mem fd fd k0 k4 F0 F4 (a1 k0 (le_refl _)) (b1 k4 (le_refl _))
  rw [hp.length_eq, order4Squares_length] at hr
  exact ⟨max k0 k4, F0, F4, fun fuel hf => ⟨a1 fuel (le_trans (le_max_left _ _) hf),
    b1 fuel (le_trans (le_max_right _ _) hf)⟩, hr, hp⟩

/-- C6, counterexample: for N = 4 at filter level 4 (on zeroed arrays, with forced fill),
`magicsquare_generate` returns having emitted 220 squares, not 880. -/
theorem C6_counterexample :
    ∃ (fuel0 : Nat) (E4 : List (List Nat)),
      (∀ fuel, fuel0 ≤ fuel → magicsquare_generate mem0 4 4 true fuel = some E4) ∧
      E4.length = 220 ∧ E4.length ≠ 880 := by
  obtain ⟨fuel0, E0, E4, h, -, hp⟩ := order4_runs mem0 true
  have hl : E4.length = 220 := by rw [hp.length_eq, order4Squares_length]
  exact ⟨fuel0, E4, fun fuel hf => (h fuel hf).2, hl, by omega⟩

/-- C6 (amended): for N = 4, `magicsquare_generate` returns at the filter levels 0 and 4
(either forced-fill setting, whatever the arrays held before), having emitted exactly 7040
squares at filter level 0 and exactly 220 squares at filter level 4 (not 880: the level-4
test of `magicsquare_checkequiv` keeps one square out of 32, not one out of 8). -/
theorem C6_order4_counts (mem : magicsquare_mem) (fd : Bool) :
    ∃ (fuel0 : Nat) (E0 E4 : List (List Nat)),
      (∀ fuel, fuel0 ≤ fuel →
        magicsquare_generate mem 4 0 fd fuel = some E0 ∧
        magicsquare_generate mem 4 4 fd fuel = some E4) ∧
      E0.length = 7040 ∧ E4.length = 220 := by
  obtain ⟨fuel0, E0, E4, h, h0, hp⟩ := order4_runs mem fd
  exact ⟨fuel0, E0, E4, h, h0, by rw [hp.length_eq, order4Squares_length]⟩

end MagicSquare
